import Mathlib

/-!
# LibrePCB board net-segment splitter

A shallow embedding of `BoardNetSegmentSplitter` (file
`libs/librepcb/projecteditor/boardeditor/boardnetsegmentsplitter.cpp`) and proofs about it,
followed by the clipboard snapshot built from a selection
(`boardclipboarddatabuilder.cpp`), its serialisation (`boardclipboarddata.h`,
`boardclipboarddata.cpp`), the command that pastes it (`cmdpasteboarditems.cpp`), the
command that removes board items (`cmdremoveboarditems.cpp`) and the registration of pins
and pads at a component signal instance (`componentsignalinstance.cpp`).

Objects of the board are addressed through pointers in the C++ code.  A pointer is
modelled by a natural number; the dynamic type of an anchor (`dynamic_cast`) by the
constructor of `BI_NetLineAnchor`.  The part of the live board the splitter reads is
collected in the structure `Board`.
-/

namespace LibrePCB

/-- Pointer to a `BI_Via`. -/
abbrev BI_Via := Nat

/-- Pointer to a `BI_NetLine` (a wire). -/
abbrev BI_NetLine := Nat

/-- Pointer to a `GraphicsLayer`. -/
abbrev GraphicsLayer := Nat

/-- Pointer to a `BI_NetLineAnchor` together with its dynamic type: a via, a net point
(junction) or a footprint pad. -/
inductive BI_NetLineAnchor where
  | via (p : BI_Via)
  | netPoint (p : Nat)
  | footprintPad (p : Nat)
  deriving DecidableEq, Repr

/-- The getters of the live board that the splitter calls: the two endpoints and the
layer of a net line, and the net lines registered at an anchor, in the order in which
`foreach` enumerates them. -/
structure Board where
  getStartPoint : BI_NetLine → BI_NetLineAnchor
  getEndPoint : BI_NetLine → BI_NetLineAnchor
  getLayer : BI_NetLine → GraphicsLayer
  getNetLines : BI_NetLineAnchor → List BI_NetLine

/-- Modelled from the spec: `BI_NetLine::getOtherPoint` is defined outside the given
sources.  A wire has exactly two endpoint references and the traversal recurses "into
their other endpoint": the end point for the start point, the start point for the end
point, and the null pointer (`none`) for an anchor that is no endpoint of the line. -/
def getOtherPoint (g : Board) (line : BI_NetLine) (firstPoint : BI_NetLineAnchor) :
    Option BI_NetLineAnchor :=
  if firstPoint = g.getStartPoint line then some (g.getEndPoint line)
  else if firstPoint = g.getEndPoint line then some (g.getStartPoint line)
  else none

/-- The result type `BoardNetSegmentSplitter::Segment`. -/
structure Segment where
  anchors : List BI_NetLineAnchor
  netlines : List BI_NetLine
  deriving DecidableEq, Repr

/-- How a run of the code ends: it returns a value, a `Q_ASSERT` fails (for `Q_ASSERT(p2)`
the null pointer would be dereferenced right after), or the model ran out of fuel. -/
inductive Outcome (α : Type) where
  | ok (value : α)
  | assertFailed
  | outOfFuel
  deriving DecidableEq, Repr

/-- The five lists that `findConnectedLinesAndPoints` takes by reference. -/
structure State where
  processedAnchors : List BI_NetLineAnchor
  anchors : List BI_NetLineAnchor
  netlines : List BI_NetLine
  availableVias : List BI_Via
  availableNetLines : List BI_NetLine
  deriving DecidableEq, Repr

/-- The flag `isRemovedVia` (lines 90-97): the anchor is a via that was not added to the
splitter. -/
def isRemovedVia (mVias : List BI_Via) : BI_NetLineAnchor → Bool
  | .via v => !decide (v ∈ mVias)
  | _ => false

/-- The state after lines 88-100 of `findConnectedLinesAndPoints`: the anchor is appended
to `processedAnchors`, a via of `mVias` is removed from `availableVias` (`removeOne`), and
the anchor is appended to `anchors`. -/
def enterAnchor (mVias : List BI_Via) (anchor : BI_NetLineAnchor) (st : State) : State :=
  { st with
    processedAnchors := st.processedAnchors ++ [anchor]
    availableVias :=
      match anchor with
      | .via v => if v ∈ mVias then st.availableVias.erase v else st.availableVias
      | _ => st.availableVias
    anchors := st.anchors ++ [anchor] }

/-- The condition of the `if` in lines 104-105. -/
def lineAccepted (g : Board) (removedVia : Bool) (layer : Option GraphicsLayer)
    (st : State) (line : BI_NetLine) : Bool :=
  decide (line ∈ st.availableNetLines) && !decide (line ∈ st.netlines) &&
    (!removedVia || layer.isNone || decide (layer = some (g.getLayer line)))

/-- The state after lines 107-108: the line is appended to `netlines` and removed from
`availableNetLines` (`removeOne`). -/
def takeLine (st : State) (line : BI_NetLine) : State :=
  { st with
    netlines := st.netlines ++ [line]
    availableNetLines := st.availableNetLines.erase line }

/-- The `foreach` loop of lines 103-116 over the net lines of `anchor` that are still to
be looked at; `layer` is the local variable of that name and `recurse` the recursive call
of `findConnectedLinesAndPoints`. -/
def visitNetLines (g : Board) (recurse : BI_NetLineAnchor → State → Outcome State)
    (anchor : BI_NetLineAnchor) (removedVia : Bool) :
    List BI_NetLine → Option GraphicsLayer → State → Outcome State
  | [], _, st => .ok st
  | line :: rest, layer, st =>
    if lineAccepted g removedVia layer st line then
      match getOtherPoint g line anchor with
      | none => .assertFailed
      | some p2 =>
        if p2 ∈ (takeLine st line).processedAnchors then
          visitNetLines g recurse anchor removedVia rest (some (g.getLayer line))
            (takeLine st line)
        else
          match recurse p2 (takeLine st line) with
          | .ok st2 =>
            visitNetLines g recurse anchor removedVia rest (some (g.getLayer line)) st2
          | .assertFailed => .assertFailed
          | .outOfFuel => .outOfFuel
    else visitNetLines g recurse anchor removedVia rest layer st

/-- The method `BoardNetSegmentSplitter::findConnectedLinesAndPoints` (lines 82-117).
The recursion depth is bounded by `fuel`; the two assertions at its head are checked. -/
def findConnectedLinesAndPoints (g : Board) (mVias : List BI_Via) :
    Nat → BI_NetLineAnchor → State → Outcome State
  | 0, _, _ => .outOfFuel
  | fuel + 1, anchor, st =>
    if anchor ∈ st.processedAnchors then .assertFailed
    else if anchor ∈ st.anchors then .assertFailed
    else
      visitNetLines g (findConnectedLinesAndPoints g mVias fuel) anchor
        (isRemovedVia mVias anchor) (g.getNetLines anchor) none (enterAnchor mVias anchor st)

/-- The state in which `split` starts the traversal of a new segment (lines 63-67). -/
def startState (vias : List BI_Via) (netlines : List BI_NetLine) : State :=
  ⟨[], [], [], vias, netlines⟩

/-- The segment `split` appends for a via that is left over (lines 73-77). -/
def viaSegment (via : BI_Via) : Segment := ⟨[.via via], []⟩

/-- The `while` loop of `split` (lines 62-69): `segments`, `vias` and the pool `netlines`
are the local variables of `split`; `count` bounds the number of iterations. -/
def splitLoop (g : Board) (mVias : List BI_Via) (fuel : Nat) :
    Nat → List Segment → List BI_Via → List BI_NetLine →
      Outcome (List Segment × List BI_Via)
  | _, segments, vias, [] => .ok (segments, vias)
  | 0, _, _, _ :: _ => .outOfFuel
  | count + 1, segments, vias, first :: pool =>
    match findConnectedLinesAndPoints g mVias fuel (g.getStartPoint first)
        (startState vias (first :: pool)) with
    | .ok st =>
      splitLoop g mVias fuel count (segments ++ [⟨st.anchors, st.netlines⟩])
        st.availableVias st.availableNetLines
    | .assertFailed => .assertFailed
    | .outOfFuel => .outOfFuel

/-- The method `BoardNetSegmentSplitter::split` (lines 55-80) of a splitter to which the
vias `mVias` and the net lines `mNetLines` were added.  `fuel` bounds both the number of
iterations of the `while` loop and the depth of the recursive traversal. -/
def split (g : Board) (mVias : List BI_Via) (mNetLines : List BI_NetLine) (fuel : Nat) :
    Outcome (List Segment) :=
  match splitLoop g mVias fuel fuel [] mVias mNetLines with
  | .ok (segments, vias) => .ok (segments ++ vias.map viaSegment)
  | .assertFailed => .assertFailed
  | .outOfFuel => .outOfFuel

/-! ## Concrete boards -/

/-- The board of scenario 2: via `V = via 0`, junctions `J1 = netPoint 1` and
`J2 = netPoint 2`, wire `W1 = 1` between `V` and `J1` on layer `1` and wire `W2 = 2`
between `V` and `J2` on layer `2`.  `fromVia1` and `fromVia2` tell whether `W1` and `W2`
store the via as their start point. -/
def scenario2 (fromVia1 fromVia2 : Bool) : Board where
  getStartPoint w :=
    if w = 1 then (if fromVia1 then .via 0 else .netPoint 1)
    else (if fromVia2 then .via 0 else .netPoint 2)
  getEndPoint w :=
    if w = 1 then (if fromVia1 then .netPoint 1 else .via 0)
    else (if fromVia2 then .netPoint 2 else .via 0)
  getLayer w := w
  getNetLines a :=
    if a = .via 0 then [1, 2] else if a = .netPoint 1 then [1]
    else if a = .netPoint 2 then [2] else []

/-! ## Notions used in the statements -/

/-- The net line `w` ends at the anchor `a`. -/
abbrev touches (g : Board) (w : BI_NetLine) (a : BI_NetLineAnchor) : Prop :=
  g.getStartPoint w = a ∨ g.getEndPoint w = a

/-- Well-formedness of the anchor/wire graph for the net lines given to the splitter: the
two endpoints of a net line differ, a net line is registered at both of its endpoints, and
a net line registered at an anchor ends at that anchor (so that `getOtherPoint` is not
null for it). -/
structure WellFormed (g : Board) (mNetLines : List BI_NetLine) : Prop where
  distinct : ∀ w ∈ mNetLines, g.getStartPoint w ≠ g.getEndPoint w
  listed : ∀ w ∈ mNetLines,
    w ∈ g.getNetLines (g.getStartPoint w) ∧ w ∈ g.getNetLines (g.getEndPoint w)
  incident : ∀ a, ∀ w ∈ g.getNetLines a, w ∈ mNetLines → touches g w a

/-- The vias of `mVias` among a list of anchors, in order: what the traversal removes
from `availableVias`. -/
def inputVias (mVias : List BI_Via) (as : List BI_NetLineAnchor) : List BI_Via :=
  as.filterMap fun a =>
    match a with
    | .via v => if v ∈ mVias then some v else none
    | _ => none

/-- Two anchors are joined by one of the net lines `ws`. -/
def Adjacent (g : Board) (ws : List BI_NetLine) (a b : BI_NetLineAnchor) : Prop :=
  ∃ w ∈ ws, (g.getStartPoint w = a ∧ g.getEndPoint w = b) ∨
    (g.getStartPoint w = b ∧ g.getEndPoint w = a)

/-- There is a path from `a` to `b` that uses only net lines of `ws`. -/
def Joined (g : Board) (ws : List BI_NetLine) (a b : BI_NetLineAnchor) : Prop :=
  Relation.ReflTransGen (Adjacent g ws) a b

/-- A via of the input is isolated when no input net line ends at it. -/
def isolatedVia (g : Board) (mNetLines : List BI_NetLine) (v : BI_Via) : Bool :=
  mNetLines.all fun w => !decide (touches g w (.via v))

/-! ## Derivations of terminating runs -/

/-- What a run executes: the body of `findConnectedLinesAndPoints` for an anchor, or the
remaining iterations of its `foreach` loop. -/
inductive Config where
  | visit (anchor : BI_NetLineAnchor)
  | lines (anchor : BI_NetLineAnchor) (removedVia : Bool) (rest : List BI_NetLine)
      (layer : Option GraphicsLayer)

/-- The relation `Run g mVias c st st'`: executing `c` in state `st` returns normally in
state `st'`.  Every `.ok` result of `findConnectedLinesAndPoints` has such a derivation
(`run_of_findConnectedLinesAndPoints`). -/
inductive Run (g : Board) (mVias : List BI_Via) : Config → State → State → Prop
  | visit {anchor : BI_NetLineAnchor} {st st' : State} :
      anchor ∉ st.processedAnchors → anchor ∉ st.anchors →
      Run g mVias (.lines anchor (isRemovedVia mVias anchor) (g.getNetLines anchor) none)
        (enterAnchor mVias anchor st) st' →
      Run g mVias (.visit anchor) st st'
  | done {anchor : BI_NetLineAnchor} {r : Bool} {layer : Option GraphicsLayer} {st : State} :
      Run g mVias (.lines anchor r [] layer) st st
  | skip {anchor : BI_NetLineAnchor} {r : Bool} {line : BI_NetLine} {rest : List BI_NetLine}
      {layer : Option GraphicsLayer} {st st' : State} :
      lineAccepted g r layer st line = false →
      Run g mVias (.lines anchor r rest layer) st st' →
      Run g mVias (.lines anchor r (line :: rest) layer) st st'
  | seen {anchor p2 : BI_NetLineAnchor} {r : Bool} {line : BI_NetLine}
      {rest : List BI_NetLine} {layer : Option GraphicsLayer} {st st' : State} :
      lineAccepted g r layer st line = true →
      getOtherPoint g line anchor = some p2 →
      p2 ∈ st.processedAnchors →
      Run g mVias (.lines anchor r rest (some (g.getLayer line))) (takeLine st line) st' →
      Run g mVias (.lines anchor r (line :: rest) layer) st st'
  | recurse {anchor p2 : BI_NetLineAnchor} {r : Bool} {line : BI_NetLine}
      {rest : List BI_NetLine} {layer : Option GraphicsLayer} {st st2 st' : State} :
      lineAccepted g r layer st line = true →
      getOtherPoint g line anchor = some p2 →
      p2 ∉ st.processedAnchors →
      Run g mVias (.visit p2) (takeLine st line) st2 →
      Run g mVias (.lines anchor r rest (some (g.getLayer line))) st2 st' →
      Run g mVias (.lines anchor r (line :: rest) layer) st st'

/-- Both endpoints of every net line of `ws` are among the anchors `as`. -/
def EndsIn (g : Board) (ws : List BI_NetLine) (as : List BI_NetLineAnchor) : Prop :=
  ∀ w ∈ ws, g.getStartPoint w ∈ as ∧ g.getEndPoint w ∈ as

/-- What holds of the endpoints of the collected net lines when a run starts: before an
anchor is entered the line that led to it may end at it; inside the loop the current
anchor has been entered. -/
def EndsPre (g : Board) : Config → State → Prop
  | .visit a, st => EndsIn g st.netlines (st.anchors ++ [a])
  | .lines a _ _ _, st => EndsIn g st.netlines st.anchors ∧ a ∈ st.anchors

/-- All collected anchors are joined to `root` by collected net lines. -/
def AllJoined (g : Board) (root : BI_NetLineAnchor) (st : State) : Prop :=
  ∀ b ∈ st.anchors, Joined g st.netlines root b

/-- What holds of the anchor of a configuration when a run starts: an anchor to be entered
is joined to the root, the anchor of the loop has been entered. -/
def JoinedPre (g : Board) (root : BI_NetLineAnchor) : Config → State → Prop
  | .visit a, st => Joined g st.netlines root a
  | .lines a _ _ _, st => a ∈ st.anchors

/-- What holds of the anchor of a configuration when a run starts: an anchor to be entered
ends a net line of `pool`. -/
def TouchPre (g : Board) (pool : List BI_NetLine) : Config → Prop
  | .visit a => ∃ w ∈ pool, touches g w a
  | .lines _ _ _ _ => True

/-- What the loop has achieved for the net lines it has looked at: at an anchor that is
not a removed via none of them is left in the pool. -/
def LoopClosed : Config → State → Prop
  | .visit _, _ => True
  | .lines _ r lines _, st => r = false → ∀ w ∈ lines, w ∉ st.availableNetLines

/-- Every net line of `pool` is still available or has been collected. -/
def Cover (pool : List BI_NetLine) (st : State) : Prop :=
  ∀ w ∈ pool, w ∈ st.availableNetLines ∨ w ∈ st.netlines

/-- What the loop has achieved for the net lines it has looked at: at an anchor that is
not a removed via those of `pool` have been collected. -/
def LoopGathered (pool : List BI_NetLine) : Config → State → Prop
  | .visit _, _ => True
  | .lines _ r lines _, st => r = false → ∀ w ∈ lines, w ∈ pool → w ∈ st.netlines

/-- What holds of every segment the `while` loop of `split` appends. -/
structure SegOK (g : Board) (mNetLines : List BI_NetLine) (s : Segment) : Prop where
  nodup : s.anchors.Nodup
  nonempty : s.netlines ≠ []
  ends : EndsIn g s.netlines s.anchors
  joined : ∀ a ∈ s.anchors, ∀ b ∈ s.anchors, Joined g s.netlines a b
  touch : ∀ b ∈ s.anchors, ∃ w ∈ mNetLines, touches g w b

/-- Two segments have no anchor in common other than removed vias. -/
def Apart (mVias : List BI_Via) (s t : Segment) : Prop :=
  ∀ a ∈ s.anchors, a ∈ t.anchors → isRemovedVia mVias a = true

/-- The invariant of the `while` loop of `split`, for the segments appended so far, the
vias still available and the pool of net lines not yet assigned. -/
structure LoopInv (g : Board) (mVias : List BI_Via) (mNetLines : List BI_NetLine)
    (segs : List Segment) (vias : List BI_Via) (pool : List BI_NetLine) : Prop where
  perm : (segs.flatMap Segment.netlines ++ pool).Perm mNetLines
  vias_eq : vias = mVias.diff (inputVias mVias (segs.flatMap Segment.anchors))
  segOK : ∀ s ∈ segs, SegOK g mNetLines s
  closed : mNetLines.Nodup → ∀ s ∈ segs, ∀ b ∈ s.anchors, isRemovedVia mVias b = false →
    ∀ w ∈ pool, ¬ touches g w b
  apart : mNetLines.Nodup → segs.Pairwise (Apart mVias)
  fresh : ∀ a, isRemovedVia mVias a = false → (∀ s ∈ segs, a ∉ s.anchors) →
    ∀ w ∈ mNetLines, touches g w a → w ∈ pool
  gathered : ∀ a, isRemovedVia mVias a = false → (∃ s ∈ segs, a ∈ s.anchors) →
    ∃ s ∈ segs, ∀ w ∈ mNetLines, touches g w a → w ∈ s.netlines

/-! ## The clipboard snapshot (`BoardClipboardData`) and its builder -/

/-- A `Uuid` value. -/
abbrev Uuid := Nat

/-- Modelled from the spec: the class `Point` is defined outside the given sources; a
position is a pair of lengths, which are integers (nanometres). -/
structure Point where
  x : Int
  y : Int
  deriving DecidableEq, Repr

/-- Modelled from the spec: `Point::operator+` adds component-wise ("position + offset"). -/
instance : Add Point := ⟨fun p q => ⟨p.x + q.x, p.y + q.y⟩⟩

/-- A `PositiveLength`: a length (an integer) that is greater than zero. -/
abbrev PositiveLength := { n : Int // 0 < n }

/-- An `UnsignedLength`: a length (an integer) that is not negative. -/
abbrev UnsignedLength := { n : Int // 0 ≤ n }

/-- The enumeration `BI_Via::Shape`. -/
inductive Shape where
  | round
  | square
  | octagon
  deriving DecidableEq, Repr

/-- A `CircuitIdentifier` (the name of a net signal). -/
abbrev CircuitIdentifier := String

/-- Pointer to a `BI_NetSegment`. -/
abbrev BI_NetSegment := Nat

/-- The struct `BoardClipboardData::Via`. -/
structure BoardClipboardData.Via where
  uuid : Uuid
  position : Point
  shape : Shape
  size : PositiveLength
  drillDiameter : PositiveLength
  deriving DecidableEq

/-- The struct `BoardClipboardData::NetPoint` (tag `junction`). -/
structure BoardClipboardData.NetPoint where
  uuid : Uuid
  position : Point
  deriving DecidableEq, Repr

/-- The struct `BoardClipboardData::NetLine` (tag `trace`) with its four optional
endpoint references. -/
structure BoardClipboardData.NetLine where
  uuid : Uuid
  startJunction : Option Uuid
  startVia : Option Uuid
  endJunction : Option Uuid
  endVia : Option Uuid
  layer : String
  width : PositiveLength
  deriving DecidableEq

/-- The struct `BoardClipboardData::NetSegment`: one sub-network of the snapshot. -/
structure BoardClipboardData.NetSegment where
  netName : CircuitIdentifier
  vias : List BoardClipboardData.Via
  points : List BoardClipboardData.NetPoint
  lines : List BoardClipboardData.NetLine
  deriving DecidableEq

/-- Modelled from the spec: a `Path` (class outside the given sources) is kept as the
list of its vertex positions; `translated` moves every vertex by the offset. -/
abbrev Path := List Point

/-- The struct `BoardClipboardData::Plane`; the connect style is kept as a number. -/
structure BoardClipboardData.Plane where
  uuid : Uuid
  layer : String
  netSignalName : String
  outline : Path
  minWidth : UnsignedLength
  minClearance : UnsignedLength
  keepOrphans : Bool
  priority : Int
  connectStyle : Nat
  deriving DecidableEq

/-- Modelled from the spec: a `Polygon` (class outside the given sources) with the parts
that copy and paste touch: its identity and its path; `props` stands for the rest. -/
structure Polygon where
  uuid : Uuid
  path : Path
  props : Nat
  deriving DecidableEq

/-- Modelled from the spec: a `StrokeText` (class outside the given sources) with its
identity and position; `props` stands for the rest. -/
structure StrokeText where
  uuid : Uuid
  position : Point
  props : Nat
  deriving DecidableEq

/-- Modelled from the spec: a `Hole` (class outside the given sources) with its identity
and position; `props` stands for the rest. -/
structure Hole where
  uuid : Uuid
  position : Point
  props : Nat
  deriving DecidableEq

/-- The class `BoardClipboardData`: the snapshot. -/
structure BoardClipboardData where
  boardUuid : Uuid
  cursorPos : Point
  netSegments : List BoardClipboardData.NetSegment
  planes : List BoardClipboardData.Plane
  polygons : List Polygon
  strokeTexts : List StrokeText
  holes : List Hole
  deriving DecidableEq

/-- The getters of the live board that `BoardClipboardDataBuilder::generate` reads, on
top of those of the splitter (`graph`). -/
structure LiveBoard where
  graph : Board
  getUuid : Uuid
  getNetSegments : List BI_NetSegment
  viaNetSegment : BI_Via → BI_NetSegment
  netLineNetSegment : BI_NetLine → BI_NetSegment
  netSignalName : BI_NetSegment → CircuitIdentifier
  viaUuid : BI_Via → Uuid
  viaPosition : BI_Via → Point
  viaShape : BI_Via → Shape
  viaSize : BI_Via → PositiveLength
  viaDrillDiameter : BI_Via → PositiveLength
  netPointUuid : Nat → Uuid
  netPointPosition : Nat → Point
  padPosition : Nat → Point
  netLineUuid : BI_NetLine → Uuid
  layerName : GraphicsLayer → String
  netLineWidth : BI_NetLine → PositiveLength

/-- The result of the `BoardSelectionQuery` of `generate` (lines 73-79): the selected vias
and net lines in the order of enumeration, and the values of the selected planes,
polygons, stroke texts and holes. -/
structure BoardSelectionQuery where
  getVias : List BI_Via
  getNetLines : List BI_NetLine
  getPlanes : List BoardClipboardData.Plane
  getPolygons : List Polygon
  getStrokeTexts : List StrokeText
  getHoles : List Hole

/-- Sequencing of two steps that may fail. -/
def Outcome.bind {α β : Type} (x : Outcome α) (f : α → Outcome β) : Outcome β :=
  match x with
  | .ok a => f a
  | .assertFailed => .assertFailed
  | .outOfFuel => .outOfFuel

/-- The locals of the loop over `seg.anchors` in `generate` (lines 101-130): the vias and
junctions of the new sub-network, the hash `replacedNetPoints`, and the number of calls of
`Uuid::createRandom` made so far. -/
structure AnchorCopies where
  vias : List BoardClipboardData.Via
  points : List BoardClipboardData.NetPoint
  replacedNetPoints : List (BI_NetLineAnchor × BoardClipboardData.NetPoint)
  random : Nat

/-- The copy of a selected via (lines 110-112). -/
def copyVia (b : LiveBoard) (via : BI_Via) : BoardClipboardData.Via :=
  ⟨b.viaUuid via, b.viaPosition via, b.viaShape via, b.viaSize via, b.viaDrillDiameter via⟩

/-- One iteration of the loop over `seg.anchors` (lines 103-130).  `createRandom k` is
the value of the `k`-th call of `Uuid::createRandom`. -/
def copyAnchor (b : LiveBoard) (query : BoardSelectionQuery) (createRandom : Nat → Uuid)
    (st : AnchorCopies) (anchor : BI_NetLineAnchor) : AnchorCopies :=
  match anchor with
  | .netPoint np =>
    { st with points := st.points ++ [⟨b.netPointUuid np, b.netPointPosition np⟩] }
  | .via via =>
    if via ∈ query.getVias then { st with vias := st.vias ++ [copyVia b via] }
    else
      { st with
        replacedNetPoints :=
          (anchor, ⟨createRandom st.random, b.viaPosition via⟩) :: st.replacedNetPoints
        points := st.points ++ [⟨createRandom st.random, b.viaPosition via⟩]
        random := st.random + 1 }
  | .footprintPad pad =>
    { st with
      replacedNetPoints :=
        (anchor, ⟨createRandom st.random, b.padPosition pad⟩) :: st.replacedNetPoints
      points := st.points ++ [⟨createRandom st.random, b.padPosition pad⟩]
      random := st.random + 1 }

/-- The endpoint reference of a copied net line (lines 136-155 and 156-175) as the pair
(junction reference, via reference); a pad without replacement hits `Q_ASSERT(false)`. -/
def anchorReference (b : LiveBoard)
    (replacedNetPoints : List (BI_NetLineAnchor × BoardClipboardData.NetPoint))
    (anchor : BI_NetLineAnchor) : Outcome (Option Uuid × Option Uuid) :=
  match anchor with
  | .netPoint np => .ok (some (b.netPointUuid np), none)
  | .via via =>
    match replacedNetPoints.lookup anchor with
    | some np => .ok (some np.uuid, none)
    | none => .ok (none, some (b.viaUuid via))
  | .footprintPad _ =>
    match replacedNetPoints.lookup anchor with
    | some np => .ok (some np.uuid, none)
    | none => .assertFailed

/-- The copy of one net line of a segment (lines 132-176). -/
def copyNetLine (b : LiveBoard)
    (replacedNetPoints : List (BI_NetLineAnchor × BoardClipboardData.NetPoint))
    (netline : BI_NetLine) : Outcome BoardClipboardData.NetLine :=
  (anchorReference b replacedNetPoints (b.graph.getStartPoint netline)).bind fun start =>
  (anchorReference b replacedNetPoints (b.graph.getEndPoint netline)).bind fun stop =>
  .ok ⟨b.netLineUuid netline, start.1, start.2, stop.1, stop.2,
    b.layerName (b.graph.getLayer netline), b.netLineWidth netline⟩

/-- The loop over `seg.netlines` (lines 131-177). -/
def copyNetLines (b : LiveBoard)
    (replacedNetPoints : List (BI_NetLineAnchor × BoardClipboardData.NetPoint)) :
    List BI_NetLine → Outcome (List BoardClipboardData.NetLine)
  | [] => .ok []
  | netline :: rest =>
    (copyNetLine b replacedNetPoints netline).bind fun copy =>
    (copyNetLines b replacedNetPoints rest).bind fun copies => .ok (copy :: copies)

/-- The body of the loop over the segments of the splitter (lines 96-177): the new
sub-network for one segment, and the number of random identities drawn afterwards. -/
def copySegment (b : LiveBoard) (query : BoardSelectionQuery) (createRandom : Nat → Uuid)
    (netsegment : BI_NetSegment) (seg : Segment) (random : Nat) :
    Outcome (BoardClipboardData.NetSegment × Nat) :=
  let copies := seg.anchors.foldl (copyAnchor b query createRandom) ⟨[], [], [], random⟩
  (copyNetLines b copies.replacedNetPoints seg.netlines).bind fun lines =>
  .ok (⟨b.netSignalName netsegment, copies.vias, copies.points, lines⟩, copies.random)

/-- The loop over the segments returned by `split` (line 95). -/
def copySegments (b : LiveBoard) (query : BoardSelectionQuery) (createRandom : Nat → Uuid)
    (netsegment : BI_NetSegment) :
    List Segment → Nat → Outcome (List BoardClipboardData.NetSegment × Nat)
  | [], random => .ok ([], random)
  | seg :: rest, random =>
    (copySegment b query createRandom netsegment seg random).bind fun r =>
    (copySegments b query createRandom netsegment rest r.2).bind fun rs =>
    .ok (r.1 :: rs.1, rs.2)

/-- The vias that `generate` adds to the splitter of a net segment (lines 84-88). -/
def viasOf (b : LiveBoard) (query : BoardSelectionQuery) (netsegment : BI_NetSegment) :
    List BI_Via :=
  query.getVias.filter fun via => b.viaNetSegment via = netsegment

/-- The net lines that `generate` adds to the splitter of a net segment (lines 89-93). -/
def netLinesOf (b : LiveBoard) (query : BoardSelectionQuery) (netsegment : BI_NetSegment) :
    List BI_NetLine :=
  query.getNetLines.filter fun netline => b.netLineNetSegment netline = netsegment

/-- The loop over the net segments of the board (lines 82-179). -/
def copyNetSegments (b : LiveBoard) (query : BoardSelectionQuery) (createRandom : Nat → Uuid)
    (fuel : Nat) :
    List BI_NetSegment → Nat → Outcome (List BoardClipboardData.NetSegment × Nat)
  | [], random => .ok ([], random)
  | netsegment :: rest, random =>
    (split b.graph (viasOf b query netsegment) (netLinesOf b query netsegment) fuel).bind
      fun segs =>
    (copySegments b query createRandom netsegment segs random).bind fun r =>
    (copyNetSegments b query createRandom fuel rest r.2).bind fun rs =>
    .ok (r.1 ++ rs.1, rs.2)

/-- The method `BoardClipboardDataBuilder::generate` (lines 67-211).  `fuel` is the fuel
of every call of `split`. -/
def generate (b : LiveBoard) (query : BoardSelectionQuery) (createRandom : Nat → Uuid)
    (cursorPos : Point) (fuel : Nat) : Outcome BoardClipboardData :=
  (copyNetSegments b query createRandom fuel b.getNetSegments 0).bind fun r =>
  .ok ⟨b.getUuid, cursorPos, r.1, query.getPlanes, query.getPolygons, query.getStrokeTexts,
    query.getHoles⟩

/-- The live board of scenario 2 (see `scenario2`): one net segment `0` with net name
`"N1"`, the via at `(0, 0)`, junction `J1` at `(10, 0)` and `J2` at `(0, 10)`; vias have
the identities `4 * v`, junctions `4 * p + 2` and wires `4 * w + 1`. -/
def scenario2Board (fromVia1 fromVia2 : Bool) : LiveBoard where
  graph := scenario2 fromVia1 fromVia2
  getUuid := 1
  getNetSegments := [0]
  viaNetSegment _ := 0
  netLineNetSegment _ := 0
  netSignalName _ := "N1"
  viaUuid v := 4 * v
  viaPosition _ := ⟨0, 0⟩
  viaShape _ := .round
  viaSize _ := ⟨700000, by decide⟩
  viaDrillDiameter _ := ⟨300000, by decide⟩
  netPointUuid p := 4 * p + 2
  netPointPosition p := if p = 1 then ⟨10, 0⟩ else ⟨0, 10⟩
  padPosition _ := ⟨0, 0⟩
  netLineUuid w := 4 * w + 1
  layerName l := if l = 1 then "top_cu" else "bot_cu"
  netLineWidth _ := ⟨200000, by decide⟩

/-! ## Notions used in the statements about the builder -/

/-- The anchor is not copied by `generate` but replaced by a junction: a pad, or a via
that is not selected. -/
def needsReplacement (query : BoardSelectionQuery) : BI_NetLineAnchor → Bool
  | .netPoint _ => false
  | .via via => !decide (via ∈ query.getVias)
  | .footprintPad _ => true

/-- The anchor is a selected via. -/
def selectedVia (query : BoardSelectionQuery) : BI_NetLineAnchor → Option BI_Via
  | .via via => if via ∈ query.getVias then some via else none
  | _ => none

/-- The position of an anchor of the live board. -/
def anchorPosition (b : LiveBoard) : BI_NetLineAnchor → Point
  | .netPoint np => b.netPointPosition np
  | .via via => b.viaPosition via
  | .footprintPad pad => b.padPosition pad

/-- An endpoint reference, given as the pair (junction reference, via reference), names
exactly one anchor and that anchor is stored in the sub-network: the junction reference
is the identity of one of its junctions, or the via reference that of one of its vias. -/
def refResolves (seg : BoardClipboardData.NetSegment) (junction via : Option Uuid) : Bool :=
  match junction, via with
  | some u, none => seg.points.any fun p => p.uuid = u
  | none, some u => seg.vias.any fun v => v.uuid = u
  | _, _ => false

/-- Every net line of the sub-network refers to anchors of the sub-network. -/
def selfContained (seg : BoardClipboardData.NetSegment) : Bool :=
  seg.lines.all fun nl =>
    refResolves seg nl.startJunction nl.startVia && refResolves seg nl.endJunction nl.endVia

/-- The invariant of the loop over `seg.anchors` in `generate`, for the anchors `done`
already looked at; `start` is the number of random identities drawn before the loop. -/
structure CopyInv (b : LiveBoard) (query : BoardSelectionQuery) (createRandom : Nat → Uuid)
    (start : Nat) (done : List BI_NetLineAnchor) (st : AnchorCopies) : Prop where
  points_netPoint : ∀ p, BI_NetLineAnchor.netPoint p ∈ done →
    ⟨b.netPointUuid p, b.netPointPosition p⟩ ∈ st.points
  vias_eq : st.vias = (done.filterMap (selectedVia query)).map (copyVia b)
  replaced : ∀ a ∈ done, needsReplacement query a = true →
    ∃ k, start ≤ k ∧ k < st.random ∧
      st.replacedNetPoints.lookup a = some ⟨createRandom k, anchorPosition b a⟩ ∧
      ⟨createRandom k, anchorPosition b a⟩ ∈ st.points
  lookup_none : ∀ a, (a ∉ done ∨ needsReplacement query a = false) →
    st.replacedNetPoints.lookup a = none
  random_le : start ≤ st.random
  length_eq : st.points.length + st.vias.length = done.length

/-- The sub-network `sub` is what the loop body of `generate` builds for the segment
`seg` of the net segment `netsegment`, for some number of random identities drawn
before. -/
def CopiedFrom (b : LiveBoard) (query : BoardSelectionQuery) (createRandom : Nat → Uuid)
    (netsegment : BI_NetSegment) (seg : Segment) (sub : BoardClipboardData.NetSegment) :
    Prop :=
  ∃ random next, copySegment b query createRandom netsegment seg random = .ok (sub, next)

/-- The segments into which `generate` splits a net segment of the board (none when
`split` does not return). -/
def splitSegments (b : LiveBoard) (query : BoardSelectionQuery) (fuel : Nat)
    (netsegment : BI_NetSegment) : List Segment :=
  match split b.graph (viasOf b query netsegment) (netLinesOf b query netsegment) fuel with
  | .ok segs => segs
  | _ => []

/-- Consistency of the live board and the selection, as the board maintains it: the graph
is well-formed for the selected net lines of every net segment, the net segments of the
board are listed once, every selected via and net line belongs to a net segment of the
board, a via belongs to the net segment of the net lines that end at it, and the
selection lists nothing twice. -/
structure Consistent (b : LiveBoard) (query : BoardSelectionQuery) : Prop where
  wellFormed : ∀ ns ∈ b.getNetSegments, WellFormed b.graph (netLinesOf b query ns)
  netSegments_nodup : b.getNetSegments.Nodup
  via_mem : ∀ v ∈ query.getVias, b.viaNetSegment v ∈ b.getNetSegments
  netLine_mem : ∀ w ∈ query.getNetLines, b.netLineNetSegment w ∈ b.getNetSegments
  via_netLine : ∀ w ∈ query.getNetLines, ∀ v,
    touches b.graph w (.via v) → b.viaNetSegment v = b.netLineNetSegment w
  vias_nodup : query.getVias.Nodup
  netLines_nodup : query.getNetLines.Nodup

/-- The identity, layer name and width of a copied net line. -/
def BoardClipboardData.NetLine.properties (nl : BoardClipboardData.NetLine) :
    Uuid × String × PositiveLength :=
  (nl.uuid, nl.layer, nl.width)

/-- The identity, layer name and width of a net line of the board. -/
def netLineProperties (b : LiveBoard) (netline : BI_NetLine) : Uuid × String × PositiveLength :=
  (b.netLineUuid netline, b.layerName (b.graph.getLayer netline), b.netLineWidth netline)

/-- The part of the invariant of the loop over `seg.anchors` that rests on the random
identities being fresh: every identity drawn so far is the identity of exactly one
junction of the new sub-network, and no other drawn identity occurs. -/
def DrawnOnce (createRandom : Nat → Uuid) (start : Nat) (st : AnchorCopies) : Prop :=
  ∀ k, st.points.countP (fun p => decide (p.uuid = createRandom k)) =
    if start ≤ k ∧ k < st.random then 1 else 0

/-- In the copy `l` of the net line `w`, an endpoint at the anchor `a` refers to the
junction with identity `u`. -/
def RefersTo (b : LiveBoard) (a : BI_NetLineAnchor) (u : Uuid) (w : BI_NetLine)
    (l : BoardClipboardData.NetLine) : Prop :=
  (b.graph.getStartPoint w = a → l.startJunction = some u ∧ l.startVia = none) ∧
    (b.graph.getEndPoint w = a → l.endJunction = some u ∧ l.endVia = none)

/-- The selection of the two wires of scenario 2, with or without the via. -/
def scenario2Query (withVia : Bool) : BoardSelectionQuery :=
  ⟨if withVia then [0] else [], [1, 2], [], [], [], []⟩

/-- Random identities for the examples: the `k`-th call of `Uuid::createRandom` returns
`4 * k + 3`, which is the identity of no via, junction or wire of `scenario2Board`. -/
def scenario2Random (k : Nat) : Uuid := 4 * k + 3

/-- The snapshot of scenario 2 when both wires are selected, the via is not, and the
first wire is stored from its junction: one sub-network in which the junction with the
drawn identity `3` stands for the via. -/
def scenario2Snapshot : BoardClipboardData :=
  ⟨1, ⟨0, 0⟩,
    [⟨"N1", [], [⟨6, ⟨10, 0⟩⟩, ⟨3, ⟨0, 0⟩⟩, ⟨10, ⟨0, 10⟩⟩],
      [⟨5, some 6, none, some 3, none, "top_cu", ⟨200000, by decide⟩⟩,
        ⟨9, some 3, none, some 10, none, "bot_cu", ⟨200000, by decide⟩⟩]⟩],
    [], [], [], []⟩

/-! ## Pasting a snapshot (`CmdPasteBoardItems`) -/

/-- A net class of the circuit; `ptr` is the address of the object. -/
structure NetClass where
  ptr : Nat
  name : String
  deriving DecidableEq, Repr

/-- A net signal of the circuit: its address, its name and the address of its net
class. -/
structure NetSignal where
  ptr : Nat
  name : String
  netClass : Nat
  deriving DecidableEq, Repr

/-- A `BI_Via` object as created by `CmdBoardNetSegmentAddElements::addVia`. -/
structure ViaObject where
  ptr : BI_Via
  position : Point
  shape : Shape
  size : PositiveLength
  drillDiameter : PositiveLength
  selected : Bool
  deriving DecidableEq

/-- A `BI_NetPoint` object as created by `CmdBoardNetSegmentAddElements::addNetPoint`. -/
structure NetPointObject where
  ptr : Nat
  position : Point
  selected : Bool
  deriving DecidableEq, Repr

/-- A `BI_NetLine` object as created by `CmdBoardNetSegmentAddElements::addNetLine`; the
layer is given by its name. -/
structure NetLineObject where
  ptr : BI_NetLine
  startPoint : BI_NetLineAnchor
  endPoint : BI_NetLineAnchor
  layer : String
  width : PositiveLength
  selected : Bool
  deriving DecidableEq

/-- A `BI_NetSegment` object: its address, the address of its net signal, and its
elements. -/
structure NetSegmentObject where
  ptr : BI_NetSegment
  netSignal : Nat
  selected : Bool
  vias : List ViaObject
  netPoints : List NetPointObject
  netLines : List NetLineObject
  deriving DecidableEq

/-- A `BI_Plane` object as `performExecute` builds it (lines 142-151). -/
structure PlaneObject where
  uuid : Uuid
  layer : String
  netSignal : Nat
  outline : Path
  minWidth : UnsignedLength
  minClearance : UnsignedLength
  keepOrphans : Bool
  priority : Int
  connectStyle : Nat
  selected : Bool
  deriving DecidableEq

/-- A `BI_Polygon` object. -/
structure PolygonObject where
  polygon : Polygon
  selected : Bool
  deriving DecidableEq

/-- A `BI_StrokeText` object. -/
structure StrokeTextObject where
  text : StrokeText
  selected : Bool
  deriving DecidableEq

/-- A `BI_Hole` object. -/
structure HoleObject where
  hole : Hole
  selected : Bool
  deriving DecidableEq

/-- The state of the project that pasting reads and changes: the names of the layers of
the layer stack of the board, the net classes and net signals of the circuit, and the
items of the board. -/
structure World where
  layers : List String
  netClasses : List NetClass
  netSignals : List NetSignal
  netSegments : List NetSegmentObject
  planes : List PlaneObject
  polygons : List PolygonObject
  strokeTexts : List StrokeTextObject
  holes : List HoleObject
  deriving DecidableEq

/-- Modelled from the spec: the undo commands that `performExecute` executes (classes
outside the given sources), each a reversible structural edit that adds what it
carries. -/
inductive Edit where
  | netClassAdd (netClass : NetClass)
  | netSignalAdd (netSignal : NetSignal)
  | boardNetSegmentAdd (netSegment : NetSegmentObject)
  | boardNetSegmentAddElements (netSegment : BI_NetSegment) (vias : List ViaObject)
      (netPoints : List NetPointObject) (netLines : List NetLineObject)
  | boardPlaneAdd (plane : PlaneObject)
  | boardPolygonAdd (polygon : PolygonObject)
  | boardStrokeTextAdd (text : StrokeTextObject)
  | boardHoleAdd (hole : HoleObject)
  deriving DecidableEq

/-- Modelled from the spec: applying a structural edit adds the element to the project;
`boardNetSegmentAddElements` adds the elements to the net segment with the given
address. -/
def Edit.execute : Edit → World → World
  | .netClassAdd nc, w => { w with netClasses := w.netClasses ++ [nc] }
  | .netSignalAdd ns, w => { w with netSignals := w.netSignals ++ [ns] }
  | .boardNetSegmentAdd seg, w => { w with netSegments := w.netSegments ++ [seg] }
  | .boardNetSegmentAddElements ptr vias points lines, w =>
    { w with
      netSegments := w.netSegments.map fun seg =>
        if seg.ptr = ptr then
          { seg with
            vias := seg.vias ++ vias
            netPoints := seg.netPoints ++ points
            netLines := seg.netLines ++ lines }
        else seg }
  | .boardPlaneAdd p, w => { w with planes := w.planes ++ [p] }
  | .boardPolygonAdd p, w => { w with polygons := w.polygons ++ [p] }
  | .boardStrokeTextAdd t, w => { w with strokeTexts := w.strokeTexts ++ [t] }
  | .boardHoleAdd h, w => { w with holes := w.holes ++ [h] }

/-- Modelled from the spec: reverting a structural edit removes what applying it added;
edits are reverted in reverse order, so what was added is last in its list. -/
def Edit.undo : Edit → World → World
  | .netClassAdd _, w => { w with netClasses := w.netClasses.dropLast }
  | .netSignalAdd _, w => { w with netSignals := w.netSignals.dropLast }
  | .boardNetSegmentAdd _, w => { w with netSegments := w.netSegments.dropLast }
  | .boardNetSegmentAddElements ptr vias points lines, w =>
    { w with
      netSegments := w.netSegments.map fun seg =>
        if seg.ptr = ptr then
          { seg with
            vias := seg.vias.take (seg.vias.length - vias.length)
            netPoints := seg.netPoints.take (seg.netPoints.length - points.length)
            netLines := seg.netLines.take (seg.netLines.length - lines.length) }
        else seg }
  | .boardPlaneAdd _, w => { w with planes := w.planes.dropLast }
  | .boardPolygonAdd _, w => { w with polygons := w.polygons.dropLast }
  | .boardStrokeTextAdd _, w => { w with strokeTexts := w.strokeTexts.dropLast }
  | .boardHoleAdd _, w => { w with holes := w.holes.dropLast }

/-- What lies outside the command and is taken as given: which calls of
`execNewChildCmd` throw (the `i`-th call throws when `fails i`), the values of
`Uuid::createRandom`, the automatic name that `CmdNetSignalAdd` gives a new net signal,
and which layer names `GraphicsLayerName` accepts. -/
structure PasteEnv where
  fails : Nat → Bool
  createRandom : Nat → Uuid
  autoNetSignalName : World → String
  validLayerName : String → Bool

/-- The state of a running `CmdPasteBoardItems`: the project, the child commands executed
so far (`mChilds`), the number of calls of `execNewChildCmd`, the next free address for
`new`, and the number of calls of `Uuid::createRandom`. -/
structure Paste where
  world : World
  childs : List Edit
  attempts : Nat
  alloc : Nat
  random : Nat
  deriving DecidableEq

/-- How a part of `performExecute` ends: normally with a value, by an exception, or by a
failed `Q_ASSERT` (dereferencing a null pointer or an empty optional counts as such). -/
inductive Step (α : Type) where
  | ok (value : α) (st : Paste)
  | threw (st : Paste)
  | assertFailed
  deriving DecidableEq

/-- Sequencing of two parts of `performExecute`. -/
def Step.bind {α β : Type} (x : Step α) (f : α → Paste → Step β) : Step β :=
  match x with
  | .ok a st => f a st
  | .threw st => .threw st
  | .assertFailed => .assertFailed

/-- Modelled from the spec: `UndoCommandGroup::execNewChildCmd` executes the command and,
unless that throws, appends it to the child commands. -/
def execNewChildCmd (env : PasteEnv) (cmd : Edit) (st : Paste) : Step Unit :=
  if env.fails st.attempts then .threw { st with attempts := st.attempts + 1 }
  else
    .ok () { st with
      world := cmd.execute st.world
      childs := st.childs ++ [cmd]
      attempts := st.attempts + 1 }

/-- Modelled from the spec: `UndoCommandGroup::performUndo` reverts the executed child
commands in reverse order. -/
def performUndo (st : Paste) : World :=
  st.childs.reverse.foldl (fun w cmd => cmd.undo w) st.world

/-- The method `CmdPasteBoardItems::getOrCreateNetSignal` (lines 186-208). -/
def getOrCreateNetSignal (env : PasteEnv) (name : String) (st : Paste) : Step NetSignal :=
  match st.world.netSignals.find? (fun ns => ns.name = name) with
  | some netSignal => .ok netSignal st
  | none =>
    let netclass : Step NetClass :=
      match st.world.netClasses.find? (fun nc => nc.name = "default") with
      | some nc => .ok nc st
      | none =>
        (execNewChildCmd env (.netClassAdd ⟨st.alloc, "default"⟩)
          { st with alloc := st.alloc + 1 }).bind fun _ st1 =>
        .ok ⟨st.alloc, "default"⟩ st1
    netclass.bind fun nc st1 =>
    (execNewChildCmd env (.netSignalAdd ⟨st1.alloc, env.autoNetSignalName st1.world, nc.ptr⟩)
      { st1 with alloc := st1.alloc + 1 }).bind fun _ st2 =>
    .ok ⟨st1.alloc, env.autoNetSignalName st1.world, nc.ptr⟩ st2

/-- The locals of the loops over `seg.vias` and `seg.points` (lines 100-113): the
elements handed to `cmdAddElements`, the hashes `viaMap` and `netPointMap`, and the next
free address. -/
structure Anchors where
  vias : List ViaObject
  viaMap : List (Uuid × BI_Via)
  netPoints : List NetPointObject
  netPointMap : List (Uuid × Nat)
  alloc : Nat

/-- One iteration of the loop over `seg.vias` (lines 101-106). -/
def pasteVia (posOffset : Point) (st : Anchors) (v : BoardClipboardData.Via) : Anchors :=
  { st with
    vias := st.vias ++ [⟨st.alloc, v.position + posOffset, v.shape, v.size, v.drillDiameter,
      true⟩]
    viaMap := (v.uuid, st.alloc) :: st.viaMap
    alloc := st.alloc + 1 }

/-- One iteration of the loop over `seg.points` (lines 108-113). -/
def pasteNetPoint (posOffset : Point) (st : Anchors) (np : BoardClipboardData.NetPoint) :
    Anchors :=
  { st with
    netPoints := st.netPoints ++ [⟨st.alloc, np.position + posOffset, true⟩]
    netPointMap := (np.uuid, st.alloc) :: st.netPointMap
    alloc := st.alloc + 1 }

/-- The lookup of an endpoint of a net line (lines 115-122 and 123-130): `none` stands
for a failed `Q_ASSERT` or the dereference of an empty optional. -/
def resolveAnchor (st : Anchors) (junction via : Option Uuid) : Option BI_NetLineAnchor :=
  match junction with
  | some u => (st.netPointMap.lookup u).map BI_NetLineAnchor.netPoint
  | none =>
    match via with
    | some u => (st.viaMap.lookup u).map BI_NetLineAnchor.via
    | none => none

/-- The loop over `seg.lines` (lines 114-136): the net lines handed to `cmdAddElements`
and the next free address. -/
def pasteNetLines (anchors : Anchors) :
    List BoardClipboardData.NetLine → Paste → Step (List NetLineObject)
  | [], st => .ok [] st
  | nl :: rest, st =>
    match resolveAnchor anchors nl.startJunction nl.startVia with
    | none => .assertFailed
    | some start =>
      match resolveAnchor anchors nl.endJunction nl.endVia with
      | none => .assertFailed
      | some stop =>
        if nl.layer ∈ st.world.layers then
          (pasteNetLines anchors rest { st with alloc := st.alloc + 1 }).bind fun lines st1 =>
          .ok (⟨st.alloc, start, stop, nl.layer, nl.width, true⟩ :: lines) st1
        else .threw st

/-- The loops over `seg.vias` and `seg.points` (lines 100-113), with `alloc` the next free
address. -/
def pasteAnchors (posOffset : Point) (seg : BoardClipboardData.NetSegment) (alloc : Nat) :
    Anchors :=
  seg.points.foldl (pasteNetPoint posOffset)
    (seg.vias.foldl (pasteVia posOffset) ⟨[], [], [], [], alloc⟩)

/-- The body of the loop over the net segments of the snapshot (lines 90-138). -/
def pasteNetSegment (env : PasteEnv) (posOffset : Point) (seg : BoardClipboardData.NetSegment)
    (st : Paste) : Step Unit :=
  (getOrCreateNetSignal env seg.netName st).bind fun netSignal st1 =>
  (execNewChildCmd env (.boardNetSegmentAdd ⟨st1.alloc, netSignal.ptr, true, [], [], []⟩)
    { st1 with alloc := st1.alloc + 1 }).bind fun _ st2 =>
  (pasteNetLines (pasteAnchors posOffset seg st2.alloc) seg.lines
    { st2 with alloc := (pasteAnchors posOffset seg st2.alloc).alloc }).bind fun lines st3 =>
  execNewChildCmd env
    (.boardNetSegmentAddElements st1.alloc (pasteAnchors posOffset seg st2.alloc).vias
      (pasteAnchors posOffset seg st2.alloc).netPoints lines) st3

/-- The body of the loop over the planes of the snapshot (lines 141-153). -/
def pastePlane (env : PasteEnv) (posOffset : Point) (plane : BoardClipboardData.Plane)
    (st : Paste) : Step Unit :=
  if env.validLayerName plane.layer then
    (getOrCreateNetSignal env plane.netSignalName st).bind fun netSignal st1 =>
    execNewChildCmd env
      (.boardPlaneAdd ⟨env.createRandom st1.random, plane.layer, netSignal.ptr,
        plane.outline.map (fun p => p + posOffset), plane.minWidth, plane.minClearance,
        plane.keepOrphans, plane.priority, plane.connectStyle, true⟩)
      { st1 with random := st1.random + 1 }
  else .threw st

/-- The body of the loop over the polygons of the snapshot (lines 156-162). -/
def pastePolygon (env : PasteEnv) (posOffset : Point) (polygon : Polygon) (st : Paste) :
    Step Unit :=
  execNewChildCmd env
    (.boardPolygonAdd ⟨⟨env.createRandom st.random, polygon.path.map (fun p => p + posOffset),
      polygon.props⟩, true⟩)
    { st with random := st.random + 1 }

/-- The body of the loop over the stroke texts of the snapshot (lines 165-171). -/
def pasteStrokeText (env : PasteEnv) (posOffset : Point) (text : StrokeText) (st : Paste) :
    Step Unit :=
  execNewChildCmd env
    (.boardStrokeTextAdd ⟨⟨env.createRandom st.random, text.position + posOffset, text.props⟩,
      true⟩)
    { st with random := st.random + 1 }

/-- The body of the loop over the holes of the snapshot (lines 174-180). -/
def pasteHole (env : PasteEnv) (posOffset : Point) (hole : Hole) (st : Paste) : Step Unit :=
  execNewChildCmd env
    (.boardHoleAdd ⟨⟨env.createRandom st.random, hole.position + posOffset, hole.props⟩, true⟩)
    { st with random := st.random + 1 }

/-- A `for` loop of `performExecute` over a list of the snapshot. -/
def forEach {α : Type} (body : α → Paste → Step Unit) : List α → Paste → Step Unit
  | [], st => .ok () st
  | x :: rest, st => (body x st).bind fun _ st1 => forEach body rest st1

/-- The body of `performExecute` below the scope guard (lines 89-180). -/
def pasteAll (env : PasteEnv) (posOffset : Point) (data : BoardClipboardData) (st : Paste) :
    Step Unit :=
  (forEach (pasteNetSegment env posOffset) data.netSegments st).bind fun _ st1 =>
  (forEach (pastePlane env posOffset) data.planes st1).bind fun _ st2 =>
  (forEach (pastePolygon env posOffset) data.polygons st2).bind fun _ st3 =>
  (forEach (pasteStrokeText env posOffset) data.strokeTexts st3).bind fun _ st4 =>
  forEach (pasteHole env posOffset) data.holes st4

/-- How `performExecute` ends: it returns whether anything was changed, it throws (after
the scope guard has called `performUndo`), or a `Q_ASSERT` fails. -/
inductive PasteResult where
  | returned (modified : Bool) (st : Paste)
  | threw (world : World)
  | assertFailed
  deriving DecidableEq

/-- The method `CmdPasteBoardItems::performExecute` (lines 80-184) on the project state
`world`; `alloc` is the next free address for `new`. -/
def performExecute (env : PasteEnv) (posOffset : Point) (data : BoardClipboardData)
    (world : World) (alloc : Nat) : PasteResult :=
  match pasteAll env posOffset data ⟨world, [], 0, alloc, 0⟩ with
  | .ok _ st => .returned (decide (st.childs.length > 0)) st
  | .threw st => .threw (performUndo st)
  | .assertFailed => .assertFailed

/-- The project state of a running paste is the initial state `w0` with the executed
child commands applied in order. -/
def Tracks (w0 : World) (st : Paste) : Prop :=
  st.world = st.childs.foldl (fun w cmd => cmd.execute w) w0

/-- Whatever state a part of `performExecute` ends in, normally or by an exception, that
state satisfies `P`. -/
def Step.Ends {α : Type} (P : Paste → Prop) : Step α → Prop
  | .ok _ st => P st
  | .threw st => P st
  | .assertFailed => True

/-- A project for the examples: a board with the two copper layers of scenario 2 and an
empty circuit. -/
def scenario2World : World := ⟨["top_cu", "bot_cu"], [], [], [], [], [], [], []⟩

/-- Surroundings for the examples: the call of `execNewChildCmd` with number `failAt`
throws, if any; new net signals are named "N#1"; non-empty layer names are valid. -/
def scenario2Env (failAt : Option Nat) : PasteEnv :=
  ⟨fun i => decide (failAt = some i), scenario2Random, fun _ => "N#1", fun s => decide (s ≠ "")⟩

/-- The live via `lv` has the properties of the snapshot via `v`, shifted by the paste
offset, and is selected. -/
def PastedVia (posOffset : Point) (v : BoardClipboardData.Via) (lv : ViaObject) : Prop :=
  lv.position = v.position + posOffset ∧ lv.shape = v.shape ∧ lv.size = v.size ∧
    lv.drillDiameter = v.drillDiameter ∧ lv.selected = true

/-- The live junction `lp` lies at the position of the snapshot junction `p`, shifted by
the paste offset, and is selected. -/
def PastedNetPoint (posOffset : Point) (p : BoardClipboardData.NetPoint)
    (lp : NetPointObject) : Prop :=
  lp.position = p.position + posOffset ∧ lp.selected = true

/-- The live wire `ll` was made from the snapshot wire `nl` with the endpoints that the
lookups in the tables of `anchors` gave. -/
def LineResolved (anchors : Anchors) (nl : BoardClipboardData.NetLine) (ll : NetLineObject) :
    Prop :=
  resolveAnchor anchors nl.startJunction nl.startVia = some ll.startPoint ∧
    resolveAnchor anchors nl.endJunction nl.endVia = some ll.endPoint ∧
    ll.layer = nl.layer ∧ ll.width = nl.width ∧ ll.selected = true

/-- The endpoint reference (junction reference, via reference) names a junction or via of
the sub-network `seg`, and `anchor` is the live anchor created from it: the one at the
same place of the list of live junctions `netPoints` or live vias `vias`. -/
def Joins (seg : BoardClipboardData.NetSegment) (vias : List ViaObject)
    (netPoints : List NetPointObject) (junction via : Option Uuid)
    (anchor : BI_NetLineAnchor) : Prop :=
  (∃ p lp, (p, lp) ∈ seg.points.zip netPoints ∧ junction = some p.uuid ∧ via = none ∧
      anchor = .netPoint lp.ptr) ∨
    (∃ v lv, (v, lv) ∈ seg.vias.zip vias ∧ junction = none ∧ via = some v.uuid ∧
      anchor = .via lv.ptr)

/-- The live wire `ll` of the live net segment `live` is the copy of the snapshot wire
`nl` of the sub-network `seg`: same layer name and width, selected, and it joins the live
anchors created from the anchors that `nl` refers to. -/
def PastedNetLine (seg : BoardClipboardData.NetSegment) (live : NetSegmentObject)
    (nl : BoardClipboardData.NetLine) (ll : NetLineObject) : Prop :=
  ll.layer = nl.layer ∧ ll.width = nl.width ∧ ll.selected = true ∧
    Joins seg live.vias live.netPoints nl.startJunction nl.startVia ll.startPoint ∧
    Joins seg live.vias live.netPoints nl.endJunction nl.endVia ll.endPoint

/-- A sub-network for the examples: the via of scenario 2 with its two wires and their
junctions, as `generate` stores it when the via is selected. -/
def scenario2SubNetwork : BoardClipboardData.NetSegment :=
  ⟨"N1", [⟨0, ⟨0, 0⟩, .round, ⟨700000, by decide⟩, ⟨300000, by decide⟩⟩],
    [⟨6, ⟨10, 0⟩⟩, ⟨10, ⟨0, 10⟩⟩],
    [⟨5, none, some 0, some 6, none, "top_cu", ⟨200000, by decide⟩⟩,
      ⟨9, some 10, none, none, some 0, "bot_cu", ⟨200000, by decide⟩⟩]⟩

/-- A sub-network in which two vias carry the same identity `0`. -/
def twinViaSubNetwork : BoardClipboardData.NetSegment :=
  ⟨"N1", [⟨0, ⟨0, 0⟩, .round, ⟨700000, by decide⟩, ⟨300000, by decide⟩⟩,
      ⟨0, ⟨5, 5⟩, .round, ⟨700000, by decide⟩, ⟨300000, by decide⟩⟩], [], []⟩

/-! ## The snapshot codec (`BoardClipboardData`, serialisation) -/

/-- Modelled from the spec: a node of the textual tree (class `SExpression`, outside the
given sources): a named list of children, or a leaf.  A leaf keeps the value it was made
from (a token, a string, an identity, a length, a via shape) rather than its text. -/
inductive SExpression where
  | list (name : String) (children : List SExpression)
  | token (value : String)
  | string (value : String)
  | uuid (value : Uuid)
  | length (value : Int)
  | shape (value : Shape)

/-- Modelled from the spec: the children of a node (`mChildren`); a leaf has none. -/
def SExpression.children : SExpression → List SExpression
  | .list _ cs => cs
  | _ => []

/-- Modelled from the spec: the node is a list with the given name. -/
def SExpression.isListNamed (name : String) : SExpression → Bool
  | .list n _ => decide (n = name)
  | _ => false

/-- Modelled from the spec: `SExpression::getChildren(name)`, the children that are lists
with the given name, in order. -/
def SExpression.getChildren (node : SExpression) (name : String) : List SExpression :=
  node.children.filter (SExpression.isListNamed name)

/-- Modelled from the spec: `SExpression::getChildByIndex`; `none` stands for the
exception thrown when there is no such child. -/
def SExpression.getChildByIndex (node : SExpression) (index : Nat) : Option SExpression :=
  node.children[index]?

/-- Modelled from the spec: `SExpression::tryGetChildByPath`; the path is given as the
list of its names ("from/via" is `["from", "via"]`), and each name selects the first
child that is a list with this name.  `getChildByPath` throws where this gives `none`. -/
def SExpression.tryGetChildByPath : List String → SExpression → Option SExpression
  | [], node => some node
  | name :: rest, node =>
    match node.children.find? (SExpression.isListNamed name) with
    | some child => SExpression.tryGetChildByPath rest child
    | none => none

/-- Modelled from the spec: `getValue<Uuid>`. -/
def SExpression.getUuid : SExpression → Option Uuid
  | .uuid u => some u
  | _ => none

/-- Modelled from the spec: `getValue<Length>`. -/
def SExpression.getLength : SExpression → Option Int
  | .length n => some n
  | _ => none

/-- Modelled from the spec: `getValue<PositiveLength>`, which throws for a length that is
not greater than zero. -/
def SExpression.getPositiveLength : SExpression → Option PositiveLength
  | .length n => if h : 0 < n then some ⟨n, h⟩ else none
  | _ => none

/-- Modelled from the spec: `getValue<BI_Via::Shape>`. -/
def SExpression.getShape : SExpression → Option Shape
  | .shape s => some s
  | _ => none

/-- Modelled from the spec: `getValue<QString>(throwIfEmpty)`, the text of a token or
string leaf; with `throwIfEmpty` an empty text is an error. -/
def SExpression.getStringOrToken (throwIfEmpty : Bool) : SExpression → Option String
  | .token s => if throwIfEmpty = true ∧ s = "" then none else some s
  | .string s => if throwIfEmpty = true ∧ s = "" then none else some s
  | _ => none

/-- Modelled from the spec: `SExpression::getValueByPath<T>(path)`, the value of the first
child of the node at the path; `get` is `getValue<T>`. -/
def SExpression.getValueByPath {α : Type} (get : SExpression → Option α)
    (node : SExpression) (path : List String) : Option α :=
  match SExpression.tryGetChildByPath path node with
  | some child =>
    match child.children.head? with
    | some first => get first
    | none => none
  | none => none

/-- Modelled from the spec: `Point::serialize` appends the two coordinates. -/
def Point.serialize (p : Point) : List SExpression := [.length p.x, .length p.y]

/-- Modelled from the spec: the constructor `Point(const SExpression&)` reads the two
coordinates from the first two children. -/
def Point.ofSExpression (node : SExpression) : Option Point :=
  match (node.getChildByIndex 0).bind SExpression.getLength,
    (node.getChildByIndex 1).bind SExpression.getLength with
  | some x, some y => some ⟨x, y⟩
  | _, _ => none

/-- `BoardClipboardData::Via::serialize`: the children appended to the node. -/
def BoardClipboardData.Via.serialize (v : BoardClipboardData.Via) : List SExpression :=
  [.uuid v.uuid, .list "position" v.position.serialize, .list "size" [.length v.size.val],
    .list "drill" [.length v.drillDiameter.val], .list "shape" [.shape v.shape]]

/-- The constructor `BoardClipboardData::Via(const SExpression&)`. -/
def BoardClipboardData.Via.ofSExpression (node : SExpression) :
    Option BoardClipboardData.Via :=
  match (node.getChildByIndex 0).bind SExpression.getUuid,
    (SExpression.tryGetChildByPath ["position"] node).bind Point.ofSExpression,
    node.getValueByPath SExpression.getShape ["shape"],
    node.getValueByPath SExpression.getPositiveLength ["size"],
    node.getValueByPath SExpression.getPositiveLength ["drill"] with
  | some uuid, some position, some shape, some size, some drillDiameter =>
    some ⟨uuid, position, shape, size, drillDiameter⟩
  | _, _, _, _, _ => none

/-- `BoardClipboardData::NetPoint::serialize`. -/
def BoardClipboardData.NetPoint.serialize (np : BoardClipboardData.NetPoint) :
    List SExpression :=
  [.uuid np.uuid, .list "position" np.position.serialize]

/-- The constructor `BoardClipboardData::NetPoint(const SExpression&)`. -/
def BoardClipboardData.NetPoint.ofSExpression (node : SExpression) :
    Option BoardClipboardData.NetPoint :=
  match (node.getChildByIndex 0).bind SExpression.getUuid,
    (SExpression.tryGetChildByPath ["position"] node).bind Point.ofSExpression with
  | some uuid, some position => some ⟨uuid, position⟩
  | _, _ => none

/-- The child that `NetLine::serialize` appends to the list "from" (or "to"): the via
reference if there is one, else the junction reference; `none` stands for the
dereference of an empty optional. -/
def serializeReference (junction via : Option Uuid) : Option SExpression :=
  match via with
  | some u => some (.list "via" [.uuid u])
  | none =>
    match junction with
    | some u => some (.list "junction" [.uuid u])
    | none => none

/-- `BoardClipboardData::NetLine::serialize`. -/
def BoardClipboardData.NetLine.serialize (nl : BoardClipboardData.NetLine) :
    Option (List SExpression) :=
  match serializeReference nl.startJunction nl.startVia,
    serializeReference nl.endJunction nl.endVia with
  | some start, some stop =>
    some [.uuid nl.uuid, .list "layer" [.token nl.layer], .list "width" [.length nl.width.val],
      .list "from" [start], .list "to" [stop]]
  | _, _ => none

/-- The two branches of the constructor `NetLine(const SExpression&)` for one end, `side`
being "from" or "to": the pair (junction reference, via reference). -/
def loadReference (node : SExpression) (side : String) : Option (Option Uuid × Option Uuid) :=
  if (SExpression.tryGetChildByPath [side, "via"] node).isSome then
    (node.getValueByPath SExpression.getUuid [side, "via"]).map fun u => (none, some u)
  else
    (node.getValueByPath SExpression.getUuid [side, "junction"]).map fun u => (some u, none)

/-- The constructor `BoardClipboardData::NetLine(const SExpression&)`. -/
def BoardClipboardData.NetLine.ofSExpression (node : SExpression) :
    Option BoardClipboardData.NetLine :=
  match (node.getChildByIndex 0).bind SExpression.getUuid,
    node.getValueByPath (SExpression.getStringOrToken true) ["layer"],
    node.getValueByPath SExpression.getPositiveLength ["width"],
    loadReference node "from", loadReference node "to" with
  | some uuid, some layer, some width, some start, some stop =>
    some ⟨uuid, start.1, start.2, stop.1, stop.2, layer, width⟩
  | _, _, _, _, _ => none

/-- Loading the objects of a list one after the other; an exception ends the loading. -/
def loadAll {α : Type} (load : SExpression → Option α) : List SExpression → Option (List α)
  | [] => some []
  | node :: rest =>
    match load node with
    | some x => (loadAll load rest).map (x :: ·)
    | none => none

/-- Modelled from the spec: `SerializableObjectList::loadFromSExpression`, which builds
one object from every child of the node that is a list with the tag name. -/
def loadFromSExpression {α : Type} (tagname : String) (load : SExpression → Option α)
    (node : SExpression) : Option (List α) :=
  loadAll load (node.getChildren tagname)

/-- Serialising the objects of a list one after the other, each into a list node with the
tag name (`SerializableObjectList::serialize`). -/
def serializeAll {α : Type} (tagname : String) (serialize : α → Option (List SExpression)) :
    List α → Option (List SExpression)
  | [] => some []
  | x :: rest =>
    match serialize x with
    | some children => (serializeAll tagname serialize rest).map (.list tagname children :: ·)
    | none => none

/-- `BoardClipboardData::NetSegment::serialize`. -/
def BoardClipboardData.NetSegment.serialize (seg : BoardClipboardData.NetSegment) :
    Option (List SExpression) :=
  match serializeAll "trace" BoardClipboardData.NetLine.serialize seg.lines with
  | some lines =>
    some (.list "net" [.string seg.netName] ::
      (seg.vias.map (fun v => .list "via" v.serialize) ++
        (seg.points.map (fun p => .list "junction" p.serialize) ++ lines)))
  | none => none

/-- The constructor `BoardClipboardData::NetSegment(const SExpression&)`. -/
def BoardClipboardData.NetSegment.ofSExpression (node : SExpression) :
    Option BoardClipboardData.NetSegment :=
  match node.getValueByPath (SExpression.getStringOrToken false) ["net"],
    loadFromSExpression "via" BoardClipboardData.Via.ofSExpression node,
    loadFromSExpression "junction" BoardClipboardData.NetPoint.ofSExpression node,
    loadFromSExpression "trace" BoardClipboardData.NetLine.ofSExpression node with
  | some netName, some vias, some points, some lines => some ⟨netName, vias, points, lines⟩
  | _, _, _, _ => none

/-- Modelled from the spec: the text form of the tree (`SExpression::toByteArray` and
`SExpression::parse`, outside the given sources), over any type of byte strings. -/
structure TextForm (Bytes : Type) where
  toByteArray : SExpression → Bytes
  parse : Bytes → Option SExpression

/-- Modelled from the spec: serialising and loading the lists of planes, polygons, stroke
texts and holes of a snapshot (their element classes lie outside the given sources):
the nodes each list appends to the root, and the list loaded from the root. -/
structure ItemCodec where
  serializePlanes : List BoardClipboardData.Plane → List SExpression
  serializePolygons : List Polygon → List SExpression
  serializeStrokeTexts : List StrokeText → List SExpression
  serializeHoles : List Hole → List SExpression
  loadPlanes : SExpression → Option (List BoardClipboardData.Plane)
  loadPolygons : SExpression → Option (List Polygon)
  loadStrokeTexts : SExpression → Option (List StrokeText)
  loadHoles : SExpression → Option (List Hole)

/-- The nodes that the four lists of items append to the root, in the order of
`BoardClipboardData::serialize`. -/
def ItemCodec.serialize (codec : ItemCodec) (data : BoardClipboardData) : List SExpression :=
  codec.serializePlanes data.planes ++ (codec.serializePolygons data.polygons ++
    (codec.serializeStrokeTexts data.strokeTexts ++ codec.serializeHoles data.holes))

/-- `BoardClipboardData::serialize`: the children appended to the root. -/
def BoardClipboardData.serialize (codec : ItemCodec) (data : BoardClipboardData) :
    Option (List SExpression) :=
  match serializeAll "netsegment" BoardClipboardData.NetSegment.serialize data.netSegments with
  | some segments =>
    some (.list "cursor_position" data.cursorPos.serialize ::
      .list "board" [.uuid data.boardUuid] :: (segments ++ codec.serialize data))
  | none => none

/-- Modelled from the spec: `SerializableObject::serializeToDomElement(name)`, a new list
node with the given name filled by `serialize`. -/
def BoardClipboardData.serializeToDomElement (codec : ItemCodec) (name : String)
    (data : BoardClipboardData) : Option SExpression :=
  (data.serialize codec).map (.list name)

/-- The constructor `BoardClipboardData::BoardClipboardData(const QByteArray&)`; `none`
stands for an exception. -/
def BoardClipboardData.ofByteArray {Bytes : Type} (text : TextForm Bytes) (codec : ItemCodec)
    (mimeData : Bytes) : Option BoardClipboardData :=
  match text.parse mimeData with
  | none => none
  | some root =>
    match root.getValueByPath SExpression.getUuid ["board"],
      (SExpression.tryGetChildByPath ["cursor_position"] root).bind Point.ofSExpression,
      loadFromSExpression "netsegment" BoardClipboardData.NetSegment.ofSExpression root,
      codec.loadPlanes root, codec.loadPolygons root, codec.loadStrokeTexts root,
      codec.loadHoles root with
    | some boardUuid, some cursorPos, some netSegments, some planes, some polygons,
        some strokeTexts, some holes =>
      some ⟨boardUuid, cursorPos, netSegments, planes, polygons, strokeTexts, holes⟩
    | _, _, _, _, _, _, _ => none

/-- `BoardClipboardData::getMimeType` for the application version
`qApp->applicationVersion()`. -/
def getMimeType (applicationVersion : String) : String :=
  "application/x-librepcb-clipboard.board; version=" ++ applicationVersion

/-- Modelled from the spec: a `QMimeData` object (a class of the Qt library), the list of
its formats with their payloads. -/
structure QMimeData (Bytes : Type) where
  formats : List (String × Bytes)

/-- Modelled from the spec: `QMimeData::data(mimeType)`, the payload stored under exactly
this format; `none` is the null byte array returned when there is none. -/
def QMimeData.data {Bytes : Type} (mime : QMimeData Bytes) (mimeType : String) :
    Option Bytes :=
  mime.formats.lookup mimeType

/-- `BoardClipboardData::toMimeData`: the payload is stored under the media type and as
plain text; `none` stands for an exception. -/
def BoardClipboardData.toMimeData {Bytes : Type} (text : TextForm Bytes) (codec : ItemCodec)
    (applicationVersion : String) (data : BoardClipboardData) : Option (QMimeData Bytes) :=
  (data.serializeToDomElement codec "librepcb_clipboard_board").map fun sexpr =>
    ⟨[(getMimeType applicationVersion, text.toByteArray sexpr),
      ("text/plain", text.toByteArray sexpr)]⟩

/-- How `BoardClipboardData::fromMimeData` ends: with a snapshot, with a null pointer, or
by an exception. -/
inductive FromMimeData where
  | snapshot (data : BoardClipboardData)
  | null
  | threw
  deriving DecidableEq

/-- `BoardClipboardData::fromMimeData`; the null pointer for `mime` is `none`. -/
def BoardClipboardData.fromMimeData {Bytes : Type} (text : TextForm Bytes) (codec : ItemCodec)
    (applicationVersion : String) (mime : Option (QMimeData Bytes)) : FromMimeData :=
  let content : Option Bytes :=
    match mime with
    | some m => m.data (getMimeType applicationVersion)
    | none => none
  match content with
  | some bytes =>
    match BoardClipboardData.ofByteArray text codec bytes with
    | some data => .snapshot data
    | none => .threw
  | none => .null

/-- The pair (junction reference, via reference) holds exactly one reference. -/
def exactlyOne (junction via : Option Uuid) : Bool :=
  junction.isSome != via.isSome

/-- A text form for the examples: the tree itself is the byte string. -/
def plainText : TextForm SExpression := ⟨fun node => node, fun bytes => some bytes⟩

/-- An item codec for the examples: nothing is written for the items and nothing is
loaded. -/
def noItems : ItemCodec :=
  ⟨fun _ => [], fun _ => [], fun _ => [], fun _ => [], fun _ => some [], fun _ => some [],
    fun _ => some [], fun _ => some []⟩

/-- A snapshot whose only wire has an empty layer name. -/
def namelessLayerSnapshot : BoardClipboardData :=
  ⟨1, ⟨0, 0⟩,
    [⟨"N1", [], [⟨6, ⟨10, 0⟩⟩, ⟨3, ⟨0, 0⟩⟩],
      [⟨5, some 6, none, some 3, none, "", ⟨200000, by decide⟩⟩]⟩],
    [], [], [], []⟩

/-- A board on which two wires meet at a pad only: wire `1` joins the junction `1` and the
pad `0`, wire `2` joins the pad `0` and the junction `2`, both on layer `1`; the pad
registers the wires in the order `[1, 2]`. -/
def padBoard : Board where
  getStartPoint w := if w = 1 then .netPoint 1 else .footprintPad 0
  getEndPoint w := if w = 1 then .footprintPad 0 else .netPoint 2
  getLayer _ := 1
  getNetLines a :=
    if a = .footprintPad 0 then [1, 2] else if a = .netPoint 1 then [1]
    else if a = .netPoint 2 then [2] else []

/-- The sub-network of scenario 3: the via with identity `5` at (0, 0), the junction with
identity `9` at (10, 0) and the wire with identity `1` from the via to the junction, 0.2 mm
(200000 nm) wide, on the layer "top". -/
def scenario3SubNetwork (netName : CircuitIdentifier) (shape : Shape)
    (size drillDiameter : PositiveLength) : BoardClipboardData.NetSegment :=
  ⟨netName, [⟨5, ⟨0, 0⟩, shape, size, drillDiameter⟩], [⟨9, ⟨10, 0⟩⟩],
    [⟨1, none, some 5, some 9, none, "top", ⟨200000, by decide⟩⟩]⟩

/-- A project for scenario 3: a board with the layer "top" and an empty circuit. -/
def scenario3World : World := ⟨["top"], [], [], [], [], [], [], []⟩

/-! ## Removing board items (`CmdRemoveBoardItems`) -/

/-- Pointer to a `BI_Device`. -/
abbrev BI_Device := Nat

/-- Pointer to a `BI_Footprint`. -/
abbrev BI_Footprint := Nat

/-- Pointer to a `BI_Plane`. -/
abbrev BI_Plane := Nat

/-- Pointer to a `BI_Polygon`. -/
abbrev BI_Polygon := Nat

/-- Pointer to a `BI_StrokeText`. -/
abbrev BI_StrokeText := Nat

/-- Pointer to a `BI_Hole`. -/
abbrev BI_Hole := Nat

/-- Modelled from the spec: `QSet::insert` on a set of pointers, kept as a list without
regard to its order. -/
def setInsert (s : List Nat) (x : Nat) : List Nat := if x ∈ s then s else s ++ [x]

/-- Modelled from the spec: `QSet::operator+=` (union). -/
def unite (s t : List Nat) : List Nat := t.foldl setInsert s

/-- Modelled from the spec: `QSet::operator==`, two sets are equal when each is contained
in the other. -/
def setEq (s t : List Nat) : Bool := s.all (fun x => decide (x ∈ t)) && t.all (fun x => decide (x ∈ s))

/-- The struct `CmdRemoveBoardItems::NetSegmentItems`: three sets of pointers. -/
structure NetSegmentItems where
  vias : List BI_Via
  netpoints : List Nat
  netlines : List BI_NetLine
  deriving DecidableEq, Repr

/-- The getters of the live board that `CmdRemoveBoardItems` reads, on top of those of
the builder (`live`): the vias and net lines of a net segment, its net signal, the pads
of the footprint of a device, the footprint of a stroke text (none for a board text) and
the device of a footprint.  They are read from the board as it is when the command
starts; the items handed to the command are added to the board
(`Q_ASSERT(...->isAddedToBoard())`). -/
structure EditedBoard where
  live : LiveBoard
  netSegmentVias : BI_NetSegment → List BI_Via
  netSegmentNetLines : BI_NetSegment → List BI_NetLine
  netSegmentNetSignal : BI_NetSegment → Nat
  devicePads : BI_Device → List Nat
  strokeTextFootprint : BI_StrokeText → Option BI_Footprint
  footprintDevice : BI_Footprint → BI_Device

/-- The members of `CmdRemoveBoardItems`: the items to remove. -/
structure CmdRemoveBoardItems where
  mDeviceInstances : List BI_Device
  mNetLines : List BI_NetLine
  mVias : List BI_Via
  mPlanes : List BI_Plane
  mPolygons : List BI_Polygon
  mStrokeTexts : List BI_StrokeText
  mHoles : List BI_Hole

/-- A via created by `CmdBoardNetSegmentAddElements::addVia(position, shape, size,
drillDiameter)`: its address, the identity that the constructor of `BI_Via` draws with
`Uuid::createRandom`, and the properties given to `addVia`. -/
structure NewVia where
  ptr : BI_Via
  uuid : Uuid
  position : Point
  shape : Shape
  size : PositiveLength
  drillDiameter : PositiveLength
  deriving DecidableEq

/-- A junction created by `CmdBoardNetSegmentAddElements::addNetPoint(position)`. -/
structure NewNetPoint where
  ptr : Nat
  uuid : Uuid
  position : Point
  deriving DecidableEq

/-- A net line created by `CmdBoardNetSegmentAddElements::addNetLine(p1, p2, layer,
width)`. -/
structure NewNetLine where
  ptr : BI_NetLine
  uuid : Uuid
  startPoint : BI_NetLineAnchor
  endPoint : BI_NetLineAnchor
  layer : GraphicsLayer
  width : PositiveLength
  deriving DecidableEq

/-- The undo commands that `CmdRemoveBoardItems` executes, with the arguments it gives
them; `boardNetSegmentAdd` carries the address of the net segment it creates. -/
inductive RemoveEdit where
  | boardNetSegmentRemove (netsegment : BI_NetSegment)
  | boardNetSegmentAdd (netsegment : BI_NetSegment) (netSignal : Nat)
  | boardNetSegmentAddElements (netsegment : BI_NetSegment) (vias : List NewVia)
      (netPoints : List NewNetPoint) (netLines : List NewNetLine)
  | deviceInstanceRemove (device : BI_Device)
  | boardPlaneRemove (plane : BI_Plane)
  | boardPolygonRemove (polygon : BI_Polygon)
  | footprintStrokeTextRemove (footprint : BI_Footprint) (text : BI_StrokeText)
  | boardStrokeTextRemove (text : BI_StrokeText)
  | boardHoleRemove (hole : BI_Hole)
  | removeUnusedLibraryElements
  deriving DecidableEq

/-- What lies outside the command and is taken as given, over any type `W` of project
states.  Modelled from the spec: executing an undo command changes the project or throws
(`none`), and `undo` reverts it.  Further the values of `Uuid::createRandom` and the order
in which `foreach` enumerates a set, which is some arrangement of its elements. -/
structure RemoveEnv (W : Type) where
  execute : RemoveEdit → W → Option W
  undo : RemoveEdit → W → W
  createRandom : Nat → Uuid
  enumerate : List Nat → List Nat
  enumerate_perm : ∀ l, (enumerate l).Perm l

/-- The state of a running `CmdRemoveBoardItems`: the project, the child commands
executed so far, the next free address for `new`, and the number of calls of
`Uuid::createRandom`. -/
structure Removal (W : Type) where
  world : W
  childs : List RemoveEdit
  alloc : Nat
  random : Nat
  deriving DecidableEq

/-- How a part of `CmdRemoveBoardItems::performExecute` ends: normally with a value, by an
exception, by a failed `Q_ASSERT`, or the model runs out of fuel for the recursion of the
splitter. -/
inductive RemoveStep (W : Type) (α : Type) where
  | ok (value : α) (st : Removal W)
  | threw (st : Removal W)
  | assertFailed
  | outOfFuel
  deriving DecidableEq

/-- Sequencing of two parts of `performExecute`. -/
def RemoveStep.bind {W α β : Type} (x : RemoveStep W α) (f : α → Removal W → RemoveStep W β) :
    RemoveStep W β :=
  match x with
  | .ok a st => f a st
  | .threw st => .threw st
  | .assertFailed => .assertFailed
  | .outOfFuel => .outOfFuel

/-- Modelled from the spec: `UndoCommandGroup::execNewChildCmd` executes the command and,
unless that throws, appends it to the child commands. -/
def RemoveEnv.execNewChildCmd {W : Type} (env : RemoveEnv W) (cmd : RemoveEdit)
    (st : Removal W) : RemoveStep W Unit :=
  match env.execute cmd st.world with
  | some w => .ok () { st with world := w, childs := st.childs ++ [cmd] }
  | none => .threw st

/-- Modelled from the spec: `UndoCommandGroup::performUndo` reverts the executed child
commands in reverse order. -/
def RemoveEnv.performUndo {W : Type} (env : RemoveEnv W) (st : Removal W) : W :=
  st.childs.reverse.foldl (fun w cmd => env.undo cmd w) st.world

/-- A `foreach` loop of the command whose body executes child commands. -/
def RemoveStep.forEach {W α : Type} (body : α → Removal W → RemoveStep W Unit) :
    List α → Removal W → RemoveStep W Unit
  | [], st => .ok () st
  | x :: rest, st => (body x st).bind fun _ st1 => RemoveStep.forEach body rest st1

/-- The body of the loop over `seg.anchors` in `getNonCohesiveNetSegmentSubSegments`
(lines 253-259): junctions and vias are inserted, pads are left out. -/
def insertAnchor (items : NetSegmentItems) : BI_NetLineAnchor → NetSegmentItems
  | .netPoint netpoint => { items with netpoints := setInsert items.netpoints netpoint }
  | .via via => { items with vias := setInsert items.vias via }
  | .footprintPad _ => items

/-- The `NetSegmentItems` made from one segment of the splitter (lines 252-260). -/
def itemsOfSegment (seg : Segment) : NetSegmentItems :=
  { seg.anchors.foldl insertAnchor ⟨[], [], []⟩ with netlines := seg.netlines.dedup }

/-- The vias given to the splitter: `Toolbox::toSet(segment.getVias()) -
removedItems.vias` (line 243). -/
def survivingVias (b : EditedBoard) (segment : BI_NetSegment) (removedItems : NetSegmentItems) :
    List BI_Via :=
  (b.netSegmentVias segment).dedup.filter fun via => via ∉ removedItems.vias

/-- The net lines given to the splitter: `Toolbox::toSet(segment.getNetLines()) -
removedItems.netlines` (line 247). -/
def survivingNetLines (b : EditedBoard) (segment : BI_NetSegment)
    (removedItems : NetSegmentItems) : List BI_NetLine :=
  (b.netSegmentNetLines segment).dedup.filter fun netline => netline ∉ removedItems.netlines

/-- The method `CmdRemoveBoardItems::getNonCohesiveNetSegmentSubSegments` (lines
236-264); `enumerate` is the order in which `foreach` enumerates a set. -/
def getNonCohesiveNetSegmentSubSegments (enumerate : List Nat → List Nat) (b : EditedBoard)
    (fuel : Nat) (segment : BI_NetSegment) (removedItems : NetSegmentItems) :
    Outcome (List NetSegmentItems) :=
  (split b.live.graph (enumerate (survivingVias b segment removedItems))
    (enumerate (survivingNetLines b segment removedItems)) fuel).bind fun segments =>
  .ok (segments.map itemsOfSegment)

/-- The locals of `createNewSubNetSegment` (lines 199-231): the elements handed to
`cmdAddElements`, the hash `anchorMap`, the next free address and the number of
identities drawn. -/
structure NewElements where
  vias : List NewVia
  netPoints : List NewNetPoint
  netLines : List NewNetLine
  anchorMap : List (BI_NetLineAnchor × BI_NetLineAnchor)
  alloc : Nat
  random : Nat

/-- One iteration of the loop "copy vias" (lines 204-210). -/
def NewElements.copyVia (createRandom : Nat → Uuid) (b : EditedBoard) (st : NewElements)
    (via : BI_Via) : NewElements :=
  { st with
    vias := st.vias ++ [⟨st.alloc, createRandom st.random, b.live.viaPosition via,
      b.live.viaShape via, b.live.viaSize via, b.live.viaDrillDiameter via⟩]
    anchorMap := (.via via, .via st.alloc) :: st.anchorMap
    alloc := st.alloc + 1
    random := st.random + 1 }

/-- One iteration of the loop "copy netpoints" (lines 213-218). -/
def NewElements.copyNetPoint (createRandom : Nat → Uuid) (b : EditedBoard)
    (st : NewElements) (netpoint : Nat) : NewElements :=
  { st with
    netPoints := st.netPoints ++ [⟨st.alloc, createRandom st.random,
      b.live.netPointPosition netpoint⟩]
    anchorMap := (.netPoint netpoint, .netPoint st.alloc) :: st.anchorMap
    alloc := st.alloc + 1
    random := st.random + 1 }

/-- One iteration of the loop "copy netlines" (lines 221-231); `anchorMap.value(key,
key)` gives the anchor itself when the hash has no entry for it. -/
def NewElements.copyNetLine (createRandom : Nat → Uuid) (b : EditedBoard) (st : NewElements)
    (netline : BI_NetLine) : NewElements :=
  { st with
    netLines := st.netLines ++ [⟨st.alloc, createRandom st.random,
      (st.anchorMap.lookup (b.live.graph.getStartPoint netline)).getD
        (b.live.graph.getStartPoint netline),
      (st.anchorMap.lookup (b.live.graph.getEndPoint netline)).getD
        (b.live.graph.getEndPoint netline),
      b.live.graph.getLayer netline, b.live.netLineWidth netline⟩]
    alloc := st.alloc + 1
    random := st.random + 1 }

/-- The three copy loops of `createNewSubNetSegment` (lines 203-231). -/
def newElements {W : Type} (env : RemoveEnv W) (b : EditedBoard) (items : NetSegmentItems)
    (alloc random : Nat) : NewElements :=
  (env.enumerate items.netlines).foldl (NewElements.copyNetLine env.createRandom b)
    ((env.enumerate items.netpoints).foldl (NewElements.copyNetPoint env.createRandom b)
      ((env.enumerate items.vias).foldl (NewElements.copyVia env.createRandom b)
        ⟨[], [], [], [], alloc, random⟩))

/-- The method `CmdRemoveBoardItems::createNewSubNetSegment` (lines 191-234). -/
def createNewSubNetSegment {W : Type} (env : RemoveEnv W) (b : EditedBoard)
    (netsegment : BI_NetSegment) (items : NetSegmentItems) (st : Removal W) :
    RemoveStep W Unit :=
  (env.execNewChildCmd (.boardNetSegmentAdd st.alloc (b.netSegmentNetSignal netsegment))
    { st with alloc := st.alloc + 1 }).bind fun _ st1 =>
  env.execNewChildCmd
    (.boardNetSegmentAddElements st.alloc (newElements env b items st1.alloc st1.random).vias
      (newElements env b items st1.alloc st1.random).netPoints
      (newElements env b items st1.alloc st1.random).netLines)
    { st1 with
      alloc := (newElements env b items st1.alloc st1.random).alloc
      random := (newElements env b items st1.alloc st1.random).random }

/-- The method `CmdRemoveBoardItems::splitUpNetSegment` (lines 176-189). -/
def splitUpNetSegment {W : Type} (env : RemoveEnv W) (b : EditedBoard) (fuel : Nat)
    (netsegment : BI_NetSegment) (itemsToRemove : NetSegmentItems) (st : Removal W) :
    RemoveStep W Unit :=
  match getNonCohesiveNetSegmentSubSegments env.enumerate b fuel netsegment itemsToRemove with
  | .ok subsegments =>
    (env.execNewChildCmd (.boardNetSegmentRemove netsegment) st).bind fun _ st1 =>
    RemoveStep.forEach (createNewSubNetSegment env b netsegment) subsegments st1
  | .assertFailed => .assertFailed
  | .outOfFuel => .outOfFuel

/-- The condition `removeAllVias && removeAllNetLines` of `performExecute` (lines
109-113). -/
def removeWholeNetSegment (b : EditedBoard) (netsegment : BI_NetSegment)
    (items : NetSegmentItems) : Bool :=
  setEq items.vias (b.netSegmentVias netsegment).dedup &&
    setEq items.netlines (b.netSegmentNetLines netsegment).dedup

/-- The body of the loop over `netSegmentItemsToRemove` (lines 108-121). -/
def removeNetSegmentItems {W : Type} (env : RemoveEnv W) (b : EditedBoard) (fuel : Nat)
    (entry : BI_NetSegment × NetSegmentItems) (st : Removal W) : RemoveStep W Unit :=
  if removeWholeNetSegment b entry.1 entry.2 then
    env.execNewChildCmd (.boardNetSegmentRemove entry.1) st
  else splitUpNetSegment env b fuel entry.1 entry.2 st

/-- `QHash::operator[]` followed by a change of the value: the entry of the key is
changed, and a default-constructed entry is inserted first when the key is new. -/
def modifyItems (m : List (BI_NetSegment × NetSegmentItems)) (key : BI_NetSegment)
    (f : NetSegmentItems → NetSegmentItems) : List (BI_NetSegment × NetSegmentItems) :=
  if m.any (fun e => decide (e.1 = key)) then
    m.map fun e => if e.1 = key then (e.1, f e.2) else e
  else m ++ [(key, f ⟨[], [], []⟩)]

/-- The net lines to remove after lines 77-92: those given to the command, those of the
pads of the devices to remove, and those of the vias to remove. -/
def CmdRemoveBoardItems.allNetLines (cmd : CmdRemoveBoardItems) (b : EditedBoard) :
    List BI_NetLine :=
  cmd.mVias.foldl (fun acc via => unite acc (b.live.graph.getNetLines (.via via)))
    (cmd.mDeviceInstances.foldl
      (fun acc device => (b.devicePads device).foldl
        (fun acc pad => unite acc (b.live.graph.getNetLines (.footprintPad pad))) acc)
      cmd.mNetLines)

/-- The hash `netSegmentItemsToRemove` after lines 95-103. -/
def CmdRemoveBoardItems.netSegmentItemsToRemove (cmd : CmdRemoveBoardItems) (b : EditedBoard) :
    List (BI_NetSegment × NetSegmentItems) :=
  (cmd.allNetLines b).foldl
    (fun m netline => modifyItems m (b.live.netLineNetSegment netline)
      fun items => { items with netlines := setInsert items.netlines netline })
    (cmd.mVias.foldl
      (fun m via => modifyItems m (b.live.viaNetSegment via)
        fun items => { items with vias := setInsert items.vias via })
      [])

/-- The entries of the hash in the order in which the loop of lines 106-122 meets them:
the keys are enumerated in some order. -/
def enumerateEntries (enumerate : List Nat → List Nat)
    (m : List (BI_NetSegment × NetSegmentItems)) : List (BI_NetSegment × NetSegmentItems) :=
  (enumerate (m.map Prod.fst)).filterMap fun key => (m.lookup key).map fun items => (key, items)

/-- The body of the loop over `mStrokeTexts` (lines 143-154). -/
def removeStrokeText {W : Type} (env : RemoveEnv W) (b : EditedBoard)
    (cmd : CmdRemoveBoardItems) (text : BI_StrokeText) (st : Removal W) : RemoveStep W Unit :=
  match b.strokeTextFootprint text with
  | some footprint =>
    if b.footprintDevice footprint ∉ cmd.mDeviceInstances then
      env.execNewChildCmd (.footprintStrokeTextRemove footprint text) st
    else .ok () st
  | none => env.execNewChildCmd (.boardStrokeTextRemove text) st

/-- The body of `CmdRemoveBoardItems::performExecute` below the scope guard (lines
77-166). -/
def CmdRemoveBoardItems.removeAll {W : Type} (cmd : CmdRemoveBoardItems) (env : RemoveEnv W)
    (b : EditedBoard) (fuel : Nat) (st : Removal W) : RemoveStep W Unit :=
  (RemoveStep.forEach (removeNetSegmentItems env b fuel)
    (enumerateEntries env.enumerate (cmd.netSegmentItemsToRemove b)) st).bind fun _ st1 =>
  (RemoveStep.forEach (fun device => env.execNewChildCmd (.deviceInstanceRemove device))
    cmd.mDeviceInstances st1).bind fun _ st2 =>
  (RemoveStep.forEach (fun plane => env.execNewChildCmd (.boardPlaneRemove plane))
    cmd.mPlanes st2).bind fun _ st3 =>
  (RemoveStep.forEach (fun polygon => env.execNewChildCmd (.boardPolygonRemove polygon))
    cmd.mPolygons st3).bind fun _ st4 =>
  (RemoveStep.forEach (removeStrokeText env b cmd) cmd.mStrokeTexts st4).bind fun _ st5 =>
  (RemoveStep.forEach (fun hole => env.execNewChildCmd (.boardHoleRemove hole))
    cmd.mHoles st5).bind fun _ st6 =>
  if st6.childs.length > 0 then env.execNewChildCmd .removeUnusedLibraryElements st6
  else .ok () st6

/-- How `CmdRemoveBoardItems::performExecute` ends: it returns whether anything was
changed, it throws (after the scope guard has called `performUndo`), a `Q_ASSERT` fails,
or the model runs out of fuel. -/
inductive RemoveResult (W : Type) where
  | returned (modified : Bool) (st : Removal W)
  | threw (world : W)
  | assertFailed
  | outOfFuel
  deriving DecidableEq

/-- The method `CmdRemoveBoardItems::performExecute` (lines 73-170) on the project state
`world`; `alloc` is the next free address for `new`. -/
def CmdRemoveBoardItems.performExecute {W : Type} (cmd : CmdRemoveBoardItems)
    (env : RemoveEnv W) (b : EditedBoard) (fuel : Nat) (world : W) (alloc : Nat) :
    RemoveResult W :=
  match cmd.removeAll env b fuel ⟨world, [], alloc, 0⟩ with
  | .ok _ st => .returned (decide (st.childs.length > 0)) st
  | .threw st => .threw (env.performUndo st)
  | .assertFailed => .assertFailed
  | .outOfFuel => .outOfFuel

/-- Whatever state a part of `CmdRemoveBoardItems::performExecute` ends in, normally or
by an exception, that state satisfies `P`. -/
def RemoveStep.Ends {W α : Type} (P : Removal W → Prop) : RemoveStep W α → Prop
  | .ok _ st => P st
  | .threw st => P st
  | .assertFailed => True
  | .outOfFuel => True

/-- Surroundings for the examples: the project is represented by the list of the
structural edits applied to it, reverting an edit drops the last of them, and an edit
throws when exactly `failAt` edits have been applied; identities are drawn as in
`scenario2Random`, and sets are enumerated in the order of their lists. -/
def exampleRemoveEnv (failAt : Option Nat) : RemoveEnv (List RemoveEdit) where
  execute cmd w := if failAt = some w.length then none else some (w ++ [cmd])
  undo _ w := w.dropLast
  createRandom := scenario2Random
  enumerate l := l
  enumerate_perm l := List.Perm.refl l

/-- The board of scenario 1: one net segment `0` with the vias A (`0`) and B (`1`) joined
by the wire W (`1`) on layer `1`; with `withJunction`, B is also joined to the junction J
(`2`) by the wire W2 (`2`) on layer `1`.  `fromA` and `fromB` say from which end each
wire is stored.  A via with address `v` has the identity `4 * v`. -/
def scenario1 (withJunction fromA fromB : Bool) : EditedBoard where
  live :=
    { graph :=
        { getStartPoint := fun w =>
            if w = 1 then (if fromA then .via 0 else .via 1)
            else (if fromB then .via 1 else .netPoint 2)
          getEndPoint := fun w =>
            if w = 1 then (if fromA then .via 1 else .via 0)
            else (if fromB then .netPoint 2 else .via 1)
          getLayer := fun _ => 1
          getNetLines := fun a =>
            if a = .via 0 then [1]
            else if a = .via 1 then (if withJunction then [1, 2] else [1])
            else if a = .netPoint 2 then (if withJunction then [2] else [])
            else [] }
      getUuid := 1
      getNetSegments := [0]
      viaNetSegment := fun _ => 0
      netLineNetSegment := fun _ => 0
      netSignalName := fun _ => "N1"
      viaUuid := fun v => 4 * v
      viaPosition := fun v => ⟨(10 * v : Nat), 0⟩
      viaShape := fun _ => .round
      viaSize := fun _ => ⟨700000, by decide⟩
      viaDrillDiameter := fun _ => ⟨300000, by decide⟩
      netPointUuid := fun p => 4 * p + 2
      netPointPosition := fun p => ⟨(10 * p : Nat), 0⟩
      padPosition := fun _ => ⟨0, 0⟩
      netLineUuid := fun w => 4 * w + 1
      layerName := fun _ => "top_cu"
      netLineWidth := fun _ => ⟨200000, by decide⟩ }
  netSegmentVias s := if s = 0 then [0, 1] else []
  netSegmentNetLines s := if s = 0 then (if withJunction then [1, 2] else [1]) else []
  netSegmentNetSignal _ := 100
  devicePads _ := []
  strokeTextFootprint _ := none
  footprintDevice _ := 0

/-- The request of scenario 1: remove the via A. -/
def removeViaA : CmdRemoveBoardItems := ⟨[], [], [0], [], [], [], []⟩

/-- `QHash::value(key)`: the entry of a key, default-constructed when there is none. -/
def itemsAt (m : List (BI_NetSegment × NetSegmentItems)) (key : BI_NetSegment) :
    NetSegmentItems :=
  (m.lookup key).getD ⟨[], [], []⟩

/-- The request to remove both vias of scenario 1. -/
def removeBothVias : CmdRemoveBoardItems := ⟨[], [], [0, 1], [], [], [], []⟩

/-- The properties that `createNewSubNetSegment` hands to `addVia` for the via `via`. -/
def RecreatedVia (b : EditedBoard) (via : BI_Via) (nv : NewVia) : Prop :=
  nv.position = b.live.viaPosition via ∧ nv.shape = b.live.viaShape via ∧
    nv.size = b.live.viaSize via ∧ nv.drillDiameter = b.live.viaDrillDiameter via

/-! ## Registration of pins and pads (`ComponentSignalInstance`) -/

/-- Pointer to a `Circuit`.  Modelled from the spec: `Circuit::operator!=` is defined
outside the given sources; an element "belongs to a different circuit" when its circuit
is another object, so circuits are compared by their address. -/
abbrev Circuit := Nat

/-- Pointer to an `SI_SymbolPin`. -/
abbrev SI_SymbolPin := Nat

/-- Pointer to a `BI_FootprintPad`. -/
abbrev BI_FootprintPad := Nat

/-- The members of `ComponentSignalInstance` that the registration methods read and
write: the circuit, the flag `mIsAddedToCircuit` and the two lists of registered
elements. -/
structure ComponentSignalInstance where
  mCircuit : Circuit
  mIsAddedToCircuit : Bool
  mRegisteredSymbolPins : List SI_SymbolPin
  mRegisteredFootprintPads : List BI_FootprintPad
  deriving DecidableEq, Repr

/-- The exception classes that the methods of `ComponentSignalInstance` throw. -/
inductive Exception where
  | logicError
  | runtimeError
  deriving DecidableEq, Repr

/-- How a method of an object ends: it returns and leaves the object in the state `self`,
or it throws `e` and leaves the object in the state `self`. -/
inductive MethodResult (σ : Type) where
  | returned (self : σ)
  | threw (e : Exception) (self : σ)
  deriving DecidableEq, Repr

/-- The getters of the elements handed to the registration methods: the circuit of a
symbol pin (`SI_SymbolPin::getCircuit`) and of a footprint pad
(`BI_FootprintPad::getCircuit`). -/
structure CircuitElements where
  pinCircuit : SI_SymbolPin → Circuit
  padCircuit : BI_FootprintPad → Circuit

/-- The method `ComponentSignalInstance::getRegisteredElementsCount` (lines 128-134). -/
def ComponentSignalInstance.getRegisteredElementsCount (self : ComponentSignalInstance) : Nat :=
  0 + self.mRegisteredSymbolPins.length + self.mRegisteredFootprintPads.length

/-- The method `ComponentSignalInstance::registerSymbolPin` (lines 223-231). -/
def ComponentSignalInstance.registerSymbolPin (env : CircuitElements)
    (self : ComponentSignalInstance) (pin : SI_SymbolPin) :
    MethodResult ComponentSignalInstance :=
  if (!self.mIsAddedToCircuit) || decide (env.pinCircuit pin ≠ self.mCircuit) ||
      decide (pin ∈ self.mRegisteredSymbolPins) then
    .threw .logicError self
  else .returned { self with mRegisteredSymbolPins := self.mRegisteredSymbolPins ++ [pin] }

/-- The method `ComponentSignalInstance::unregisterSymbolPin` (lines 233-239);
`QList::removeOne` removes the first occurrence. -/
def ComponentSignalInstance.unregisterSymbolPin (self : ComponentSignalInstance)
    (pin : SI_SymbolPin) : MethodResult ComponentSignalInstance :=
  if (!self.mIsAddedToCircuit) || !decide (pin ∈ self.mRegisteredSymbolPins) then
    .threw .logicError self
  else .returned { self with mRegisteredSymbolPins := self.mRegisteredSymbolPins.erase pin }

/-- The method `ComponentSignalInstance::registerFootprintPad` (lines 241-249). -/
def ComponentSignalInstance.registerFootprintPad (env : CircuitElements)
    (self : ComponentSignalInstance) (pad : BI_FootprintPad) :
    MethodResult ComponentSignalInstance :=
  if (!self.mIsAddedToCircuit) || decide (env.padCircuit pad ≠ self.mCircuit) ||
      decide (pad ∈ self.mRegisteredFootprintPads) then
    .threw .logicError self
  else
    .returned { self with mRegisteredFootprintPads := self.mRegisteredFootprintPads ++ [pad] }

/-- The method `ComponentSignalInstance::unregisterFootprintPad` (lines 251-257). -/
def ComponentSignalInstance.unregisterFootprintPad (self : ComponentSignalInstance)
    (pad : BI_FootprintPad) : MethodResult ComponentSignalInstance :=
  if (!self.mIsAddedToCircuit) || !decide (pad ∈ self.mRegisteredFootprintPads) then
    .threw .logicError self
  else
    .returned { self with
      mRegisteredFootprintPads := self.mRegisteredFootprintPads.erase pad }

/-- What the claim says of a pair of methods `register` / `unregister` that keep the list
`registered` of an instance, for an element `x` whose circuit is `circuit`. -/
structure Registers (registered : ComponentSignalInstance → List Nat)
    (register unregister : ComponentSignalInstance → Nat → MethodResult ComponentSignalInstance)
    (circuit : Nat → Circuit) (obj : ComponentSignalInstance) (x : Nat) : Prop where
  register_throws : (∃ e s, register obj x = .threw e s) ↔
    (obj.mIsAddedToCircuit = false ∨ circuit x ≠ obj.mCircuit ∨ x ∈ registered obj)
  register_error : ∀ e s, register obj x = .threw e s → e = .logicError ∧ s = obj
  register_appends : ∀ s, register obj x = .returned s →
    registered s = registered obj ++ [x] ∧ (registered s).count x = 1 ∧
      s.getRegisteredElementsCount = obj.getRegisteredElementsCount + 1 ∧
      ((registered obj).Nodup → (registered s).Nodup) ∧
      unregister s x = .returned obj
  unregister_throws : (∃ e s, unregister obj x = .threw e s) ↔
    (obj.mIsAddedToCircuit = false ∨ x ∉ registered obj)
  unregister_error : ∀ e s, unregister obj x = .threw e s → e = .logicError ∧ s = obj
  unregister_removes : ∀ s, unregister obj x = .returned s →
    registered s = (registered obj).erase x ∧
      ((registered obj).Nodup → (registered s).Nodup ∧ x ∉ registered s)

/-- An instance for the examples: added to the circuit `1`, the pin `4` and the pad `7`
are registered. -/
def exampleInstance : ComponentSignalInstance := ⟨1, true, [4], [7]⟩

/-- Elements for the examples: every pin and pad belongs to the circuit `1`, except the
pad `9`, which belongs to the circuit `2`. -/
def exampleElements : CircuitElements := ⟨fun _ => 1, fun pad => if pad = 9 then 2 else 1⟩

/-- The `foreach` loop of lines 103-116 with a record of the net lines for which the body
of the `if` (lines 106-114) is executed: the net lines consumed while `anchor` is the
current anchor, in order.  The loop is that of `visitNetLines`; net lines consumed by
the recursive calls are not recorded. -/
def consumedLines (g : Board) (recurse : BI_NetLineAnchor → State → Outcome State)
    (anchor : BI_NetLineAnchor) (removedVia : Bool) :
    List BI_NetLine → Option GraphicsLayer → State → List BI_NetLine
  | [], _, _ => []
  | line :: rest, layer, st =>
    if lineAccepted g removedVia layer st line then
      match getOtherPoint g line anchor with
      | none => [line]
      | some p2 =>
        if p2 ∈ (takeLine st line).processedAnchors then
          line :: consumedLines g recurse anchor removedVia rest (some (g.getLayer line))
            (takeLine st line)
        else
          match recurse p2 (takeLine st line) with
          | .ok st2 =>
            line :: consumedLines g recurse anchor removedVia rest (some (g.getLayer line)) st2
          | .assertFailed => [line]
          | .outOfFuel => [line]
    else consumedLines g recurse anchor removedVia rest layer st

/-- The net lines consumed while `anchor` is the current anchor in the call
`findConnectedLinesAndPoints g mVias (fuel + 1) anchor st`. -/
def consumedAt (g : Board) (mVias : List BI_Via) (fuel : Nat) (anchor : BI_NetLineAnchor)
    (st : State) : List BI_NetLine :=
  consumedLines g (findConnectedLinesAndPoints g mVias fuel) anchor (isRemovedVia mVias anchor)
    (g.getNetLines anchor) none (enterAnchor mVias anchor st)

/-- The net line is an input net line that is not yet assigned: it is in the pool
`availableNetLines` and not among the net lines of the current segment. -/
def unassigned (st : State) (line : BI_NetLine) : Bool :=
  decide (line ∈ st.availableNetLines) && !decide (line ∈ st.netlines)

/-- The anchor is not a selected via: `generate` stores a junction for it. -/
def storedAsJunction (query : BoardSelectionQuery) (anchor : BI_NetLineAnchor) : Bool :=
  (selectedVia query anchor).isNone

/-- The edit adds vias, junctions or wires to a net segment
(`CmdBoardNetSegmentAddElements`). -/
def Edit.addsElements : Edit → Bool
  | .boardNetSegmentAddElements _ _ _ _ => true
  | _ => false

/-- Between the states `st` and `st'` of a running paste, the edits `more` were executed
and nothing else happened to the project; none of them adds elements to a net segment. -/
def NoElementsSince (st st' : Paste) : Prop :=
  ∃ more, st'.childs = st.childs ++ more ∧ (∀ c ∈ more, c.addsElements = false) ∧
    st'.world = more.foldl (fun w c => c.execute w) st.world

/-- The references of the wires of a sub-network can be looked up when it is pasted: no
two vias and no two junctions share an identity, and every reference names a via or a
junction of the sub-network. -/
def Resolvable (seg : BoardClipboardData.NetSegment) : Prop :=
  (seg.vias.map BoardClipboardData.Via.uuid).Nodup ∧
    (seg.points.map BoardClipboardData.NetPoint.uuid).Nodup ∧
    ∀ nl ∈ seg.lines, refResolves seg nl.startJunction nl.startVia = true ∧
      refResolves seg nl.endJunction nl.endVia = true

/-- A world for the examples whose board has the layer "top_cu" only. -/
def topOnlyWorld : World := ⟨["top_cu"], [], [], [], [], [], [], []⟩

/-- The anchor `new` of a recreated net line stands for the anchor `old` of the net line
it was copied from: for a via or a junction it is the new via or junction made for it (the
one at the same place of the list of new vias or junctions), and a pad stays. -/
def RecreatedAnchor (vias : List BI_Via) (newVias : List NewVia) (netpoints : List Nat)
    (newNetPoints : List NewNetPoint) (old new : BI_NetLineAnchor) : Prop :=
  match old with
  | .via v => ∃ nv, (v, nv) ∈ vias.zip newVias ∧ new = .via nv.ptr
  | .netPoint p => ∃ np, (p, np) ∈ netpoints.zip newNetPoints ∧ new = .netPoint np.ptr
  | .footprintPad pad => new = .footprintPad pad

/-- The new net line `nl` has the layer and the width of the net line `w` and joins the
anchors that stand for the endpoints of `w`. -/
def RecreatedNetLine (b : EditedBoard) (vias : List BI_Via) (newVias : List NewVia)
    (netpoints : List Nat) (newNetPoints : List NewNetPoint) (w : BI_NetLine)
    (nl : NewNetLine) : Prop :=
  nl.layer = b.live.graph.getLayer w ∧ nl.width = b.live.netLineWidth w ∧
    RecreatedAnchor vias newVias netpoints newNetPoints (b.live.graph.getStartPoint w)
      nl.startPoint ∧
    RecreatedAnchor vias newVias netpoints newNetPoints (b.live.graph.getEndPoint w)
      nl.endPoint

/-- The edits `edits` recreate the planned sub-network `sub` of the net segment
`netsegment`: one edit adds a net segment with the net signal of `netsegment`, the next
adds to it one via for each planned via, one junction for each planned junction and one
net line for each planned net line, each in the order in which the plan is enumerated;
the new vias and junctions are distinct objects. -/
def RecreatedAs {W : Type} (env : RemoveEnv W) (b : EditedBoard) (netsegment : BI_NetSegment)
    (sub : NetSegmentItems) (edits : List RemoveEdit) : Prop :=
  ∃ ptr vias netPoints netLines,
    edits = [.boardNetSegmentAdd ptr (b.netSegmentNetSignal netsegment),
      .boardNetSegmentAddElements ptr vias netPoints netLines] ∧
    List.Forall₂ (RecreatedVia b) (env.enumerate sub.vias) vias ∧
    List.Forall₂ (fun p np => np.position = b.live.netPointPosition p)
      (env.enumerate sub.netpoints) netPoints ∧
    List.Forall₂
      (RecreatedNetLine b (env.enumerate sub.vias) vias (env.enumerate sub.netpoints) netPoints)
      (env.enumerate sub.netlines) netLines ∧
    (vias.map NewVia.ptr).Nodup ∧ (netPoints.map NewNetPoint.ptr).Nodup

/-- The anchor is part of the plan `items`, or it is a pad. -/
def planned (items : NetSegmentItems) : BI_NetLineAnchor → Prop
  | .via v => v ∈ items.vias
  | .netPoint p => p ∈ items.netpoints
  | .footprintPad _ => True

/-- The plan `items` is closed: it lists no via and no junction twice, and the endpoints
of its net lines are planned or pads. -/
structure ClosedPlan (b : EditedBoard) (items : NetSegmentItems) : Prop where
  vias_nodup : items.vias.Nodup
  netpoints_nodup : items.netpoints.Nodup
  ends : ∀ w ∈ items.netlines, planned items (b.live.graph.getStartPoint w) ∧
    planned items (b.live.graph.getEndPoint w)

/-- The anchor is one of the new vias `vias` or new junctions `netPoints`, whose addresses
are not below `alloc`, or it is a pad. -/
def NewAnchorOrPad (alloc : Nat) (vias : List NewVia) (netPoints : List NewNetPoint)
    (a : BI_NetLineAnchor) : Prop :=
  (∃ nv ∈ vias, a = .via nv.ptr ∧ alloc ≤ nv.ptr) ∨
    (∃ np ∈ netPoints, a = .netPoint np.ptr ∧ alloc ≤ np.ptr) ∨
    ∃ pad, a = .footprintPad pad

/-! ## From the executable model to derivations -/

theorem run_of_visitNetLines (g : Board) (mVias : List BI_Via)
    (recurse : BI_NetLineAnchor → State → Outcome State)
    (hrec : ∀ a s s', recurse a s = .ok s' → Run g mVias (.visit a) s s')
    (anchor : BI_NetLineAnchor) (r : Bool) :
    ∀ (lines : List BI_NetLine) (layer : Option GraphicsLayer) (st st' : State),
      visitNetLines g recurse anchor r lines layer st = .ok st' →
      Run g mVias (.lines anchor r lines layer) st st' := by
  intro lines
  induction lines with
  | nil =>
    intro layer st st' h
    simp only [visitNetLines, Outcome.ok.injEq] at h
    subst h
    exact Run.done
  | cons line rest ih =>
    intro layer st st' h
    rw [visitNetLines] at h
    by_cases hacc : lineAccepted g r layer st line = true
    · rw [if_pos hacc] at h
      cases hp : getOtherPoint g line anchor with
      | none => rw [hp] at h; cases h
      | some p2 =>
        rw [hp] at h
        simp only at h
        by_cases hmem : p2 ∈ (takeLine st line).processedAnchors
        · rw [if_pos hmem] at h
          exact Run.seen hacc hp hmem (ih _ _ _ h)
        · rw [if_neg hmem] at h
          cases hr : recurse p2 (takeLine st line) with
          | ok st2 =>
            rw [hr] at h
            exact Run.recurse hacc hp hmem (hrec _ _ _ hr) (ih _ _ _ h)
          | assertFailed => rw [hr] at h; cases h
          | outOfFuel => rw [hr] at h; cases h
    · rw [if_neg hacc] at h
      exact Run.skip (by simpa using hacc) (ih _ _ _ h)

theorem run_of_findConnectedLinesAndPoints (g : Board) (mVias : List BI_Via) :
    ∀ (fuel : Nat) (anchor : BI_NetLineAnchor) (st st' : State),
      findConnectedLinesAndPoints g mVias fuel anchor st = .ok st' →
      Run g mVias (.visit anchor) st st' := by
  intro fuel
  induction fuel with
  | zero => intro anchor st st' h; simp [findConnectedLinesAndPoints] at h
  | succ fuel ih =>
    intro anchor st st' h
    rw [findConnectedLinesAndPoints] at h
    by_cases h1 : anchor ∈ st.processedAnchors
    · rw [if_pos h1] at h; cases h
    · rw [if_neg h1] at h
      by_cases h2 : anchor ∈ st.anchors
      · rw [if_pos h2] at h; cases h
      · rw [if_neg h2] at h
        exact Run.visit h1 h2 (run_of_visitNetLines g mVias _ ih _ _ _ _ _ _ h)

/-! ## Elementary facts about one step -/

theorem lineAccepted_available {g : Board} {r : Bool} {layer : Option GraphicsLayer}
    {st : State} {line : BI_NetLine} (h : lineAccepted g r layer st line = true) :
    line ∈ st.availableNetLines := by
  simp only [lineAccepted, Bool.and_eq_true, decide_eq_true_eq] at h
  exact h.1.1

theorem lineAccepted_fresh {g : Board} {r : Bool} {layer : Option GraphicsLayer}
    {st : State} {line : BI_NetLine} (h : lineAccepted g r layer st line = true) :
    line ∉ st.netlines := by
  simp only [lineAccepted, Bool.and_eq_true, decide_eq_true_eq, Bool.not_eq_true',
    decide_eq_false_iff_not] at h
  exact h.1.2

theorem takeLine_perm {st : State} {line : BI_NetLine} (h : line ∈ st.availableNetLines) :
    ((takeLine st line).netlines ++ (takeLine st line).availableNetLines).Perm
      (st.netlines ++ st.availableNetLines) := by
  have h1 := (List.perm_cons_erase h).symm
  simp only [takeLine, List.append_assoc, List.singleton_append]
  exact List.Perm.append_left _ h1

theorem getOtherPoint_touches {g : Board} {line : BI_NetLine} {a p2 : BI_NetLineAnchor}
    (h : getOtherPoint g line a = some p2) :
    (g.getStartPoint line = a ∧ g.getEndPoint line = p2) ∨
      (g.getStartPoint line = p2 ∧ g.getEndPoint line = a) := by
  unfold getOtherPoint at h
  split_ifs at h with h1 h2
  · left; exact ⟨h1.symm, by simpa using h⟩
  · right; exact ⟨by simpa using h, h2.symm⟩

/-! ## Invariants of a run -/

theorem Run.perm_lines {g : Board} {mVias : List BI_Via} {c : Config} {st st' : State}
    (h : Run g mVias c st st') :
    (st'.netlines ++ st'.availableNetLines).Perm (st.netlines ++ st.availableNetLines) := by
  induction h with
  | visit _ _ _ ih => simpa [enterAnchor] using ih
  | done => exact List.Perm.refl _
  | skip _ _ ih => exact ih
  | seen hacc _ _ _ ih => exact ih.trans (takeLine_perm (lineAccepted_available hacc))
  | recurse hacc _ _ _ _ ih1 ih2 =>
    exact ih2.trans (ih1.trans (takeLine_perm (lineAccepted_available hacc)))

theorem Run.available_sublist {g : Board} {mVias : List BI_Via} {c : Config} {st st' : State}
    (h : Run g mVias c st st') : st'.availableNetLines.Sublist st.availableNetLines := by
  induction h with
  | visit _ _ _ ih => simpa [enterAnchor] using ih
  | done => exact List.Sublist.refl _
  | skip _ _ ih => exact ih
  | seen _ _ _ _ ih => exact ih.trans (List.erase_sublist _ _)
  | recurse _ _ _ _ _ ih1 ih2 => exact ih2.trans (ih1.trans (List.erase_sublist _ _))

theorem Run.netlines_subset {g : Board} {mVias : List BI_Via} {c : Config} {st st' : State}
    (h : Run g mVias c st st') : st.netlines ⊆ st'.netlines := by
  induction h with
  | visit _ _ _ ih => simpa [enterAnchor] using ih
  | done => exact List.Subset.refl _
  | skip _ _ ih => exact ih
  | seen _ _ _ _ ih =>
    exact fun x hx => ih (by simp [takeLine, hx])
  | recurse _ _ _ _ _ ih1 ih2 =>
    exact fun x hx => ih2 (ih1 (by simp [takeLine, hx]))

theorem Run.anchors_subset {g : Board} {mVias : List BI_Via} {c : Config} {st st' : State}
    (h : Run g mVias c st st') : st.anchors ⊆ st'.anchors := by
  induction h with
  | visit _ _ _ ih => exact fun x hx => ih (by simp [enterAnchor, hx])
  | done => exact List.Subset.refl _
  | skip _ _ ih => exact ih
  | seen _ _ _ _ ih => exact fun x hx => ih (by simpa [takeLine] using hx)
  | recurse _ _ _ _ _ ih1 ih2 => exact fun x hx => ih2 (ih1 (by simpa [takeLine] using hx))

theorem Run.anchors_eq {g : Board} {mVias : List BI_Via} {c : Config} {st st' : State}
    (h : Run g mVias c st st') (h0 : st.anchors = st.processedAnchors) :
    st'.anchors = st'.processedAnchors := by
  induction h with
  | visit _ _ _ ih => exact ih (by simp [enterAnchor, h0])
  | done => exact h0
  | skip _ _ ih => exact ih h0
  | seen _ _ _ _ ih => exact ih (by simpa [takeLine] using h0)
  | recurse _ _ _ _ _ ih1 ih2 => exact ih2 (ih1 (by simpa [takeLine] using h0))

theorem Run.anchors_nodup {g : Board} {mVias : List BI_Via} {c : Config} {st st' : State}
    (h : Run g mVias c st st') (h0 : st.anchors.Nodup) : st'.anchors.Nodup := by
  induction h with
  | visit _ hn _ ih =>
    apply ih
    simp only [enterAnchor]
    exact List.Nodup.append h0 (List.nodup_singleton _) (by simpa using hn)
  | done => exact h0
  | skip _ _ ih => exact ih h0
  | seen _ _ _ _ ih => exact ih (by simpa [takeLine] using h0)
  | recurse _ _ _ _ _ ih1 ih2 => exact ih2 (ih1 (by simpa [takeLine] using h0))

theorem Run.vias_diff {g : Board} {mVias : List BI_Via} {c : Config} {st st' : State}
    (h : Run g mVias c st st') (vias0 : List BI_Via)
    (h0 : st.availableVias = vias0.diff (inputVias mVias st.anchors)) :
    st'.availableVias = vias0.diff (inputVias mVias st'.anchors) := by
  induction h with
  | @visit anchor st st' _ _ _ ih =>
    apply ih
    simp only [enterAnchor, inputVias, List.filterMap_append, List.diff_append]
    rw [← inputVias, ← h0]
    cases anchor with
    | via v =>
      by_cases hv : v ∈ mVias
      · simp [hv, List.diff_cons]
      · simp [hv]
    | netPoint p => simp
    | footprintPad p => simp
  | done => exact h0
  | skip _ _ ih => exact ih h0
  | seen _ _ _ _ ih => exact ih (by simpa [takeLine] using h0)
  | recurse _ _ _ _ _ ih1 ih2 => exact ih2 (ih1 (by simpa [takeLine] using h0))

theorem Run.anchors_touch {g : Board} {mVias : List BI_Via} {c : Config} {st st' : State}
    (h : Run g mVias c st st') (pool : List BI_NetLine)
    (hsub : st.availableNetLines ⊆ pool)
    (h0 : ∀ b ∈ st.anchors, ∃ w ∈ pool, touches g w b) (hc : TouchPre g pool c) :
    ∀ b ∈ st'.anchors, ∃ w ∈ pool, touches g w b := by
  induction h with
  | @visit anchor st st' _ _ _ ih =>
    apply ih hsub _ trivial
    intro b hb
    simp only [enterAnchor, List.mem_append, List.mem_singleton] at hb
    rcases hb with hb | hb
    · exact h0 b hb
    · subst hb; exact hc
  | done => exact h0
  | skip _ _ ih => exact ih hsub h0 trivial
  | seen _ _ _ _ ih =>
    exact ih (fun x hx => hsub ((List.erase_sublist _ _).subset hx)) h0 trivial
  | @recurse anchor p2 r line rest layer st st2 st' hacc hp _ run1 _ ih1 ih2 =>
    have hsub1 : (takeLine st line).availableNetLines ⊆ pool :=
      fun x hx => hsub ((List.erase_sublist _ _).subset hx)
    have hline : line ∈ pool := hsub (lineAccepted_available hacc)
    have hp2 : TouchPre g pool (.visit p2) := by
      rcases getOtherPoint_touches hp with ⟨_, h2⟩ | ⟨h1, _⟩
      · exact ⟨line, hline, Or.inr h2⟩
      · exact ⟨line, hline, Or.inl h1⟩
    exact ih2 (fun x hx => hsub1 (run1.available_sublist.subset hx)) (ih1 hsub1 h0 hp2) trivial

theorem Run.closure {g : Board} {mVias : List BI_Via} {c : Config} {st st' : State}
    (h : Run g mVias c st st') (hnd : (st.netlines ++ st.availableNetLines).Nodup) :
    LoopClosed c st' ∧
      ∀ b ∈ st'.anchors, b ∉ st.anchors → isRemovedVia mVias b = false →
        ∀ w ∈ g.getNetLines b, w ∉ st'.availableNetLines := by
  induction h with
  | @visit anchor st st' _ _ _ ih =>
    obtain ⟨ih1, ih2⟩ := ih (by simpa [enterAnchor] using hnd)
    refine ⟨trivial, ?_⟩
    intro b hb hnb hr
    by_cases hba : b = anchor
    · subst hba; exact ih1 hr
    · exact ih2 b hb (by simpa [enterAnchor, hba] using hnb) hr
  | done =>
    exact ⟨fun _ w hw => by simp at hw, fun b hb hnb => absurd hb hnb⟩
  | @skip anchor r line rest layer st st' hacc run ih =>
    obtain ⟨ih1, ih2⟩ := ih hnd
    refine ⟨?_, ih2⟩
    intro hr w hw
    simp only [List.mem_cons] at hw
    rcases hw with hw | hw
    · subst hw
      intro hmem
      have hmem0 := run.available_sublist.subset hmem
      have hdisj := (List.nodup_append.1 hnd).2.2
      have : w ∈ st.netlines := by
        by_contra hn
        simp [lineAccepted, hr, hmem0, hn] at hacc
      exact hdisj this hmem0
    · exact ih1 hr w hw
  | @seen anchor p2 r line rest layer st st' hacc _ _ run ih =>
    have hnd1 : ((takeLine st line).netlines ++ (takeLine st line).availableNetLines).Nodup :=
      (takeLine_perm (lineAccepted_available hacc)).nodup_iff.2 hnd
    obtain ⟨ih1, ih2⟩ := ih hnd1
    refine ⟨?_, fun b hb hnb => ih2 b hb (by simpa [takeLine] using hnb)⟩
    intro hr w hw
    simp only [List.mem_cons] at hw
    rcases hw with hw | hw
    · subst hw
      intro hmem
      have hmem1 := run.available_sublist.subset hmem
      have hdisj := (List.nodup_append.1 hnd1).2.2
      exact hdisj (by simp [takeLine]) hmem1
    · exact ih1 hr w hw
  | @recurse anchor p2 r line rest layer st st2 st' hacc _ _ run1 run2 ih1 ih2 =>
    have hnd1 : ((takeLine st line).netlines ++ (takeLine st line).availableNetLines).Nodup :=
      (takeLine_perm (lineAccepted_available hacc)).nodup_iff.2 hnd
    have hnd2 : (st2.netlines ++ st2.availableNetLines).Nodup :=
      run1.perm_lines.nodup_iff.2 hnd1
    obtain ⟨_, ih12⟩ := ih1 hnd1
    obtain ⟨ih21, ih22⟩ := ih2 hnd2
    refine ⟨?_, ?_⟩
    · intro hr w hw
      simp only [List.mem_cons] at hw
      rcases hw with hw | hw
      · subst hw
        intro hmem
        have hmem1 := run1.available_sublist.subset (run2.available_sublist.subset hmem)
        have hdisj := (List.nodup_append.1 hnd1).2.2
        exact hdisj (by simp [takeLine]) hmem1
      · exact ih21 hr w hw
    · intro b hb hnb hr w hw
      by_cases hb2 : b ∈ st2.anchors
      · exact fun hmem =>
          ih12 b hb2 (by simpa [takeLine] using hnb) hr w hw (run2.available_sublist.subset hmem)
      · exact ih22 b hb hb2 hr w hw

theorem Run.endpoints {g : Board} {mVias : List BI_Via} {c : Config} {st st' : State}
    (h : Run g mVias c st st') (heq : st.anchors = st.processedAnchors)
    (hpre : EndsPre g c st) : EndsIn g st'.netlines st'.anchors := by
  induction h with
  | @visit anchor st st' _ _ _ ih =>
    apply ih (by simp [enterAnchor, heq])
    exact ⟨by simpa [enterAnchor] using hpre, by simp [enterAnchor]⟩
  | done => exact hpre.1
  | skip _ _ ih => exact ih heq hpre
  | @seen anchor p2 r line rest layer st st' hacc hp hmem _ ih =>
    apply ih (by simpa [takeLine] using heq)
    refine ⟨?_, by simpa [takeLine] using hpre.2⟩
    intro w hw
    simp only [takeLine, List.mem_append, List.mem_singleton] at hw
    rcases hw with hw | hw
    · exact hpre.1 w hw
    · subst hw
      have hp2 : p2 ∈ st.anchors := heq ▸ hmem
      rcases getOtherPoint_touches hp with ⟨h1, h2⟩ | ⟨h1, h2⟩
      · exact ⟨h1 ▸ hpre.2, h2 ▸ hp2⟩
      · exact ⟨h1 ▸ hp2, h2 ▸ hpre.2⟩
  | @recurse anchor p2 r line rest layer st st2 st' hacc hp hmem run1 _ ih1 ih2 =>
    have heq1 : (takeLine st line).anchors = (takeLine st line).processedAnchors := by
      simpa [takeLine] using heq
    have hpre1 : EndsPre g (.visit p2) (takeLine st line) := by
      intro w hw
      simp only [takeLine, List.mem_append, List.mem_singleton] at hw ⊢
      rcases hw with hw | hw
      · exact ⟨Or.inl (hpre.1 w hw).1, Or.inl (hpre.1 w hw).2⟩
      · subst hw
        rcases getOtherPoint_touches hp with ⟨h1, h2⟩ | ⟨h1, h2⟩
        · exact ⟨Or.inl (h1 ▸ hpre.2), Or.inr h2⟩
        · exact ⟨Or.inr h1, Or.inl (h2 ▸ hpre.2)⟩
    exact ih2 (run1.anchors_eq heq1)
      ⟨ih1 heq1 hpre1, run1.anchors_subset (by simpa [takeLine] using hpre.2)⟩

theorem Cover.takeLine {pool : List BI_NetLine} {st : State} (h : Cover pool st)
    (line : BI_NetLine) : Cover pool (takeLine st line) := by
  intro w hw
  simp only [LibrePCB.takeLine, List.mem_append, List.mem_singleton]
  by_cases hwl : w = line
  · exact Or.inr (Or.inr hwl)
  · rcases h w hw with h1 | h1
    · exact Or.inl ((List.mem_erase_of_ne hwl).2 h1)
    · exact Or.inr (Or.inl h1)

theorem Run.gather {g : Board} {mVias : List BI_Via} {c : Config} {st st' : State}
    (h : Run g mVias c st st') (pool : List BI_NetLine) (hcov : Cover pool st) :
    Cover pool st' ∧ LoopGathered pool c st' ∧
      ∀ b ∈ st'.anchors, b ∉ st.anchors → isRemovedVia mVias b = false →
        ∀ w ∈ g.getNetLines b, w ∈ pool → w ∈ st'.netlines := by
  induction h with
  | @visit anchor st st' _ _ _ ih =>
    obtain ⟨ih0, ih1, ih2⟩ := ih (by simpa [Cover, enterAnchor] using hcov)
    refine ⟨ih0, trivial, ?_⟩
    intro b hb hnb hr
    by_cases hba : b = anchor
    · subst hba; exact ih1 hr
    · exact ih2 b hb (by simpa [enterAnchor, hba] using hnb) hr
  | done =>
    exact ⟨hcov, fun _ w hw => by simp at hw, fun b hb hnb => absurd hb hnb⟩
  | @skip anchor r line rest layer st st' hacc run ih =>
    obtain ⟨ih0, ih1, ih2⟩ := ih hcov
    refine ⟨ih0, ?_, ih2⟩
    intro hr w hw hwp
    simp only [List.mem_cons] at hw
    rcases hw with hw | hw
    · subst hw
      apply run.netlines_subset
      by_contra hn
      rcases hcov w hwp with h1 | h1
      · simp [lineAccepted, hr, h1, hn] at hacc
      · exact hn h1
    · exact ih1 hr w hw hwp
  | @seen anchor p2 r line rest layer st st' hacc _ _ run ih =>
    obtain ⟨ih0, ih1, ih2⟩ := ih (hcov.takeLine line)
    refine ⟨ih0, ?_, fun b hb hnb => ih2 b hb (by simpa [takeLine] using hnb)⟩
    intro hr w hw hwp
    simp only [List.mem_cons] at hw
    rcases hw with hw | hw
    · subst hw; exact run.netlines_subset (by simp [takeLine])
    · exact ih1 hr w hw hwp
  | @recurse anchor p2 r line rest layer st st2 st' hacc _ _ run1 run2 ih1 ih2 =>
    obtain ⟨ih10, _, ih12⟩ := ih1 (hcov.takeLine line)
    obtain ⟨ih20, ih21, ih22⟩ := ih2 ih10
    refine ⟨ih20, ?_, ?_⟩
    · intro hr w hw hwp
      simp only [List.mem_cons] at hw
      rcases hw with hw | hw
      · subst hw
        exact run2.netlines_subset (run1.netlines_subset (by simp [takeLine]))
      · exact ih21 hr w hw hwp
    · intro b hb hnb hr w hw hwp
      by_cases hb2 : b ∈ st2.anchors
      · exact run2.netlines_subset
          (ih12 b hb2 (by simpa [takeLine] using hnb) hr w hw hwp)
      · exact ih22 b hb hb2 hr w hw hwp

/-! ## Paths inside a segment -/

theorem Joined.mono {g : Board} {ws ws' : List BI_NetLine} {a b : BI_NetLineAnchor}
    (hsub : ws ⊆ ws') (h : Joined g ws a b) : Joined g ws' a b :=
  Relation.ReflTransGen.mono (fun _ _ ⟨w, hw, hab⟩ => ⟨w, hsub hw, hab⟩) h

theorem Joined.symm {g : Board} {ws : List BI_NetLine} {a b : BI_NetLineAnchor}
    (h : Joined g ws a b) : Joined g ws b a := by
  have hs : Symmetric (Adjacent g ws) := fun _ _ ⟨w, hw, hab⟩ => ⟨w, hw, hab.symm⟩
  exact Relation.ReflTransGen.symmetric hs h

theorem Joined.step {g : Board} {ws : List BI_NetLine} {root a p2 : BI_NetLineAnchor}
    {line : BI_NetLine} (hroot : Joined g ws root a) (hline : line ∈ ws)
    (hp : getOtherPoint g line a = some p2) : Joined g ws root p2 :=
  Relation.ReflTransGen.tail hroot ⟨line, hline, getOtherPoint_touches hp⟩

theorem Run.joined {g : Board} {mVias : List BI_Via} {c : Config} {st st' : State}
    (h : Run g mVias c st st') (root : BI_NetLineAnchor)
    (h0 : AllJoined g root st) (hpre : JoinedPre g root c st) : AllJoined g root st' := by
  induction h with
  | @visit anchor st st' _ _ _ ih =>
    apply ih
    · intro b hb
      simp only [enterAnchor, List.mem_append, List.mem_singleton] at hb ⊢
      rcases hb with hb | hb
      · exact h0 b hb
      · subst hb; exact hpre
    · simp [JoinedPre, enterAnchor]
  | done => exact h0
  | skip _ _ ih => exact ih h0 hpre
  | @seen anchor p2 r line rest layer st st' _ _ _ _ ih =>
    apply ih
    · intro b hb
      exact Joined.mono (by simp [takeLine]) (h0 b (by simpa [takeLine] using hb))
    · simpa [JoinedPre, takeLine] using hpre
  | @recurse anchor p2 r line rest layer st st2 st' _ hp _ run1 _ ih1 ih2 =>
    have hmono : st.netlines ⊆ (takeLine st line).netlines := by simp [takeLine]
    have h1 : AllJoined g root (takeLine st line) := fun b hb =>
      Joined.mono hmono (h0 b (by simpa [takeLine] using hb))
    have hp2 : JoinedPre g root (.visit p2) (takeLine st line) :=
      Joined.step (Joined.mono hmono (h0 anchor hpre)) (by simp [takeLine]) hp
    exact ih2 (ih1 h1 hp2) (run1.anchors_subset (by simpa [takeLine] using hpre))

/-! ## Progress and termination -/

theorem Run.netlines_length {g : Board} {mVias : List BI_Via} {c : Config} {st st' : State}
    (h : Run g mVias c st st') : st.netlines.length ≤ st'.netlines.length := by
  induction h with
  | visit _ _ _ ih => simpa [enterAnchor] using ih
  | done => exact Nat.le_refl _
  | skip _ _ ih => exact ih
  | seen _ _ _ _ ih => simp only [takeLine, List.length_append] at ih; omega
  | recurse _ _ _ _ _ ih1 ih2 => simp only [takeLine, List.length_append] at ih1; omega

theorem Run.progress {g : Board} {mVias : List BI_Via} {c : Config} {st st' : State}
    (h : Run g mVias c st st') :
    ∀ anchor r lines, c = .lines anchor r lines none →
      (∃ w ∈ lines, w ∈ st.availableNetLines ∧ w ∉ st.netlines) →
      st.netlines.length < st'.netlines.length := by
  induction h with
  | visit _ _ _ _ => intro anchor r lines hc; cases hc
  | done =>
    intro anchor r lines hc hex
    cases hc
    obtain ⟨w, hw, _⟩ := hex
    simp at hw
  | @skip anchor r line rest layer st st' hacc _ ih =>
    intro anchor0 r0 lines0 hc hex
    cases hc
    apply ih anchor r rest rfl
    obtain ⟨w, hw, hav, hfresh⟩ := hex
    simp only [List.mem_cons] at hw
    rcases hw with hw | hw
    · subst hw
      simp [lineAccepted, hav, hfresh] at hacc
    · exact ⟨w, hw, hav, hfresh⟩
  | @seen anchor p2 r line rest layer st st' _ _ _ run _ =>
    intro anchor0 r0 lines0 _ _
    have := run.netlines_length
    simp only [takeLine, List.length_append, List.length_singleton] at this
    omega
  | @recurse anchor p2 r line rest layer st st2 st' _ _ _ run1 run2 _ _ =>
    intro anchor0 r0 lines0 _ _
    have h1 := run1.netlines_length
    have h2 := run2.netlines_length
    simp only [takeLine, List.length_append, List.length_singleton] at h1
    omega

theorem getOtherPoint_isSome {g : Board} {line : BI_NetLine} {a : BI_NetLineAnchor}
    (h : touches g line a) : ∃ p2, getOtherPoint g line a = some p2 := by
  unfold getOtherPoint
  rcases h with h | h
  · exact ⟨_, by rw [if_pos h.symm]⟩
  · by_cases h1 : a = g.getStartPoint line
    · exact ⟨_, by rw [if_pos h1]⟩
    · exact ⟨_, by rw [if_neg h1, if_pos h.symm]⟩

theorem visitNetLines_ok (g : Board) (mVias : List BI_Via) (pool : List BI_NetLine)
    (fuel : Nat) (anchor : BI_NetLineAnchor) (r : Bool)
    (hinc : ∀ w ∈ g.getNetLines anchor, w ∈ pool → touches g w anchor)
    (hrec : ∀ (a : BI_NetLineAnchor) (s : State), s.availableNetLines.length < fuel →
      s.availableNetLines ⊆ pool → s.anchors = s.processedAnchors →
      a ∉ s.processedAnchors → ∃ s', findConnectedLinesAndPoints g mVias fuel a s = .ok s') :
    ∀ (lines : List BI_NetLine) (layer : Option GraphicsLayer) (st : State),
      lines ⊆ g.getNetLines anchor → st.availableNetLines.length < fuel + 1 →
      st.availableNetLines ⊆ pool → st.anchors = st.processedAnchors →
      ∃ st', visitNetLines g (findConnectedLinesAndPoints g mVias fuel) anchor r lines
        layer st = .ok st' := by
  intro lines
  induction lines with
  | nil => intro layer st _ _ _ _; exact ⟨st, rfl⟩
  | cons line rest ih =>
    intro layer st hlines hlen hsub heq
    have hrest : rest ⊆ g.getNetLines anchor := fun x hx => hlines (List.mem_cons_of_mem _ hx)
    rw [visitNetLines]
    by_cases hacc : lineAccepted g r layer st line = true
    · rw [if_pos hacc]
      have hav := lineAccepted_available hacc
      obtain ⟨p2, hp⟩ :=
        getOtherPoint_isSome (hinc line (hlines (List.mem_cons_self _ _)) (hsub hav))
      rw [hp]
      have hlen1 : (takeLine st line).availableNetLines.length < fuel := by
        simp only [takeLine, List.length_erase_of_mem hav]
        have := List.length_pos_of_mem hav
        omega
      have hsub1 : (takeLine st line).availableNetLines ⊆ pool :=
        fun x hx => hsub ((List.erase_sublist _ _).subset hx)
      have heq1 : (takeLine st line).anchors = (takeLine st line).processedAnchors := by
        simpa [takeLine] using heq
      simp only
      by_cases hmem : p2 ∈ (takeLine st line).processedAnchors
      · rw [if_pos hmem]
        exact ih _ _ hrest (by omega) hsub1 heq1
      · rw [if_neg hmem]
        obtain ⟨st2, h2⟩ := hrec p2 _ hlen1 hsub1 heq1 hmem
        rw [h2]
        have run := run_of_findConnectedLinesAndPoints g mVias _ _ _ _ h2
        have hle := run.available_sublist.length_le
        exact ih _ _ hrest (by omega)
          (fun x hx => hsub1 (run.available_sublist.subset hx)) (run.anchors_eq heq1)
    · rw [if_neg hacc]
      exact ih _ _ hrest hlen hsub heq

theorem findConnectedLinesAndPoints_ok (g : Board) (mVias : List BI_Via)
    (pool : List BI_NetLine)
    (hinc : ∀ a, ∀ w ∈ g.getNetLines a, w ∈ pool → touches g w a) :
    ∀ (fuel : Nat) (anchor : BI_NetLineAnchor) (st : State),
      st.availableNetLines.length < fuel → st.availableNetLines ⊆ pool →
      st.anchors = st.processedAnchors → anchor ∉ st.processedAnchors →
      ∃ st', findConnectedLinesAndPoints g mVias fuel anchor st = .ok st' := by
  intro fuel
  induction fuel with
  | zero => intro anchor st h; omega
  | succ fuel ih =>
    intro anchor st hlen hsub heq hnew
    rw [findConnectedLinesAndPoints, if_neg hnew, if_neg (heq ▸ hnew)]
    exact visitNetLines_ok g mVias pool fuel anchor _ (hinc anchor) ih _ _ _
      (List.Subset.refl _) (by simpa [enterAnchor] using hlen)
      (by simpa [enterAnchor] using hsub) (by simp [enterAnchor, heq])

/-! ## One iteration of the loop of `split` -/

theorem inputVias_append (mVias : List BI_Via) (as bs : List BI_NetLineAnchor) :
    inputVias mVias (as ++ bs) = inputVias mVias as ++ inputVias mVias bs := by
  simp [inputVias, List.filterMap_append]

theorem mem_inputVias {mVias : List BI_Via} {as : List BI_NetLineAnchor} {v : BI_Via} :
    v ∈ inputVias mVias as ↔ .via v ∈ as ∧ v ∈ mVias := by
  simp only [inputVias, List.mem_filterMap]
  constructor
  · rintro ⟨a, ha, h⟩
    cases a with
    | via u =>
      by_cases hu : u ∈ mVias
      · simp only [hu, if_true, Option.some.injEq] at h
        subst h; exact ⟨ha, hu⟩
      · simp [hu] at h
    | netPoint p => simp at h
    | footprintPad p => simp at h
  · rintro ⟨ha, hv⟩
    exact ⟨.via v, ha, by simp [hv]⟩

theorem iteration_spec {g : Board} (mVias : List BI_Via) {mNetLines : List BI_NetLine}
    (hwf : WellFormed g mNetLines) (vias : List BI_Via) (first : BI_NetLine)
    (pool : List BI_NetLine) (hsub : first :: pool ⊆ mNetLines) (fuel : Nat)
    (hfuel : (first :: pool).length < fuel) :
    ∃ st, findConnectedLinesAndPoints g mVias fuel (g.getStartPoint first)
        (startState vias (first :: pool)) = .ok st ∧
      Run g mVias (.visit (g.getStartPoint first)) (startState vias (first :: pool)) st ∧
      st.netlines ≠ [] ∧ st.availableNetLines.length < (first :: pool).length := by
  obtain ⟨st, hst⟩ := findConnectedLinesAndPoints_ok g mVias mNetLines hwf.incident fuel
    (g.getStartPoint first) (startState vias (first :: pool)) hfuel hsub rfl
    (by simp [startState])
  have run := run_of_findConnectedLinesAndPoints g mVias _ _ _ _ hst
  have hpos : 0 < st.netlines.length := by
    cases run with
    | visit _ _ run1 =>
      have := run1.progress _ _ _ rfl
        ⟨first, (hwf.listed first (hsub (List.mem_cons_self _ _))).1,
          by simp [enterAnchor, startState], by simp [enterAnchor, startState]⟩
      omega
  have hlen := run.perm_lines.length_eq
  simp only [startState, List.length_append, List.length_nil, Nat.zero_add] at hlen
  refine ⟨st, hst, run, List.ne_nil_of_length_pos hpos, ?_⟩
  omega

theorem two_le_length_of_mem {α : Type} {l : List α} {a b : α} (ha : a ∈ l) (hb : b ∈ l)
    (hab : a ≠ b) : 2 ≤ l.length := by
  match l, ha, hb with
  | [x], ha, hb =>
    simp only [List.mem_singleton] at ha hb
    exact absurd (ha.trans hb.symm) hab
  | _ :: _ :: _, _, _ => simp

theorem splitLoop_spec {g : Board} (mVias : List BI_Via) {mNetLines : List BI_NetLine}
    (hwf : WellFormed g mNetLines) (fuel : Nat) (hfuel : mNetLines.length < fuel) :
    ∀ (count : Nat) (segs : List Segment) (vias : List BI_Via) (pool : List BI_NetLine),
      pool.length ≤ count → LoopInv g mVias mNetLines segs vias pool →
      ∃ segs' vias', splitLoop g mVias fuel count segs vias pool = .ok (segs', vias') ∧
        LoopInv g mVias mNetLines segs' vias' [] := by
  intro count
  induction count with
  | zero =>
    intro segs vias pool hlen hinv
    have : pool = [] := List.eq_nil_of_length_eq_zero (by omega)
    subst this
    exact ⟨segs, vias, by simp [splitLoop], hinv⟩
  | succ count ih =>
    intro segs vias pool hlen hinv
    cases pool with
    | nil => exact ⟨segs, vias, by simp [splitLoop], hinv⟩
    | cons first pool =>
      have hsub : first :: pool ⊆ mNetLines :=
        fun x hx => hinv.perm.subset (List.mem_append_right _ hx)
      have hplen : (first :: pool).length ≤ mNetLines.length := by
        have := hinv.perm.length_eq
        simp only [List.length_append] at this
        omega
      obtain ⟨st, hst, run, hne, hdec⟩ :=
        iteration_spec mVias hwf vias first pool hsub fuel (by omega)
      have htouch : ∀ b ∈ st.anchors, ∃ w ∈ first :: pool, touches g w b :=
        run.anchors_touch (first :: pool) (by simp [startState])
          (by simp [startState]) ⟨first, List.mem_cons_self _ _, Or.inl rfl⟩
      have hjoin : AllJoined g (g.getStartPoint first) st :=
        run.joined _ (by simp [AllJoined, startState]) Relation.ReflTransGen.refl
      have hseg : SegOK g mNetLines ⟨st.anchors, st.netlines⟩ :=
        { nodup := run.anchors_nodup (by simp [startState])
          nonempty := hne
          ends := run.endpoints rfl (by simp [EndsPre, EndsIn, startState])
          joined := fun a ha b hb => (hjoin a ha).symm.trans (hjoin b hb)
          touch := fun b hb => by
            obtain ⟨w, hw, ht⟩ := htouch b hb
            exact ⟨w, hsub hw, ht⟩ }
      have hgather := run.gather (first :: pool)
        (fun w hw => Or.inl (by simpa [startState] using hw))
      have hinv' : LoopInv g mVias mNetLines (segs ++ [⟨st.anchors, st.netlines⟩])
          st.availableVias st.availableNetLines :=
        { perm := by
            have h1 := run.perm_lines
            simp only [startState, List.nil_append] at h1
            simp only [List.flatMap_append, List.flatMap_singleton, List.append_assoc]
            exact (List.Perm.append_left _ h1).trans hinv.perm
          vias_eq := by
            simp only [List.flatMap_append, List.flatMap_singleton, inputVias_append,
              List.diff_append]
            rw [← hinv.vias_eq]
            exact run.vias_diff vias (by simp [startState, inputVias])
          segOK := by
            intro s hs
            simp only [List.mem_append, List.mem_singleton] at hs
            rcases hs with hs | hs
            · exact hinv.segOK s hs
            · subst hs; exact hseg
          closed := by
            intro hnd s hs b hb hr w hw
            simp only [List.mem_append, List.mem_singleton] at hs
            have hw0 : w ∈ first :: pool := by
              simpa [startState] using run.available_sublist.subset hw
            rcases hs with hs | hs
            · exact hinv.closed hnd s hs b hb hr w hw0
            · subst hs
              intro ht
              have hndp : (first :: pool).Nodup :=
                (List.nodup_append.1 (hinv.perm.nodup_iff.2 hnd)).2.1
              have hcl := (run.closure (by simpa [startState] using hndp)).2 b hb
                (by simp [startState]) hr
              have hl := hwf.listed w (hsub hw0)
              rcases ht with ht | ht
              · exact hcl w (ht ▸ hl.1) hw
              · exact hcl w (ht ▸ hl.2) hw
          apart := by
            intro hnd
            refine List.pairwise_append.2 ⟨hinv.apart hnd, List.pairwise_singleton _ _, ?_⟩
            intro s hs t ht a has hat
            simp only [List.mem_singleton] at ht
            subst ht
            by_contra hr
            obtain ⟨w, hw, htw⟩ := htouch a hat
            exact hinv.closed hnd s hs a has (by simpa using hr) w hw htw
          fresh := by
            intro a hr hnone w hw ht
            have hwp : w ∈ first :: pool :=
              hinv.fresh a hr (fun s hs => hnone s (List.mem_append_left _ hs)) w hw ht
            rcases hgather.1 w hwp with h1 | h1
            · exact h1
            · have ha : a ∈ st.anchors := by
                rcases ht with ht | ht
                · exact ht ▸ (hseg.ends w h1).1
                · exact ht ▸ (hseg.ends w h1).2
              exact absurd ha
                (hnone ⟨st.anchors, st.netlines⟩ (List.mem_append_right _ (List.mem_singleton_self _)))
          gathered := by
            intro a hr hex
            by_cases hold : ∃ s ∈ segs, a ∈ s.anchors
            · obtain ⟨s, hs, hall⟩ := hinv.gathered a hr hold
              exact ⟨s, List.mem_append_left _ hs, hall⟩
            · obtain ⟨s, hs, has⟩ := hex
              simp only [List.mem_append, List.mem_singleton] at hs
              rcases hs with hs | hs
              · exact absurd ⟨s, hs, has⟩ hold
              · subst hs
                refine ⟨⟨st.anchors, st.netlines⟩,
                  List.mem_append_right _ (List.mem_singleton_self _), ?_⟩
                intro w hw ht
                have hwp : w ∈ first :: pool :=
                  hinv.fresh a hr (fun s hs has => hold ⟨s, hs, has⟩) w hw ht
                have hl := hwf.listed w hw
                have hwa : w ∈ g.getNetLines a := by
                  rcases ht with ht | ht
                  · exact ht ▸ hl.1
                  · exact ht ▸ hl.2
                exact hgather.2.2 a has (by simp [startState]) hr w hwa hwp }
      obtain ⟨segs', vias', hloop, hfin⟩ := ih _ _ _ (by simp only [List.length_cons] at hlen hdec; omega) hinv'
      refine ⟨segs', vias', ?_, hfin⟩
      rw [splitLoop, hst]
      exact hloop

theorem split_spec {g : Board} (mVias : List BI_Via) {mNetLines : List BI_NetLine}
    (hwf : WellFormed g mNetLines) (fuel : Nat) (hfuel : mNetLines.length < fuel) :
    ∃ segs vias, split g mVias mNetLines fuel = .ok (segs ++ vias.map viaSegment) ∧
      LoopInv g mVias mNetLines segs vias [] := by
  obtain ⟨segs, vias, hloop, hinv⟩ :=
    splitLoop_spec mVias hwf fuel hfuel fuel [] mVias mNetLines (by omega)
      { perm := by simp
        vias_eq := by simp [inputVias]
        segOK := by simp
        closed := by simp
        apart := by simp
        fresh := fun _ _ _ w hw _ => hw
        gathered := by simp }
  exact ⟨segs, vias, by simp [split, hloop], hinv⟩

/-! ## Auxiliary facts about lists of segments -/

theorem countP_eq_one_of_count {α β : Type} [DecidableEq β] (f : α → List β) (x : β) :
    ∀ L : List α, (L.flatMap f).count x = 1 → L.countP (fun s => decide (x ∈ f s)) = 1 := by
  intro L
  induction L with
  | nil => intro h; simp at h
  | cons s t ih =>
    intro h
    simp only [List.flatMap_cons, List.count_append] at h
    by_cases hx : x ∈ f s
    · have h1 : 0 < (f s).count x := List.count_pos_iff.2 hx
      have h2 : (t.flatMap f).count x = 0 := by omega
      have h3 : x ∉ t.flatMap f := List.count_eq_zero.1 h2
      have h4 : t.countP (fun s => decide (x ∈ f s)) = 0 := by
        rw [List.countP_eq_zero]
        intro a ha hxa
        exact h3 (List.mem_flatMap.2 ⟨a, ha, by simpa using hxa⟩)
      rw [List.countP_cons_of_pos _ _ (by simpa using hx), h4]
    · have h1 : (f s).count x = 0 := List.count_eq_zero.2 hx
      rw [List.countP_cons_of_neg _ _ (by simpa using hx)]
      exact ih (by omega)

theorem flatMap_netlines_viaSegment (vias : List BI_Via) :
    (vias.map viaSegment).flatMap Segment.netlines = [] := by
  induction vias with
  | nil => rfl
  | cons v t ih => simp [viaSegment]

theorem flatMap_anchors_viaSegment (vias : List BI_Via) :
    (vias.map viaSegment).flatMap Segment.anchors = vias.map BI_NetLineAnchor.via := by
  induction vias with
  | nil => rfl
  | cons v t ih => simpa [viaSegment] using ih

theorem count_anchor_le_one {mVias : List BI_Via} {a : BI_NetLineAnchor}
    (hr : isRemovedVia mVias a = false) :
    ∀ segs : List Segment, (∀ s ∈ segs, s.anchors.Nodup) → segs.Pairwise (Apart mVias) →
      (segs.flatMap Segment.anchors).count a ≤ 1 := by
  intro segs
  induction segs with
  | nil => intro _ _; simp
  | cons s t ih =>
    intro hnd hpw
    have hpw' := List.pairwise_cons.1 hpw
    have iht := ih (fun x hx => hnd x (List.mem_cons_of_mem _ hx)) hpw'.2
    simp only [List.flatMap_cons, List.count_append]
    by_cases ha : a ∈ s.anchors
    · have h1 := List.count_eq_one_of_mem (hnd s (List.mem_cons_self _ _)) ha
      have h2 : (t.flatMap Segment.anchors).count a = 0 := by
        rw [List.count_eq_zero]
        intro hmem
        obtain ⟨x, hx, hax⟩ := List.mem_flatMap.1 hmem
        have := hpw'.1 x hx a ha hax
        rw [hr] at this
        cases this
      omega
    · have h1 : s.anchors.count a = 0 := List.count_eq_zero.2 ha
      omega

theorem scenario2_wellFormed (fromVia1 fromVia2 : Bool) :
    WellFormed (scenario2 fromVia1 fromVia2) [1, 2] := by
  refine ⟨?_, ?_, ?_⟩
  · intro w hw
    simp only [List.mem_cons, List.mem_singleton, List.not_mem_nil, or_false] at hw
    rcases hw with rfl | rfl <;> cases fromVia1 <;> cases fromVia2 <;> simp [scenario2]
  · intro w hw
    simp only [List.mem_cons, List.mem_singleton, List.not_mem_nil, or_false] at hw
    rcases hw with rfl | rfl <;> cases fromVia1 <;> cases fromVia2 <;> simp [scenario2]
  · intro a w hw hin
    simp only [List.mem_cons, List.mem_singleton, List.not_mem_nil, or_false] at hin
    simp only [scenario2] at hw
    split_ifs at hw with h1 h2 h3
    · subst h1
      rcases hin with rfl | rfl <;> cases fromVia1 <;> cases fromVia2 <;>
        simp [scenario2, touches]
    · subst h2
      simp only [List.mem_singleton] at hw
      subst hw
      cases fromVia1 <;> simp [scenario2, touches]
    · subst h3
      simp only [List.mem_singleton] at hw
      subst hw
      cases fromVia2 <;> simp [scenario2, touches]
    · simp at hw

/-! ## The claims about `split` -/

/-- C1: on a well-formed graph and for duplicate-free input net lines `split` returns, and
the wire lists of the returned segments partition the input wires: their concatenation is
a permutation of the input, every input wire lies in the wire list of exactly one
returned segment, and every wire of a returned segment is an input wire. -/
theorem split_netlines_partition (g : Board) (mVias : List BI_Via)
    (mNetLines : List BI_NetLine) (fuel : Nat) (hwf : WellFormed g mNetLines)
    (hnd : mNetLines.Nodup) (hfuel : mNetLines.length < fuel) :
    ∃ segs, split g mVias mNetLines fuel = .ok segs ∧
      (segs.flatMap Segment.netlines).Perm mNetLines ∧
      (∀ w ∈ mNetLines, segs.countP (fun s => decide (w ∈ s.netlines)) = 1) ∧
      ∀ s ∈ segs, ∀ w ∈ s.netlines, w ∈ mNetLines := by
  obtain ⟨segs, vias, hsplit, hinv⟩ := split_spec mVias hwf fuel hfuel
  have hperm : ((segs ++ vias.map viaSegment).flatMap Segment.netlines).Perm mNetLines := by
    have := hinv.perm
    simpa [List.flatMap_append, flatMap_netlines_viaSegment] using this
  refine ⟨_, hsplit, hperm, ?_, ?_⟩
  · intro w hw
    apply countP_eq_one_of_count
    rw [hperm.count_eq]
    exact List.count_eq_one_of_mem hnd hw
  · intro s hs w hw
    exact hperm.subset (List.mem_flatMap.2 ⟨s, hs, hw⟩)

/-- Witness of C1 on the board of scenario 2. -/
theorem split_netlines_partition_witness :
    ∃ segs, split (scenario2 true true) [] [1, 2] 3 = .ok segs ∧
      (segs.flatMap Segment.netlines).Perm [1, 2] ∧
      (∀ w ∈ [1, 2], segs.countP (fun s => decide (w ∈ s.netlines)) = 1) ∧
      ∀ s ∈ segs, ∀ w ∈ s.netlines, w ∈ [1, 2] :=
  split_netlines_partition (scenario2 true true) [] [1, 2] 3 (scenario2_wellFormed true true)
    (by decide) (by decide)

/-- C2: on a well-formed graph and for duplicate-free input every via of the input via set
occurs exactly once among the anchors of all returned segments, hence in the anchor list
of exactly one returned segment and only once in it. -/
theorem split_vias_partition (g : Board) (mVias : List BI_Via)
    (mNetLines : List BI_NetLine) (fuel : Nat) (hwf : WellFormed g mNetLines)
    (hndv : mVias.Nodup) (hnd : mNetLines.Nodup) (hfuel : mNetLines.length < fuel) :
    ∃ segs, split g mVias mNetLines fuel = .ok segs ∧
      ∀ v ∈ mVias, (segs.flatMap Segment.anchors).count (.via v) = 1 ∧
        segs.countP (fun s => decide (BI_NetLineAnchor.via v ∈ s.anchors)) = 1 := by
  obtain ⟨segs, vias, hsplit, hinv⟩ := split_spec mVias hwf fuel hfuel
  refine ⟨_, hsplit, ?_⟩
  intro v hv
  have hcount : ((segs ++ vias.map viaSegment).flatMap Segment.anchors).count (.via v) = 1 := by
    have hr : isRemovedVia mVias (.via v) = false := by simp [isRemovedVia, hv]
    have hle := count_anchor_le_one hr segs (fun s hs => (hinv.segOK s hs).nodup)
      (hinv.apart hnd)
    have hinj : Function.Injective BI_NetLineAnchor.via := fun _ _ h => by cases h; rfl
    have hvnd : vias.Nodup := hinv.vias_eq ▸ (List.diff_sublist _ _).nodup hndv
    rw [List.flatMap_append, flatMap_anchors_viaSegment, List.count_append,
      List.count_map_of_injective _ _ hinj]
    by_cases hmem : BI_NetLineAnchor.via v ∈ segs.flatMap Segment.anchors
    · have h1 : 0 < (segs.flatMap Segment.anchors).count (.via v) := List.count_pos_iff.2 hmem
      have h2 : v ∉ vias := by
        rw [hinv.vias_eq, hndv.mem_diff_iff]
        exact fun h => h.2 (mem_inputVias.2 ⟨hmem, hv⟩)
      have h3 : vias.count v = 0 := List.count_eq_zero.2 h2
      omega
    · have h1 : (segs.flatMap Segment.anchors).count (.via v) = 0 := List.count_eq_zero.2 hmem
      have h2 : v ∈ vias := by
        rw [hinv.vias_eq, hndv.mem_diff_iff]
        exact ⟨hv, fun h => hmem (mem_inputVias.1 h).1⟩
      have h3 := List.count_eq_one_of_mem hvnd h2
      omega
  exact ⟨hcount, countP_eq_one_of_count _ _ _ hcount⟩

/-- Witness of C2 on the board of scenario 2, with the via `0` and an isolated via `7` as
input vias. -/
theorem split_vias_partition_witness :
    ∃ segs, split (scenario2 true false) [0, 7] [1, 2] 3 = .ok segs ∧
      ∀ v ∈ [0, 7], (segs.flatMap Segment.anchors).count (.via v) = 1 ∧
        segs.countP (fun s => decide (BI_NetLineAnchor.via v ∈ s.anchors)) = 1 :=
  split_vias_partition (scenario2 true false) [0, 7] [1, 2] 3 (scenario2_wellFormed true false)
    (by decide) (by decide) (by decide)

/-- Counterexample to C3 as stated: on the board of scenario 2 with no input via the two
returned segments both contain the via `0`, so their anchor lists are not disjoint. -/
theorem split_shares_removed_via :
    ∃ segs, split (scenario2 true true) [] [1, 2] 3 = .ok segs ∧
      ¬ segs.Pairwise (fun s t => s.anchors.Disjoint t.anchors ∧
          s.netlines.Disjoint t.netlines) := by
  refine ⟨[⟨[.via 0, .netPoint 1], [1]⟩, ⟨[.via 0, .netPoint 2], [2]⟩], by decide, ?_⟩
  intro h
  have h1 := (List.pairwise_cons.1 h).1 ⟨[.via 0, .netPoint 2], [2]⟩ (by simp)
  exact h1.1 (List.mem_cons_self (BI_NetLineAnchor.via 0) _) (List.mem_cons_self _ _)

/-- C3 (amended): on a well-formed graph and for duplicate-free input no two distinct
returned segments share a wire, and an anchor that two distinct returned segments share is
a via outside the input via set. -/
theorem split_segments_apart (g : Board) (mVias : List BI_Via)
    (mNetLines : List BI_NetLine) (fuel : Nat) (hwf : WellFormed g mNetLines)
    (hndv : mVias.Nodup) (hnd : mNetLines.Nodup) (hfuel : mNetLines.length < fuel) :
    ∃ segs, split g mVias mNetLines fuel = .ok segs ∧
      segs.Pairwise (fun s t => s.netlines.Disjoint t.netlines ∧
        ∀ a ∈ s.anchors, a ∈ t.anchors → isRemovedVia mVias a = true) := by
  obtain ⟨segs, vias, hsplit, hinv⟩ := split_spec mVias hwf fuel hfuel
  refine ⟨_, hsplit, List.Pairwise.and ?_ ?_⟩
  · have hperm : ((segs ++ vias.map viaSegment).flatMap Segment.netlines).Perm mNetLines := by
      have := hinv.perm
      simpa [List.flatMap_append, flatMap_netlines_viaSegment] using this
    exact (List.nodup_flatMap.1 (hperm.nodup_iff.2 hnd)).2
  · have hvnd : vias.Nodup := hinv.vias_eq ▸ (List.diff_sublist _ _).nodup hndv
    refine List.pairwise_append.2 ⟨hinv.apart hnd, ?_, ?_⟩
    · rw [List.pairwise_map]
      refine List.Pairwise.imp ?_ hvnd
      intro v1 v2 hne a h1 h2
      simp only [viaSegment, List.mem_singleton] at h1 h2
      exact absurd (BI_NetLineAnchor.via.inj (h1.symm.trans h2)) hne
    · intro s hs t ht a has hat
      obtain ⟨v, hv, rfl⟩ := List.mem_map.1 ht
      simp only [viaSegment, List.mem_singleton] at hat
      subst hat
      rw [hinv.vias_eq, hndv.mem_diff_iff] at hv
      exact absurd (mem_inputVias.2 ⟨List.mem_flatMap.2 ⟨s, hs, has⟩, hv.1⟩) hv.2

/-- Witness of the amended C3 on the board of scenario 2. -/
theorem split_segments_apart_witness :
    ∃ segs, split (scenario2 true true) [] [1, 2] 3 = .ok segs ∧
      segs.Pairwise (fun s t => s.netlines.Disjoint t.netlines ∧
        ∀ a ∈ s.anchors, a ∈ t.anchors → isRemovedVia [] a = true) :=
  split_segments_apart (scenario2 true true) [] [1, 2] 3 (scenario2_wellFormed true true)
    (by decide) (by decide) (by decide)

theorem splitLoop_forall (g : Board) (mVias : List BI_Via) (fuel : Nat) (P : Segment → Prop)
    (hP : ∀ vias first pool st,
      Run g mVias (.visit (g.getStartPoint first)) (startState vias (first :: pool)) st →
      P ⟨st.anchors, st.netlines⟩) :
    ∀ (count : Nat) (segs : List Segment) (vias : List BI_Via) (pool : List BI_NetLine)
      (res : List Segment × List BI_Via),
      splitLoop g mVias fuel count segs vias pool = .ok res →
      (∀ s ∈ segs, P s) → ∀ s ∈ res.1, P s := by
  intro count
  induction count with
  | zero =>
    intro segs vias pool res h hsegs
    cases pool with
    | nil =>
      simp only [splitLoop, Outcome.ok.injEq] at h
      subst h; exact hsegs
    | cons first pool => simp [splitLoop] at h
  | succ count ih =>
    intro segs vias pool res h hsegs
    cases pool with
    | nil =>
      simp only [splitLoop, Outcome.ok.injEq] at h
      subst h; exact hsegs
    | cons first pool =>
      rw [splitLoop] at h
      cases hst : findConnectedLinesAndPoints g mVias fuel (g.getStartPoint first)
          (startState vias (first :: pool)) with
      | ok st =>
        rw [hst] at h
        apply ih _ _ _ _ h
        intro s hs
        simp only [List.mem_append, List.mem_singleton] at hs
        rcases hs with hs | hs
        · exact hsegs s hs
        · subst hs
          exact hP _ _ _ _ (run_of_findConnectedLinesAndPoints g mVias _ _ _ _ hst)
      | assertFailed => rw [hst] at h; cases h
      | outOfFuel => rw [hst] at h; cases h

theorem split_forall (g : Board) (mVias : List BI_Via) (mNetLines : List BI_NetLine)
    (fuel : Nat) (P : Segment → Prop)
    (hP : ∀ vias first pool st,
      Run g mVias (.visit (g.getStartPoint first)) (startState vias (first :: pool)) st →
      P ⟨st.anchors, st.netlines⟩)
    (hvia : ∀ v, P (viaSegment v)) (segs : List Segment)
    (h : split g mVias mNetLines fuel = .ok segs) : ∀ s ∈ segs, P s := by
  unfold split at h
  cases hloop : splitLoop g mVias fuel fuel [] mVias mNetLines with
  | ok res =>
    rw [hloop] at h
    obtain ⟨wsegs, vias⟩ := res
    simp only [Outcome.ok.injEq] at h
    subst h
    intro s hs
    simp only [List.mem_append, List.mem_map] at hs
    rcases hs with hs | ⟨v, _, rfl⟩
    · exact splitLoop_forall g mVias fuel P hP _ _ _ _ _ hloop (by simp) s hs
    · exact hvia v
  | assertFailed => rw [hloop] at h; cases h
  | outOfFuel => rw [hloop] at h; cases h

/-- C4: every segment that `split` returns, on any board and input, is connected: any two
anchors of its anchor list are joined by a path that uses only wires of its wire list;
and on a well-formed graph `split` does return. -/
theorem split_segments_connected (g : Board) (mVias : List BI_Via)
    (mNetLines : List BI_NetLine) :
    (∀ fuel segs, split g mVias mNetLines fuel = .ok segs →
      ∀ s ∈ segs, ∀ a ∈ s.anchors, ∀ b ∈ s.anchors, Joined g s.netlines a b) ∧
    (WellFormed g mNetLines → ∀ fuel, mNetLines.length < fuel →
      ∃ segs, split g mVias mNetLines fuel = .ok segs) := by
  constructor
  · intro fuel segs h
    apply split_forall g mVias mNetLines fuel
      (fun s => ∀ a ∈ s.anchors, ∀ b ∈ s.anchors, Joined g s.netlines a b) _ _ segs h
    · intro vias first pool st run a ha b hb
      have hjoin : AllJoined g (g.getStartPoint first) st :=
        run.joined _ (by simp [AllJoined, startState]) Relation.ReflTransGen.refl
      exact (hjoin a ha).symm.trans (hjoin b hb)
    · intro v a ha b hb
      simp only [viaSegment, List.mem_singleton] at ha hb
      subst ha; subst hb
      exact Relation.ReflTransGen.refl
  · intro hwf fuel hfuel
    obtain ⟨segs, vias, hsplit, _⟩ := split_spec mVias hwf fuel hfuel
    exact ⟨_, hsplit⟩

/-- Witness of C4: the segment returned for scenario 2 with the via among the input vias
is connected. -/
theorem split_segments_connected_witness :
    ∀ s ∈ [(⟨[.via 0, .netPoint 1, .netPoint 2], [1, 2]⟩ : Segment)],
      ∀ a ∈ s.anchors, ∀ b ∈ s.anchors, Joined (scenario2 true true) s.netlines a b :=
  (split_segments_connected (scenario2 true true) [0] [1, 2]).1 3 _ (by decide)

/-- C5: on a well-formed graph the returned segments are maximal: two input wires that end
at a common anchor which is a junction, a pad or a via of the input via set lie in the
wire list of one and the same returned segment. -/
theorem split_maximal (g : Board) (mVias : List BI_Via) (mNetLines : List BI_NetLine)
    (fuel : Nat) (hwf : WellFormed g mNetLines) (hfuel : mNetLines.length < fuel) :
    ∃ segs, split g mVias mNetLines fuel = .ok segs ∧
      ∀ w1 ∈ mNetLines, ∀ w2 ∈ mNetLines, ∀ a, isRemovedVia mVias a = false →
        touches g w1 a → touches g w2 a →
        ∃ s ∈ segs, w1 ∈ s.netlines ∧ w2 ∈ s.netlines := by
  obtain ⟨segs, vias, hsplit, hinv⟩ := split_spec mVias hwf fuel hfuel
  refine ⟨_, hsplit, ?_⟩
  intro w1 hw1 w2 hw2 a hr ht1 ht2
  have hmem : w1 ∈ segs.flatMap Segment.netlines := by
    have := hinv.perm.symm.subset hw1
    simpa using this
  obtain ⟨s1, hs1, hw1s⟩ := List.mem_flatMap.1 hmem
  have ha : a ∈ s1.anchors := by
    rcases ht1 with ht | ht
    · exact ht ▸ ((hinv.segOK s1 hs1).ends w1 hw1s).1
    · exact ht ▸ ((hinv.segOK s1 hs1).ends w1 hw1s).2
  obtain ⟨s, hs, hall⟩ := hinv.gathered a hr ⟨s1, hs1, ha⟩
  exact ⟨s, List.mem_append_left _ hs, hall w1 hw1 ht1, hall w2 hw2 ht2⟩

/-- Witness of C5 on the board of scenario 2 with the via `0` among the input vias. -/
theorem split_maximal_witness :
    ∃ segs, split (scenario2 false true) [0] [1, 2] 3 = .ok segs ∧
      ∀ w1 ∈ [1, 2], ∀ w2 ∈ [1, 2], ∀ a, isRemovedVia [0] a = false →
        touches (scenario2 false true) w1 a → touches (scenario2 false true) w2 a →
        ∃ s ∈ segs, w1 ∈ s.netlines ∧ w2 ∈ s.netlines :=
  split_maximal (scenario2 false true) [0] [1, 2] 3 (scenario2_wellFormed false true)
    (by decide)

/-- C6 fails on the code: on the board of scenario 2 the traversal has arrived at the
removed via `0` by following wire `1` of layer `1` (the state after junction `1` was
entered and wire `1` taken); from the via it then takes wire `2` of layer `2`, so nothing
is left in the pool for a later segment. -/
theorem removed_via_takes_other_layer :
    takeLine (enterAnchor [] (.netPoint 1) (startState [] [1, 2])) 1 =
      ⟨[.netPoint 1], [.netPoint 1], [1], [], [2]⟩ ∧
    getOtherPoint (scenario2 false true) 1 (.netPoint 1) = some (.via 0) ∧
    isRemovedVia [] (.via 0) = true ∧
    findConnectedLinesAndPoints (scenario2 false true) [] 2 (.via 0)
        ⟨[.netPoint 1], [.netPoint 1], [1], [], [2]⟩ =
      .ok ⟨[.netPoint 1, .via 0, .netPoint 2], [.netPoint 1, .via 0, .netPoint 2], [1, 2],
        [], []⟩ ∧
    (scenario2 false true).getLayer 2 ≠ (scenario2 false true).getLayer 1 := by
  decide

/-- C7 fails on the code: in scenario 2, when the first input wire stores its junction as
start point, `split` returns one segment that holds both wires, hence `J1` and `J2`; two
segments result only when the first input wire starts at the via. -/
theorem scenario2_merges_layers :
    (∀ fromVia2, split (scenario2 false fromVia2) [] [1, 2] 3 =
      .ok [⟨[.netPoint 1, .via 0, .netPoint 2], [1, 2]⟩]) ∧
    (∀ fromVia1, split (scenario2 fromVia1 false) [] [2, 1] 3 =
      .ok [⟨[.netPoint 2, .via 0, .netPoint 1], [2, 1]⟩]) ∧
    (∀ fromVia2, ∃ s1 s2, split (scenario2 true fromVia2) [] [1, 2] 3 = .ok [s1, s2] ∧
      s1.netlines = [1] ∧ s2.netlines = [2]) ∧
    (∀ fromVia1, ∃ s1 s2, split (scenario2 fromVia1 true) [] [2, 1] 3 = .ok [s1, s2] ∧
      s1.netlines = [1] ∧ s2.netlines = [2]) := by
  refine ⟨by decide, by decide, ?_, ?_⟩
  · intro b
    cases b
    · exact ⟨⟨[.via 0, .netPoint 1], [1]⟩, ⟨[.netPoint 2, .via 0], [2]⟩, by decide, rfl, rfl⟩
    · exact ⟨⟨[.via 0, .netPoint 1], [1]⟩, ⟨[.via 0, .netPoint 2], [2]⟩, by decide, rfl, rfl⟩
  · intro b
    cases b
    · exact ⟨⟨[.via 0, .netPoint 1], [1]⟩, ⟨[.via 0, .netPoint 2], [2]⟩, by decide, rfl, rfl⟩
    · exact ⟨⟨[.via 0, .netPoint 1], [1]⟩, ⟨[.via 0, .netPoint 2], [2]⟩, by decide, rfl, rfl⟩

/-- C8: `split` of a splitter without vias and without net lines returns the empty list
of segments, on every board. -/
theorem split_empty (g : Board) (fuel : Nat) : split g [] [] fuel = .ok [] := by
  simp [split, splitLoop]

theorem Run.netlines_append {g : Board} {mVias : List BI_Via} {c : Config} {st st' : State}
    (h : Run g mVias c st st') : ∃ more, st'.netlines = st.netlines ++ more := by
  induction h with
  | visit _ _ _ ih => simpa [enterAnchor] using ih
  | done => exact ⟨[], by simp⟩
  | skip _ _ ih => exact ih
  | seen _ _ _ _ ih =>
    obtain ⟨m, hm⟩ := ih
    exact ⟨_ :: m, by simpa [takeLine] using hm⟩
  | @recurse anchor p2 r line rest layer st st2 st' _ _ _ _ _ ih1 ih2 =>
    obtain ⟨m1, hm1⟩ := ih1
    obtain ⟨m2, hm2⟩ := ih2
    exact ⟨line :: (m1 ++ m2), by rw [hm2, hm1]; simp [takeLine]⟩

theorem Run.first_taken {g : Board} {mVias : List BI_Via} {c : Config} {st st' : State}
    (h : Run g mVias c st st') :
    ∀ anchor r lines layer, c = .lines anchor r lines layer → st.netlines = [] →
      ∀ w, st'.netlines.head? = some w → w ∈ lines := by
  induction h with
  | visit _ _ _ _ => intro anchor r lines layer hc; cases hc
  | done =>
    intro anchor r lines layer hc h0 w hw
    rw [h0] at hw
    cases hw
  | @skip anchor r line rest layer st st' _ _ ih =>
    intro anchor0 r0 lines0 layer0 hc h0 w hw
    cases hc
    exact List.mem_cons_of_mem _ (ih _ _ _ _ rfl h0 w hw)
  | @seen anchor p2 r line rest layer st st' _ _ _ run _ =>
    intro anchor0 r0 lines0 layer0 hc h0 w hw
    cases hc
    obtain ⟨m, hm⟩ := run.netlines_append
    simp only [takeLine, h0, List.nil_append, List.singleton_append] at hm
    rw [hm] at hw
    simp only [List.head?_cons, Option.some.injEq] at hw
    subst hw
    exact List.mem_cons_self _ _
  | @recurse anchor p2 r line rest layer st st2 st' _ _ _ run1 run2 _ _ =>
    intro anchor0 r0 lines0 layer0 hc h0 w hw
    cases hc
    obtain ⟨m1, hm1⟩ := run1.netlines_append
    obtain ⟨m2, hm2⟩ := run2.netlines_append
    simp only [takeLine, h0, List.nil_append, List.singleton_append] at hm1
    rw [hm2, hm1] at hw
    simp only [List.cons_append, List.head?_cons, Option.some.injEq] at hw
    subst hw
    exact List.mem_cons_self _ _

theorem isolatedVia_eq_false {g : Board} {mNetLines : List BI_NetLine} {v : BI_Via} :
    isolatedVia g mNetLines v = false ↔ ∃ w ∈ mNetLines, touches g w (.via v) := by
  rw [isolatedVia, List.all_eq_false]
  constructor
  · rintro ⟨w, hw, h⟩
    refine ⟨w, hw, ?_⟩
    by_contra hn
    apply h
    rw [Bool.not_eq_true', decide_eq_false_iff_not]
    exact hn
  · rintro ⟨w, hw, h⟩
    refine ⟨w, hw, ?_⟩
    rw [Bool.not_eq_true', decide_eq_false_iff_not]
    exact fun hn => hn h

/-- C9: on a well-formed graph `split` returns the wire-bearing segments followed by one
segment per left-over via, in the order in which the vias were added; every input via
that is no endpoint of an input wire is among them (for duplicate-free vias they are
exactly these vias); a segment for a via has that via as its only anchor and no wire;
every wire-bearing segment has at least one wire and at least two anchors. -/
theorem split_isolated_vias (g : Board) (mVias : List BI_Via) (mNetLines : List BI_NetLine)
    (fuel : Nat) (hwf : WellFormed g mNetLines) (hfuel : mNetLines.length < fuel) :
    ∃ wireSegs rest,
      split g mVias mNetLines fuel = .ok (wireSegs ++ rest.map fun v => ⟨[.via v], []⟩) ∧
      rest.Sublist mVias ∧
      (∀ v ∈ mVias, isolatedVia g mNetLines v = true → v ∈ rest) ∧
      (mVias.Nodup → rest = mVias.filter (isolatedVia g mNetLines)) ∧
      ∀ s ∈ wireSegs, 1 ≤ s.netlines.length ∧ 2 ≤ s.anchors.length := by
  obtain ⟨segs, vias, hsplit, hinv⟩ := split_spec mVias hwf fuel hfuel
  have hvisited : ∀ v, v ∈ inputVias mVias (segs.flatMap Segment.anchors) →
      isolatedVia g mNetLines v = false := by
    intro v hv
    obtain ⟨s, hs, hvs⟩ := List.mem_flatMap.1 (mem_inputVias.1 hv).1
    exact isolatedVia_eq_false.2 ((hinv.segOK s hs).touch _ hvs)
  have hperm : (segs.flatMap Segment.netlines).Perm mNetLines := by
    simpa using hinv.perm
  refine ⟨segs, vias, hsplit, hinv.vias_eq ▸ List.diff_sublist _ _, ?_, ?_, ?_⟩
  · intro v hv hiso
    rw [hinv.vias_eq]
    refine List.mem_diff_of_mem hv (fun h => ?_)
    rw [hvisited v h] at hiso
    cases hiso
  · intro hndv
    rw [hinv.vias_eq, hndv.diff_eq_filter]
    apply List.filter_congr
    intro v hv
    rw [Bool.eq_iff_iff]
    simp only [decide_eq_true_eq]
    constructor
    · intro hnot
      by_contra hiso
      obtain ⟨w, hw, ht⟩ := isolatedVia_eq_false.1 (Bool.not_eq_true _ ▸ hiso)
      obtain ⟨s, hs, hws⟩ := List.mem_flatMap.1 (hperm.symm.subset hw)
      have hends := (hinv.segOK s hs).ends w hws
      have hva : BI_NetLineAnchor.via v ∈ s.anchors := by
        rcases ht with ht | ht
        · exact ht ▸ hends.1
        · exact ht ▸ hends.2
      exact hnot (mem_inputVias.2 ⟨List.mem_flatMap.2 ⟨s, hs, hva⟩, hv⟩)
    · intro hiso hmem
      rw [hvisited v hmem] at hiso
      cases hiso
  · intro s hs
    have hok := hinv.segOK s hs
    obtain ⟨w, more, hw⟩ := List.exists_cons_of_ne_nil hok.nonempty
    have hws : w ∈ s.netlines := by rw [hw]; exact List.mem_cons_self _ _
    have hwm : w ∈ mNetLines := hperm.subset (List.mem_flatMap.2 ⟨s, hs, hws⟩)
    refine ⟨by rw [hw]; simp, ?_⟩
    exact two_le_length_of_mem (hok.ends w hws).1 (hok.ends w hws).2 (hwf.distinct w hwm)

/-- Witness of C9 on the board of scenario 2 with an isolated via `7` among the input
vias. -/
theorem split_isolated_vias_witness :
    ∃ wireSegs rest,
      split (scenario2 true true) [7, 0, 8] [1, 2] 3 =
        .ok (wireSegs ++ rest.map fun v => ⟨[.via v], []⟩) ∧
      rest.Sublist [7, 0, 8] ∧
      (∀ v ∈ [7, 0, 8], isolatedVia (scenario2 true true) [1, 2] v = true → v ∈ rest) ∧
      (([7, 0, 8] : List BI_Via).Nodup →
        rest = [7, 0, 8].filter (isolatedVia (scenario2 true true) [1, 2])) ∧
      ∀ s ∈ wireSegs, 1 ≤ s.netlines.length ∧ 2 ≤ s.anchors.length :=
  split_isolated_vias (scenario2 true true) [7, 0, 8] [1, 2] 3 (scenario2_wellFormed true true)
    (by decide)

/-- C10: on a well-formed graph `split` terminates (with fuel above the number of input
wires it returns a result), every iteration of its outer loop returns and leaves strictly
fewer wires in the pool, the first wire it takes is one registered at the start anchor of
the first unassigned wire, and the traversal enters no anchor twice within a segment. -/
theorem split_terminates (g : Board) (mVias : List BI_Via) (mNetLines : List BI_NetLine)
    (hwf : WellFormed g mNetLines) :
    (∀ fuel, mNetLines.length < fuel → ∃ segs, split g mVias mNetLines fuel = .ok segs) ∧
    (∀ fuel vias first pool, first :: pool ⊆ mNetLines → (first :: pool).length < fuel →
      ∃ st, findConnectedLinesAndPoints g mVias fuel (g.getStartPoint first)
          (startState vias (first :: pool)) = .ok st ∧
        st.availableNetLines.length < (first :: pool).length ∧
        (∃ w more, st.netlines = w :: more ∧ w ∈ g.getNetLines (g.getStartPoint first)) ∧
        st.processedAnchors.Nodup ∧ st.anchors = st.processedAnchors) := by
  constructor
  · intro fuel hfuel
    obtain ⟨segs, vias, hsplit, _⟩ := split_spec mVias hwf fuel hfuel
    exact ⟨_, hsplit⟩
  · intro fuel vias first pool hsub hfuel
    obtain ⟨st, hst, run, hne, hdec⟩ := iteration_spec mVias hwf vias first pool hsub fuel hfuel
    have heq : st.anchors = st.processedAnchors := run.anchors_eq rfl
    refine ⟨st, hst, hdec, ?_, heq ▸ run.anchors_nodup (by simp [startState]), heq⟩
    obtain ⟨w, more, hw⟩ := List.exists_cons_of_ne_nil hne
    refine ⟨w, more, hw, ?_⟩
    cases run with
    | visit _ _ run1 =>
      exact run1.first_taken _ _ _ _ rfl (by simp [enterAnchor, startState]) w (by simp [hw])

/-- Witness of C10 on the board of scenario 2, where the start anchor of the first wire is
a via outside the input set. -/
theorem split_terminates_witness :
    (∀ fuel, [1, 2].length < fuel →
      ∃ segs, split (scenario2 true true) [] [1, 2] fuel = .ok segs) ∧
    (∀ fuel vias first pool, first :: pool ⊆ [1, 2] → (first :: pool).length < fuel →
      ∃ st, findConnectedLinesAndPoints (scenario2 true true) [] fuel
          ((scenario2 true true).getStartPoint first) (startState vias (first :: pool)) =
            .ok st ∧
        st.availableNetLines.length < (first :: pool).length ∧
        (∃ w more, st.netlines = w :: more ∧
          w ∈ (scenario2 true true).getNetLines ((scenario2 true true).getStartPoint first)) ∧
        st.processedAnchors.Nodup ∧ st.anchors = st.processedAnchors) :=
  split_terminates (scenario2 true true) [] [1, 2] (scenario2_wellFormed true true)

/-- C11: every wire of every segment that `split` returns, on any board and input, has
both of its endpoint anchors in the anchor list of that same segment; and on a well-formed
graph `split` does return. -/
theorem split_wires_end_in_segment (g : Board) (mVias : List BI_Via)
    (mNetLines : List BI_NetLine) :
    (∀ fuel segs, split g mVias mNetLines fuel = .ok segs →
      ∀ s ∈ segs, ∀ w ∈ s.netlines,
        g.getStartPoint w ∈ s.anchors ∧ g.getEndPoint w ∈ s.anchors) ∧
    (WellFormed g mNetLines → ∀ fuel, mNetLines.length < fuel →
      ∃ segs, split g mVias mNetLines fuel = .ok segs) := by
  constructor
  · intro fuel segs h
    apply split_forall g mVias mNetLines fuel
      (fun s => ∀ w ∈ s.netlines, g.getStartPoint w ∈ s.anchors ∧ g.getEndPoint w ∈ s.anchors)
      _ _ segs h
    · intro vias first pool st run
      exact run.endpoints rfl (by simp [EndsPre, EndsIn, startState])
    · intro v w hw
      simp [viaSegment] at hw
  · intro hwf fuel hfuel
    obtain ⟨segs, vias, hsplit, _⟩ := split_spec mVias hwf fuel hfuel
    exact ⟨_, hsplit⟩

/-- Witness of C11: in scenario 2 with the first wire stored from its junction the single
returned segment contains the endpoints of both wires. -/
theorem split_wires_end_in_segment_witness :
    ∀ s ∈ [(⟨[.netPoint 1, .via 0, .netPoint 2], [1, 2]⟩ : Segment)], ∀ w ∈ s.netlines,
      (scenario2 false true).getStartPoint w ∈ s.anchors ∧
        (scenario2 false true).getEndPoint w ∈ s.anchors :=
  (split_wires_end_in_segment (scenario2 false true) [] [1, 2]).1 3 _ (by decide)

/-! ## The loop over the anchors of a segment in `generate` -/

theorem foldl_invariant {α β : Type} (f : β → α → β) (P : List α → β → Prop)
    (hstep : ∀ done st x, P done st → P (done ++ [x]) (f st x)) :
    ∀ (as done : List α) (st : β), P done st → P (done ++ as) (as.foldl f st) := by
  intro as
  induction as with
  | nil => intro done st h; simpa using h
  | cons x as ih =>
    intro done st h
    have := ih (done ++ [x]) (f st x) (hstep done st x h)
    simpa using this

theorem CopyInv.init (b : LiveBoard) (query : BoardSelectionQuery)
    (createRandom : Nat → Uuid) (start : Nat) :
    CopyInv b query createRandom start [] ⟨[], [], [], start⟩ :=
  { points_netPoint := by simp
    vias_eq := by simp
    replaced := by simp
    lookup_none := by simp
    random_le := Nat.le_refl _
    length_eq := by simp }

theorem lookup_cons_self {β : Type} (a : BI_NetLineAnchor) (v : β)
    (l : List (BI_NetLineAnchor × β)) : List.lookup a ((a, v) :: l) = some v := by
  simp [List.lookup_cons]

theorem lookup_cons_ne {β : Type} {a x : BI_NetLineAnchor} (v : β)
    (l : List (BI_NetLineAnchor × β)) (h : a ≠ x) :
    List.lookup a ((x, v) :: l) = List.lookup a l := by
  have hb : (a == x) = false := by simpa using h
  rw [List.lookup_cons, hb]

theorem CopyInv.insert {b : LiveBoard} {query : BoardSelectionQuery}
    {createRandom : Nat → Uuid} {start : Nat} {done : List BI_NetLineAnchor}
    {st : AnchorCopies} (h : CopyInv b query createRandom start done st)
    (x : BI_NetLineAnchor) (hx : needsReplacement query x = true) :
    CopyInv b query createRandom start (done ++ [x])
      { st with
        replacedNetPoints :=
          (x, ⟨createRandom st.random, anchorPosition b x⟩) :: st.replacedNetPoints
        points := st.points ++ [⟨createRandom st.random, anchorPosition b x⟩]
        random := st.random + 1 } := by
  have hsel : selectedVia query x = none := by
    cases x with
    | netPoint p => rfl
    | via v =>
      simp only [needsReplacement, Bool.not_eq_true', decide_eq_false_iff_not] at hx
      simp [selectedVia, hx]
    | footprintPad p => rfl
  refine ⟨?_, ?_, ?_, ?_, ?_, ?_⟩
  · intro p hp
    simp only [List.mem_append, List.mem_singleton] at hp ⊢
    rcases hp with hp | hp
    · exact Or.inl (h.points_netPoint p hp)
    · subst hp; simp [needsReplacement] at hx
  · simp [List.filterMap_append, hsel, h.vias_eq]
  · intro a ha hr
    by_cases hax : a = x
    · subst hax
      exact ⟨st.random, h.random_le, Nat.lt_succ_self _, lookup_cons_self _ _ _, by simp⟩
    · simp only [List.mem_append, List.mem_singleton, hax, or_false] at ha
      obtain ⟨k, hk1, hk2, hk3, hk4⟩ := h.replaced a ha hr
      refine ⟨k, hk1, Nat.lt_succ_of_lt hk2, ?_, List.mem_append_left _ hk4⟩
      rw [lookup_cons_ne _ _ hax]
      exact hk3
  · intro a ha
    have hax : a ≠ x := by
      rintro rfl
      rcases ha with ha | ha
      · exact ha (by simp)
      · rw [hx] at ha; cases ha
    rw [lookup_cons_ne _ _ hax]
    apply h.lookup_none
    rcases ha with ha | ha
    · exact Or.inl fun hmem => ha (List.mem_append_left _ hmem)
    · exact Or.inr ha
  · exact Nat.le_succ_of_le h.random_le
  · have := h.length_eq
    simp only [List.length_append, List.length_singleton] at this ⊢
    omega

theorem copyInv_step {b : LiveBoard} {query : BoardSelectionQuery}
    {createRandom : Nat → Uuid} {start : Nat} (done : List BI_NetLineAnchor)
    (st : AnchorCopies) (x : BI_NetLineAnchor)
    (h : CopyInv b query createRandom start done st) :
    CopyInv b query createRandom start (done ++ [x]) (copyAnchor b query createRandom st x) := by
  cases x with
  | netPoint p =>
    refine ⟨?_, ?_, ?_, ?_, h.random_le, ?_⟩
    · intro q hq
      simp only [List.mem_append, List.mem_singleton] at hq
      simp only [copyAnchor, List.mem_append, List.mem_singleton]
      rcases hq with hq | hq
      · exact Or.inl (h.points_netPoint q hq)
      · cases hq; exact Or.inr rfl
    · simp [copyAnchor, List.filterMap_append, selectedVia, h.vias_eq]
    · intro a ha hr
      have hane : a ≠ .netPoint p := by rintro rfl; simp [needsReplacement] at hr
      simp only [List.mem_append, List.mem_singleton, hane, or_false] at ha
      obtain ⟨k, hk1, hk2, hk3, hk4⟩ := h.replaced a ha hr
      exact ⟨k, hk1, hk2, hk3, by simp [copyAnchor, hk4]⟩
    · intro a ha
      by_cases hr : needsReplacement query a = false
      · exact h.lookup_none a (Or.inr hr)
      · apply h.lookup_none a
        rcases ha with ha | ha
        · exact Or.inl fun hmem => ha (List.mem_append_left _ hmem)
        · exact Or.inr ha
    · have := h.length_eq
      simp only [copyAnchor, List.length_append, List.length_singleton] at this ⊢
      omega
  | via v =>
    by_cases hv : v ∈ query.getVias
    · have hcopy : copyAnchor b query createRandom st (.via v) =
          { st with vias := st.vias ++ [copyVia b v] } := by simp [copyAnchor, hv]
      rw [hcopy]
      refine ⟨?_, ?_, ?_, ?_, h.random_le, ?_⟩
      · intro q hq
        simp only [List.mem_append, List.mem_singleton] at hq
        rcases hq with hq | hq
        · exact h.points_netPoint q hq
        · cases hq
      · simp [List.filterMap_append, selectedVia, hv, h.vias_eq]
      · intro a ha hr
        have hane : a ≠ .via v := by rintro rfl; simp [needsReplacement, hv] at hr
        simp only [List.mem_append, List.mem_singleton, hane, or_false] at ha
        exact h.replaced a ha hr
      · intro a ha
        by_cases hr : needsReplacement query a = false
        · exact h.lookup_none a (Or.inr hr)
        · apply h.lookup_none a
          rcases ha with ha | ha
          · exact Or.inl fun hmem => ha (List.mem_append_left _ hmem)
          · exact Or.inr ha
      · have := h.length_eq
        simp only [List.length_append, List.length_singleton] at this ⊢
        omega
    · have hcopy : copyAnchor b query createRandom st (.via v) =
          { st with
            replacedNetPoints :=
              (.via v, ⟨createRandom st.random, anchorPosition b (.via v)⟩) ::
                st.replacedNetPoints
            points := st.points ++ [⟨createRandom st.random, anchorPosition b (.via v)⟩]
            random := st.random + 1 } := by simp [copyAnchor, hv, anchorPosition]
      rw [hcopy]
      exact h.insert _ (by simp [needsReplacement, hv])
  | footprintPad p =>
    exact h.insert (.footprintPad p) rfl

theorem copyAnchors_inv (b : LiveBoard) (query : BoardSelectionQuery)
    (createRandom : Nat → Uuid) (anchors : List BI_NetLineAnchor) (start : Nat) :
    CopyInv b query createRandom start anchors
      (anchors.foldl (copyAnchor b query createRandom) ⟨[], [], [], start⟩) := by
  have := foldl_invariant (copyAnchor b query createRandom)
    (CopyInv b query createRandom start) (fun done st x h => copyInv_step done st x h)
    anchors [] _ (CopyInv.init b query createRandom start)
  simpa using this

theorem Outcome.bind_eq_ok {α β : Type} {x : Outcome α} {f : α → Outcome β} {r : β} :
    x.bind f = .ok r ↔ ∃ a, x = .ok a ∧ f a = .ok r := by
  cases x with
  | ok a => simp [Outcome.bind]
  | assertFailed => simp [Outcome.bind]
  | outOfFuel => simp [Outcome.bind]

theorem anchorReference_resolves {b : LiveBoard} {query : BoardSelectionQuery}
    {createRandom : Nat → Uuid} {start : Nat} {anchors : List BI_NetLineAnchor}
    {st : AnchorCopies} (h : CopyInv b query createRandom start anchors st)
    (name : CircuitIdentifier) (lines : List BoardClipboardData.NetLine)
    (a : BI_NetLineAnchor) (ha : a ∈ anchors) :
    ∃ r, anchorReference b st.replacedNetPoints a = .ok r ∧
      refResolves ⟨name, st.vias, st.points, lines⟩ r.1 r.2 = true := by
  by_cases hr : needsReplacement query a = true
  · obtain ⟨k, _, _, hlook, hmem⟩ := h.replaced a ha hr
    refine ⟨(some (createRandom k), none), ?_, ?_⟩
    · cases a with
      | netPoint p => simp [needsReplacement] at hr
      | via v => simp [anchorReference, hlook]
      | footprintPad p => simp [anchorReference, hlook]
    · simp only [refResolves, List.any_eq_true, decide_eq_true_eq]
      exact ⟨_, hmem, rfl⟩
  · have hnone := h.lookup_none a (Or.inr (by simpa using hr))
    cases a with
    | netPoint p =>
      refine ⟨(some (b.netPointUuid p), none), rfl, ?_⟩
      simp only [refResolves, List.any_eq_true, decide_eq_true_eq]
      exact ⟨_, h.points_netPoint p ha, rfl⟩
    | via v =>
      refine ⟨(none, some (b.viaUuid v)), by simp [anchorReference, hnone], ?_⟩
      have hv : v ∈ query.getVias := by
        simpa [needsReplacement] using hr
      simp only [refResolves, List.any_eq_true, decide_eq_true_eq]
      refine ⟨copyVia b v, ?_, rfl⟩
      rw [h.vias_eq]
      exact List.mem_map.2 ⟨v, List.mem_filterMap.2 ⟨.via v, ha, by simp [selectedVia, hv]⟩, rfl⟩
    | footprintPad p => simp [needsReplacement] at hr

theorem copyNetLines_forall₂ (b : LiveBoard)
    (replaced : List (BI_NetLineAnchor × BoardClipboardData.NetPoint)) :
    ∀ (ws : List BI_NetLine) (ls : List BoardClipboardData.NetLine),
      copyNetLines b replaced ws = .ok ls ↔
        List.Forall₂ (fun w l => copyNetLine b replaced w = .ok l) ws ls := by
  intro ws
  induction ws with
  | nil =>
    intro ls
    cases ls with
    | nil => simp [copyNetLines]
    | cons l ls => simp [copyNetLines]
  | cons w ws ih =>
    intro ls
    simp only [copyNetLines, Outcome.bind_eq_ok, Outcome.ok.injEq]
    constructor
    · rintro ⟨l, hl, ls', hls', rfl⟩
      exact List.Forall₂.cons hl ((ih ls').1 hls')
    · intro h
      cases h with
      | cons hl hrest => exact ⟨_, hl, _, (ih _).2 hrest, rfl⟩

theorem copySegment_spec (b : LiveBoard) (query : BoardSelectionQuery)
    (createRandom : Nat → Uuid) (netsegment : BI_NetSegment) (seg : Segment) (random : Nat)
    (hends : EndsIn b.graph seg.netlines seg.anchors) :
    ∃ sub next, copySegment b query createRandom netsegment seg random = .ok (sub, next) ∧
      selfContained sub = true ∧
      CopyInv b query createRandom random seg.anchors
        ⟨sub.vias, sub.points,
          (seg.anchors.foldl (copyAnchor b query createRandom) ⟨[], [], [], random⟩).replacedNetPoints,
          next⟩ ∧
      sub.netName = b.netSignalName netsegment ∧
      List.Forall₂ (fun w l => copyNetLine b
        (seg.anchors.foldl (copyAnchor b query createRandom)
          ⟨[], [], [], random⟩).replacedNetPoints w = .ok l) seg.netlines sub.lines := by
  have hinv := copyAnchors_inv b query createRandom seg.anchors random
  generalize hst :
    seg.anchors.foldl (copyAnchor b query createRandom) ⟨[], [], [], random⟩ = st at hinv ⊢
  have hline : ∀ ws : List BI_NetLine, (∀ w ∈ ws, w ∈ seg.netlines) →
      ∃ ls, copyNetLines b st.replacedNetPoints ws = .ok ls ∧
        ∀ lines0 : List BoardClipboardData.NetLine, ∀ l ∈ ls,
          refResolves ⟨b.netSignalName netsegment, st.vias, st.points, lines0⟩
            l.startJunction l.startVia = true ∧
          refResolves ⟨b.netSignalName netsegment, st.vias, st.points, lines0⟩
            l.endJunction l.endVia = true := by
    intro ws
    induction ws with
    | nil => intro _; exact ⟨[], rfl, by simp⟩
    | cons w ws ih =>
      intro hsub
      obtain ⟨ls, hls, hres⟩ := ih (fun x hx => hsub x (List.mem_cons_of_mem _ hx))
      have hw := hends w (hsub w (List.mem_cons_self _ _))
      obtain ⟨r1, hr1, _⟩ := anchorReference_resolves hinv (b.netSignalName netsegment) []
        _ hw.1
      obtain ⟨r2, hr2, _⟩ := anchorReference_resolves hinv (b.netSignalName netsegment) []
        _ hw.2
      refine ⟨⟨b.netLineUuid w, r1.1, r1.2, r2.1, r2.2, b.layerName (b.graph.getLayer w),
        b.netLineWidth w⟩ :: ls,
        by simp [copyNetLines, copyNetLine, hr1, hr2, hls, Outcome.bind], ?_⟩
      intro lines0 l hl
      simp only [List.mem_cons] at hl
      rcases hl with hl | hl
      · subst hl
        obtain ⟨r1', hr1', h1⟩ := anchorReference_resolves hinv (b.netSignalName netsegment)
          lines0 _ hw.1
        obtain ⟨r2', hr2', h2⟩ := anchorReference_resolves hinv (b.netSignalName netsegment)
          lines0 _ hw.2
        rw [hr1] at hr1'
        rw [hr2] at hr2'
        cases hr1'
        cases hr2'
        exact ⟨h1, h2⟩
      · exact hres lines0 l hl
  obtain ⟨ls, hls, hres⟩ := hline seg.netlines (fun _ h => h)
  refine ⟨⟨b.netSignalName netsegment, st.vias, st.points, ls⟩, st.random, ?_, ?_, hinv, rfl,
    (copyNetLines_forall₂ b _ _ _).1 hls⟩
  · simp only [copySegment, hst, hls, Outcome.bind]
  · simp only [selfContained, List.all_eq_true, Bool.and_eq_true]
    intro l hl
    exact hres ls l hl

/-! ## The snapshot built by `generate` -/

theorem split_endsIn (g : Board) (mVias : List BI_Via) (mNetLines : List BI_NetLine)
    (fuel : Nat) (segs : List Segment) (h : split g mVias mNetLines fuel = .ok segs) :
    ∀ s ∈ segs, EndsIn g s.netlines s.anchors := by
  apply split_forall g mVias mNetLines fuel (fun s => EndsIn g s.netlines s.anchors) _ _ segs h
  · intro vias first pool st run
    exact run.endpoints rfl (by simp [EndsPre, EndsIn, startState])
  · intro v w hw
    simp [viaSegment] at hw

theorem copySegments_spec (b : LiveBoard) (query : BoardSelectionQuery)
    (createRandom : Nat → Uuid) (netsegment : BI_NetSegment) :
    ∀ (segs : List Segment) (random : Nat),
      (∀ seg ∈ segs, EndsIn b.graph seg.netlines seg.anchors) →
      ∃ subs next, copySegments b query createRandom netsegment segs random = .ok (subs, next) ∧
        List.Forall₂ (CopiedFrom b query createRandom netsegment) segs subs := by
  intro segs
  induction segs with
  | nil => intro random _; exact ⟨[], random, rfl, List.Forall₂.nil⟩
  | cons seg rest ih =>
    intro random hends
    obtain ⟨sub, next, hsub, _⟩ := copySegment_spec b query createRandom netsegment seg random
      (hends seg (List.mem_cons_self _ _))
    obtain ⟨subs, next', hsubs, hall⟩ := ih next
      (fun s hs => hends s (List.mem_cons_of_mem _ hs))
    refine ⟨sub :: subs, next', ?_, List.Forall₂.cons ⟨random, next, hsub⟩ hall⟩
    simp [copySegments, hsub, hsubs, Outcome.bind]

theorem copyNetSegments_spec (b : LiveBoard) (query : BoardSelectionQuery)
    (createRandom : Nat → Uuid) (fuel : Nat) :
    ∀ (nss : List BI_NetSegment) (random : Nat)
      (r : List BoardClipboardData.NetSegment × Nat),
      copyNetSegments b query createRandom fuel nss random = .ok r →
      ∃ parts : List (List BoardClipboardData.NetSegment),
        r.1 = parts.flatMap id ∧
        List.Forall₂ (fun ns part =>
          split b.graph (viasOf b query ns) (netLinesOf b query ns) fuel =
              .ok (splitSegments b query fuel ns) ∧
            List.Forall₂ (CopiedFrom b query createRandom ns) (splitSegments b query fuel ns)
              part) nss parts := by
  intro nss
  induction nss with
  | nil =>
    intro random r h
    simp only [copyNetSegments, Outcome.ok.injEq] at h
    subst h
    exact ⟨[], rfl, List.Forall₂.nil⟩
  | cons ns rest ih =>
    intro random r h
    simp only [copyNetSegments, Outcome.bind_eq_ok, Outcome.ok.injEq] at h
    obtain ⟨segs, hsplit, r1, hr1, r2, hr2, rfl⟩ := h
    obtain ⟨parts, hparts, hall⟩ := ih _ _ hr2
    have hsegs : splitSegments b query fuel ns = segs := by simp [splitSegments, hsplit]
    obtain ⟨subs, next, hsubs, hcopied⟩ := copySegments_spec b query createRandom ns segs random
      (split_endsIn _ _ _ _ _ hsplit)
    rw [hsubs] at hr1
    cases hr1
    refine ⟨subs :: parts, by simp [hparts], List.Forall₂.cons ⟨?_, ?_⟩ hall⟩
    · rw [hsegs]; exact hsplit
    · rw [hsegs]; exact hcopied

theorem copyNetSegments_ok (b : LiveBoard) (query : BoardSelectionQuery)
    (createRandom : Nat → Uuid) (fuel : Nat) (hfuel : query.getNetLines.length < fuel) :
    ∀ (nss : List BI_NetSegment) (random : Nat),
      (∀ ns ∈ nss, WellFormed b.graph (netLinesOf b query ns)) →
      ∃ r, copyNetSegments b query createRandom fuel nss random = .ok r := by
  intro nss
  induction nss with
  | nil => intro random _; exact ⟨_, rfl⟩
  | cons ns rest ih =>
    intro random hwf
    have hlen : (netLinesOf b query ns).length < fuel :=
      Nat.lt_of_le_of_lt (List.length_filter_le _ _) hfuel
    obtain ⟨wsegs, vias, hsplit, _⟩ :=
      split_spec (viasOf b query ns) (hwf ns (List.mem_cons_self _ _)) fuel hlen
    obtain ⟨subs, next, hsubs, _⟩ := copySegments_spec b query createRandom ns _ random
      (split_endsIn _ _ _ _ _ hsplit)
    obtain ⟨r, hr⟩ := ih next (fun n hn => hwf n (List.mem_cons_of_mem _ hn))
    exact ⟨(subs ++ r.1, r.2), by simp [copyNetSegments, hsplit, hsubs, hr, Outcome.bind]⟩

theorem mem_of_forall₂_flatMap {α β : Type} {R : α → List β → Prop} {l : List α}
    {parts : List (List β)} (h : List.Forall₂ R l parts) {x : β}
    (hx : x ∈ parts.flatMap id) : ∃ a ∈ l, ∃ part, R a part ∧ x ∈ part := by
  induction h with
  | nil => simp at hx
  | @cons a part l parts hr _ ih =>
    simp only [List.flatMap_cons, id, List.mem_append] at hx
    rcases hx with hx | hx
    · exact ⟨a, List.mem_cons_self _ _, part, hr, hx⟩
    · obtain ⟨a', ha', part', hr', hx'⟩ := ih hx
      exact ⟨a', List.mem_cons_of_mem _ ha', part', hr', hx'⟩

theorem mem_of_forall₂_right {α β : Type} {R : α → β → Prop} {l : List α} {r : List β}
    (h : List.Forall₂ R l r) {y : β} (hy : y ∈ r) : ∃ x ∈ l, R x y := by
  induction h with
  | nil => simp at hy
  | @cons a c l r hr _ ih =>
    simp only [List.mem_cons] at hy
    rcases hy with hy | hy
    · subst hy; exact ⟨a, List.mem_cons_self _ _, hr⟩
    · obtain ⟨x, hx, hxy⟩ := ih hy
      exact ⟨x, List.mem_cons_of_mem _ hx, hxy⟩

theorem generate_subnetwork_origin (b : LiveBoard) (query : BoardSelectionQuery)
    (createRandom : Nat → Uuid) (cursorPos : Point) (fuel : Nat) (data : BoardClipboardData)
    (h : generate b query createRandom cursorPos fuel = .ok data) :
    ∀ sub ∈ data.netSegments, ∃ ns ∈ b.getNetSegments, ∃ segs,
      split b.graph (viasOf b query ns) (netLinesOf b query ns) fuel = .ok segs ∧
      ∃ seg ∈ segs, CopiedFrom b query createRandom ns seg sub := by
  simp only [generate, Outcome.bind_eq_ok, Outcome.ok.injEq] at h
  obtain ⟨r, hr, rfl⟩ := h
  obtain ⟨parts, hparts, hall⟩ := copyNetSegments_spec b query createRandom fuel _ _ _ hr
  intro sub hsub
  simp only at hsub
  rw [hparts] at hsub
  obtain ⟨ns, hns, part, ⟨hsplit, hcopied⟩, hmem⟩ := mem_of_forall₂_flatMap hall hsub
  obtain ⟨seg, hseg, hc⟩ := mem_of_forall₂_right hcopied hmem
  exact ⟨ns, hns, _, hsplit, seg, hseg, hc⟩

/-- C12: every snapshot that `generate` returns, for every board and selection, is
self-contained: in each sub-network the `from` and the `to` reference of each wire name
exactly one anchor, a junction or a via stored in that same sub-network; and on a board
whose net segments are well-formed `generate` does return. -/
theorem generate_self_contained (b : LiveBoard) (query : BoardSelectionQuery)
    (createRandom : Nat → Uuid) (cursorPos : Point) :
    (∀ fuel data, generate b query createRandom cursorPos fuel = .ok data →
      ∀ sub ∈ data.netSegments, ∀ nl ∈ sub.lines,
        refResolves sub nl.startJunction nl.startVia = true ∧
          refResolves sub nl.endJunction nl.endVia = true) ∧
    ((∀ ns ∈ b.getNetSegments, WellFormed b.graph (netLinesOf b query ns)) →
      ∀ fuel, query.getNetLines.length < fuel →
        ∃ data, generate b query createRandom cursorPos fuel = .ok data) := by
  constructor
  · intro fuel data h sub hsub nl hnl
    obtain ⟨ns, _, segs, hsplit, seg, hseg, random, next, hcopy⟩ :=
      generate_subnetwork_origin b query createRandom cursorPos fuel data h sub hsub
    obtain ⟨sub', next', hcopy', hself, _⟩ := copySegment_spec b query createRandom ns seg random
      (split_endsIn _ _ _ _ _ hsplit seg hseg)
    rw [hcopy] at hcopy'
    cases hcopy'
    simp only [selfContained, List.all_eq_true, Bool.and_eq_true] at hself
    exact hself nl hnl
  · intro hwf fuel hfuel
    obtain ⟨r, hr⟩ := copyNetSegments_ok b query createRandom fuel hfuel b.getNetSegments 0 hwf
    exact ⟨⟨b.getUuid, cursorPos, r.1, query.getPlanes, query.getPolygons,
      query.getStrokeTexts, query.getHoles⟩, by simp [generate, hr, Outcome.bind]⟩

/-! ## The selected topology in the snapshot -/

theorem split_via_count (g : Board) (mVias : List BI_Via) (mNetLines : List BI_NetLine)
    (fuel : Nat) (hwf : WellFormed g mNetLines) (hndv : mVias.Nodup) (hnd : mNetLines.Nodup)
    (hfuel : mNetLines.length < fuel) (segs : List Segment)
    (h : split g mVias mNetLines fuel = .ok segs) :
    ∀ v ∈ mVias, (segs.flatMap Segment.anchors).count (.via v) = 1 := by
  obtain ⟨wsegs, vias, hsplit, hinv⟩ := split_spec mVias hwf fuel hfuel
  rw [h] at hsplit
  cases hsplit
  intro v hv
  have hr : isRemovedVia mVias (.via v) = false := by simp [isRemovedVia, hv]
  have hle := count_anchor_le_one hr wsegs (fun s hs => (hinv.segOK s hs).nodup)
    (hinv.apart hnd)
  have hinj : Function.Injective BI_NetLineAnchor.via := fun _ _ h => by cases h; rfl
  have hvnd : vias.Nodup := hinv.vias_eq ▸ (List.diff_sublist _ _).nodup hndv
  rw [List.flatMap_append, flatMap_anchors_viaSegment, List.count_append,
    List.count_map_of_injective _ _ hinj]
  by_cases hmem : BI_NetLineAnchor.via v ∈ wsegs.flatMap Segment.anchors
  · have h1 : 0 < (wsegs.flatMap Segment.anchors).count (.via v) := List.count_pos_iff.2 hmem
    have h2 : v ∉ vias := by
      rw [hinv.vias_eq, hndv.mem_diff_iff]
      exact fun h => h.2 (mem_inputVias.2 ⟨hmem, hv⟩)
    have h3 : vias.count v = 0 := List.count_eq_zero.2 h2
    omega
  · have h1 : (wsegs.flatMap Segment.anchors).count (.via v) = 0 := List.count_eq_zero.2 hmem
    have h2 : v ∈ vias := by
      rw [hinv.vias_eq, hndv.mem_diff_iff]
      exact ⟨hv, fun h => hmem (mem_inputVias.1 h).1⟩
    have h3 := List.count_eq_one_of_mem hvnd h2
    omega

theorem split_anchor_origin (g : Board) (mVias : List BI_Via) (mNetLines : List BI_NetLine)
    (fuel : Nat) (hwf : WellFormed g mNetLines) (hfuel : mNetLines.length < fuel)
    (segs : List Segment) (h : split g mVias mNetLines fuel = .ok segs) :
    ∀ a ∈ segs.flatMap Segment.anchors,
      (∃ w ∈ mNetLines, touches g w a) ∨ ∃ v ∈ mVias, a = .via v := by
  obtain ⟨wsegs, vias, hsplit, hinv⟩ := split_spec mVias hwf fuel hfuel
  rw [h] at hsplit
  cases hsplit
  intro a ha
  rw [List.flatMap_append, flatMap_anchors_viaSegment, List.mem_append] at ha
  rcases ha with ha | ha
  · obtain ⟨s, hs, has⟩ := List.mem_flatMap.1 ha
    exact Or.inl ((hinv.segOK s hs).touch a has)
  · obtain ⟨v, hv, rfl⟩ := List.mem_map.1 ha
    exact Or.inr ⟨v, (hinv.vias_eq ▸ List.diff_sublist _ _).subset hv, rfl⟩

theorem split_netlines_perm (g : Board) (mVias : List BI_Via) (mNetLines : List BI_NetLine)
    (fuel : Nat) (hwf : WellFormed g mNetLines) (hfuel : mNetLines.length < fuel)
    (segs : List Segment) (h : split g mVias mNetLines fuel = .ok segs) :
    (segs.flatMap Segment.netlines).Perm mNetLines := by
  obtain ⟨wsegs, vias, hsplit, hinv⟩ := split_spec mVias hwf fuel hfuel
  rw [h] at hsplit
  cases hsplit
  have := hinv.perm
  simpa [List.flatMap_append, flatMap_netlines_viaSegment] using this

theorem count_filterMap_selectedVia (query : BoardSelectionQuery) (v : BI_Via) :
    ∀ A : List BI_NetLineAnchor,
      (A.filterMap (selectedVia query)).count v =
        if v ∈ query.getVias then A.count (.via v) else 0 := by
  intro A
  induction A with
  | nil => simp
  | cons a A ih =>
    cases a with
    | netPoint p =>
      simp only [List.filterMap_cons, selectedVia]
      rw [ih, List.count_cons_of_ne (by simp)]
    | footprintPad p =>
      simp only [List.filterMap_cons, selectedVia]
      rw [ih, List.count_cons_of_ne (by simp)]
    | via u =>
      by_cases hu : u ∈ query.getVias
      · simp only [List.filterMap_cons, selectedVia, hu, if_true]
        by_cases huv : u = v
        · subst huv
          simp only [List.count_cons_self, ih, hu, if_true]
        · rw [List.count_cons_of_ne (Ne.symm huv), ih,
            List.count_cons_of_ne (fun h => huv (BI_NetLineAnchor.via.inj h).symm)]
      · simp only [List.filterMap_cons, selectedVia, hu, if_false]
        rw [ih]
        by_cases hv : v ∈ query.getVias
        · have huv : u ≠ v := fun h => hu (h ▸ hv)
          rw [List.count_cons_of_ne (fun h => huv (BI_NetLineAnchor.via.inj h).symm)]
        · simp [hv]

theorem flatMap_filter_perm {α β : Type} [DecidableEq β] (f : α → β) (l : List α) :
    ∀ nss : List β, nss.Nodup →
      (nss.flatMap fun n => l.filter fun x => decide (f x = n)).Perm
        (l.filter fun x => decide (f x ∈ nss)) := by
  intro nss
  induction nss with
  | nil => intro _; simp
  | cons n t ih =>
    intro hnd
    have hnt : n ∉ t := (List.nodup_cons.1 hnd).1
    have hp := List.filter_append_perm (fun x => decide (f x = n))
      (l.filter fun x => decide (f x ∈ n :: t))
    rw [List.flatMap_cons]
    refine List.Perm.trans (List.Perm.append ?_ ((ih (List.nodup_cons.1 hnd).2).trans ?_)) hp
    · rw [List.filter_filter]
      apply List.Perm.of_eq
      apply List.filter_congr
      intro x _
      by_cases hx : f x = n <;> simp [hx]
    · rw [List.filter_filter]
      apply List.Perm.of_eq
      apply List.filter_congr
      intro x _
      by_cases hx : f x = n
      · subst hx; simp [hnt]
      · simp [hx]

theorem filter_netSegment_perm {α : Type} (f : α → BI_NetSegment) (l : List α)
    (nss : List BI_NetSegment) (hnd : nss.Nodup) (hmem : ∀ x ∈ l, f x ∈ nss) :
    (nss.flatMap fun n => l.filter fun x => decide (f x = n)).Perm l := by
  refine (flatMap_filter_perm f l nss hnd).trans (List.Perm.of_eq ?_)
  rw [List.filter_eq_self]
  intro x hx
  simpa using hmem x hx

theorem CopiedFrom.vias {b : LiveBoard} {query : BoardSelectionQuery}
    {createRandom : Nat → Uuid} {ns : BI_NetSegment} {seg : Segment}
    {sub : BoardClipboardData.NetSegment} (h : CopiedFrom b query createRandom ns seg sub) :
    sub.vias = (seg.anchors.filterMap (selectedVia query)).map (copyVia b) := by
  obtain ⟨random, next, h⟩ := h
  simp only [copySegment, Outcome.bind_eq_ok, Outcome.ok.injEq, Prod.mk.injEq] at h
  obtain ⟨lines, _, rfl, _⟩ := h
  exact (copyAnchors_inv b query createRandom seg.anchors random).vias_eq

theorem copyNetLine_properties {b : LiveBoard}
    {replaced : List (BI_NetLineAnchor × BoardClipboardData.NetPoint)} {w : BI_NetLine}
    {l : BoardClipboardData.NetLine} (h : copyNetLine b replaced w = .ok l) :
    l.properties = netLineProperties b w := by
  simp only [copyNetLine, Outcome.bind_eq_ok, Outcome.ok.injEq] at h
  obtain ⟨_, _, _, _, rfl⟩ := h
  rfl

theorem CopiedFrom.lines {b : LiveBoard} {query : BoardSelectionQuery}
    {createRandom : Nat → Uuid} {ns : BI_NetSegment} {seg : Segment}
    {sub : BoardClipboardData.NetSegment} (h : CopiedFrom b query createRandom ns seg sub) :
    sub.lines.map BoardClipboardData.NetLine.properties =
      seg.netlines.map (netLineProperties b) := by
  obtain ⟨random, next, h⟩ := h
  simp only [copySegment, Outcome.bind_eq_ok, Outcome.ok.injEq, Prod.mk.injEq] at h
  obtain ⟨lines, hlines, rfl, _⟩ := h
  have hall := (copyNetLines_forall₂ b _ _ _).1 hlines
  simp only
  clear hlines
  generalize seg.netlines = ws at hall
  induction hall with
  | nil => rfl
  | cons hl _ ih => simp [copyNetLine_properties hl, ih]

theorem copied_segments_vias {b : LiveBoard} {query : BoardSelectionQuery}
    {createRandom : Nat → Uuid} {ns : BI_NetSegment} {segs : List Segment}
    {part : List BoardClipboardData.NetSegment}
    (h : List.Forall₂ (CopiedFrom b query createRandom ns) segs part) :
    part.flatMap BoardClipboardData.NetSegment.vias =
      ((segs.flatMap Segment.anchors).filterMap (selectedVia query)).map (copyVia b) := by
  induction h with
  | nil => rfl
  | cons hc _ ih =>
    simp only [List.flatMap_cons, List.filterMap_append, List.map_append, ih, hc.vias]

theorem copied_segments_lines {b : LiveBoard} {query : BoardSelectionQuery}
    {createRandom : Nat → Uuid} {ns : BI_NetSegment} {segs : List Segment}
    {part : List BoardClipboardData.NetSegment}
    (h : List.Forall₂ (CopiedFrom b query createRandom ns) segs part) :
    (part.flatMap BoardClipboardData.NetSegment.lines).map
        BoardClipboardData.NetLine.properties =
      (segs.flatMap Segment.netlines).map (netLineProperties b) := by
  induction h with
  | nil => rfl
  | cons hc _ ih =>
    simp only [List.flatMap_cons, List.map_append, ih, hc.lines]

theorem selected_vias_of_netSegment (b : LiveBoard) (query : BoardSelectionQuery)
    (hc : Consistent b query) (ns : BI_NetSegment) (hns : ns ∈ b.getNetSegments)
    (fuel : Nat) (hfuel : query.getNetLines.length < fuel) (segs : List Segment)
    (hsplit : split b.graph (viasOf b query ns) (netLinesOf b query ns) fuel = .ok segs) :
    ((segs.flatMap Segment.anchors).filterMap (selectedVia query)).Perm (viasOf b query ns) := by
  have hlen : (netLinesOf b query ns).length < fuel :=
    Nat.lt_of_le_of_lt (List.length_filter_le _ _) hfuel
  have hndv : (viasOf b query ns).Nodup := hc.vias_nodup.filter _
  have hnd : (netLinesOf b query ns).Nodup := hc.netLines_nodup.filter _
  rw [List.perm_iff_count]
  intro v
  rw [count_filterMap_selectedVia]
  by_cases hv : v ∈ query.getVias
  · rw [if_pos hv]
    by_cases hvn : b.viaNetSegment v = ns
    · have hmem : v ∈ viasOf b query ns := List.mem_filter.2 ⟨hv, by simpa using hvn⟩
      rw [split_via_count _ _ _ fuel (hc.wellFormed ns hns) hndv hnd hlen segs hsplit v hmem,
        List.count_eq_one_of_mem hndv hmem]
    · have hnot : v ∉ viasOf b query ns := fun h => hvn (by simpa using (List.mem_filter.1 h).2)
      rw [List.count_eq_zero.2 hnot, List.count_eq_zero]
      intro hmem
      rcases split_anchor_origin _ _ _ fuel (hc.wellFormed ns hns) hlen segs hsplit _ hmem with
        ⟨w, hw, ht⟩ | ⟨u, hu, hvu⟩
      · have hw' := List.mem_filter.1 hw
        have := hc.via_netLine w hw'.1 v ht
        exact hvn (this.trans (by simpa using hw'.2))
      · cases hvu
        exact hnot hu
  · rw [if_neg hv, eq_comm, List.count_eq_zero]
    exact fun h => hv (List.mem_filter.1 h).1

theorem copied_parts_perm (b : LiveBoard) (query : BoardSelectionQuery)
    (createRandom : Nat → Uuid) (hc : Consistent b query) (fuel : Nat)
    (hfuel : query.getNetLines.length < fuel) {nss : List BI_NetSegment}
    {parts : List (List BoardClipboardData.NetSegment)}
    (hall : List.Forall₂ (fun ns part =>
      split b.graph (viasOf b query ns) (netLinesOf b query ns) fuel =
          .ok (splitSegments b query fuel ns) ∧
        List.Forall₂ (CopiedFrom b query createRandom ns) (splitSegments b query fuel ns)
          part) nss parts)
    (hsub : ∀ ns ∈ nss, ns ∈ b.getNetSegments) :
    ((parts.flatMap id).flatMap BoardClipboardData.NetSegment.vias).Perm
        ((nss.flatMap (viasOf b query)).map (copyVia b)) ∧
      (((parts.flatMap id).flatMap BoardClipboardData.NetSegment.lines).map
          BoardClipboardData.NetLine.properties).Perm
        ((nss.flatMap (netLinesOf b query)).map (netLineProperties b)) := by
  induction hall with
  | nil => simp
  | @cons ns part nss parts hhead _ ih =>
    obtain ⟨ih1, ih2⟩ := ih (fun n hn => hsub n (List.mem_cons_of_mem _ hn))
    obtain ⟨hsplit, hcopied⟩ := hhead
    have hns := hsub ns (List.mem_cons_self _ _)
    have hlen : (netLinesOf b query ns).length < fuel :=
      Nat.lt_of_le_of_lt (List.length_filter_le _ _) hfuel
    constructor
    · simp only [List.flatMap_cons, id, List.flatMap_append, List.map_append]
      refine List.Perm.append ?_ ih1
      rw [copied_segments_vias hcopied]
      exact (selected_vias_of_netSegment b query hc ns hns fuel hfuel _ hsplit).map _
    · simp only [List.flatMap_cons, id, List.flatMap_append, List.map_append]
      refine List.Perm.append ?_ ih2
      rw [copied_segments_lines hcopied]
      exact (split_netlines_perm _ _ _ fuel (hc.wellFormed ns hns) hlen _ hsplit).map _

/-- C13: on a consistent board (well-formed graph, duplicate-free selection, vias in the
net segment of their net lines) `generate` returns a snapshot that contains exactly the
selected topology: the vias of all its sub-networks are, up to order, the copies of the
selected vias (identity, position, shape, size and drill diameter), each once, and the
wires of all its sub-networks carry, up to order, the identity, layer name and width of
the selected net lines, each once. -/
theorem generate_selected_topology (b : LiveBoard) (query : BoardSelectionQuery)
    (createRandom : Nat → Uuid) (cursorPos : Point) (fuel : Nat) (hc : Consistent b query)
    (hfuel : query.getNetLines.length < fuel) :
    ∃ data, generate b query createRandom cursorPos fuel = .ok data ∧
      (data.netSegments.flatMap BoardClipboardData.NetSegment.vias).Perm
        (query.getVias.map (copyVia b)) ∧
      ((data.netSegments.flatMap BoardClipboardData.NetSegment.lines).map
          BoardClipboardData.NetLine.properties).Perm
        (query.getNetLines.map (netLineProperties b)) := by
  obtain ⟨r, hr⟩ :=
    copyNetSegments_ok b query createRandom fuel hfuel b.getNetSegments 0 hc.wellFormed
  obtain ⟨parts, hparts, hall⟩ := copyNetSegments_spec b query createRandom fuel _ _ _ hr
  obtain ⟨h1, h2⟩ := copied_parts_perm b query createRandom hc fuel hfuel hall (fun _ h => h)
  refine ⟨⟨b.getUuid, cursorPos, r.1, query.getPlanes, query.getPolygons,
    query.getStrokeTexts, query.getHoles⟩, by simp [generate, hr, Outcome.bind], ?_, ?_⟩
  · simp only [hparts]
    refine h1.trans (List.Perm.map _ ?_)
    exact filter_netSegment_perm b.viaNetSegment query.getVias b.getNetSegments
      hc.netSegments_nodup hc.via_mem
  · simp only [hparts]
    refine h2.trans (List.Perm.map _ ?_)
    exact filter_netSegment_perm b.netLineNetSegment query.getNetLines b.getNetSegments
      hc.netSegments_nodup hc.netLine_mem

/-! ## Replacement of pads and unselected vias -/

theorem drawnOnce_step {b : LiveBoard} {query : BoardSelectionQuery}
    {createRandom : Nat → Uuid} {start : Nat} (hinj : Function.Injective createRandom)
    (havoid : ∀ k p, createRandom k ≠ b.netPointUuid p) (done : List BI_NetLineAnchor)
    (st : AnchorCopies) (x : BI_NetLineAnchor)
    (hinv : CopyInv b query createRandom start done st)
    (h : DrawnOnce createRandom start st) :
    DrawnOnce createRandom start (copyAnchor b query createRandom st x) := by
  have hins : ∀ pos : Point, DrawnOnce createRandom start
      { st with
        replacedNetPoints := (x, ⟨createRandom st.random, pos⟩) :: st.replacedNetPoints
        points := st.points ++ [⟨createRandom st.random, pos⟩]
        random := st.random + 1 } := by
    intro pos k
    have hk := h k
    have hle := hinv.random_le
    simp only [List.countP_append, List.countP_cons, List.countP_nil, hk]
    by_cases hkr : k = st.random
    · subst hkr
      simp [hle]
    · have hne : createRandom st.random ≠ createRandom k := fun he => hkr (hinj he).symm
      simp only [hne, decide_False]
      by_cases hlt : k < st.random
      · simp [hlt, Nat.lt_succ_of_lt hlt]
      · have : ¬ k < st.random + 1 := by omega
        simp [hlt, this]
  cases x with
  | netPoint p =>
    intro k
    have hne : b.netPointUuid p ≠ createRandom k := fun he => havoid k p he.symm
    simp [copyAnchor, List.countP_append, h k, hne]
  | via v =>
    by_cases hv : v ∈ query.getVias
    · intro k
      simp [copyAnchor, hv, h k]
    · have := hins (b.viaPosition v)
      simpa [copyAnchor, hv] using this
  | footprintPad p =>
    have := hins (b.padPosition p)
    simpa [copyAnchor] using this

theorem copyAnchors_drawnOnce (b : LiveBoard) (query : BoardSelectionQuery)
    (createRandom : Nat → Uuid) (hinj : Function.Injective createRandom)
    (havoid : ∀ k p, createRandom k ≠ b.netPointUuid p) (anchors : List BI_NetLineAnchor)
    (start : Nat) :
    DrawnOnce createRandom start
      (anchors.foldl (copyAnchor b query createRandom) ⟨[], [], [], start⟩) := by
  have := foldl_invariant (copyAnchor b query createRandom)
    (fun done st => CopyInv b query createRandom start done st ∧ DrawnOnce createRandom start st)
    (fun done st x h => ⟨copyInv_step done st x h.1, drawnOnce_step hinj havoid done st x h.1 h.2⟩)
    anchors [] _ ⟨CopyInv.init b query createRandom start, fun k => by
      have : ¬ (start ≤ k ∧ k < start) := by omega
      simp [this]⟩
  exact this.2

theorem anchorReference_replaced {b : LiveBoard} {query : BoardSelectionQuery}
    {replaced : List (BI_NetLineAnchor × BoardClipboardData.NetPoint)}
    {a : BI_NetLineAnchor} {np : BoardClipboardData.NetPoint}
    (hr : needsReplacement query a = true) (hlook : replaced.lookup a = some np)
    {r : Option Uuid × Option Uuid} (h : anchorReference b replaced a = .ok r) :
    r = (some np.uuid, none) := by
  cases a with
  | netPoint p => simp [needsReplacement] at hr
  | via v =>
    simp only [anchorReference, hlook, Outcome.ok.injEq] at h
    exact h.symm
  | footprintPad p =>
    simp only [anchorReference, hlook, Outcome.ok.injEq] at h
    exact h.symm

theorem copyNetLine_refersTo {b : LiveBoard} {query : BoardSelectionQuery}
    {replaced : List (BI_NetLineAnchor × BoardClipboardData.NetPoint)}
    {a : BI_NetLineAnchor} {np : BoardClipboardData.NetPoint}
    (hr : needsReplacement query a = true) (hlook : replaced.lookup a = some np)
    {w : BI_NetLine} {l : BoardClipboardData.NetLine}
    (h : copyNetLine b replaced w = .ok l) : RefersTo b a np.uuid w l := by
  simp only [copyNetLine, Outcome.bind_eq_ok, Outcome.ok.injEq] at h
  obtain ⟨r1, h1, r2, h2, rfl⟩ := h
  constructor
  · intro hs
    rw [hs] at h1
    have := anchorReference_replaced hr hlook h1
    subst this
    exact ⟨rfl, rfl⟩
  · intro he
    rw [he] at h2
    have := anchorReference_replaced hr hlook h2
    subst this
    exact ⟨rfl, rfl⟩

/-- C14: in every snapshot that `generate` returns, each sub-network stems from a segment
of the splitter such that only the selected vias of the segment are stored as vias (no
pad and no unselected via), every anchor of the segment yields exactly one via or
junction, and every pad and every unselected via of the segment is replaced by a
junction at the position of the anchor whose identity was drawn from `Uuid::createRandom`
(hence, the drawn identities being fresh, differs from the identity of the via and is
the identity of exactly one junction of the sub-network), to which every wire endpoint of
the sub-network at that anchor refers. -/
theorem generate_replaces_anchors (b : LiveBoard) (query : BoardSelectionQuery)
    (createRandom : Nat → Uuid) (cursorPos : Point) (fuel : Nat) (data : BoardClipboardData)
    (h : generate b query createRandom cursorPos fuel = .ok data)
    (hinj : Function.Injective createRandom)
    (havoid : ∀ k p, createRandom k ≠ b.netPointUuid p)
    (hown : ∀ k v, createRandom k ≠ b.viaUuid v) :
    ∀ sub ∈ data.netSegments, ∃ ns ∈ b.getNetSegments, ∃ segs,
      split b.graph (viasOf b query ns) (netLinesOf b query ns) fuel = .ok segs ∧
      ∃ seg ∈ segs,
        sub.vias = (seg.anchors.filterMap (selectedVia query)).map (copyVia b) ∧
        sub.points.length + sub.vias.length = seg.anchors.length ∧
        ∀ a ∈ seg.anchors, needsReplacement query a = true →
          ∃ k, (∀ v, a = .via v → createRandom k ≠ b.viaUuid v) ∧
            ⟨createRandom k, anchorPosition b a⟩ ∈ sub.points ∧
            sub.points.countP (fun p => decide (p.uuid = createRandom k)) = 1 ∧
            List.Forall₂ (RefersTo b a (createRandom k)) seg.netlines sub.lines := by
  intro sub hsub
  obtain ⟨ns, hns, segs, hsplit, seg, hseg, random, next, hcopy⟩ :=
    generate_subnetwork_origin b query createRandom cursorPos fuel data h sub hsub
  obtain ⟨sub', next', hcopy', _, hinv, _, hlines⟩ :=
    copySegment_spec b query createRandom ns seg random
      (split_endsIn _ _ _ _ _ hsplit seg hseg)
  rw [hcopy] at hcopy'
  cases hcopy'
  have hdrawn := copyAnchors_drawnOnce b query createRandom hinj havoid seg.anchors random
  have hpoints : (seg.anchors.foldl (copyAnchor b query createRandom)
      ⟨[], [], [], random⟩).points = sub.points := by
    simp only [copySegment, Outcome.bind_eq_ok, Outcome.ok.injEq, Prod.mk.injEq] at hcopy
    obtain ⟨_, _, rfl, _⟩ := hcopy
    rfl
  have hnext : (seg.anchors.foldl (copyAnchor b query createRandom)
      ⟨[], [], [], random⟩).random = next := by
    simp only [copySegment, Outcome.bind_eq_ok, Outcome.ok.injEq, Prod.mk.injEq] at hcopy
    obtain ⟨_, _, _, h2⟩ := hcopy
    exact h2
  refine ⟨ns, hns, segs, hsplit, seg, hseg, hinv.vias_eq, hinv.length_eq, ?_⟩
  intro a ha hr
  obtain ⟨k, hk1, hk2, hlook, hmem⟩ := hinv.replaced a ha hr
  refine ⟨k, fun v _ => hown k v, hmem, ?_, ?_⟩
  · have := hdrawn k
    rw [hpoints, hnext] at this
    rw [this, if_pos ⟨hk1, hk2⟩]
  · exact List.Forall₂.imp (fun w l hwl => copyNetLine_refersTo hr hlook hwl) hlines

/-! ## Witnesses for the claims about the builder -/

theorem generate_scenario2 :
    generate (scenario2Board false true) (scenario2Query false) scenario2Random ⟨0, 0⟩ 3 =
      .ok scenario2Snapshot := by
  decide

theorem scenario2Board_consistent (fromVia1 fromVia2 withVia : Bool) :
    Consistent (scenario2Board fromVia1 fromVia2) (scenario2Query withVia) := by
  refine ⟨?_, by simp [scenario2Board], ?_, ?_, ?_, ?_, by simp [scenario2Query]⟩
  · intro ns hns
    have : ns = 0 := by simpa [scenario2Board] using hns
    subst this
    exact scenario2_wellFormed fromVia1 fromVia2
  · intro v _; simp [scenario2Board]
  · intro w _; simp [scenario2Board]
  · intro w _ v _; rfl
  · cases withVia <;> decide

/-- Witness of C12: the snapshot of scenario 2 is self-contained. -/
theorem generate_self_contained_witness :
    ∀ sub ∈ scenario2Snapshot.netSegments, ∀ nl ∈ sub.lines,
      refResolves sub nl.startJunction nl.startVia = true ∧
        refResolves sub nl.endJunction nl.endVia = true :=
  (generate_self_contained (scenario2Board false true) (scenario2Query false) scenario2Random
    ⟨0, 0⟩).1 3 scenario2Snapshot generate_scenario2

/-- Witness of C13 on the board of scenario 2 with the via and both wires selected. -/
theorem generate_selected_topology_witness :
    ∃ data, generate (scenario2Board true false) (scenario2Query true) scenario2Random
        ⟨5, 5⟩ 3 = .ok data ∧
      (data.netSegments.flatMap BoardClipboardData.NetSegment.vias).Perm
        ((scenario2Query true).getVias.map (copyVia (scenario2Board true false))) ∧
      ((data.netSegments.flatMap BoardClipboardData.NetSegment.lines).map
          BoardClipboardData.NetLine.properties).Perm
        ((scenario2Query true).getNetLines.map (netLineProperties (scenario2Board true false))) :=
  generate_selected_topology (scenario2Board true false) (scenario2Query true) scenario2Random
    ⟨5, 5⟩ 3 (scenario2Board_consistent true false true) (by decide)

/-- Witness of C14 on the snapshot of scenario 2, in which the unselected via is replaced
by the junction with the drawn identity `3`. -/
theorem generate_replaces_anchors_witness :
    ∃ sub ∈ scenario2Snapshot.netSegments, ∃ ns ∈ (scenario2Board false true).getNetSegments,
      ∃ segs, split (scenario2Board false true).graph
          (viasOf (scenario2Board false true) (scenario2Query false) ns)
          (netLinesOf (scenario2Board false true) (scenario2Query false) ns) 3 = .ok segs ∧
      ∃ seg ∈ segs,
        sub.vias = (seg.anchors.filterMap (selectedVia (scenario2Query false))).map
          (copyVia (scenario2Board false true)) ∧
        sub.points.length + sub.vias.length = seg.anchors.length ∧
        ∀ a ∈ seg.anchors, needsReplacement (scenario2Query false) a = true →
          ∃ k, (∀ v, a = .via v → scenario2Random k ≠ (scenario2Board false true).viaUuid v) ∧
            ⟨scenario2Random k, anchorPosition (scenario2Board false true) a⟩ ∈ sub.points ∧
            sub.points.countP (fun p => decide (p.uuid = scenario2Random k)) = 1 ∧
            List.Forall₂ (RefersTo (scenario2Board false true) a (scenario2Random k))
              seg.netlines sub.lines :=
  ⟨⟨"N1", [], [⟨6, ⟨10, 0⟩⟩, ⟨3, ⟨0, 0⟩⟩, ⟨10, ⟨0, 10⟩⟩],
      [⟨5, some 6, none, some 3, none, "top_cu", ⟨200000, by decide⟩⟩,
        ⟨9, some 3, none, some 10, none, "bot_cu", ⟨200000, by decide⟩⟩]⟩,
    List.mem_cons_self _ _,
    generate_replaces_anchors (scenario2Board false true) (scenario2Query false)
      scenario2Random ⟨0, 0⟩ 3 scenario2Snapshot generate_scenario2
      (fun i j h => by
        have h' : (4 * i + 3 : Nat) = 4 * j + 3 := h
        omega)
      (fun k p => by
        show (4 * k + 3 : Nat) ≠ 4 * p + 2
        omega)
      (fun k v => by
        show (4 * k + 3 : Nat) ≠ 4 * v
        omega)
      _ (List.mem_cons_self _ _)⟩

/-! ## Atomicity of pasting -/

theorem Edit.undo_execute (cmd : Edit) (w : World) : cmd.undo (cmd.execute w) = w := by
  cases cmd with
  | netClassAdd nc => simp [Edit.execute, Edit.undo]
  | netSignalAdd ns => simp [Edit.execute, Edit.undo]
  | boardNetSegmentAdd seg => simp [Edit.execute, Edit.undo]
  | boardNetSegmentAddElements ptr vias points lines =>
    cases w
    simp only [Edit.execute, Edit.undo, List.map_map]
    congr 1
    apply List.map_id''
    intro seg
    cases seg
    simp only [Function.comp]
    split <;> simp_all
  | boardPlaneAdd p => simp [Edit.execute, Edit.undo]
  | boardPolygonAdd p => simp [Edit.execute, Edit.undo]
  | boardStrokeTextAdd t => simp [Edit.execute, Edit.undo]
  | boardHoleAdd h => simp [Edit.execute, Edit.undo]

theorem undo_all_execute_all (childs : List Edit) (w0 : World) :
    childs.reverse.foldl (fun w cmd => cmd.undo w)
      (childs.foldl (fun w cmd => cmd.execute w) w0) = w0 := by
  induction childs using List.reverseRecOn with
  | nil => rfl
  | append_singleton l cmd ih =>
    simp only [List.reverse_append, List.reverse_singleton, List.singleton_append,
      List.foldl_cons, List.foldl_append, List.foldl_nil, Edit.undo_execute]
    exact ih

theorem performUndo_of_tracks {w0 : World} {st : Paste} (h : Tracks w0 st) :
    performUndo st = w0 := by
  rw [performUndo, h]
  exact undo_all_execute_all st.childs w0

theorem Step.Ends.bind {α β : Type} {P : Paste → Prop} {x : Step α}
    {f : α → Paste → Step β} (hx : x.Ends P) (hf : ∀ a st, P st → (f a st).Ends P) :
    (x.bind f).Ends P := by
  cases x with
  | ok a st => exact hf a st hx
  | threw st => exact hx
  | assertFailed => trivial

theorem execNewChildCmd_tracks (env : PasteEnv) (cmd : Edit) (w0 : World) (st : Paste)
    (h : Tracks w0 st) : (execNewChildCmd env cmd st).Ends (Tracks w0) := by
  unfold execNewChildCmd
  split
  · exact h
  · show Tracks w0 _
    simp only [Tracks, List.foldl_append, List.foldl_cons, List.foldl_nil]
    rw [← h]

theorem getOrCreateNetSignal_tracks (env : PasteEnv) (name : String) (w0 : World)
    (st : Paste) (h : Tracks w0 st) : (getOrCreateNetSignal env name st).Ends (Tracks w0) := by
  unfold getOrCreateNetSignal
  split
  · exact h
  · refine Step.Ends.bind ?_ ?_
    · split
      · exact h
      · exact Step.Ends.bind (execNewChildCmd_tracks env _ w0 _ h) (fun _ _ h1 => h1)
    · intro nc st1 h1
      exact Step.Ends.bind (execNewChildCmd_tracks env _ w0 _ h1) (fun _ _ h2 => h2)

theorem pasteNetLines_tracks (anchors : Anchors) (w0 : World) :
    ∀ (lines : List BoardClipboardData.NetLine) (st : Paste), Tracks w0 st →
      (pasteNetLines anchors lines st).Ends (Tracks w0) := by
  intro lines
  induction lines with
  | nil => intro st h; exact h
  | cons nl rest ih =>
    intro st h
    rw [pasteNetLines]
    split
    · trivial
    · split
      · trivial
      · split
        · exact Step.Ends.bind (ih _ h) (fun _ _ h1 => h1)
        · exact h

theorem pasteNetSegment_tracks (env : PasteEnv) (posOffset : Point)
    (seg : BoardClipboardData.NetSegment) (w0 : World) (st : Paste) (h : Tracks w0 st) :
    (pasteNetSegment env posOffset seg st).Ends (Tracks w0) := by
  unfold pasteNetSegment
  refine Step.Ends.bind (getOrCreateNetSignal_tracks env _ w0 st h) fun ns st1 h1 => ?_
  refine Step.Ends.bind (execNewChildCmd_tracks env _ w0 _ h1) fun _ st2 h2 => ?_
  refine Step.Ends.bind (pasteNetLines_tracks _ w0 _ _ h2) fun lines st3 h3 => ?_
  exact execNewChildCmd_tracks env _ w0 _ h3

theorem forEach_tracks {α : Type} (body : α → Paste → Step Unit) (w0 : World)
    (hbody : ∀ x st, Tracks w0 st → (body x st).Ends (Tracks w0)) :
    ∀ (l : List α) (st : Paste), Tracks w0 st → (forEach body l st).Ends (Tracks w0) := by
  intro l
  induction l with
  | nil => intro st h; exact h
  | cons x rest ih =>
    intro st h
    exact Step.Ends.bind (hbody x st h) (fun _ st1 h1 => ih st1 h1)

theorem pasteAll_tracks (env : PasteEnv) (posOffset : Point) (data : BoardClipboardData)
    (w0 : World) (st : Paste) (h : Tracks w0 st) :
    (pasteAll env posOffset data st).Ends (Tracks w0) := by
  unfold pasteAll
  refine Step.Ends.bind (forEach_tracks _ w0
    (fun seg st h => pasteNetSegment_tracks env posOffset seg w0 st h) _ st h) fun _ st1 h1 => ?_
  refine Step.Ends.bind (forEach_tracks _ w0 ?_ _ st1 h1) fun _ st2 h2 => ?_
  · intro plane st h
    unfold pastePlane
    split
    · exact Step.Ends.bind (getOrCreateNetSignal_tracks env _ w0 st h)
        (fun _ st1 h1 => execNewChildCmd_tracks env _ w0 _ h1)
    · exact h
  refine Step.Ends.bind (forEach_tracks (pastePolygon env posOffset) w0
    (fun p st h => execNewChildCmd_tracks env _ w0 _ h) _ st2 h2) fun _ st3 h3 => ?_
  refine Step.Ends.bind (forEach_tracks (pasteStrokeText env posOffset) w0
    (fun p st h => execNewChildCmd_tracks env _ w0 _ h) _ st3 h3) fun _ st4 h4 => ?_
  exact forEach_tracks (pasteHole env posOffset) w0
    (fun p st h => execNewChildCmd_tracks env _ w0 _ h) _ st4 h4

/-- C17: pasting is atomic.  Whenever a step of `performExecute` throws, in whatever
state `st`, the project is the initial state with the executed child commands `st.childs`
applied in order, and the scope guard reverts them in reverse order, which gives the
initial state back; so if `performExecute` ends by an exception, the state of board and
circuit afterwards equals the state before. -/
theorem performExecute_atomic (env : PasteEnv) (posOffset : Point) (data : BoardClipboardData)
    (world : World) (alloc : Nat) :
    (∀ st, pasteAll env posOffset data ⟨world, [], 0, alloc, 0⟩ = .threw st →
      st.world = st.childs.foldl (fun w cmd => cmd.execute w) world ∧
      st.childs.reverse.foldl (fun w cmd => cmd.undo w) st.world = world) ∧
    (∀ w, performExecute env posOffset data world alloc = .threw w → w = world) := by
  have hends := pasteAll_tracks env posOffset data world ⟨world, [], 0, alloc, 0⟩ rfl
  constructor
  · intro st hst
    rw [hst] at hends
    exact ⟨hends, performUndo_of_tracks hends⟩
  · intro w hw
    unfold performExecute at hw
    cases hs : pasteAll env posOffset data ⟨world, [], 0, alloc, 0⟩ with
    | ok u st => rw [hs] at hw; cases hw
    | threw st =>
      rw [hs] at hw hends
      cases hw
      exact performUndo_of_tracks hends
    | assertFailed => rw [hs] at hw; cases hw

/-- Witness of C17: pasting the snapshot of scenario 2 into an empty project when the
fourth edit throws; three edits were executed and are reverted. -/
theorem performExecute_atomic_witness :
    (∃ st, pasteAll (scenario2Env (some 3)) ⟨1, 1⟩ scenario2Snapshot
        ⟨scenario2World, [], 0, 0, 0⟩ = .threw st ∧ st.childs.length = 3 ∧
      st.world ≠ scenario2World ∧
      st.childs.reverse.foldl (fun w cmd => cmd.undo w) st.world = scenario2World) ∧
    ∃ w, performExecute (scenario2Env (some 3)) ⟨1, 1⟩ scenario2Snapshot scenario2World 0 =
      .threw w ∧ w = scenario2World :=
  ⟨⟨⟨⟨["top_cu", "bot_cu"], [⟨0, "default"⟩], [⟨1, "N#1", 0⟩], [⟨2, 1, true, [], [], []⟩],
        [], [], [], []⟩,
      [.netClassAdd ⟨0, "default"⟩, .netSignalAdd ⟨1, "N#1", 0⟩,
        .boardNetSegmentAdd ⟨2, 1, true, [], [], []⟩], 4, 8, 0⟩,
      by decide, by decide, by decide,
      ((performExecute_atomic (scenario2Env (some 3)) ⟨1, 1⟩ scenario2Snapshot scenario2World
        0).1 _ (by decide)).2⟩,
    ⟨scenario2World, by decide,
      (performExecute_atomic (scenario2Env (some 3)) ⟨1, 1⟩ scenario2Snapshot scenario2World
        0).2 _ (by decide)⟩⟩

/-! ## Net signals for pasted items -/

/-- C20: `getOrCreateNetSignal name`.  When the circuit has a net signal with that name,
the call returns such a net signal and leaves the command and the project as they were
(no edit).  Otherwise, when the edits do not throw: if a net class named "default"
exists, exactly one edit is executed, a net-signal-add under that class, and the new net
signal is returned; if none exists, exactly two edits are executed, a net-class-add of a
class named "default" and then the net-signal-add under it. -/
theorem getOrCreateNetSignal_spec (env : PasteEnv) (name : String) (st : Paste) :
    (∀ existing ∈ st.world.netSignals, existing.name = name →
      ∃ ns ∈ st.world.netSignals, ns.name = name ∧
        getOrCreateNetSignal env name st = .ok ns st) ∧
    ((∀ ns ∈ st.world.netSignals, ns.name ≠ name) → env.fails st.attempts = false →
      (∀ present ∈ st.world.netClasses, present.name = "default" →
        ∃ nc ∈ st.world.netClasses, nc.name = "default" ∧
          ∃ ns st', getOrCreateNetSignal env name st = .ok ns st' ∧ ns.netClass = nc.ptr ∧
            st'.childs = st.childs ++ [.netSignalAdd ns] ∧
            st'.world = (Edit.netSignalAdd ns).execute st.world) ∧
      ((∀ nc ∈ st.world.netClasses, nc.name ≠ "default") →
        env.fails (st.attempts + 1) = false →
        ∃ nc ns st', nc.name = "default" ∧
          getOrCreateNetSignal env name st = .ok ns st' ∧ ns.netClass = nc.ptr ∧
          st'.childs = st.childs ++ [.netClassAdd nc, .netSignalAdd ns] ∧
          st'.world = (Edit.netSignalAdd ns).execute ((Edit.netClassAdd nc).execute st.world))) := by
  refine ⟨?_, ?_⟩
  · intro existing hmem hname
    cases hfind : st.world.netSignals.find? (fun ns => ns.name = name) with
    | none =>
      have := List.find?_eq_none.mp hfind existing hmem
      simp [hname] at this
    | some ns =>
      refine ⟨ns, List.mem_of_find?_eq_some hfind, ?_, ?_⟩
      · simpa using List.find?_some hfind
      · simp only [getOrCreateNetSignal, hfind]
  · intro hnone hok
    have hfind : st.world.netSignals.find? (fun ns => ns.name = name) = none := by
      rw [List.find?_eq_none]
      intro ns hns
      simpa using hnone ns hns
    refine ⟨?_, ?_⟩
    · intro present hmem hname
      cases hclass : st.world.netClasses.find? (fun nc => nc.name = "default") with
      | none =>
        have := List.find?_eq_none.mp hclass present hmem
        simp [hname] at this
      | some nc =>
        refine ⟨nc, List.mem_of_find?_eq_some hclass, by simpa using List.find?_some hclass,
          ⟨st.alloc, env.autoNetSignalName st.world, nc.ptr⟩,
          { st with
            world := (Edit.netSignalAdd
              ⟨st.alloc, env.autoNetSignalName st.world, nc.ptr⟩).execute st.world
            childs := st.childs ++
              [.netSignalAdd ⟨st.alloc, env.autoNetSignalName st.world, nc.ptr⟩]
            attempts := st.attempts + 1
            alloc := st.alloc + 1 }, ?_, rfl, rfl, rfl⟩
        simp only [getOrCreateNetSignal, hfind, hclass, Step.bind, execNewChildCmd, hok]
        rfl
    · intro hnoclass hok2
      have hclass : st.world.netClasses.find? (fun nc => nc.name = "default") = none := by
        rw [List.find?_eq_none]
        intro nc hnc
        simpa using hnoclass nc hnc
      refine ⟨⟨st.alloc, "default"⟩,
        ⟨st.alloc + 1,
          env.autoNetSignalName ((Edit.netClassAdd ⟨st.alloc, "default"⟩).execute st.world),
          st.alloc⟩,
        { st with
          world := (Edit.netSignalAdd ⟨st.alloc + 1,
            env.autoNetSignalName ((Edit.netClassAdd ⟨st.alloc, "default"⟩).execute st.world),
            st.alloc⟩).execute ((Edit.netClassAdd ⟨st.alloc, "default"⟩).execute st.world)
          childs := st.childs ++ [.netClassAdd ⟨st.alloc, "default"⟩,
            .netSignalAdd ⟨st.alloc + 1,
              env.autoNetSignalName ((Edit.netClassAdd ⟨st.alloc, "default"⟩).execute st.world),
              st.alloc⟩]
          attempts := st.attempts + 2
          alloc := st.alloc + 2 }, rfl, ?_, rfl, rfl, rfl⟩
      simp [getOrCreateNetSignal, hfind, hclass, Step.bind, execNewChildCmd, hok, hok2]

/-- Witness of C20: in a circuit without net signals and net classes the call executes a
net-class-add and a net-signal-add; in a circuit that has the net signal it executes
nothing. -/
theorem getOrCreateNetSignal_spec_witness :
    (∃ nc ns st', nc.name = "default" ∧
      getOrCreateNetSignal (scenario2Env none) "N1" ⟨scenario2World, [], 0, 0, 0⟩ =
        .ok ns st' ∧ ns.netClass = nc.ptr ∧
      st'.childs = [] ++ [.netClassAdd nc, .netSignalAdd ns] ∧
      st'.world = (Edit.netSignalAdd ns).execute
        ((Edit.netClassAdd nc).execute scenario2World)) ∧
    ∃ ns ∈ [(⟨1, "N1", 0⟩ : NetSignal)], ns.name = "N1" ∧
      getOrCreateNetSignal (scenario2Env none) "N1"
          ⟨{ scenario2World with netSignals := [⟨1, "N1", 0⟩] }, [], 0, 2, 0⟩ =
        .ok ns ⟨{ scenario2World with netSignals := [⟨1, "N1", 0⟩] }, [], 0, 2, 0⟩ :=
  ⟨((getOrCreateNetSignal_spec (scenario2Env none) "N1" ⟨scenario2World, [], 0, 0, 0⟩).2
      (by decide) (by decide)).2 (by decide) (by decide),
    (getOrCreateNetSignal_spec (scenario2Env none) "N1"
      ⟨{ scenario2World with netSignals := [⟨1, "N1", 0⟩] }, [], 0, 2, 0⟩).1
      ⟨1, "N1", 0⟩ (by decide) (by decide)⟩

/-! ## Pasting one sub-network -/

theorem lookup_head {α β : Type} [BEq α] [LawfulBEq α] (a : α) (v : β) (l : List (α × β)) :
    List.lookup a ((a, v) :: l) = some v := by
  simp [List.lookup_cons]

theorem lookup_tail {α β : Type} [BEq α] [LawfulBEq α] {a x : α} (v : β) (l : List (α × β))
    (h : a ≠ x) : List.lookup a ((x, v) :: l) = List.lookup a l := by
  have hb : (a == x) = false := by simpa using h
  rw [List.lookup_cons, hb]

theorem forall₂_mem_zip {α β : Type} {R : α → β → Prop} {l₁ : List α} {l₂ : List β}
    (h : List.Forall₂ R l₁ l₂) {x : α} (hx : x ∈ l₁) : ∃ y, (x, y) ∈ l₁.zip l₂ ∧ R x y := by
  induction h with
  | nil => cases hx
  | cons hr _ ih =>
    rcases List.mem_cons.mp hx with rfl | hx
    · exact ⟨_, by simp, hr⟩
    · obtain ⟨y, hy, hxy⟩ := ih hx
      exact ⟨y, by simp [hy], hxy⟩

theorem foldl_pasteVia (posOffset : Point) :
    ∀ (vs : List BoardClipboardData.Via) (a : Anchors),
      ∃ new, (vs.foldl (pasteVia posOffset) a).vias = a.vias ++ new ∧
        List.Forall₂ (PastedVia posOffset) vs new ∧
        (∀ lv ∈ new, a.alloc ≤ lv.ptr) ∧
        (new.map ViaObject.ptr).Nodup ∧
        (vs.foldl (pasteVia posOffset) a).netPoints = a.netPoints ∧
        (vs.foldl (pasteVia posOffset) a).netPointMap = a.netPointMap ∧
        (vs.foldl (pasteVia posOffset) a).alloc = a.alloc + vs.length ∧
        (∀ u, u ∉ vs.map BoardClipboardData.Via.uuid →
          (vs.foldl (pasteVia posOffset) a).viaMap.lookup u = a.viaMap.lookup u) ∧
        ((vs.map BoardClipboardData.Via.uuid).Nodup →
          List.Forall₂ (fun v lv =>
            (vs.foldl (pasteVia posOffset) a).viaMap.lookup v.uuid = some lv.ptr) vs new) := by
  intro vs
  induction vs with
  | nil =>
    intro a
    exact ⟨[], by simp, .nil, by simp, by simp, rfl, rfl, rfl, fun _ _ => rfl, fun _ => .nil⟩
  | cons v rest ih =>
    intro a
    obtain ⟨new, h1, h2, h3, h4, h5, h6, h7, h8, h9⟩ := ih (pasteVia posOffset a v)
    refine ⟨⟨a.alloc, v.position + posOffset, v.shape, v.size, v.drillDiameter, true⟩ :: new,
      ?_, .cons ⟨rfl, rfl, rfl, rfl, rfl⟩ h2, ?_, ?_, h5, h6, ?_, ?_, ?_⟩
    · simpa [pasteVia] using h1
    · intro lv hlv
      rcases List.mem_cons.mp hlv with rfl | hlv
      · exact le_refl _
      · have : a.alloc + 1 ≤ lv.ptr := h3 lv hlv
        omega
    · rw [List.map_cons, List.nodup_cons]
      refine ⟨?_, h4⟩
      intro hmem
      obtain ⟨lv, hlv, hptr⟩ := List.mem_map.mp hmem
      have : a.alloc + 1 ≤ lv.ptr := h3 lv hlv
      have hptr' : @Eq Nat lv.ptr a.alloc := hptr
      omega
    · rw [List.foldl_cons, h7]
      show a.alloc + 1 + rest.length = a.alloc + (rest.length + 1)
      omega
    · intro u hu
      rw [List.map_cons, List.mem_cons, not_or] at hu
      rw [List.foldl_cons, h8 u hu.2]
      exact lookup_tail _ _ hu.1
    · intro hnd
      rw [List.map_cons, List.nodup_cons] at hnd
      refine .cons ?_ (h9 hnd.2)
      rw [List.foldl_cons, h8 _ hnd.1]
      exact lookup_head _ _ _

theorem foldl_pasteNetPoint (posOffset : Point) :
    ∀ (ps : List BoardClipboardData.NetPoint) (a : Anchors),
      ∃ new, (ps.foldl (pasteNetPoint posOffset) a).netPoints = a.netPoints ++ new ∧
        List.Forall₂ (PastedNetPoint posOffset) ps new ∧
        (∀ lp ∈ new, a.alloc ≤ lp.ptr) ∧
        (new.map NetPointObject.ptr).Nodup ∧
        (ps.foldl (pasteNetPoint posOffset) a).vias = a.vias ∧
        (ps.foldl (pasteNetPoint posOffset) a).viaMap = a.viaMap ∧
        (ps.foldl (pasteNetPoint posOffset) a).alloc = a.alloc + ps.length ∧
        (∀ u, u ∉ ps.map BoardClipboardData.NetPoint.uuid →
          (ps.foldl (pasteNetPoint posOffset) a).netPointMap.lookup u =
            a.netPointMap.lookup u) ∧
        ((ps.map BoardClipboardData.NetPoint.uuid).Nodup →
          List.Forall₂ (fun p lp =>
            (ps.foldl (pasteNetPoint posOffset) a).netPointMap.lookup p.uuid = some lp.ptr)
            ps new) := by
  intro ps
  induction ps with
  | nil =>
    intro a
    exact ⟨[], by simp, .nil, by simp, by simp, rfl, rfl, rfl, fun _ _ => rfl, fun _ => .nil⟩
  | cons p rest ih =>
    intro a
    obtain ⟨new, h1, h2, h3, h4, h5, h6, h7, h8, h9⟩ := ih (pasteNetPoint posOffset a p)
    refine ⟨⟨a.alloc, p.position + posOffset, true⟩ :: new,
      ?_, .cons ⟨rfl, rfl⟩ h2, ?_, ?_, h5, h6, ?_, ?_, ?_⟩
    · simpa [pasteNetPoint] using h1
    · intro lp hlp
      rcases List.mem_cons.mp hlp with rfl | hlp
      · exact le_refl _
      · have : a.alloc + 1 ≤ lp.ptr := h3 lp hlp
        omega
    · rw [List.map_cons, List.nodup_cons]
      refine ⟨?_, h4⟩
      intro hmem
      obtain ⟨lp, hlp, hptr⟩ := List.mem_map.mp hmem
      have : a.alloc + 1 ≤ lp.ptr := h3 lp hlp
      have hptr' : lp.ptr = a.alloc := hptr
      omega
    · rw [List.foldl_cons, h7]
      show a.alloc + 1 + rest.length = a.alloc + (rest.length + 1)
      omega
    · intro u hu
      rw [List.map_cons, List.mem_cons, not_or] at hu
      rw [List.foldl_cons, h8 u hu.2]
      exact lookup_tail _ _ hu.1
    · intro hnd
      rw [List.map_cons, List.nodup_cons] at hnd
      refine .cons ?_ (h9 hnd.2)
      rw [List.foldl_cons, h8 _ hnd.1]
      exact lookup_head _ _ _

/-- What the loops over `seg.vias` and `seg.points` build: one live via per snapshot via
and one live junction per snapshot junction, all distinct objects; and, when the
identities are distinct, tables that send each identity to the live anchor created from
it. -/
theorem pasteAnchors_spec (posOffset : Point) (seg : BoardClipboardData.NetSegment)
    (alloc : Nat) :
    List.Forall₂ (PastedVia posOffset) seg.vias (pasteAnchors posOffset seg alloc).vias ∧
    List.Forall₂ (PastedNetPoint posOffset) seg.points
      (pasteAnchors posOffset seg alloc).netPoints ∧
    ((pasteAnchors posOffset seg alloc).vias.map ViaObject.ptr).Nodup ∧
    ((pasteAnchors posOffset seg alloc).netPoints.map NetPointObject.ptr).Nodup ∧
    ((seg.vias.map BoardClipboardData.Via.uuid).Nodup →
      List.Forall₂ (fun v lv =>
        (pasteAnchors posOffset seg alloc).viaMap.lookup v.uuid = some lv.ptr)
        seg.vias (pasteAnchors posOffset seg alloc).vias) ∧
    ((seg.points.map BoardClipboardData.NetPoint.uuid).Nodup →
      List.Forall₂ (fun p lp =>
        (pasteAnchors posOffset seg alloc).netPointMap.lookup p.uuid = some lp.ptr)
        seg.points (pasteAnchors posOffset seg alloc).netPoints) := by
  obtain ⟨vs, v1, v2, _, v4, v5, _, _, _, v9⟩ :=
    foldl_pasteVia posOffset seg.vias ⟨[], [], [], [], alloc⟩
  obtain ⟨ps, p1, p2, _, p4, p5, p6, _, _, p9⟩ :=
    foldl_pasteNetPoint posOffset seg.points
      (seg.vias.foldl (pasteVia posOffset) ⟨[], [], [], [], alloc⟩)
  have hvias : (pasteAnchors posOffset seg alloc).vias = vs := by
    rw [pasteAnchors, p5, v1]; rfl
  have hpoints : (pasteAnchors posOffset seg alloc).netPoints = ps := by
    rw [pasteAnchors, p1, v5]; rfl
  have hmap : (pasteAnchors posOffset seg alloc).viaMap =
      (seg.vias.foldl (pasteVia posOffset) ⟨[], [], [], [], alloc⟩).viaMap := by
    rw [pasteAnchors, p6]
  refine ⟨hvias ▸ v2, hpoints ▸ p2, hvias ▸ v4, hpoints ▸ p4, ?_, ?_⟩
  · intro hnd
    rw [hvias, hmap]
    exact v9 hnd
  · intro hnd
    rw [hpoints]
    exact p9 hnd

theorem pasteNetLines_eq_ok (anchors : Anchors) :
    ∀ (lines : List BoardClipboardData.NetLine) (st : Paste) (out : List NetLineObject)
      (st' : Paste), pasteNetLines anchors lines st = .ok out st' →
      st'.world = st.world ∧ st'.childs = st.childs ∧ st'.attempts = st.attempts ∧
        List.Forall₂ (LineResolved anchors) lines out := by
  intro lines
  induction lines with
  | nil =>
    intro st out st' h
    simp only [pasteNetLines, Step.ok.injEq] at h
    obtain ⟨rfl, rfl⟩ := h
    exact ⟨rfl, rfl, rfl, .nil⟩
  | cons nl rest ih =>
    intro st out st' h
    rw [pasteNetLines] at h
    cases hs : resolveAnchor anchors nl.startJunction nl.startVia with
    | none => simp [hs] at h
    | some start =>
      cases he : resolveAnchor anchors nl.endJunction nl.endVia with
      | none => simp [hs, he] at h
      | some stop =>
        simp only [hs, he] at h
        split at h
        · cases hr : pasteNetLines anchors rest { st with alloc := st.alloc + 1 } with
          | ok lines1 st1 =>
            rw [hr] at h
            simp only [Step.bind, Step.ok.injEq] at h
            obtain ⟨rfl, rfl⟩ := h
            obtain ⟨h1, h2, h3, h4⟩ := ih _ _ _ hr
            exact ⟨h1, h2, h3, .cons ⟨hs, he, rfl, rfl, rfl⟩ h4⟩
          | threw s => rw [hr] at h; simp [Step.bind] at h
          | assertFailed => rw [hr] at h; simp [Step.bind] at h
        · cases h

theorem pasteNetLines_returns (anchors : Anchors) :
    ∀ (lines : List BoardClipboardData.NetLine) (st : Paste),
      (∀ nl ∈ lines, (resolveAnchor anchors nl.startJunction nl.startVia).isSome = true ∧
        (resolveAnchor anchors nl.endJunction nl.endVia).isSome = true) →
      (∀ nl ∈ lines, nl.layer ∈ st.world.layers) →
      ∃ out st', pasteNetLines anchors lines st = .ok out st' := by
  intro lines
  induction lines with
  | nil => intro st _ _; exact ⟨[], st, rfl⟩
  | cons nl rest ih =>
    intro st hres hlayer
    obtain ⟨hs, he⟩ := hres nl (List.mem_cons_self _ _)
    obtain ⟨start, hs⟩ := Option.isSome_iff_exists.mp hs
    obtain ⟨stop, he⟩ := Option.isSome_iff_exists.mp he
    obtain ⟨out, st', hrest⟩ := ih { st with alloc := st.alloc + 1 }
      (fun nl h => hres nl (List.mem_cons_of_mem _ h))
      (fun nl h => hlayer nl (List.mem_cons_of_mem _ h))
    refine ⟨⟨st.alloc, start, stop, nl.layer, nl.width, true⟩ :: out, st', ?_⟩
    rw [pasteNetLines]
    simp only [hs, he, hlayer nl (List.mem_cons_self _ _), if_true, hrest, Step.bind]

theorem execNewChildCmd_eq_ok {env : PasteEnv} {cmd : Edit} {st st' : Paste} {u : Unit}
    (h : execNewChildCmd env cmd st = .ok u st') :
    st' = { st with
      world := cmd.execute st.world
      childs := st.childs ++ [cmd]
      attempts := st.attempts + 1 } := by
  unfold execNewChildCmd at h
  split at h
  · cases h
  · simp only [Step.ok.injEq] at h
    exact h.2.symm

theorem execNewChildCmd_returns {env : PasteEnv} (cmd : Edit) {st : Paste}
    (hok : env.fails st.attempts = false) :
    execNewChildCmd env cmd st = .ok () { st with
      world := cmd.execute st.world
      childs := st.childs ++ [cmd]
      attempts := st.attempts + 1 } := by
  simp [execNewChildCmd, hok]

theorem getOrCreateNetSignal_eq_ok {env : PasteEnv} {name : String} {st st1 : Paste}
    {ns : NetSignal} (h : getOrCreateNetSignal env name st = .ok ns st1) :
    st1.world.netSegments = st.world.netSegments ∧ st1.world.layers = st.world.layers ∧
      st.alloc ≤ st1.alloc := by
  unfold getOrCreateNetSignal at h
  split at h
  · simp only [Step.ok.injEq] at h
    obtain ⟨_, rfl⟩ := h
    exact ⟨rfl, rfl, le_refl _⟩
  · split at h
    · cases hf : env.fails st.attempts
      · simp only [Step.bind, execNewChildCmd, hf, Bool.false_eq_true, if_false,
          Step.ok.injEq] at h
        obtain ⟨_, rfl⟩ := h
        exact ⟨rfl, rfl, Nat.le_succ _⟩
      · simp [Step.bind, execNewChildCmd, hf] at h
    · cases hf : env.fails st.attempts
      · cases hf2 : env.fails (st.attempts + 1)
        · simp only [Step.bind, execNewChildCmd, hf, hf2, Bool.false_eq_true, if_false,
            Step.ok.injEq] at h
          obtain ⟨_, rfl⟩ := h
          exact ⟨rfl, rfl, by show st.alloc ≤ st.alloc + 1 + 1; omega⟩
        · simp [Step.bind, execNewChildCmd, hf, hf2] at h
      · simp [Step.bind, execNewChildCmd, hf] at h

theorem getOrCreateNetSignal_returns (env : PasteEnv) (name : String) (st : Paste)
    (hok : ∀ i, env.fails i = false) :
    ∃ ns st1, getOrCreateNetSignal env name st = .ok ns st1 := by
  unfold getOrCreateNetSignal
  split
  · exact ⟨_, _, rfl⟩
  · split
    · simp [Step.bind, execNewChildCmd, hok]
    · simp [Step.bind, execNewChildCmd, hok]

/-- What a completed iteration of the loop over the sub-networks has done: the net
segments of the board are those before plus one new, selected net segment that holds the
vias and junctions built by the two anchor loops and the wires built by the wire loop. -/
theorem pasteNetSegment_eq_ok {env : PasteEnv} {posOffset : Point}
    {seg : BoardClipboardData.NetSegment} {st st' : Paste}
    (h : pasteNetSegment env posOffset seg st = .ok () st')
    (hfresh : ∀ s ∈ st.world.netSegments, s.ptr < st.alloc) :
    ∃ ptr netSignal alloc lines,
      st'.world.netSegments = st.world.netSegments ++
        [⟨ptr, netSignal, true, (pasteAnchors posOffset seg alloc).vias,
          (pasteAnchors posOffset seg alloc).netPoints, lines⟩] ∧
      List.Forall₂ (LineResolved (pasteAnchors posOffset seg alloc)) seg.lines lines := by
  unfold pasteNetSegment at h
  cases hg : getOrCreateNetSignal env seg.netName st with
  | threw s => rw [hg] at h; simp [Step.bind] at h
  | assertFailed => rw [hg] at h; simp [Step.bind] at h
  | ok ns st1 =>
    obtain ⟨hsegs, _, halloc⟩ := getOrCreateNetSignal_eq_ok hg
    rw [hg] at h
    simp only [Step.bind] at h
    cases he : execNewChildCmd env
        (.boardNetSegmentAdd ⟨st1.alloc, ns.ptr, true, [], [], []⟩)
        { st1 with alloc := st1.alloc + 1 } with
    | threw s => rw [he] at h; simp at h
    | assertFailed => rw [he] at h; simp at h
    | ok u st2 =>
      have hst2 := execNewChildCmd_eq_ok he
      rw [he] at h
      simp only at h
      cases hl : pasteNetLines (pasteAnchors posOffset seg st2.alloc) seg.lines
          { st2 with alloc := (pasteAnchors posOffset seg st2.alloc).alloc } with
      | threw s => rw [hl] at h; simp at h
      | assertFailed => rw [hl] at h; simp at h
      | ok lines st3 =>
        obtain ⟨hw3, _, _, hlines⟩ := pasteNetLines_eq_ok _ _ _ _ _ hl
        rw [hl] at h
        simp only at h
        have hst' := execNewChildCmd_eq_ok h
        refine ⟨st1.alloc, ns.ptr, st2.alloc, lines, ?_, hlines⟩
        have hw' : st'.world = (Edit.boardNetSegmentAddElements st1.alloc
            (pasteAnchors posOffset seg st2.alloc).vias
            (pasteAnchors posOffset seg st2.alloc).netPoints lines).execute st3.world := by
          rw [hst']
        have hw2 : st2.world = (Edit.boardNetSegmentAdd
            ⟨st1.alloc, ns.ptr, true, [], [], []⟩).execute st1.world := by
          rw [hst2]
        have hw3' : st3.world = st2.world := hw3
        rw [hw', hw3', hw2]
        simp only [Edit.execute, List.map_append, List.map_cons, List.map_nil, if_true,
          List.nil_append, hsegs]
        congr 1
        refine (List.map_congr_left ?_).trans (List.map_id _)
        intro s hs
        have hlt : @LT.lt Nat _ s.ptr st.alloc := hfresh s hs
        have hne : ¬ s.ptr = st1.alloc := by
          intro heq
          have heq' : @Eq Nat s.ptr st1.alloc := heq
          omega
        rw [if_neg hne]
        rfl

theorem resolveAnchor_joins (posOffset : Point) (seg : BoardClipboardData.NetSegment)
    (alloc : Nat) (hvias : (seg.vias.map BoardClipboardData.Via.uuid).Nodup)
    (hpoints : (seg.points.map BoardClipboardData.NetPoint.uuid).Nodup)
    (junction via : Option Uuid) (h : refResolves seg junction via = true) :
    ∃ anchor, resolveAnchor (pasteAnchors posOffset seg alloc) junction via = some anchor ∧
      Joins seg (pasteAnchors posOffset seg alloc).vias
        (pasteAnchors posOffset seg alloc).netPoints junction via anchor := by
  obtain ⟨_, _, _, _, hv, hp⟩ := pasteAnchors_spec posOffset seg alloc
  cases junction with
  | some u =>
    cases via with
    | some u' => simp [refResolves] at h
    | none =>
      simp only [refResolves, List.any_eq_true, decide_eq_true_eq] at h
      obtain ⟨p, hmem, rfl⟩ := h
      obtain ⟨lp, hzip, hlook⟩ := forall₂_mem_zip (hp hpoints) hmem
      exact ⟨.netPoint lp.ptr, by simp [resolveAnchor, hlook],
        Or.inl ⟨p, lp, hzip, rfl, rfl, rfl⟩⟩
  | none =>
    cases via with
    | none => simp [refResolves] at h
    | some u =>
      simp only [refResolves, List.any_eq_true, decide_eq_true_eq] at h
      obtain ⟨v, hmem, rfl⟩ := h
      obtain ⟨lv, hzip, hlook⟩ := forall₂_mem_zip (hv hvias) hmem
      exact ⟨.via lv.ptr, by simp [resolveAnchor, hlook],
        Or.inr ⟨v, lv, hzip, rfl, rfl, rfl⟩⟩

theorem pasteNetLines_no_assert (anchors : Anchors) :
    ∀ (lines : List BoardClipboardData.NetLine) (st : Paste),
      (∀ nl ∈ lines, (resolveAnchor anchors nl.startJunction nl.startVia).isSome = true ∧
        (resolveAnchor anchors nl.endJunction nl.endVia).isSome = true) →
      pasteNetLines anchors lines st ≠ .assertFailed := by
  intro lines
  induction lines with
  | nil => intro st _ h; cases h
  | cons nl rest ih =>
    intro st hres h
    obtain ⟨hs, he⟩ := hres nl (List.mem_cons_self _ _)
    obtain ⟨start, hs⟩ := Option.isSome_iff_exists.mp hs
    obtain ⟨stop, he⟩ := Option.isSome_iff_exists.mp he
    rw [pasteNetLines] at h
    simp only [hs, he] at h
    split at h
    · cases hr : pasteNetLines anchors rest { st with alloc := st.alloc + 1 } with
      | ok lines1 st1 => rw [hr] at h; simp [Step.bind] at h
      | threw s => rw [hr] at h; simp [Step.bind] at h
      | assertFailed => exact ih _ (fun nl h => hres nl (List.mem_cons_of_mem _ h)) hr
    · cases h

theorem execNewChildCmd_no_assert (env : PasteEnv) (cmd : Edit) (st : Paste) :
    execNewChildCmd env cmd st ≠ .assertFailed := by
  unfold execNewChildCmd
  split <;> intro h <;> cases h

theorem getOrCreateNetSignal_no_assert (env : PasteEnv) (name : String) (st : Paste) :
    getOrCreateNetSignal env name st ≠ .assertFailed := by
  unfold getOrCreateNetSignal
  split
  · intro h; cases h
  · split
    · cases hf : env.fails st.attempts <;> simp [Step.bind, execNewChildCmd, hf]
    · cases hf : env.fails st.attempts <;>
        cases hf2 : env.fails (st.attempts + 1) <;>
          simp [Step.bind, execNewChildCmd, hf, hf2]

theorem resolves_of_selfContained (posOffset : Point) (seg : BoardClipboardData.NetSegment)
    (alloc : Nat) (hvias : (seg.vias.map BoardClipboardData.Via.uuid).Nodup)
    (hpoints : (seg.points.map BoardClipboardData.NetPoint.uuid).Nodup)
    (hself : ∀ nl ∈ seg.lines, refResolves seg nl.startJunction nl.startVia = true ∧
      refResolves seg nl.endJunction nl.endVia = true) :
    ∀ nl ∈ seg.lines,
      (resolveAnchor (pasteAnchors posOffset seg alloc) nl.startJunction
        nl.startVia).isSome = true ∧
      (resolveAnchor (pasteAnchors posOffset seg alloc) nl.endJunction
        nl.endVia).isSome = true := by
  intro nl hnl
  obtain ⟨s, hs, _⟩ := resolveAnchor_joins posOffset seg alloc hvias hpoints _ _ (hself nl hnl).1
  obtain ⟨e, he, _⟩ := resolveAnchor_joins posOffset seg alloc hvias hpoints _ _ (hself nl hnl).2
  simp [hs, he]

theorem pasteNetSegment_no_assert (env : PasteEnv) (posOffset : Point)
    (seg : BoardClipboardData.NetSegment) (st : Paste)
    (hvias : (seg.vias.map BoardClipboardData.Via.uuid).Nodup)
    (hpoints : (seg.points.map BoardClipboardData.NetPoint.uuid).Nodup)
    (hself : ∀ nl ∈ seg.lines, refResolves seg nl.startJunction nl.startVia = true ∧
      refResolves seg nl.endJunction nl.endVia = true) :
    pasteNetSegment env posOffset seg st ≠ .assertFailed := by
  unfold pasteNetSegment
  cases hg : getOrCreateNetSignal env seg.netName st with
  | threw s => simp [Step.bind]
  | assertFailed => exact absurd hg (getOrCreateNetSignal_no_assert env _ st)
  | ok ns st1 =>
    simp only [Step.bind]
    cases he : execNewChildCmd env
        (.boardNetSegmentAdd ⟨st1.alloc, ns.ptr, true, [], [], []⟩)
        { st1 with alloc := st1.alloc + 1 } with
    | threw s => simp
    | assertFailed => exact absurd he (execNewChildCmd_no_assert env _ _)
    | ok u st2 =>
      simp only
      cases hl : pasteNetLines (pasteAnchors posOffset seg st2.alloc) seg.lines
          { st2 with alloc := (pasteAnchors posOffset seg st2.alloc).alloc } with
      | threw s => simp
      | assertFailed =>
        exact absurd hl (pasteNetLines_no_assert _ _ _
          (resolves_of_selfContained posOffset seg _ hvias hpoints hself))
      | ok lines st3 =>
        simp only
        exact execNewChildCmd_no_assert env _ _

theorem pasteNetSegment_returns (env : PasteEnv) (posOffset : Point)
    (seg : BoardClipboardData.NetSegment) (st : Paste)
    (hvias : (seg.vias.map BoardClipboardData.Via.uuid).Nodup)
    (hpoints : (seg.points.map BoardClipboardData.NetPoint.uuid).Nodup)
    (hself : ∀ nl ∈ seg.lines, refResolves seg nl.startJunction nl.startVia = true ∧
      refResolves seg nl.endJunction nl.endVia = true)
    (hlayers : ∀ nl ∈ seg.lines, nl.layer ∈ st.world.layers)
    (hok : ∀ i, env.fails i = false) :
    ∃ st', pasteNetSegment env posOffset seg st = .ok () st' := by
  obtain ⟨ns, st1, hg⟩ := getOrCreateNetSignal_returns env seg.netName st hok
  obtain ⟨_, hl1, _⟩ := getOrCreateNetSignal_eq_ok hg
  obtain ⟨lines, st3, hl⟩ := pasteNetLines_returns
    (pasteAnchors posOffset seg (st1.alloc + 1)) seg.lines
    { world := (Edit.boardNetSegmentAdd ⟨st1.alloc, ns.ptr, true, [], [], []⟩).execute st1.world
      childs := st1.childs ++ [Edit.boardNetSegmentAdd ⟨st1.alloc, ns.ptr, true, [], [], []⟩]
      attempts := st1.attempts + 1
      alloc := (pasteAnchors posOffset seg (st1.alloc + 1)).alloc
      random := st1.random }
    (resolves_of_selfContained posOffset seg _ hvias hpoints hself)
    (fun nl hnl => by
      have := hlayers nl hnl
      rw [← hl1] at this
      exact this)
  unfold pasteNetSegment
  rw [hg]
  simp only [Step.bind, execNewChildCmd, hok, Bool.false_eq_true, if_false]
  rw [hl]
  exact ⟨_, rfl⟩

/-- Counterexample to C18 as stated: in a sub-network whose two vias carry the same
identity `0`, pasting creates two live vias (addresses `0` and `1`), but the remap table
sends the identity `0` to the live via `1` only, so it does not send the identity of the
first snapshot via to the live via created from it. -/
theorem pasteAnchors_remap_shadowed :
    (pasteAnchors ⟨0, 0⟩ twinViaSubNetwork 0).vias.map (fun lv => (lv.ptr, lv.position)) =
      [(0, ⟨0, 0⟩), (1, ⟨5, 5⟩)] ∧
    (pasteAnchors ⟨0, 0⟩ twinViaSubNetwork 0).viaMap.lookup 0 = some 1 ∧
    ¬ List.Forall₂ (fun v lv =>
        (pasteAnchors ⟨0, 0⟩ twinViaSubNetwork 0).viaMap.lookup v.uuid = some lv.ptr)
      twinViaSubNetwork.vias (pasteAnchors ⟨0, 0⟩ twinViaSubNetwork 0).vias := by
  refine ⟨by decide, by decide, ?_⟩
  intro h
  have := List.forall₂_zip h
    (show ((⟨0, ⟨0, 0⟩, .round, ⟨700000, by decide⟩, ⟨300000, by decide⟩⟩ :
        BoardClipboardData.Via),
      (⟨0, ⟨0, 0⟩, .round, ⟨700000, by decide⟩, ⟨300000, by decide⟩, true⟩ : ViaObject)) ∈
      List.zip twinViaSubNetwork.vias (pasteAnchors ⟨0, 0⟩ twinViaSubNetwork 0).vias
      from by decide)
  exact absurd this (by decide)

/-- C18 (amended): when an iteration of the loop over the sub-networks completes, the
board has one new net segment `live`; it holds exactly one live via per snapshot via, at
the snapshot position shifted by the paste offset and with the same shape, size and drill
diameter, and exactly one live junction per snapshot junction at the shifted position,
all of them distinct objects; the wires were made by lookups in the remap tables; and
when the via identities (junction identities) of the sub-network are pairwise distinct,
the table sends each of them to the live via (junction) created from it. -/
theorem pasteNetSegment_creates_anchors (env : PasteEnv) (posOffset : Point)
    (seg : BoardClipboardData.NetSegment) (st st' : Paste)
    (h : pasteNetSegment env posOffset seg st = .ok () st')
    (hfresh : ∀ s ∈ st.world.netSegments, s.ptr < st.alloc) :
    ∃ live alloc, st'.world.netSegments = st.world.netSegments ++ [live] ∧
      List.Forall₂ (PastedVia posOffset) seg.vias live.vias ∧
      List.Forall₂ (PastedNetPoint posOffset) seg.points live.netPoints ∧
      (live.vias.map ViaObject.ptr).Nodup ∧
      (live.netPoints.map NetPointObject.ptr).Nodup ∧
      List.Forall₂ (LineResolved (pasteAnchors posOffset seg alloc)) seg.lines
        live.netLines ∧
      ((seg.vias.map BoardClipboardData.Via.uuid).Nodup →
        List.Forall₂ (fun v lv =>
          (pasteAnchors posOffset seg alloc).viaMap.lookup v.uuid = some lv.ptr)
          seg.vias live.vias) ∧
      ((seg.points.map BoardClipboardData.NetPoint.uuid).Nodup →
        List.Forall₂ (fun p lp =>
          (pasteAnchors posOffset seg alloc).netPointMap.lookup p.uuid = some lp.ptr)
          seg.points live.netPoints) := by
  obtain ⟨ptr, netSignal, alloc, lines, hsegs, hlines⟩ := pasteNetSegment_eq_ok h hfresh
  obtain ⟨h1, h2, h3, h4, h5, h6⟩ := pasteAnchors_spec posOffset seg alloc
  exact ⟨_, alloc, hsegs, h1, h2, h3, h4, hlines, h5, h6⟩

/-- Witness of C18 (amended): pasting the sub-network of scenario 2 into an empty
project. -/
theorem pasteNetSegment_creates_anchors_witness :
    ∃ st', pasteNetSegment (scenario2Env none) ⟨1, 1⟩ scenario2SubNetwork
        ⟨scenario2World, [], 0, 0, 0⟩ = .ok () st' ∧
      ∃ live alloc, st'.world.netSegments = scenario2World.netSegments ++ [live] ∧
        List.Forall₂ (PastedVia ⟨1, 1⟩) scenario2SubNetwork.vias live.vias ∧
        List.Forall₂ (PastedNetPoint ⟨1, 1⟩) scenario2SubNetwork.points live.netPoints ∧
        (live.vias.map ViaObject.ptr).Nodup ∧
        (live.netPoints.map NetPointObject.ptr).Nodup ∧
        List.Forall₂ (LineResolved (pasteAnchors ⟨1, 1⟩ scenario2SubNetwork alloc))
          scenario2SubNetwork.lines live.netLines ∧
        ((scenario2SubNetwork.vias.map BoardClipboardData.Via.uuid).Nodup →
          List.Forall₂ (fun v lv =>
            (pasteAnchors ⟨1, 1⟩ scenario2SubNetwork alloc).viaMap.lookup v.uuid =
              some lv.ptr)
            scenario2SubNetwork.vias live.vias) ∧
        ((scenario2SubNetwork.points.map BoardClipboardData.NetPoint.uuid).Nodup →
          List.Forall₂ (fun p lp =>
            (pasteAnchors ⟨1, 1⟩ scenario2SubNetwork alloc).netPointMap.lookup p.uuid =
              some lp.ptr)
            scenario2SubNetwork.points live.netPoints) :=
  ⟨_, rfl, pasteNetSegment_creates_anchors (scenario2Env none) ⟨1, 1⟩ scenario2SubNetwork
    ⟨scenario2World, [], 0, 0, 0⟩ _ rfl (by decide)⟩

/-- C19: for a self-contained sub-network (every wire has exactly one "from" and one "to"
reference, each naming a via or junction of the sub-network) with pairwise distinct via
identities and pairwise distinct junction identities, no endpoint assertion fires,
whatever else happens; and when the layers of the wires exist on the board and no edit
throws, the iteration completes and the new net segment holds exactly one live wire per
snapshot wire, on the layer of the same name, of the same width, joining the live anchors
created from the anchors the snapshot wire refers to. -/
theorem pasteNetSegment_wires (env : PasteEnv) (posOffset : Point)
    (seg : BoardClipboardData.NetSegment) (st : Paste)
    (hvias : (seg.vias.map BoardClipboardData.Via.uuid).Nodup)
    (hpoints : (seg.points.map BoardClipboardData.NetPoint.uuid).Nodup)
    (hself : ∀ nl ∈ seg.lines, refResolves seg nl.startJunction nl.startVia = true ∧
      refResolves seg nl.endJunction nl.endVia = true) :
    pasteNetSegment env posOffset seg st ≠ .assertFailed ∧
    ((∀ nl ∈ seg.lines, nl.layer ∈ st.world.layers) → (∀ i, env.fails i = false) →
      (∀ s ∈ st.world.netSegments, s.ptr < st.alloc) →
      ∃ st' live, pasteNetSegment env posOffset seg st = .ok () st' ∧
        st'.world.netSegments = st.world.netSegments ++ [live] ∧
        List.Forall₂ (PastedVia posOffset) seg.vias live.vias ∧
        List.Forall₂ (PastedNetPoint posOffset) seg.points live.netPoints ∧
        List.Forall₂ (PastedNetLine seg live) seg.lines live.netLines) := by
  refine ⟨pasteNetSegment_no_assert env posOffset seg st hvias hpoints hself, ?_⟩
  intro hlayers hok hfresh
  obtain ⟨st', h⟩ := pasteNetSegment_returns env posOffset seg st hvias hpoints hself hlayers hok
  obtain ⟨ptr, netSignal, alloc, lines, hsegs, hlines⟩ := pasteNetSegment_eq_ok h hfresh
  obtain ⟨h1, h2, _, _, _, _⟩ := pasteAnchors_spec posOffset seg alloc
  refine ⟨st', _, h, hsegs, h1, h2, ?_⟩
  show List.Forall₂ _ seg.lines lines
  have hmem : ∀ nl ∈ seg.lines, refResolves seg nl.startJunction nl.startVia = true ∧
      refResolves seg nl.endJunction nl.endVia = true := hself
  clear hsegs h hself
  generalize seg.lines = ls at hlines hmem
  induction hlines with
  | nil => exact .nil
  | @cons nl ll ls lls hr _ ih =>
    refine .cons ?_ (ih (fun nl h => hmem nl (List.mem_cons_of_mem _ h)))
    obtain ⟨hs, he, hlayer, hwidth, hsel⟩ := hr
    obtain ⟨s, hs', hjs⟩ := resolveAnchor_joins posOffset seg alloc hvias hpoints _ _
      (hmem nl (List.mem_cons_self _ _)).1
    obtain ⟨e, he', hje⟩ := resolveAnchor_joins posOffset seg alloc hvias hpoints _ _
      (hmem nl (List.mem_cons_self _ _)).2
    rw [hs] at hs'
    rw [he] at he'
    cases hs'
    cases he'
    exact ⟨hlayer, hwidth, hsel, hjs, hje⟩

/-- Witness of C19: pasting the sub-network of scenario 2 into an empty project with the
two copper layers. -/
theorem pasteNetSegment_wires_witness :
    pasteNetSegment (scenario2Env none) ⟨1, 1⟩ scenario2SubNetwork
      ⟨scenario2World, [], 0, 0, 0⟩ ≠ .assertFailed ∧
    ∃ st' live, pasteNetSegment (scenario2Env none) ⟨1, 1⟩ scenario2SubNetwork
        ⟨scenario2World, [], 0, 0, 0⟩ = .ok () st' ∧
      st'.world.netSegments = scenario2World.netSegments ++ [live] ∧
      List.Forall₂ (PastedVia ⟨1, 1⟩) scenario2SubNetwork.vias live.vias ∧
      List.Forall₂ (PastedNetPoint ⟨1, 1⟩) scenario2SubNetwork.points live.netPoints ∧
      List.Forall₂ (PastedNetLine scenario2SubNetwork live) scenario2SubNetwork.lines
        live.netLines :=
  ⟨(pasteNetSegment_wires (scenario2Env none) ⟨1, 1⟩ scenario2SubNetwork
      ⟨scenario2World, [], 0, 0, 0⟩ (by decide) (by decide) (by decide)).1,
    (pasteNetSegment_wires (scenario2Env none) ⟨1, 1⟩ scenario2SubNetwork
      ⟨scenario2World, [], 0, 0, 0⟩ (by decide) (by decide) (by decide)).2
      (by decide) (fun _ => rfl) (by decide)⟩

/-! ## The snapshot codec: round trip -/

theorem point_ofSExpression_serialize (name : String) (p : Point) :
    Point.ofSExpression (.list name p.serialize) = some p := by
  cases p
  rfl

theorem via_ofSExpression_serialize (v : BoardClipboardData.Via) :
    BoardClipboardData.Via.ofSExpression (.list "via" v.serialize) = some v := by
  obtain ⟨uuid, position, shape, ⟨size, hsize⟩, ⟨drill, hdrill⟩⟩ := v
  simp [BoardClipboardData.Via.ofSExpression, BoardClipboardData.Via.serialize,
    SExpression.getChildByIndex, SExpression.children, SExpression.tryGetChildByPath,
    SExpression.isListNamed, SExpression.getValueByPath, SExpression.getUuid,
    SExpression.getShape, SExpression.getPositiveLength, point_ofSExpression_serialize,
    hsize, hdrill]

theorem netPoint_ofSExpression_serialize
    (np : BoardClipboardData.NetPoint) :
    BoardClipboardData.NetPoint.ofSExpression (.list "junction" np.serialize) = some np := by
  obtain ⟨uuid, position⟩ := np
  simp [BoardClipboardData.NetPoint.ofSExpression, BoardClipboardData.NetPoint.serialize,
    SExpression.getChildByIndex, SExpression.children, SExpression.tryGetChildByPath,
    SExpression.isListNamed, SExpression.getUuid, point_ofSExpression_serialize]

theorem netLine_ofSExpression_serialize (nl : BoardClipboardData.NetLine)
    (hs : exactlyOne nl.startJunction nl.startVia = true)
    (he : exactlyOne nl.endJunction nl.endVia = true) (hl : nl.layer ≠ "") :
    ∃ children, nl.serialize = some children ∧
      BoardClipboardData.NetLine.ofSExpression (.list "trace" children) = some nl := by
  obtain ⟨uuid, startJunction, startVia, endJunction, endVia, layer, ⟨width, hwidth⟩⟩ := nl
  have hl' : ¬ layer = "" := hl
  rcases startJunction with _ | sj <;> rcases startVia with _ | sv <;>
    simp only [exactlyOne, Option.isSome_none, Option.isSome_some, bne_self_eq_false,
      Bool.false_eq_true] at hs <;>
    rcases endJunction with _ | ej <;> rcases endVia with _ | ev <;>
    simp only [exactlyOne, Option.isSome_none, Option.isSome_some, bne_self_eq_false,
      Bool.false_eq_true] at he <;>
    exact ⟨_, rfl, by
      simp [BoardClipboardData.NetLine.ofSExpression, loadReference,
        SExpression.getChildByIndex, SExpression.children, SExpression.tryGetChildByPath,
        SExpression.isListNamed, SExpression.getValueByPath, SExpression.getUuid,
        SExpression.getStringOrToken, SExpression.getPositiveLength, hwidth, hl']⟩

theorem loadAll_map {α : Type} (load : SExpression → Option α) (f : α → SExpression) :
    ∀ xs : List α, (∀ x ∈ xs, load (f x) = some x) → loadAll load (xs.map f) = some xs := by
  intro xs
  induction xs with
  | nil => intro _; rfl
  | cons x rest ih =>
    intro h
    simp only [List.map_cons, loadAll, h x (List.mem_cons_self _ _),
      ih (fun y hy => h y (List.mem_cons_of_mem _ hy)), Option.map_some']

theorem filter_tagged (tag other : String) {α : Type} (f : α → List SExpression)
    (xs : List α) :
    (xs.map fun x => SExpression.list tag (f x)).filter (SExpression.isListNamed other) =
      if tag = other then xs.map fun x => SExpression.list tag (f x) else [] := by
  induction xs with
  | nil => simp
  | cons x rest ih =>
    by_cases h : tag = other
    · simp only [h, if_true] at ih ⊢
      simp [SExpression.isListNamed, ih]
    · simp only [h, if_false] at ih ⊢
      simp [SExpression.isListNamed, ih, h]

/-- Serialising a list of objects gives nodes that carry the tag name and from which the
objects are loaded again, when this holds for each object. -/
theorem serializeAll_spec {α : Type} (tag : String)
    (serialize : α → Option (List SExpression)) (load : SExpression → Option α) :
    ∀ xs : List α,
      (∀ x ∈ xs, ∃ c, serialize x = some c ∧ load (.list tag c) = some x) →
      ∃ nodes, serializeAll tag serialize xs = some nodes ∧ loadAll load nodes = some xs ∧
        ∀ other, nodes.filter (SExpression.isListNamed other) =
          if tag = other then nodes else [] := by
  intro xs
  induction xs with
  | nil => intro _; exact ⟨[], rfl, rfl, fun _ => by simp⟩
  | cons x rest ih =>
    intro h
    obtain ⟨c, hc, hload⟩ := h x (List.mem_cons_self _ _)
    obtain ⟨nodes, hn, hl, hf⟩ := ih (fun y hy => h y (List.mem_cons_of_mem _ hy))
    refine ⟨.list tag c :: nodes, by simp [serializeAll, hc, hn], by simp [loadAll, hload, hl],
      ?_⟩
    intro other
    by_cases ht : tag = other
    · have := hf other
      simp only [ht, if_true] at this ⊢
      simp [SExpression.isListNamed, this]
    · have := hf other
      simp only [ht, if_false] at this ⊢
      simp [SExpression.isListNamed, this, ht]

theorem netSegment_ofSExpression_serialize
    (seg : BoardClipboardData.NetSegment)
    (hone : ∀ nl ∈ seg.lines, exactlyOne nl.startJunction nl.startVia = true ∧
      exactlyOne nl.endJunction nl.endVia = true)
    (hlayer : ∀ nl ∈ seg.lines, nl.layer ≠ "") :
    ∃ children, seg.serialize = some children ∧
      BoardClipboardData.NetSegment.ofSExpression (.list "netsegment" children) = some seg := by
  obtain ⟨lines, hser, hload, hfilter⟩ := serializeAll_spec "trace"
    BoardClipboardData.NetLine.serialize BoardClipboardData.NetLine.ofSExpression seg.lines
    (fun nl hnl => netLine_ofSExpression_serialize nl (hone nl hnl).1
      (hone nl hnl).2 (hlayer nl hnl))
  refine ⟨.list "net" [.string seg.netName] ::
      (seg.vias.map (fun v => .list "via" v.serialize) ++
        (seg.points.map (fun p => .list "junction" p.serialize) ++ lines)),
    by simp only [BoardClipboardData.NetSegment.serialize, hser], ?_⟩
  have hvias := loadAll_map BoardClipboardData.Via.ofSExpression
    (fun v => .list "via" v.serialize) seg.vias
    (fun v _ => via_ofSExpression_serialize v)
  have hpoints := loadAll_map BoardClipboardData.NetPoint.ofSExpression
    (fun p => .list "junction" p.serialize) seg.points
    (fun p _ => netPoint_ofSExpression_serialize p)
  obtain ⟨netName, vias, points, ls⟩ := seg
  simp only at hvias hpoints hload hfilter ⊢
  simp [BoardClipboardData.NetSegment.ofSExpression, loadFromSExpression,
    SExpression.getChildren, SExpression.children, SExpression.getValueByPath,
    SExpression.tryGetChildByPath, SExpression.isListNamed, SExpression.getStringOrToken,
    List.filter_append, filter_tagged, hfilter, hvias, hpoints, hload]

/-- Counterexample to C15 as stated: a snapshot whose only wire carries exactly one "from"
and one "to" reference but an empty layer name is serialised, and the text form gives
the tree back, yet decoding throws (`getValueByPath<QString>("layer", true)`), so
decoding the encoding does not yield a snapshot at all. -/
theorem codec_round_trip_nameless_layer :
    (∀ seg ∈ namelessLayerSnapshot.netSegments, ∀ nl ∈ seg.lines,
      exactlyOne nl.startJunction nl.startVia = true ∧
        exactlyOne nl.endJunction nl.endVia = true) ∧
    ∃ root,
      namelessLayerSnapshot.serializeToDomElement noItems "librepcb_clipboard_board" =
        some root ∧
      plainText.parse (plainText.toByteArray root) = some root ∧
      BoardClipboardData.ofByteArray plainText noItems (plainText.toByteArray root) = none :=
  ⟨by decide, _, rfl, rfl, by decide⟩

/-- C15 (amended): for every snapshot whose wires each carry exactly one "from" reference
and exactly one "to" reference and have a non-empty layer name, serialising gives a tree
`root`; and when the text form gives this tree back, the nodes of the other items are not
named "netsegment" and these items load, decoding the encoding yields a snapshot equal to
the original in board identity, cursor position and the list of sub-networks (net name,
vias, junctions and wires with all their fields, in order). -/
theorem codec_round_trip {Bytes : Type} (text : TextForm Bytes) (codec : ItemCodec)
    (data : BoardClipboardData)
    (hone : ∀ seg ∈ data.netSegments, ∀ nl ∈ seg.lines,
      exactlyOne nl.startJunction nl.startVia = true ∧
        exactlyOne nl.endJunction nl.endVia = true)
    (hlayer : ∀ seg ∈ data.netSegments, ∀ nl ∈ seg.lines, nl.layer ≠ "") :
    ∃ root, data.serializeToDomElement codec "librepcb_clipboard_board" = some root ∧
      (text.parse (text.toByteArray root) = some root →
        (∀ node ∈ codec.serialize data, node.isListNamed "netsegment" = false) →
        (codec.loadPlanes root).isSome = true → (codec.loadPolygons root).isSome = true →
        (codec.loadStrokeTexts root).isSome = true → (codec.loadHoles root).isSome = true →
        ∃ decoded, BoardClipboardData.ofByteArray text codec (text.toByteArray root) =
            some decoded ∧
          decoded.boardUuid = data.boardUuid ∧ decoded.cursorPos = data.cursorPos ∧
          decoded.netSegments = data.netSegments) := by
  obtain ⟨segments, hser, hload, hfilter⟩ := serializeAll_spec "netsegment"
    BoardClipboardData.NetSegment.serialize BoardClipboardData.NetSegment.ofSExpression
    data.netSegments
    (fun seg hseg => netSegment_ofSExpression_serialize seg
      (hone seg hseg) (hlayer seg hseg))
  refine ⟨.list "librepcb_clipboard_board"
      (.list "cursor_position" data.cursorPos.serialize ::
        .list "board" [.uuid data.boardUuid] :: (segments ++ codec.serialize data)),
    by simp only [BoardClipboardData.serializeToDomElement, BoardClipboardData.serialize,
      hser, Option.map_some'], ?_⟩
  intro hparse hitems hplanes hpolygons htexts hholes
  obtain ⟨planes, hplanes⟩ := Option.isSome_iff_exists.mp hplanes
  obtain ⟨polygons, hpolygons⟩ := Option.isSome_iff_exists.mp hpolygons
  obtain ⟨texts, htexts⟩ := Option.isSome_iff_exists.mp htexts
  obtain ⟨holes, hholes⟩ := Option.isSome_iff_exists.mp hholes
  have hnone : (codec.serialize data).filter (SExpression.isListNamed "netsegment") = [] := by
    rw [List.filter_eq_nil_iff]
    intro node hnode
    simp [hitems node hnode]
  refine ⟨⟨data.boardUuid, data.cursorPos, data.netSegments, planes, polygons, texts, holes⟩,
    ?_, rfl, rfl, rfl⟩
  simp [BoardClipboardData.ofByteArray, hparse, hplanes, hpolygons, htexts, hholes,
    loadFromSExpression, SExpression.getChildren, SExpression.children,
    SExpression.getValueByPath, SExpression.tryGetChildByPath, SExpression.isListNamed,
    SExpression.getUuid, point_ofSExpression_serialize, List.filter_append, hfilter, hnone,
    hload]

/-- Witness of C15 (amended): the snapshot of scenario 2, with the tree itself as text
form and no other items. -/
theorem codec_round_trip_witness :
    ∃ root, scenario2Snapshot.serializeToDomElement noItems "librepcb_clipboard_board" =
        some root ∧
      ∃ decoded, BoardClipboardData.ofByteArray plainText noItems
          (plainText.toByteArray root) = some decoded ∧
        decoded.boardUuid = scenario2Snapshot.boardUuid ∧
        decoded.cursorPos = scenario2Snapshot.cursorPos ∧
        decoded.netSegments = scenario2Snapshot.netSegments :=
  (codec_round_trip plainText noItems scenario2Snapshot (by decide) (by decide)).elim
    fun root h => ⟨root, h.1, h.2 rfl (fun _ hnode => nomatch hnode) rfl rfl rfl rfl⟩

/-! ## The snapshot codec: the transport boundary -/

theorem getMimeType_injective {v v' : String} (h : getMimeType v = getMimeType v') :
    v = v' := by
  have := congrArg String.data h
  simp only [getMimeType, String.data_append, List.append_cancel_left_eq] at this
  exact String.ext this

theorem lookup_eq_none_of_forall {α β : Type} [BEq α] [LawfulBEq α] (k : α) :
    ∀ l : List (α × β), (∀ entry ∈ l, entry.1 ≠ k) → l.lookup k = none := by
  intro l
  induction l with
  | nil => intro _; rfl
  | cons e rest ih =>
    intro h
    obtain ⟨a, b⟩ := e
    have hne : k ≠ a := fun heq => h (a, b) (List.mem_cons_self _ _) heq.symm
    rw [lookup_tail b rest hne]
    exact ih (fun entry hentry => h entry (List.mem_cons_of_mem _ hentry))

theorem mem_of_lookup_eq_some {α β : Type} [BEq α] [LawfulBEq α] (k : α) (v : β) :
    ∀ l : List (α × β), l.lookup k = some v → (k, v) ∈ l := by
  intro l
  induction l with
  | nil => intro h; cases h
  | cons e rest ih =>
    intro h
    obtain ⟨a, b⟩ := e
    by_cases hka : k = a
    · subst hka
      rw [lookup_head] at h
      cases h
      exact List.mem_cons_self _ _
    · rw [lookup_tail b rest hka] at h
      exact List.mem_cons_of_mem _ (ih h)

/-- C16: `fromMimeData` returns the null pointer, without an exception, when the
transport object is null and when it has no payload under the media type
"application/x-librepcb-clipboard.board; version=" followed by the version of this
application; in particular when all its payloads are stored under this media type with
other versions.  And when it returns a snapshot, a payload is stored under exactly the
media type of this version and the snapshot is what the constructor decodes from that
payload. -/
theorem fromMimeData_spec {Bytes : Type} (text : TextForm Bytes) (codec : ItemCodec)
    (applicationVersion : String) :
    BoardClipboardData.fromMimeData text codec applicationVersion none = .null ∧
    (∀ mime : QMimeData Bytes,
      (∀ entry ∈ mime.formats, entry.1 ≠ getMimeType applicationVersion) →
      BoardClipboardData.fromMimeData text codec applicationVersion (some mime) = .null) ∧
    (∀ mime : QMimeData Bytes,
      (∀ entry ∈ mime.formats, ∃ other, other ≠ applicationVersion ∧
        entry.1 = getMimeType other) →
      BoardClipboardData.fromMimeData text codec applicationVersion (some mime) = .null) ∧
    (∀ (mime : QMimeData Bytes) (data : BoardClipboardData),
      BoardClipboardData.fromMimeData text codec applicationVersion (some mime) =
        .snapshot data →
      ∃ payload, (getMimeType applicationVersion, payload) ∈ mime.formats ∧
        BoardClipboardData.ofByteArray text codec payload = some data) := by
  have hnull : ∀ mime : QMimeData Bytes,
      (∀ entry ∈ mime.formats, entry.1 ≠ getMimeType applicationVersion) →
      BoardClipboardData.fromMimeData text codec applicationVersion (some mime) = .null := by
    intro mime h
    simp only [BoardClipboardData.fromMimeData, QMimeData.data,
      lookup_eq_none_of_forall _ _ h]
  refine ⟨rfl, hnull, ?_, ?_⟩
  · intro mime h
    apply hnull
    intro entry hentry heq
    obtain ⟨other, hother, hentry'⟩ := h entry hentry
    rw [hentry'] at heq
    exact hother (getMimeType_injective heq)
  · intro mime data h
    simp only [BoardClipboardData.fromMimeData, QMimeData.data] at h
    cases hlook : mime.formats.lookup (getMimeType applicationVersion) with
    | none => rw [hlook] at h; cases h
    | some payload =>
      rw [hlook] at h
      refine ⟨payload, mem_of_lookup_eq_some _ _ _ hlook, ?_⟩
      cases hdec : BoardClipboardData.ofByteArray text codec payload with
      | none => simp [hdec] at h
      | some d =>
        simp only [hdec, FromMimeData.snapshot.injEq] at h
        rw [h]

/-- Witness of C16: version "0.1.2" of the application ignores a payload stored by version
"0.1.1", and the snapshot it gets from what it stored itself is decoded from the payload
under its own media type. -/
theorem fromMimeData_spec_witness :
    BoardClipboardData.fromMimeData plainText noItems "0.1.2"
      (some ⟨[(getMimeType "0.1.1", SExpression.list "librepcb_clipboard_board" [])]⟩) =
        .null ∧
    ∃ mime, scenario2Snapshot.toMimeData plainText noItems "0.1.2" = some mime ∧
      BoardClipboardData.fromMimeData plainText noItems "0.1.2" (some mime) =
        .snapshot scenario2Snapshot ∧
      ∃ payload, (getMimeType "0.1.2", payload) ∈ mime.formats ∧
        BoardClipboardData.ofByteArray plainText noItems payload = some scenario2Snapshot :=
  ⟨(fromMimeData_spec plainText noItems "0.1.2").2.2.1 _
      (fun entry hentry => ⟨"0.1.1", by decide, by
        have : entry = (getMimeType "0.1.1", SExpression.list "librepcb_clipboard_board" []) :=
          List.mem_singleton.mp hentry
        rw [this]⟩),
    _, rfl, by decide,
    (fromMimeData_spec plainText noItems "0.1.2").2.2.2 _ scenario2Snapshot (by decide)⟩

/-! ## Pads, input order and excluded vias in `split` -/

theorem padBoard_wellFormed : WellFormed padBoard [1, 2] := by
  refine ⟨?_, ?_, ?_⟩
  · intro w hw
    simp only [List.mem_cons, List.mem_singleton, List.not_mem_nil, or_false] at hw
    rcases hw with rfl | rfl <;> simp [padBoard]
  · intro w hw
    simp only [List.mem_cons, List.mem_singleton, List.not_mem_nil, or_false] at hw
    rcases hw with rfl | rfl <;> simp [padBoard]
  · intro a w hw hin
    simp only [List.mem_cons, List.mem_singleton, List.not_mem_nil, or_false] at hin
    simp only [padBoard] at hw
    split_ifs at hw with h1 h2 h3
    · subst h1
      rcases hin with rfl | rfl <;> simp [padBoard, touches]
    · subst h2
      simp only [List.mem_singleton] at hw
      subst hw
      simp [padBoard, touches]
    · subst h3
      simp only [List.mem_singleton] at hw
      subst hw
      simp [padBoard, touches]
    · simp at hw

/-- Counterexample to C28 as stated: on `padBoard` the two input wires have the pad `0` as
their only common anchor, and `split` returns one segment that holds both: having reached
the pad through wire `1`, the traversal takes wire `2` there as well. -/
theorem split_continues_through_pad :
    (∀ a, touches padBoard 1 a → touches padBoard 2 a → a = .footprintPad 0) ∧
    split padBoard [] [1, 2] 3 =
      .ok [⟨[.netPoint 1, .footprintPad 0, .netPoint 2], [1, 2]⟩] := by
  refine ⟨?_, by decide⟩
  intro a h1 h2
  simp only [touches, padBoard, if_true] at h1 h2
  rcases h1 with h1 | h1 <;> rcases h2 with h2 | h2 <;> subst h1 <;>
    first | rfl | (simp at h2)

/-- C28 (amended): on a well-formed graph `split` returns, and a pad does not stop the
growth of a segment: any two input wires that end at one and the same pad lie in the wire
list of one and the same returned segment, and the pad is in its anchor list. -/
theorem split_pad_joins (g : Board) (mVias : List BI_Via) (mNetLines : List BI_NetLine)
    (fuel : Nat) (hwf : WellFormed g mNetLines) (hfuel : mNetLines.length < fuel) :
    ∃ segs, split g mVias mNetLines fuel = .ok segs ∧
      ∀ pad, ∀ w1 ∈ mNetLines, ∀ w2 ∈ mNetLines,
        touches g w1 (.footprintPad pad) → touches g w2 (.footprintPad pad) →
        ∃ s ∈ segs, w1 ∈ s.netlines ∧ w2 ∈ s.netlines ∧ .footprintPad pad ∈ s.anchors := by
  obtain ⟨segs, vias, hsplit, hinv⟩ := split_spec mVias hwf fuel hfuel
  refine ⟨_, hsplit, ?_⟩
  intro pad w1 hw1 w2 hw2 ht1 ht2
  have hmem : w1 ∈ segs.flatMap Segment.netlines := by
    have := hinv.perm.symm.subset hw1
    simpa using this
  obtain ⟨s1, hs1, hw1s⟩ := List.mem_flatMap.1 hmem
  have ha : BI_NetLineAnchor.footprintPad pad ∈ s1.anchors := by
    rcases ht1 with ht | ht
    · exact ht ▸ ((hinv.segOK s1 hs1).ends w1 hw1s).1
    · exact ht ▸ ((hinv.segOK s1 hs1).ends w1 hw1s).2
  obtain ⟨s, hs, hall⟩ := hinv.gathered (.footprintPad pad) rfl ⟨s1, hs1, ha⟩
  refine ⟨s, List.mem_append_left _ hs, hall w1 hw1 ht1, hall w2 hw2 ht2, ?_⟩
  rcases ht1 with ht | ht
  · exact ht ▸ ((hinv.segOK s hs).ends w1 (hall w1 hw1 (Or.inl ht))).1
  · exact ht ▸ ((hinv.segOK s hs).ends w1 (hall w1 hw1 (Or.inr ht))).2

/-- Witness of C28 (amended) on `padBoard`. -/
theorem split_pad_joins_witness :
    ∃ segs, split padBoard [] [1, 2] 3 = .ok segs ∧
      ∀ pad, ∀ w1 ∈ [1, 2], ∀ w2 ∈ [1, 2],
        touches padBoard w1 (.footprintPad pad) → touches padBoard w2 (.footprintPad pad) →
        ∃ s ∈ segs, w1 ∈ s.netlines ∧ w2 ∈ s.netlines ∧ .footprintPad pad ∈ s.anchors :=
  split_pad_joins padBoard [] [1, 2] 3 padBoard_wellFormed (by decide)

/-- C29 fails on the code: on the board of scenario 2 with wire `1` stored from the via
and wire `2` stored from its junction (a well-formed graph, the via not among the input
vias), the input order `[1, 2]` gives two segments, one per wire, and the input order
`[2, 1]` of the same wires gives one segment that holds both wires. -/
theorem split_depends_on_order :
    WellFormed (scenario2 true false) [1, 2] ∧
    split (scenario2 true false) [] [1, 2] 3 =
      .ok [⟨[.via 0, .netPoint 1], [1]⟩, ⟨[.netPoint 2, .via 0], [2]⟩] ∧
    split (scenario2 true false) [] [2, 1] 3 =
      .ok [⟨[.netPoint 2, .via 0, .netPoint 1], [2, 1]⟩] :=
  ⟨scenario2_wellFormed true false, by decide, by decide⟩

/-- Counterexample to C30 as stated: on `padBoard` the via `7` is not in the input via set
and touches no input wire; `split` returns one segment and the via is in no segment, so
no singleton segment stands for it. -/
theorem split_drops_excluded_via :
    (7 : BI_Via) ∉ ([] : List BI_Via) ∧
    (∀ w ∈ [1, 2], ¬ touches padBoard w (.via 7)) ∧
    split padBoard [] [1, 2] 3 =
      .ok [⟨[.netPoint 1, .footprintPad 0, .netPoint 2], [1, 2]⟩] ∧
    ∀ s ∈ [(⟨[.netPoint 1, .footprintPad 0, .netPoint 2], [1, 2]⟩ : Segment)],
      BI_NetLineAnchor.via 7 ∉ s.anchors := by
  refine ⟨by simp, ?_, by decide, by decide⟩
  intro w hw
  simp only [List.mem_cons, List.mem_singleton, List.not_mem_nil, or_false] at hw
  rcases hw with rfl | rfl <;> simp [padBoard, touches]

/-- C30 (amended): on a well-formed graph `split` returns, and a via that is not in the
input via set and ends no input wire is in the anchor list of no returned segment: it is
dropped, not returned as a singleton segment. -/
theorem split_excluded_via_absent (g : Board) (mVias : List BI_Via)
    (mNetLines : List BI_NetLine) (fuel : Nat) (hwf : WellFormed g mNetLines)
    (hfuel : mNetLines.length < fuel) :
    ∃ segs, split g mVias mNetLines fuel = .ok segs ∧
      ∀ v, v ∉ mVias → (∀ w ∈ mNetLines, ¬ touches g w (.via v)) →
        ∀ s ∈ segs, BI_NetLineAnchor.via v ∉ s.anchors := by
  obtain ⟨segs, vias, hsplit, hinv⟩ := split_spec mVias hwf fuel hfuel
  refine ⟨_, hsplit, ?_⟩
  intro v hv hfree s hs hmem
  rcases List.mem_append.1 hs with hs | hs
  · obtain ⟨w, hw, ht⟩ := (hinv.segOK s hs).touch _ hmem
    exact hfree w hw ht
  · obtain ⟨u, hu, rfl⟩ := List.mem_map.1 hs
    simp only [viaSegment, List.mem_singleton, BI_NetLineAnchor.via.injEq] at hmem
    subst hmem
    exact hv ((hinv.vias_eq ▸ List.diff_sublist _ _).subset hu)

/-- Witness of C30 (amended) on `padBoard`. -/
theorem split_excluded_via_absent_witness :
    ∃ segs, split padBoard [] [1, 2] 3 = .ok segs ∧
      ∀ v, v ∉ ([] : List BI_Via) → (∀ w ∈ [1, 2], ¬ touches padBoard w (.via v)) →
        ∀ s ∈ segs, BI_NetLineAnchor.via v ∉ s.anchors :=
  split_excluded_via_absent padBoard [] [1, 2] 3 padBoard_wellFormed (by decide)

/-! ## Scenario 3: pasting a via, a junction and a wire -/

theorem map_netSegments_fresh (l : List NetSegmentObject) (ptr : BI_NetSegment)
    (f : NetSegmentObject → NetSegmentObject) (h : ∀ s ∈ l, s.ptr ≠ ptr) :
    (l.map fun seg => if seg.ptr = ptr then f seg else seg) = l := by
  refine (List.map_congr_left ?_).trans (List.map_id _)
  intro s hs
  rw [if_neg (h s hs)]
  rfl

/-- C21: scenario 3.  Pasting the snapshot that consists of the sub-network of scenario 3
with offset (5, 5) into a project whose board has the layer "top" and whose circuit has no
net signal of the snapshot's net name returns `true` when no edit throws; afterwards the
circuit has exactly one more net signal, and the board exactly one more net segment, which
is bound to that net signal and holds one via at (5, 5) with the shape, size and drill of
the snapshot via, one junction at (15, 5) and one wire from that via to that junction on
the layer "top" and 200000 nm wide; the via, the junction and the wire are selected. -/
theorem paste_scenario3 (env : PasteEnv) (boardUuid : Uuid) (cursorPos : Point)
    (netName : CircuitIdentifier) (shape : Shape) (size drillDiameter : PositiveLength)
    (world : World) (alloc : Nat)
    (hok : ∀ i, env.fails i = false) (hlayer : "top" ∈ world.layers)
    (hnet : ∀ ns ∈ world.netSignals, ns.name ≠ netName)
    (hfresh : ∀ s ∈ world.netSegments, s.ptr < alloc) :
    ∃ st netSignal netSegment via junction wire,
      performExecute env ⟨5, 5⟩
          ⟨boardUuid, cursorPos, [scenario3SubNetwork netName shape size drillDiameter],
            [], [], [], []⟩ world alloc = .returned true st ∧
      st.world.netSignals = world.netSignals ++ [netSignal] ∧
      st.world.netSegments = world.netSegments ++
        [⟨netSegment, netSignal.ptr, true, [via], [junction], [wire]⟩] ∧
      via = ⟨via.ptr, ⟨5, 5⟩, shape, size, drillDiameter, true⟩ ∧
      junction = ⟨junction.ptr, ⟨15, 5⟩, true⟩ ∧
      wire = ⟨wire.ptr, .via via.ptr, .netPoint junction.ptr, "top", ⟨200000, by decide⟩,
        true⟩ ∧
      st.world.layers = world.layers ∧ st.world.planes = world.planes ∧
      st.world.polygons = world.polygons ∧ st.world.strokeTexts = world.strokeTexts ∧
      st.world.holes = world.holes := by
  have hfind : world.netSignals.find? (fun ns => ns.name = netName) = none := by
    rw [List.find?_eq_none]
    intro ns hns
    simpa using hnet ns hns
  have hold : ∀ (p : Nat) (f : NetSegmentObject → NetSegmentObject), alloc ≤ p →
      (world.netSegments.map fun seg => if seg.ptr = p then f seg else seg) =
        world.netSegments := by
    intro p f hp
    apply map_netSegments_fresh
    intro s hs heq
    have h1 : @LT.lt Nat _ s.ptr alloc := hfresh s hs
    have h2 : @Eq Nat s.ptr p := heq
    omega
  cases hclass : world.netClasses.find? (fun nc => nc.name = "default") with
  | some nc =>
    refine ⟨⟨{ world with
          netSignals := world.netSignals ++ [⟨alloc, env.autoNetSignalName world, nc.ptr⟩]
          netSegments := world.netSegments ++
            [⟨alloc + 1, alloc, true,
              [⟨alloc + 2, ⟨5, 5⟩, shape, size, drillDiameter, true⟩],
              [⟨alloc + 3, ⟨15, 5⟩, true⟩],
              [⟨alloc + 4, .via (alloc + 2), .netPoint (alloc + 3), "top",
                ⟨200000, by decide⟩, true⟩]⟩] },
        [.netSignalAdd ⟨alloc, env.autoNetSignalName world, nc.ptr⟩,
          .boardNetSegmentAdd ⟨alloc + 1, alloc, true, [], [], []⟩,
          .boardNetSegmentAddElements (alloc + 1)
            [⟨alloc + 2, ⟨5, 5⟩, shape, size, drillDiameter, true⟩]
            [⟨alloc + 3, ⟨15, 5⟩, true⟩]
            [⟨alloc + 4, .via (alloc + 2), .netPoint (alloc + 3), "top",
              ⟨200000, by decide⟩, true⟩]], 3, alloc + 5, 0⟩,
      ⟨alloc, env.autoNetSignalName world, nc.ptr⟩, alloc + 1,
      ⟨alloc + 2, ⟨5, 5⟩, shape, size, drillDiameter, true⟩, ⟨alloc + 3, ⟨15, 5⟩, true⟩,
      ⟨alloc + 4, .via (alloc + 2), .netPoint (alloc + 3), "top", ⟨200000, by decide⟩, true⟩,
      ?_, rfl, rfl, rfl, rfl, rfl, rfl, rfl, rfl, rfl, rfl⟩
    have hold1 := fun f => hold (alloc + 1) f (by omega)
    have hold2 := fun f => hold (alloc + 1 + 1) f (by omega)
    have hadd : ∀ p q : Point, p + q = ⟨p.x + q.x, p.y + q.y⟩ := fun _ _ => rfl
    simp [performExecute, pasteAll, forEach, pasteNetSegment, getOrCreateNetSignal, hfind,
      hclass, execNewChildCmd, hok, Step.bind, pasteAnchors, pasteVia, pasteNetPoint,
      pasteNetLines, resolveAnchor, scenario3SubNetwork, Edit.execute, hlayer, hold1, hold2,
      hadd, Nat.add_assoc]
  | none =>
    refine ⟨⟨{ world with
          netClasses := world.netClasses ++ [⟨alloc, "default"⟩]
          netSignals := world.netSignals ++
            [⟨alloc + 1, env.autoNetSignalName
              { world with netClasses := world.netClasses ++ [⟨alloc, "default"⟩] }, alloc⟩]
          netSegments := world.netSegments ++
            [⟨alloc + 2, alloc + 1, true,
              [⟨alloc + 3, ⟨5, 5⟩, shape, size, drillDiameter, true⟩],
              [⟨alloc + 4, ⟨15, 5⟩, true⟩],
              [⟨alloc + 5, .via (alloc + 3), .netPoint (alloc + 4), "top",
                ⟨200000, by decide⟩, true⟩]⟩] },
        [.netClassAdd ⟨alloc, "default"⟩,
          .netSignalAdd ⟨alloc + 1, env.autoNetSignalName
            { world with netClasses := world.netClasses ++ [⟨alloc, "default"⟩] }, alloc⟩,
          .boardNetSegmentAdd ⟨alloc + 2, alloc + 1, true, [], [], []⟩,
          .boardNetSegmentAddElements (alloc + 2)
            [⟨alloc + 3, ⟨5, 5⟩, shape, size, drillDiameter, true⟩]
            [⟨alloc + 4, ⟨15, 5⟩, true⟩]
            [⟨alloc + 5, .via (alloc + 3), .netPoint (alloc + 4), "top",
              ⟨200000, by decide⟩, true⟩]], 4, alloc + 6, 0⟩,
      ⟨alloc + 1, env.autoNetSignalName
        { world with netClasses := world.netClasses ++ [⟨alloc, "default"⟩] }, alloc⟩,
      alloc + 2,
      ⟨alloc + 3, ⟨5, 5⟩, shape, size, drillDiameter, true⟩, ⟨alloc + 4, ⟨15, 5⟩, true⟩,
      ⟨alloc + 5, .via (alloc + 3), .netPoint (alloc + 4), "top", ⟨200000, by decide⟩, true⟩,
      ?_, rfl, rfl, rfl, rfl, rfl, rfl, rfl, rfl, rfl, rfl⟩
    have hold1 := fun f => hold (alloc + 1) f (by omega)
    have hold2 := fun f => hold (alloc + 1 + 1) f (by omega)
    have hadd : ∀ p q : Point, p + q = ⟨p.x + q.x, p.y + q.y⟩ := fun _ _ => rfl
    simp [performExecute, pasteAll, forEach, pasteNetSegment, getOrCreateNetSignal, hfind,
      hclass, execNewChildCmd, hok, Step.bind, pasteAnchors, pasteVia, pasteNetPoint,
      pasteNetLines, resolveAnchor, scenario3SubNetwork, Edit.execute, hlayer, hold1, hold2,
      hadd, Nat.add_assoc]

/-- Witness of C21: scenario 3 with a round via (0.7 mm, drill 0.3 mm) of the net "N1",
pasted into a project with the layer "top" and an empty circuit. -/
theorem paste_scenario3_witness :
    ∃ st netSignal netSegment via junction wire,
      performExecute (scenario2Env none) ⟨5, 5⟩
          ⟨1, ⟨0, 0⟩,
            [scenario3SubNetwork "N1" .round ⟨700000, by decide⟩ ⟨300000, by decide⟩],
            [], [], [], []⟩ scenario3World 0 = .returned true st ∧
      st.world.netSignals = scenario3World.netSignals ++ [netSignal] ∧
      st.world.netSegments = scenario3World.netSegments ++
        [⟨netSegment, netSignal.ptr, true, [via], [junction], [wire]⟩] ∧
      via = ⟨via.ptr, ⟨5, 5⟩, .round, ⟨700000, by decide⟩, ⟨300000, by decide⟩, true⟩ ∧
      junction = ⟨junction.ptr, ⟨15, 5⟩, true⟩ ∧
      wire = ⟨wire.ptr, .via via.ptr, .netPoint junction.ptr, "top", ⟨200000, by decide⟩,
        true⟩ ∧
      st.world.layers = scenario3World.layers ∧ st.world.planes = scenario3World.planes ∧
      st.world.polygons = scenario3World.polygons ∧
      st.world.strokeTexts = scenario3World.strokeTexts ∧
      st.world.holes = scenario3World.holes :=
  paste_scenario3 (scenario2Env none) 1 ⟨0, 0⟩ "N1" .round ⟨700000, by decide⟩
    ⟨300000, by decide⟩ scenario3World 0 (fun _ => rfl) (by decide) (by decide) (by decide)

/-! ## Atomicity of removing -/

theorem removeStep_ends_bind {W α β : Type} {P : Removal W → Prop} {x : RemoveStep W α}
    {f : α → Removal W → RemoveStep W β} (hx : x.Ends P)
    (hf : ∀ a st, P st → (f a st).Ends P) : (x.bind f).Ends P := by
  cases x with
  | ok a st => exact hf a st hx
  | threw st => exact hx
  | assertFailed => trivial
  | outOfFuel => trivial

theorem remove_exec_restores {W : Type} (env : RemoveEnv W)
    (hrev : ∀ cmd w w', env.execute cmd w = some w' → env.undo cmd w' = w) (cmd : RemoveEdit)
    (w0 : W) (st : Removal W) (h : env.performUndo st = w0) :
    (env.execNewChildCmd cmd st).Ends (fun st' => env.performUndo st' = w0) := by
  unfold RemoveEnv.execNewChildCmd
  cases hex : env.execute cmd st.world with
  | none => exact h
  | some w =>
    show env.performUndo _ = w0
    simp only [RemoveEnv.performUndo, List.reverse_append, List.reverse_singleton,
      List.singleton_append, List.foldl_cons, hrev cmd st.world w hex]
    exact h

theorem remove_forEach_restores {W α : Type} (env : RemoveEnv W) (w0 : W)
    (body : α → Removal W → RemoveStep W Unit)
    (hbody : ∀ x st, env.performUndo st = w0 →
      (body x st).Ends (fun st' => env.performUndo st' = w0)) :
    ∀ (l : List α) (st : Removal W), env.performUndo st = w0 →
      (RemoveStep.forEach body l st).Ends (fun st' => env.performUndo st' = w0) := by
  intro l
  induction l with
  | nil => intro st h; exact h
  | cons x rest ih =>
    intro st h
    exact removeStep_ends_bind (hbody x st h) (fun _ st1 h1 => ih st1 h1)

theorem createNewSubNetSegment_restores {W : Type} (env : RemoveEnv W)
    (hrev : ∀ cmd w w', env.execute cmd w = some w' → env.undo cmd w' = w) (b : EditedBoard)
    (netsegment : BI_NetSegment) (w0 : W) (items : NetSegmentItems) (st : Removal W)
    (h : env.performUndo st = w0) :
    (createNewSubNetSegment env b netsegment items st).Ends
      (fun st' => env.performUndo st' = w0) := by
  unfold createNewSubNetSegment
  exact removeStep_ends_bind (remove_exec_restores env hrev _ w0 _ h)
    (fun _ st1 h1 => remove_exec_restores env hrev _ w0 _ h1)

theorem removeNetSegmentItems_restores {W : Type} (env : RemoveEnv W)
    (hrev : ∀ cmd w w', env.execute cmd w = some w' → env.undo cmd w' = w) (b : EditedBoard)
    (fuel : Nat) (w0 : W) (entry : BI_NetSegment × NetSegmentItems) (st : Removal W)
    (h : env.performUndo st = w0) :
    (removeNetSegmentItems env b fuel entry st).Ends
      (fun st' => env.performUndo st' = w0) := by
  unfold removeNetSegmentItems
  split
  · exact remove_exec_restores env hrev _ w0 _ h
  · unfold splitUpNetSegment
    split
    · exact removeStep_ends_bind (remove_exec_restores env hrev _ w0 _ h)
        (fun _ st1 h1 => remove_forEach_restores env w0 _
          (fun items st h => createNewSubNetSegment_restores env hrev b _ w0 items st h) _ st1 h1)
    · trivial
    · trivial

theorem removeAll_restores {W : Type} (env : RemoveEnv W)
    (hrev : ∀ cmd w w', env.execute cmd w = some w' → env.undo cmd w' = w)
    (cmd : CmdRemoveBoardItems) (b : EditedBoard) (fuel : Nat) (w0 : W) (st : Removal W)
    (h : env.performUndo st = w0) :
    (cmd.removeAll env b fuel st).Ends (fun st' => env.performUndo st' = w0) := by
  unfold CmdRemoveBoardItems.removeAll
  refine removeStep_ends_bind (remove_forEach_restores env w0 _
    (fun entry st h => removeNetSegmentItems_restores env hrev b fuel w0 entry st h) _ st h)
    fun _ st1 h1 => ?_
  refine removeStep_ends_bind (remove_forEach_restores env w0 _
    (fun device st h => remove_exec_restores env hrev _ w0 st h) _ st1 h1) fun _ st2 h2 => ?_
  refine removeStep_ends_bind (remove_forEach_restores env w0 _
    (fun plane st h => remove_exec_restores env hrev _ w0 st h) _ st2 h2) fun _ st3 h3 => ?_
  refine removeStep_ends_bind (remove_forEach_restores env w0 _
    (fun polygon st h => remove_exec_restores env hrev _ w0 st h) _ st3 h3) fun _ st4 h4 => ?_
  refine removeStep_ends_bind (remove_forEach_restores env w0 _ ?_ _ st4 h4) fun _ st5 h5 => ?_
  · intro text st h
    unfold removeStrokeText
    split
    · split
      · exact remove_exec_restores env hrev _ w0 st h
      · exact h
    · exact remove_exec_restores env hrev _ w0 st h
  refine removeStep_ends_bind (remove_forEach_restores env w0 _
    (fun hole st h => remove_exec_restores env hrev _ w0 st h) _ st5 h5) fun _ st6 h6 => ?_
  split
  · exact remove_exec_restores env hrev _ w0 st6 h6
  · exact h6

/-- C27: removing is atomic.  Let every undo command be reversible (reverting a command
that was executed without an exception gives the project state before it).  Then, in
whatever state a step of `performExecute` throws, also in the middle of recreating the
sub-networks of a split net segment, reverting the executed child commands in reverse
order gives the initial project state; so if `performExecute` ends by an exception, the
project afterwards equals the project before. -/
theorem removeBoardItems_atomic {W : Type} (env : RemoveEnv W)
    (hrev : ∀ cmd w w', env.execute cmd w = some w' → env.undo cmd w' = w)
    (cmd : CmdRemoveBoardItems) (b : EditedBoard) (fuel : Nat) (world : W) (alloc : Nat) :
    (∀ st, cmd.removeAll env b fuel ⟨world, [], alloc, 0⟩ = .threw st →
      st.childs.reverse.foldl (fun w c => env.undo c w) st.world = world) ∧
    (∀ w, cmd.performExecute env b fuel world alloc = .threw w → w = world) := by
  have hends := removeAll_restores env hrev cmd b fuel world ⟨world, [], alloc, 0⟩ rfl
  constructor
  · intro st hst
    rw [hst] at hends
    exact hends
  · intro w hw
    unfold CmdRemoveBoardItems.performExecute at hw
    cases hs : cmd.removeAll env b fuel ⟨world, [], alloc, 0⟩ with
    | ok u st => rw [hs] at hw; cases hw
    | threw st =>
      rw [hs] at hw hends
      cases hw
      exact hends
    | assertFailed => rw [hs] at hw; cases hw
    | outOfFuel => rw [hs] at hw; cases hw

theorem exampleRemoveEnv_reversible (failAt : Option Nat) :
    ∀ cmd w w', (exampleRemoveEnv failAt).execute cmd w = some w' →
      (exampleRemoveEnv failAt).undo cmd w' = w := by
  intro cmd w w' h
  simp only [exampleRemoveEnv] at h ⊢
  split at h
  · cases h
  · simp only [Option.some.injEq] at h
    subst h
    simp

/-- Witness of C27: removing the via A of scenario 1 (with the junction) when the third
edit throws, in the middle of recreating the sub-network; the removal of the net segment
and the creation of the new one are reverted. -/
theorem removeBoardItems_atomic_witness :
    (∃ st, removeViaA.removeAll (exampleRemoveEnv (some 2)) (scenario1 true true true) 3
        ⟨[], [], 10, 0⟩ = .threw st ∧
      st.childs = [.boardNetSegmentRemove 0, .boardNetSegmentAdd 10 100] ∧ st.world ≠ [] ∧
      st.childs.reverse.foldl (fun w c => (exampleRemoveEnv (some 2)).undo c w) st.world =
        []) ∧
    ∃ w, removeViaA.performExecute (exampleRemoveEnv (some 2)) (scenario1 true true true) 3
        [] 10 = .threw w ∧ w = [] :=
  ⟨⟨⟨[.boardNetSegmentRemove 0, .boardNetSegmentAdd 10 100],
        [.boardNetSegmentRemove 0, .boardNetSegmentAdd 10 100], 14, 3⟩,
      by decide, rfl, by decide,
      (removeBoardItems_atomic (exampleRemoveEnv (some 2))
        (exampleRemoveEnv_reversible (some 2)) removeViaA (scenario1 true true true) 3 []
        10).1 _ (by decide)⟩,
    ⟨[], by decide,
      (removeBoardItems_atomic (exampleRemoveEnv (some 2))
        (exampleRemoveEnv_reversible (some 2)) removeViaA (scenario1 true true true) 3 []
        10).2 _ (by decide)⟩⟩

/-! ## The plan of a removal -/

theorem mem_setInsert {s : List Nat} {x y : Nat} : x ∈ setInsert s y ↔ x ∈ s ∨ x = y := by
  unfold setInsert
  split
  · constructor
    · exact Or.inl
    · rintro (h | rfl)
      · exact h
      · assumption
  · simp

theorem nodup_setInsert {s : List Nat} (y : Nat) (h : s.Nodup) : (setInsert s y).Nodup := by
  unfold setInsert
  split
  · exact h
  · rw [List.nodup_append]
    refine ⟨h, by simp, ?_⟩
    intro a ha hb
    simp only [List.mem_singleton] at hb
    subst hb
    contradiction

theorem setEq_iff {s t : List Nat} : setEq s t = true ↔ ∀ x, x ∈ s ↔ x ∈ t := by
  simp only [setEq, Bool.and_eq_true, List.all_eq_true, decide_eq_true_eq]
  constructor
  · rintro ⟨h1, h2⟩ x
    exact ⟨h1 x, h2 x⟩
  · intro h
    exact ⟨fun x hx => (h x).1 hx, fun x hx => (h x).2 hx⟩

theorem lookup_map_modify (key : BI_NetSegment) (f : NetSegmentItems → NetSegmentItems)
    (k : BI_NetSegment) :
    ∀ m : List (BI_NetSegment × NetSegmentItems),
      (m.map fun e => if e.1 = key then (e.1, f e.2) else e).lookup k =
        if k = key then (m.lookup k).map f else m.lookup k := by
  intro m
  induction m with
  | nil => simp
  | cons e rest ih =>
    obtain ⟨a, it⟩ := e
    by_cases hka : k = a
    · subst hka
      by_cases hk : k = key
      · simp [hk, List.lookup_cons]
      · simp [hk, List.lookup_cons]
    · by_cases ha : a = key
      · subst ha
        rw [List.map_cons, if_pos rfl, lookup_tail _ _ hka, lookup_tail _ _ hka]
        exact ih
      · rw [List.map_cons, if_neg ha, lookup_tail _ _ hka, lookup_tail _ _ hka]
        exact ih

theorem lookup_modifyItems (m : List (BI_NetSegment × NetSegmentItems))
    (key : BI_NetSegment) (f : NetSegmentItems → NetSegmentItems) (k : BI_NetSegment) :
    (modifyItems m key f).lookup k =
      if k = key then some (f (itemsAt m key)) else m.lookup k := by
  unfold modifyItems
  by_cases hany : m.any (fun e => decide (e.1 = key)) = true
  · rw [if_pos hany, lookup_map_modify]
    by_cases hk : k = key
    · subst hk
      simp only [if_true]
      obtain ⟨e, he, hek⟩ := List.any_eq_true.1 hany
      have hsome : (m.lookup k).isSome = true := by
        rw [List.lookup_isSome_iff]
        exact ⟨e, he, by simpa using (of_decide_eq_true hek).symm⟩
      obtain ⟨it, hit⟩ := Option.isSome_iff_exists.1 hsome
      simp [itemsAt, hit]
    · simp [hk]
  · rw [if_neg hany, List.lookup_append]
    have hnone : m.lookup key = none := by
      rw [List.lookup_eq_none_iff]
      intro p hp
      have : ¬ p.1 = key := by
        intro hpk
        exact hany (List.any_eq_true.2 ⟨p, hp, by simpa using hpk⟩)
      simpa using fun h => this h.symm
    by_cases hk : k = key
    · subst hk
      simp [hnone, itemsAt, List.lookup_cons]
    · have hb : (k == key) = false := by simpa using hk
      simp [hk, List.lookup_cons, hb]

theorem itemsAt_modifyItems (m : List (BI_NetSegment × NetSegmentItems))
    (key : BI_NetSegment) (f : NetSegmentItems → NetSegmentItems) (k : BI_NetSegment) :
    itemsAt (modifyItems m key f) k = if k = key then f (itemsAt m key) else itemsAt m k := by
  unfold itemsAt
  rw [lookup_modifyItems]
  by_cases hk : k = key
  · simp [hk, itemsAt]
  · simp [hk]

theorem keys_modifyItems (m : List (BI_NetSegment × NetSegmentItems))
    (key : BI_NetSegment) (f : NetSegmentItems → NetSegmentItems)
    (h : (m.map Prod.fst).Nodup) : ((modifyItems m key f).map Prod.fst).Nodup := by
  unfold modifyItems
  split
  · have : (m.map fun e => if e.1 = key then (e.1, f e.2) else e).map Prod.fst =
        m.map Prod.fst := by
      rw [List.map_map]
      apply List.map_congr_left
      intro e _
      by_cases he : e.1 = key <;> simp [he]
    rw [this]
    exact h
  · next hany =>
    rw [List.map_append, List.nodup_append]
    refine ⟨h, by simp, ?_⟩
    intro a ha hb
    simp only [List.map_cons, List.map_nil, List.mem_singleton] at hb
    subst hb
    obtain ⟨e, he, hek⟩ := List.mem_map.1 ha
    exact hany (List.any_eq_true.2 ⟨e, he, by simpa using hek⟩)

theorem itemsAt_of_mem {m : List (BI_NetSegment × NetSegmentItems)}
    (h : (m.map Prod.fst).Nodup) {entry : BI_NetSegment × NetSegmentItems} (he : entry ∈ m) :
    itemsAt m entry.1 = entry.2 := by
  induction m with
  | nil => cases he
  | cons e rest ih =>
    rw [List.map_cons, List.nodup_cons] at h
    obtain ⟨k, it⟩ := entry
    obtain ⟨a, it'⟩ := e
    rcases List.mem_cons.1 he with heq | hmem
    · cases heq
      simp only [itemsAt, lookup_head, Option.getD_some]
    · have hne : k ≠ a := by
        intro heq
        subst heq
        exact h.1 (List.mem_map.2 ⟨(k, it), hmem, rfl⟩)
      have := ih h.2 hmem
      simp only [itemsAt, lookup_tail _ _ hne] at this ⊢
      exact this

/-- The hash `netSegmentItemsToRemove`: its keys are distinct, and the entry of a net
segment holds the vias to remove and the net lines to remove that belong to it. -/
theorem netSegmentItemsToRemove_spec (cmd : CmdRemoveBoardItems) (b : EditedBoard) :
    ((cmd.netSegmentItemsToRemove b).map Prod.fst).Nodup ∧
    ∀ seg, (∀ v, v ∈ (itemsAt (cmd.netSegmentItemsToRemove b) seg).vias ↔
        v ∈ cmd.mVias ∧ b.live.viaNetSegment v = seg) ∧
      (∀ w, w ∈ (itemsAt (cmd.netSegmentItemsToRemove b) seg).netlines ↔
        w ∈ cmd.allNetLines b ∧ b.live.netLineNetSegment w = seg) := by
  have hvias := foldl_invariant
    (fun m via => modifyItems m (b.live.viaNetSegment via)
      fun items => { items with vias := setInsert items.vias via })
    (fun done m => (m.map Prod.fst).Nodup ∧
      ∀ seg, (∀ v, v ∈ (itemsAt m seg).vias ↔ v ∈ done ∧ b.live.viaNetSegment v = seg) ∧
        (itemsAt m seg).netlines = [])
    (by
      intro done m x ⟨hnd, hall⟩
      refine ⟨keys_modifyItems _ _ _ hnd, fun seg => ?_⟩
      rw [itemsAt_modifyItems]
      by_cases hs : seg = b.live.viaNetSegment x
      · subst hs
        simp only [if_true]
        refine ⟨fun v => ?_, (hall _).2⟩
        rw [mem_setInsert, (hall _).1 v, List.mem_append, List.mem_singleton]
        constructor
        · rintro (⟨h1, h2⟩ | rfl)
          · exact ⟨Or.inl h1, h2⟩
          · exact ⟨Or.inr rfl, rfl⟩
        · rintro ⟨h1 | rfl, h2⟩
          · exact Or.inl ⟨h1, h2⟩
          · exact Or.inr rfl
      · simp only [hs, if_false]
        refine ⟨fun v => ?_, (hall _).2⟩
        rw [(hall seg).1 v, List.mem_append, List.mem_singleton]
        constructor
        · rintro ⟨h1, h2⟩
          exact ⟨Or.inl h1, h2⟩
        · rintro ⟨h1 | rfl, h2⟩
          · exact ⟨h1, h2⟩
          · exact absurd h2.symm hs)
    cmd.mVias [] [] ⟨by simp, fun seg => by simp [itemsAt]⟩
  have hlines := foldl_invariant
    (fun m netline => modifyItems m (b.live.netLineNetSegment netline)
      fun items => { items with netlines := setInsert items.netlines netline })
    (fun done m => (m.map Prod.fst).Nodup ∧
      ∀ seg, (∀ v, v ∈ (itemsAt m seg).vias ↔ v ∈ cmd.mVias ∧ b.live.viaNetSegment v = seg) ∧
        (∀ w, w ∈ (itemsAt m seg).netlines ↔ w ∈ done ∧ b.live.netLineNetSegment w = seg))
    (by
      intro done m x ⟨hnd, hall⟩
      refine ⟨keys_modifyItems _ _ _ hnd, fun seg => ?_⟩
      rw [itemsAt_modifyItems]
      by_cases hs : seg = b.live.netLineNetSegment x
      · subst hs
        simp only [if_true]
        refine ⟨(hall _).1, fun w => ?_⟩
        rw [mem_setInsert, (hall _).2 w, List.mem_append, List.mem_singleton]
        constructor
        · rintro (⟨h1, h2⟩ | rfl)
          · exact ⟨Or.inl h1, h2⟩
          · exact ⟨Or.inr rfl, rfl⟩
        · rintro ⟨h1 | rfl, h2⟩
          · exact Or.inl ⟨h1, h2⟩
          · exact Or.inr rfl
      · simp only [hs, if_false]
        refine ⟨(hall _).1, fun w => ?_⟩
        rw [(hall seg).2 w, List.mem_append, List.mem_singleton]
        constructor
        · rintro ⟨h1, h2⟩
          exact ⟨Or.inl h1, h2⟩
        · rintro ⟨h1 | rfl, h2⟩
          · exact ⟨h1, h2⟩
          · exact absurd h2.symm hs)
    (cmd.allNetLines b) [] _
    ⟨hvias.1, fun seg => ⟨by simpa using (hvias.2 seg).1, by simp [(hvias.2 seg).2]⟩⟩
  simpa [CmdRemoveBoardItems.netSegmentItemsToRemove] using hlines

theorem splitLoop_length (g : Board) (mVias : List BI_Via) (fuel : Nat) :
    ∀ (count : Nat) (segs : List Segment) (vias : List BI_Via) (pool : List BI_NetLine)
      (res : List Segment × List BI_Via),
      splitLoop g mVias fuel count segs vias pool = .ok res →
      segs.length ≤ res.1.length ∧ (pool ≠ [] → segs.length < res.1.length) ∧
        (pool = [] → res = (segs, vias)) := by
  intro count
  induction count with
  | zero =>
    intro segs vias pool res h
    cases pool with
    | nil =>
      simp only [splitLoop, Outcome.ok.injEq] at h
      subst h
      exact ⟨le_refl _, fun hne => absurd rfl hne, fun _ => rfl⟩
    | cons first pool => simp [splitLoop] at h
  | succ count ih =>
    intro segs vias pool res h
    cases pool with
    | nil =>
      simp only [splitLoop, Outcome.ok.injEq] at h
      subst h
      exact ⟨le_refl _, fun hne => absurd rfl hne, fun _ => rfl⟩
    | cons first pool =>
      rw [splitLoop] at h
      cases hst : findConnectedLinesAndPoints g mVias fuel (g.getStartPoint first)
          (startState vias (first :: pool)) with
      | ok st =>
        rw [hst] at h
        have := (ih _ _ _ _ h).1
        simp only [List.length_append, List.length_singleton] at this
        exact ⟨by omega, fun _ => by omega, fun hnil => by cases hnil⟩
      | assertFailed => rw [hst] at h; cases h
      | outOfFuel => rw [hst] at h; cases h

theorem split_ne_nil (g : Board) (mVias : List BI_Via) (mNetLines : List BI_NetLine)
    (fuel : Nat) (segs : List Segment) (h : split g mVias mNetLines fuel = .ok segs)
    (hinput : mVias ≠ [] ∨ mNetLines ≠ []) : segs ≠ [] := by
  unfold split at h
  cases hloop : splitLoop g mVias fuel fuel [] mVias mNetLines with
  | ok res =>
    rw [hloop] at h
    obtain ⟨wsegs, vias⟩ := res
    simp only [Outcome.ok.injEq] at h
    subst h
    obtain ⟨_, hlt, heq⟩ := splitLoop_length g mVias fuel _ _ _ _ _ hloop
    by_cases hnl : mNetLines = []
    · have := heq hnl
      cases this
      rcases hinput with hv | hw
      · simpa using hv
      · exact absurd hnl hw
    · have := hlt hnl
      intro hnil
      have hlen := congrArg List.length hnil
      simp only [List.length_append, List.length_nil] at hlen this
      omega
  | assertFailed => rw [hloop] at h; cases h
  | outOfFuel => rw [hloop] at h; cases h

theorem remove_exec_eq_ok {W : Type} {env : RemoveEnv W} {cmd : RemoveEdit}
    {st st' : Removal W} {u : Unit} (h : env.execNewChildCmd cmd st = .ok u st') :
    st'.childs = st.childs ++ [cmd] ∧ st'.alloc = st.alloc ∧ st'.random = st.random ∧
      env.execute cmd st.world = some st'.world := by
  unfold RemoveEnv.execNewChildCmd at h
  cases hex : env.execute cmd st.world with
  | none => rw [hex] at h; cases h
  | some w =>
    rw [hex] at h
    simp only [RemoveStep.ok.injEq] at h
    obtain ⟨_, rfl⟩ := h
    exact ⟨rfl, rfl, rfl, rfl⟩

theorem removeStep_bind_eq_ok {W α β : Type} {x : RemoveStep W α}
    {f : α → Removal W → RemoveStep W β} {r : β} {st' : Removal W}
    (h : x.bind f = .ok r st') : ∃ a st, x = .ok a st ∧ f a st = .ok r st' := by
  cases x with
  | ok a st => exact ⟨a, st, rfl, h⟩
  | threw st => cases h
  | assertFailed => cases h
  | outOfFuel => cases h

/-- A completed call of `createNewSubNetSegment` has executed two edits: the creation of
a net segment for the net signal of the old one, and the addition of the copied
elements. -/
theorem createNewSubNetSegment_eq_ok {W : Type} {env : RemoveEnv W} {b : EditedBoard}
    {netsegment : BI_NetSegment} {items : NetSegmentItems} {st st' : Removal W}
    (h : createNewSubNetSegment env b netsegment items st = .ok () st') :
    st'.childs = st.childs ++
      [.boardNetSegmentAdd st.alloc (b.netSegmentNetSignal netsegment),
        .boardNetSegmentAddElements st.alloc
          (newElements env b items (st.alloc + 1) st.random).vias
          (newElements env b items (st.alloc + 1) st.random).netPoints
          (newElements env b items (st.alloc + 1) st.random).netLines] := by
  unfold createNewSubNetSegment at h
  obtain ⟨u, st1, h1, h2⟩ := removeStep_bind_eq_ok h
  obtain ⟨c1, a1, r1, _⟩ := remove_exec_eq_ok h1
  obtain ⟨c2, _, _, _⟩ := remove_exec_eq_ok h2
  simp only at c1 a1 r1 c2
  rw [c2, c1, a1, r1]
  simp

theorem forEach_createNewSubNetSegment_eq_ok {W : Type} {env : RemoveEnv W}
    {b : EditedBoard} {netsegment : BI_NetSegment} :
    ∀ (subsegments : List NetSegmentItems) (st st' : Removal W),
      RemoveStep.forEach (createNewSubNetSegment env b netsegment) subsegments st =
        .ok () st' →
      ∃ rest, st'.childs = st.childs ++ rest ∧ rest.length = 2 * subsegments.length := by
  intro subsegments
  induction subsegments with
  | nil =>
    intro st st' h
    simp only [RemoveStep.forEach, RemoveStep.ok.injEq, true_and] at h
    subst h
    exact ⟨[], by simp, rfl⟩
  | cons items more ih =>
    intro st st' h
    rw [RemoveStep.forEach] at h
    obtain ⟨u, st1, h1, h2⟩ := removeStep_bind_eq_ok h
    obtain ⟨pair, hpair, hplen⟩ : ∃ pair, st1.childs = st.childs ++ pair ∧ pair.length = 2 :=
      ⟨_, createNewSubNetSegment_eq_ok h1, rfl⟩
    obtain ⟨rest, hr, hlen⟩ := ih st1 st' h2
    refine ⟨pair ++ rest, by rw [hr, hpair, List.append_assoc], ?_⟩
    simp only [List.length_append, List.length_cons, hlen, hplen]
    omega

/-- C22: the plan for a net segment with items to remove.  The entry of the net segment
in `netSegmentItemsToRemove` holds the vias to remove and the net lines to remove (those
given, those of the pads of removed devices and those of removed vias) that belong to
it.  `performExecute` removes the whole net segment exactly when the vias of the entry
are all the vias of the net segment and its net lines are all the net lines of the net
segment; then a completed iteration has executed exactly one edit, the removal of the net
segment.  Otherwise a completed iteration has removed the net segment and recreated at
least one sub-network, with two edits for each. -/
theorem removal_plan_whole_iff {W : Type} (env : RemoveEnv W) (cmd : CmdRemoveBoardItems)
    (b : EditedBoard) (fuel : Nat)
    (hvias : ∀ v ∈ cmd.mVias, v ∈ b.netSegmentVias (b.live.viaNetSegment v))
    (hlines : ∀ w ∈ cmd.allNetLines b, w ∈ b.netSegmentNetLines (b.live.netLineNetSegment w)) :
    ∀ entry ∈ cmd.netSegmentItemsToRemove b,
      (∀ v, v ∈ entry.2.vias ↔ v ∈ cmd.mVias ∧ b.live.viaNetSegment v = entry.1) ∧
      (∀ w, w ∈ entry.2.netlines ↔
        w ∈ cmd.allNetLines b ∧ b.live.netLineNetSegment w = entry.1) ∧
      (removeWholeNetSegment b entry.1 entry.2 = true ↔
        (∀ v, v ∈ entry.2.vias ↔ v ∈ b.netSegmentVias entry.1) ∧
          (∀ w, w ∈ entry.2.netlines ↔ w ∈ b.netSegmentNetLines entry.1)) ∧
      (removeWholeNetSegment b entry.1 entry.2 = true → ∀ st st',
        removeNetSegmentItems env b fuel entry st = .ok () st' →
        st'.childs = st.childs ++ [.boardNetSegmentRemove entry.1]) ∧
      (removeWholeNetSegment b entry.1 entry.2 = false → ∀ st st',
        removeNetSegmentItems env b fuel entry st = .ok () st' →
        ∃ subsegments rest,
          getNonCohesiveNetSegmentSubSegments env.enumerate b fuel entry.1 entry.2 =
            .ok subsegments ∧
          subsegments ≠ [] ∧
          st'.childs = st.childs ++ .boardNetSegmentRemove entry.1 :: rest ∧
          rest.length = 2 * subsegments.length) := by
  intro entry hentry
  obtain ⟨hnd, hspec⟩ := netSegmentItemsToRemove_spec cmd b
  have hat := itemsAt_of_mem hnd hentry
  have hv := (hspec entry.1).1
  have hw := (hspec entry.1).2
  rw [hat] at hv hw
  have hiff : removeWholeNetSegment b entry.1 entry.2 = true ↔
      (∀ v, v ∈ entry.2.vias ↔ v ∈ b.netSegmentVias entry.1) ∧
        (∀ w, w ∈ entry.2.netlines ↔ w ∈ b.netSegmentNetLines entry.1) := by
    simp only [removeWholeNetSegment, Bool.and_eq_true, setEq_iff, List.mem_dedup]
  refine ⟨hv, hw, hiff, ?_, ?_⟩
  · intro hwhole st st' h
    simp only [removeNetSegmentItems, hwhole, if_true] at h
    exact (remove_exec_eq_ok h).1
  · intro hwhole st st' h
    simp only [removeNetSegmentItems, hwhole, Bool.false_eq_true, if_false,
      splitUpNetSegment] at h
    cases hsub : getNonCohesiveNetSegmentSubSegments env.enumerate b fuel entry.1 entry.2 with
    | assertFailed => rw [hsub] at h; cases h
    | outOfFuel => rw [hsub] at h; cases h
    | ok subsegments =>
      rw [hsub] at h
      obtain ⟨u, st1, h1, h2⟩ := removeStep_bind_eq_ok h
      obtain ⟨rest, hr, hlen⟩ := forEach_createNewSubNetSegment_eq_ok _ _ _ h2
      refine ⟨subsegments, rest, rfl, ?_, ?_, hlen⟩
      · unfold getNonCohesiveNetSegmentSubSegments at hsub
        obtain ⟨segs, hsplit, hmap⟩ := Outcome.bind_eq_ok.1 hsub
        simp only [Outcome.ok.injEq] at hmap
        subst hmap
        have hsurvivor : survivingVias b entry.1 entry.2 ≠ [] ∨
            survivingNetLines b entry.1 entry.2 ≠ [] := by
          by_contra hcon
          simp only [not_or, not_not] at hcon
          have hfalse : ¬ removeWholeNetSegment b entry.1 entry.2 = true := by simp [hwhole]
          apply hfalse
          rw [hiff]
          constructor
          · intro v
            constructor
            · intro hmem
              have := (hv v).1 hmem
              exact this.2 ▸ hvias v this.1
            · intro hmem
              by_contra hnot
              have : v ∈ survivingVias b entry.1 entry.2 := by
                simp [survivingVias, hmem, hnot]
              rw [hcon.1] at this
              cases this
          · intro w
            constructor
            · intro hmem
              have := (hw w).1 hmem
              exact this.2 ▸ hlines w this.1
            · intro hmem
              by_contra hnot
              have : w ∈ survivingNetLines b entry.1 entry.2 := by
                simp [survivingNetLines, hmem, hnot]
              rw [hcon.2] at this
              cases this
        have hinput : env.enumerate (survivingVias b entry.1 entry.2) ≠ [] ∨
            env.enumerate (survivingNetLines b entry.1 entry.2) ≠ [] := by
          rcases hsurvivor with h | h
          · left
            intro hnil
            have := env.enumerate_perm (survivingVias b entry.1 entry.2)
            rw [hnil] at this
            exact h (List.Perm.nil_eq this).symm
          · right
            intro hnil
            have := env.enumerate_perm (survivingNetLines b entry.1 entry.2)
            rw [hnil] at this
            exact h (List.Perm.nil_eq this).symm
        have := split_ne_nil _ _ _ _ _ hsplit hinput
        simpa using this
      · rw [hr, (remove_exec_eq_ok h1).1]
        simp

/-- Witness of C22: removing both vias of scenario 1 (two vias joined by one wire) removes
the wire with them, hence the whole net segment. -/
theorem removal_plan_whole_iff_witness :
    ∃ entry ∈ removeBothVias.netSegmentItemsToRemove (scenario1 false true true),
      entry = (0, ⟨[0, 1], [], [1]⟩) ∧
      removeWholeNetSegment (scenario1 false true true) entry.1 entry.2 = true ∧
      ∀ st st', removeNetSegmentItems (exampleRemoveEnv none) (scenario1 false true true) 3
          entry st = .ok () st' →
        st'.childs = st.childs ++ [.boardNetSegmentRemove entry.1] :=
  ⟨(0, ⟨[0, 1], [], [1]⟩), by decide, rfl, by decide,
    (removal_plan_whole_iff (exampleRemoveEnv none) removeBothVias (scenario1 false true true)
      3 (by decide) (by decide) (0, ⟨[0, 1], [], [1]⟩) (by decide)).2.2.2.1 (by decide)⟩

/-! ## The sub-networks that survive a removal -/

theorem WellFormed.of_mem_iff {g : Board} {l l' : List BI_NetLine}
    (h : ∀ w, w ∈ l' ↔ w ∈ l) (hwf : WellFormed g l) : WellFormed g l' :=
  ⟨fun w hw => hwf.distinct w ((h w).1 hw), fun w hw => hwf.listed w ((h w).1 hw),
    fun a w hw hin => hwf.incident a w hw ((h w).1 hin)⟩

theorem mem_foldl_insertAnchor_vias (v : BI_Via) :
    ∀ (as : List BI_NetLineAnchor) (st : NetSegmentItems),
      v ∈ (as.foldl insertAnchor st).vias ↔ v ∈ st.vias ∨ BI_NetLineAnchor.via v ∈ as := by
  intro as
  induction as with
  | nil => intro st; simp
  | cons a rest ih =>
    intro st
    rw [List.foldl_cons, ih]
    cases a with
    | via u =>
      simp only [insertAnchor, mem_setInsert, List.mem_cons, BI_NetLineAnchor.via.injEq]
      tauto
    | netPoint p => simp [insertAnchor]
    | footprintPad p => simp [insertAnchor]

theorem mem_foldl_insertAnchor_netpoints (p : Nat) :
    ∀ (as : List BI_NetLineAnchor) (st : NetSegmentItems),
      p ∈ (as.foldl insertAnchor st).netpoints ↔
        p ∈ st.netpoints ∨ BI_NetLineAnchor.netPoint p ∈ as := by
  intro as
  induction as with
  | nil => intro st; simp
  | cons a rest ih =>
    intro st
    rw [List.foldl_cons, ih]
    cases a with
    | via u => simp [insertAnchor]
    | netPoint q =>
      simp only [insertAnchor, mem_setInsert, List.mem_cons, BI_NetLineAnchor.netPoint.injEq]
      tauto
    | footprintPad q => simp [insertAnchor]

theorem mem_itemsOfSegment_vias (seg : Segment) (v : BI_Via) :
    v ∈ (itemsOfSegment seg).vias ↔ BI_NetLineAnchor.via v ∈ seg.anchors := by
  simp [itemsOfSegment, mem_foldl_insertAnchor_vias]

theorem mem_itemsOfSegment_netpoints (seg : Segment) (p : Nat) :
    p ∈ (itemsOfSegment seg).netpoints ↔ BI_NetLineAnchor.netPoint p ∈ seg.anchors := by
  simp [itemsOfSegment, mem_foldl_insertAnchor_netpoints]

theorem flatMap_netlines_itemsOfSegment :
    ∀ segs : List Segment, (segs.flatMap Segment.netlines).Nodup →
      (segs.map itemsOfSegment).flatMap NetSegmentItems.netlines =
        segs.flatMap Segment.netlines := by
  intro segs
  induction segs with
  | nil => intro _; rfl
  | cons s rest ih =>
    intro hnd
    rw [List.flatMap_cons] at hnd
    have h1 := (List.nodup_append.1 hnd).1
    rw [List.map_cons, List.flatMap_cons, List.flatMap_cons, ih (List.nodup_append.1 hnd).2.1]
    simp [itemsOfSegment, List.dedup_eq_self.2 h1]

/-- What `getNonCohesiveNetSegmentSubSegments` returns on a net segment whose surviving
net lines form a well-formed graph: the splitter's segments for the surviving vias and
net lines, as `NetSegmentItems`. -/
theorem getNonCohesiveNetSegmentSubSegments_spec {W : Type} (env : RemoveEnv W)
    (b : EditedBoard) (fuel : Nat) (segment : BI_NetSegment) (removedItems : NetSegmentItems)
    (hwf : WellFormed b.live.graph (survivingNetLines b segment removedItems))
    (hfuel : (survivingNetLines b segment removedItems).length < fuel) :
    ∃ segs, split b.live.graph (env.enumerate (survivingVias b segment removedItems))
        (env.enumerate (survivingNetLines b segment removedItems)) fuel = .ok segs ∧
      getNonCohesiveNetSegmentSubSegments env.enumerate b fuel segment removedItems =
        .ok (segs.map itemsOfSegment) ∧
      (segs.flatMap Segment.netlines).Perm (survivingNetLines b segment removedItems) ∧
      ∀ v ∈ survivingVias b segment removedItems,
        (segs.flatMap Segment.anchors).count (.via v) = 1 := by
  have hpw := env.enumerate_perm (survivingNetLines b segment removedItems)
  have hpv := env.enumerate_perm (survivingVias b segment removedItems)
  have hwf' : WellFormed b.live.graph
      (env.enumerate (survivingNetLines b segment removedItems)) :=
    hwf.of_mem_iff (fun w => hpw.mem_iff)
  have hfuel' : (env.enumerate (survivingNetLines b segment removedItems)).length < fuel := by
    rw [hpw.length_eq]
    exact hfuel
  have hndw : (survivingNetLines b segment removedItems).Nodup :=
    (List.nodup_dedup _).filter _
  have hndv : (survivingVias b segment removedItems).Nodup := (List.nodup_dedup _).filter _
  obtain ⟨wsegs, vias, hsplit, _⟩ := split_spec
    (env.enumerate (survivingVias b segment removedItems)) hwf' fuel hfuel'
  refine ⟨_, hsplit, by simp [getNonCohesiveNetSegmentSubSegments, hsplit, Outcome.bind],
    (split_netlines_perm _ _ _ _ hwf' hfuel' _ hsplit).trans hpw, ?_⟩
  intro v hv
  exact split_via_count _ _ _ _ hwf' (hpv.nodup_iff.2 hndv) (hpw.nodup_iff.2 hndw) hfuel' _
    hsplit v (hpv.mem_iff.2 hv)

/-- C25: no surviving element is lost or duplicated.  On a net segment whose surviving
net lines form a well-formed graph, `getNonCohesiveNetSegmentSubSegments` returns, for
every order of enumeration; the net line sets of the returned sub-networks, taken
together, are exactly the net lines of the net segment that are not removed, each of them
in exactly one sub-network; and every via of the net segment that is not removed is in the
via set of exactly one sub-network. -/
theorem subSegments_partition {W : Type} (env : RemoveEnv W) (b : EditedBoard) (fuel : Nat)
    (segment : BI_NetSegment) (removedItems : NetSegmentItems)
    (hwf : WellFormed b.live.graph (survivingNetLines b segment removedItems))
    (hfuel : (survivingNetLines b segment removedItems).length < fuel) :
    ∃ subs, getNonCohesiveNetSegmentSubSegments env.enumerate b fuel segment removedItems =
        .ok subs ∧
      (subs.flatMap NetSegmentItems.netlines).Nodup ∧
      (∀ w, w ∈ subs.flatMap NetSegmentItems.netlines ↔
        w ∈ b.netSegmentNetLines segment ∧ w ∉ removedItems.netlines) ∧
      (∀ w, w ∈ b.netSegmentNetLines segment → w ∉ removedItems.netlines →
        subs.countP (fun s => decide (w ∈ s.netlines)) = 1) ∧
      (∀ v, v ∈ b.netSegmentVias segment → v ∉ removedItems.vias →
        subs.countP (fun s => decide (v ∈ s.vias)) = 1) := by
  obtain ⟨segs, _, hsub, hperm, hcount⟩ :=
    getNonCohesiveNetSegmentSubSegments_spec env b fuel segment removedItems hwf hfuel
  have hndw : (survivingNetLines b segment removedItems).Nodup :=
    (List.nodup_dedup _).filter _
  have hnd : (segs.flatMap Segment.netlines).Nodup := hperm.nodup_iff.2 hndw
  have hflat := flatMap_netlines_itemsOfSegment segs hnd
  have hmem : ∀ w, w ∈ survivingNetLines b segment removedItems ↔
      w ∈ b.netSegmentNetLines segment ∧ w ∉ removedItems.netlines := by
    intro w
    simp [survivingNetLines]
  refine ⟨_, hsub, hflat ▸ hnd, ?_, ?_, ?_⟩
  · intro w
    rw [hflat, hperm.mem_iff, hmem]
  · intro w h1 h2
    apply countP_eq_one_of_count
    rw [hflat, hperm.count_eq]
    exact List.count_eq_one_of_mem hndw ((hmem w).2 ⟨h1, h2⟩)
  · intro v h1 h2
    have hv : v ∈ survivingVias b segment removedItems := by
      simp [survivingVias, h1, h2]
    have := countP_eq_one_of_count Segment.anchors (.via v) segs (hcount v hv)
    rw [List.countP_map]
    rw [← this]
    apply List.countP_congr
    intro s _
    simp [mem_itemsOfSegment_vias]

/-! ## Scenario 1: removing one of two joined vias -/

theorem enumerate_singleton {W : Type} (env : RemoveEnv W) (x : Nat) :
    env.enumerate [x] = [x] :=
  List.perm_singleton.1 (env.enumerate_perm [x])

theorem enumerate_nil {W : Type} (env : RemoveEnv W) : env.enumerate [] = [] :=
  List.perm_nil.1 (env.enumerate_perm [])

theorem scenario1_subSegments {W : Type} (env : RemoveEnv W)
    (withJunction fromA fromB : Bool) :
    getNonCohesiveNetSegmentSubSegments env.enumerate (scenario1 withJunction fromA fromB) 3 0
        ⟨[0], [], [1]⟩ =
      .ok [⟨[1], if withJunction then [2] else [], if withJunction then [2] else []⟩] := by
  have hv : survivingVias (scenario1 withJunction fromA fromB) 0 ⟨[0], [], [1]⟩ = [1] := by
    cases withJunction <;> cases fromA <;> cases fromB <;> decide
  have hw : survivingNetLines (scenario1 withJunction fromA fromB) 0 ⟨[0], [], [1]⟩ =
      if withJunction then [2] else [] := by
    cases withJunction <;> cases fromA <;> cases fromB <;> decide
  unfold getNonCohesiveNetSegmentSubSegments
  rw [hv, hw, enumerate_singleton]
  cases withJunction
  · simp only [Bool.false_eq_true, if_false, enumerate_nil]
    cases fromA <;> cases fromB <;> decide
  · simp only [if_true, enumerate_singleton]
    cases fromA <;> cases fromB <;> decide

theorem scenario1_newElements {W : Type} (env : RemoveEnv W) (withJunction fromA fromB : Bool)
    (alloc random : Nat) :
    newElements env (scenario1 withJunction fromA fromB) ⟨[1], [2], [2]⟩ alloc random =
      ⟨[⟨alloc, env.createRandom random, ⟨10, 0⟩, .round, ⟨700000, by decide⟩,
          ⟨300000, by decide⟩⟩],
        [⟨alloc + 1, env.createRandom (random + 1), ⟨20, 0⟩⟩],
        [⟨alloc + 2, env.createRandom (random + 2),
          if fromB then .via alloc else .netPoint (alloc + 1),
          if fromB then .netPoint (alloc + 1) else .via alloc, 1, ⟨200000, by decide⟩⟩],
        [(.netPoint 2, .netPoint (alloc + 1)), (.via 1, .via alloc)], alloc + 3, random + 3⟩ := by
  have hb : (BI_NetLineAnchor.via 1 == BI_NetLineAnchor.netPoint 2) = false := by decide
  cases fromB <;>
    simp [newElements, enumerate_singleton, NewElements.copyVia, NewElements.copyNetPoint,
      NewElements.copyNetLine, scenario1, List.lookup_cons, Nat.add_assoc, hb]

/-- C24: scenario 1, second half.  On the board with the vias A and B joined by the wire
W and B joined to the junction J by the wire W2, whichever way the wires are stored and
in whatever order sets are enumerated, the request to remove A makes W a net line to
remove, does not remove the whole net segment, and the splitter returns exactly one
sub-network, with the vias {B}, the junctions {J} and the net lines {W2}; a completed
iteration has removed the net segment and created one net segment with a copy of B, a
copy of J and a copy of W2 between them. -/
theorem scenario1_keeps_junction_side {W : Type} (env : RemoveEnv W) (fromA fromB : Bool) :
    removeViaA.netSegmentItemsToRemove (scenario1 true fromA fromB) =
      [(0, ⟨[0], [], [1]⟩)] ∧
    removeWholeNetSegment (scenario1 true fromA fromB) 0 ⟨[0], [], [1]⟩ = false ∧
    getNonCohesiveNetSegmentSubSegments env.enumerate (scenario1 true fromA fromB) 3 0
        ⟨[0], [], [1]⟩ = .ok [⟨[1], [2], [2]⟩] ∧
    ∀ st st', removeNetSegmentItems env (scenario1 true fromA fromB) 3 (0, ⟨[0], [], [1]⟩)
        st = .ok () st' →
      st'.childs = st.childs ++
        [.boardNetSegmentRemove 0, .boardNetSegmentAdd st.alloc 100,
          .boardNetSegmentAddElements st.alloc
            [⟨st.alloc + 1, env.createRandom st.random, ⟨10, 0⟩, .round,
              ⟨700000, by decide⟩, ⟨300000, by decide⟩⟩]
            [⟨st.alloc + 2, env.createRandom (st.random + 1), ⟨20, 0⟩⟩]
            [⟨st.alloc + 3, env.createRandom (st.random + 2),
              if fromB then .via (st.alloc + 1) else .netPoint (st.alloc + 2),
              if fromB then .netPoint (st.alloc + 2) else .via (st.alloc + 1), 1,
              ⟨200000, by decide⟩⟩]] := by
  have hsub := scenario1_subSegments env true fromA fromB
  simp only [if_true] at hsub
  have hwhole : removeWholeNetSegment (scenario1 true fromA fromB) 0 ⟨[0], [], [1]⟩ =
      false := by
    cases fromA <;> cases fromB <;> decide
  refine ⟨by cases fromA <;> cases fromB <;> decide, hwhole, hsub, ?_⟩
  intro st st' h
  simp only [removeNetSegmentItems, hwhole, Bool.false_eq_true, if_false, splitUpNetSegment,
    hsub, RemoveStep.forEach] at h
  obtain ⟨u, st1, h1, h2⟩ := removeStep_bind_eq_ok h
  obtain ⟨u2, st2, h3, h4⟩ := removeStep_bind_eq_ok h2
  simp only [RemoveStep.ok.injEq, true_and] at h4
  subst h4
  obtain ⟨c1, a1, r1, _⟩ := remove_exec_eq_ok h1
  have hc := createNewSubNetSegment_eq_ok h3
  rw [hc, c1, a1, r1, scenario1_newElements]
  simp [scenario1, Nat.add_assoc]

/-- Counterexample to C23 as stated: on the board with just the vias A and B joined by the
wire W, the request to remove A does not remove the whole net segment; the command
removes the net segment and creates a new one that holds a copy of the via B. -/
theorem scenario1_recreates_other_via :
    removeWholeNetSegment (scenario1 false true true) 0 ⟨[0], [], [1]⟩ = false ∧
    removeViaA.performExecute (exampleRemoveEnv none) (scenario1 false true true) 3 [] 10 =
      .returned true
        ⟨[.boardNetSegmentRemove 0, .boardNetSegmentAdd 10 100,
            .boardNetSegmentAddElements 10
              [⟨11, 3, ⟨10, 0⟩, .round, ⟨700000, by decide⟩, ⟨300000, by decide⟩⟩] [] [],
            .removeUnusedLibraryElements],
          [.boardNetSegmentRemove 0, .boardNetSegmentAdd 10 100,
            .boardNetSegmentAddElements 10
              [⟨11, 3, ⟨10, 0⟩, .round, ⟨700000, by decide⟩, ⟨300000, by decide⟩⟩] [] [],
            .removeUnusedLibraryElements], 12, 1⟩ := by
  decide

/-- C23 (amended): scenario 1, first half.  On the board with just the vias A and B joined
by the wire W, whichever way W is stored and in whatever order sets are enumerated, the
request to remove A makes W a net line to remove, does not remove the whole net segment,
and the splitter returns exactly one sub-network, which consists of the via B alone; a
completed iteration has removed the net segment and created one net segment with a copy
of B. -/
theorem scenario1_keeps_other_via {W : Type} (env : RemoveEnv W) (fromA fromB : Bool) :
    removeViaA.netSegmentItemsToRemove (scenario1 false fromA fromB) =
      [(0, ⟨[0], [], [1]⟩)] ∧
    removeWholeNetSegment (scenario1 false fromA fromB) 0 ⟨[0], [], [1]⟩ = false ∧
    getNonCohesiveNetSegmentSubSegments env.enumerate (scenario1 false fromA fromB) 3 0
        ⟨[0], [], [1]⟩ = .ok [⟨[1], [], []⟩] ∧
    ∀ st st', removeNetSegmentItems env (scenario1 false fromA fromB) 3 (0, ⟨[0], [], [1]⟩)
        st = .ok () st' →
      st'.childs = st.childs ++
        [.boardNetSegmentRemove 0, .boardNetSegmentAdd st.alloc 100,
          .boardNetSegmentAddElements st.alloc
            [⟨st.alloc + 1, env.createRandom st.random, ⟨10, 0⟩, .round,
              ⟨700000, by decide⟩, ⟨300000, by decide⟩⟩] [] []] := by
  have hsub := scenario1_subSegments env false fromA fromB
  simp only [Bool.false_eq_true, if_false] at hsub
  have hwhole : removeWholeNetSegment (scenario1 false fromA fromB) 0 ⟨[0], [], [1]⟩ =
      false := by
    cases fromA <;> cases fromB <;> decide
  refine ⟨by cases fromA <;> cases fromB <;> decide, hwhole, hsub, ?_⟩
  intro st st' h
  simp only [removeNetSegmentItems, hwhole, Bool.false_eq_true, if_false, splitUpNetSegment,
    hsub, RemoveStep.forEach] at h
  obtain ⟨u, st1, h1, h2⟩ := removeStep_bind_eq_ok h
  obtain ⟨u2, st2, h3, h4⟩ := removeStep_bind_eq_ok h2
  simp only [RemoveStep.ok.injEq, true_and] at h4
  subst h4
  obtain ⟨c1, a1, r1, _⟩ := remove_exec_eq_ok h1
  have hc := createNewSubNetSegment_eq_ok h3
  rw [hc, c1, a1, r1]
  simp [newElements, enumerate_singleton, enumerate_nil, NewElements.copyVia, scenario1]

/-! ## Identities of recreated vias and junctions -/

theorem range_succ_map_shift (f : Nat → Uuid) (start n : Nat) :
    (List.range (n + 1)).map (fun i => f (start + i)) =
      f start :: (List.range n).map (fun i => f (start + 1 + i)) := by
  rw [List.range_succ_eq_map, List.map_cons, List.map_map]
  congr 1
  apply List.map_congr_left
  intro i _
  simp only [Function.comp, Nat.succ_eq_add_one]
  congr 1
  omega

theorem foldl_copyVia (createRandom : Nat → Uuid) (b : EditedBoard) :
    ∀ (vs : List BI_Via) (st : NewElements),
      ∃ new, (vs.foldl (NewElements.copyVia createRandom b) st).vias = st.vias ++ new ∧
        List.Forall₂ (RecreatedVia b) vs new ∧
        new.map NewVia.uuid = (List.range vs.length).map (fun i => createRandom (st.random + i)) ∧
        (vs.foldl (NewElements.copyVia createRandom b) st).netPoints = st.netPoints ∧
        (vs.foldl (NewElements.copyVia createRandom b) st).random = st.random + vs.length := by
  intro vs
  induction vs with
  | nil => intro st; exact ⟨[], by simp, .nil, rfl, rfl, rfl⟩
  | cons v rest ih =>
    intro st
    obtain ⟨new, h1, h2, h3, h4, h5⟩ := ih (NewElements.copyVia createRandom b st v)
    refine ⟨⟨st.alloc, createRandom st.random, b.live.viaPosition v, b.live.viaShape v,
        b.live.viaSize v, b.live.viaDrillDiameter v⟩ :: new, ?_, .cons ⟨rfl, rfl, rfl, rfl⟩ h2,
      ?_, h4, ?_⟩
    · simpa [NewElements.copyVia] using h1
    · rw [List.map_cons, h3, List.length_cons, range_succ_map_shift]
      rfl
    · rw [List.foldl_cons, h5]
      show st.random + 1 + rest.length = st.random + (rest.length + 1)
      omega

theorem foldl_copyNetPoint (createRandom : Nat → Uuid) (b : EditedBoard) :
    ∀ (ps : List Nat) (st : NewElements),
      ∃ new, (ps.foldl (NewElements.copyNetPoint createRandom b) st).netPoints =
          st.netPoints ++ new ∧
        List.Forall₂ (fun p np => np.position = b.live.netPointPosition p) ps new ∧
        new.map NewNetPoint.uuid =
          (List.range ps.length).map (fun i => createRandom (st.random + i)) ∧
        (ps.foldl (NewElements.copyNetPoint createRandom b) st).vias = st.vias := by
  intro ps
  induction ps with
  | nil => intro st; exact ⟨[], by simp, .nil, rfl, rfl⟩
  | cons p rest ih =>
    intro st
    obtain ⟨new, h1, h2, h3, h4⟩ := ih (NewElements.copyNetPoint createRandom b st p)
    refine ⟨⟨st.alloc, createRandom st.random, b.live.netPointPosition p⟩ :: new, ?_,
      .cons rfl h2, ?_, h4⟩
    · simpa [NewElements.copyNetPoint] using h1
    · rw [List.map_cons, h3, List.length_cons, range_succ_map_shift]
      rfl

theorem foldl_copyNetLine (createRandom : Nat → Uuid) (b : EditedBoard) :
    ∀ (ws : List BI_NetLine) (st : NewElements),
      (ws.foldl (NewElements.copyNetLine createRandom b) st).vias = st.vias ∧
        (ws.foldl (NewElements.copyNetLine createRandom b) st).netPoints = st.netPoints := by
  intro ws
  induction ws with
  | nil => intro st; exact ⟨rfl, rfl⟩
  | cons w rest ih =>
    intro st
    exact ih (NewElements.copyNetLine createRandom b st w)

/-- Counterexample to C26 as stated: when the via A of scenario 1 is removed, the via B,
whose identity is `4`, survives and is recreated, and the recreated via has the drawn
identity `3`, not the identity of B. -/
theorem recreated_via_has_new_identity :
    (newElements (exampleRemoveEnv none) (scenario1 false true true) ⟨[1], [], []⟩ 11 0).vias =
      [⟨11, 3, ⟨10, 0⟩, .round, ⟨700000, by decide⟩, ⟨300000, by decide⟩⟩] ∧
    (scenario1 false true true).live.viaUuid 1 = 4 := by
  decide

/-- C26 (amended): in `createNewSubNetSegment` every via of the sub-network is recreated
with the position, shape, size and drill diameter of the via it stands for, and every
junction with the position of the junction it stands for; the identities of the recreated
vias and junctions are the values drawn from `Uuid::createRandom`, in the order of
creation; they do not depend on the identities of the original vias, and they differ from
them when no drawn identity is the identity of a via of the board. -/
theorem recreated_identities {W : Type} (env : RemoveEnv W) (b : EditedBoard)
    (items : NetSegmentItems) (alloc random : Nat) :
    List.Forall₂ (RecreatedVia b) (env.enumerate items.vias)
      (newElements env b items alloc random).vias ∧
    List.Forall₂ (fun p np => np.position = b.live.netPointPosition p)
      (env.enumerate items.netpoints) (newElements env b items alloc random).netPoints ∧
    (newElements env b items alloc random).vias.map NewVia.uuid ++
        (newElements env b items alloc random).netPoints.map NewNetPoint.uuid =
      (List.range (items.vias.length + items.netpoints.length)).map
        (fun i => env.createRandom (random + i)) ∧
    (∀ viaUuid : BI_Via → Uuid,
      newElements env { b with live := { b.live with viaUuid := viaUuid } } items alloc random =
        newElements env b items alloc random) ∧
    ((∀ k v, env.createRandom k ≠ b.live.viaUuid v) →
      ∀ nv ∈ (newElements env b items alloc random).vias, ∀ via, nv.uuid ≠ b.live.viaUuid via) := by
  obtain ⟨vs, v1, v2, v3, v4, v5⟩ := foldl_copyVia env.createRandom b (env.enumerate items.vias)
    ⟨[], [], [], [], alloc, random⟩
  obtain ⟨ps, p1, p2, p3, p4⟩ := foldl_copyNetPoint env.createRandom b
    (env.enumerate items.netpoints)
    ((env.enumerate items.vias).foldl (NewElements.copyVia env.createRandom b)
      ⟨[], [], [], [], alloc, random⟩)
  obtain ⟨l1, l2⟩ := foldl_copyNetLine env.createRandom b (env.enumerate items.netlines)
    ((env.enumerate items.netpoints).foldl (NewElements.copyNetPoint env.createRandom b)
      ((env.enumerate items.vias).foldl (NewElements.copyVia env.createRandom b)
        ⟨[], [], [], [], alloc, random⟩))
  have hvias : (newElements env b items alloc random).vias = vs := by
    rw [newElements, l1, p4, v1]; rfl
  have hpoints : (newElements env b items alloc random).netPoints = ps := by
    rw [newElements, l2, p1, v4]; rfl
  have hlv : (env.enumerate items.vias).length = items.vias.length :=
    (env.enumerate_perm _).length_eq
  have hlp : (env.enumerate items.netpoints).length = items.netpoints.length :=
    (env.enumerate_perm _).length_eq
  have huuid : vs.map NewVia.uuid ++ ps.map NewNetPoint.uuid =
      (List.range (items.vias.length + items.netpoints.length)).map
        (fun i => env.createRandom (random + i)) := by
    rw [v3, p3, v5, hlv, hlp, List.range_add, List.map_append, List.map_map]
    congr 1
    apply List.map_congr_left
    intro i _
    simp only [Function.comp]
    congr 1
    omega
  refine ⟨hvias ▸ v2, hpoints ▸ p2, by rw [hvias, hpoints]; exact huuid, fun _ => rfl, ?_⟩
  intro hfresh nv hnv via
  rw [hvias] at hnv
  have hmem : nv.uuid ∈ vs.map NewVia.uuid := List.mem_map_of_mem _ hnv
  rw [v3] at hmem
  obtain ⟨i, _, hi⟩ := List.mem_map.1 hmem
  rw [← hi]
  exact hfresh _ _

/-- Witness of C26 (amended): the sub-network {B, J, W2} of scenario 1; the drawn
identities `4 k + 3` are identities of no via of the board. -/
theorem recreated_identities_witness :
    ∃ nv ∈ (newElements (exampleRemoveEnv none) (scenario1 true true true) ⟨[1], [2], [2]⟩ 11
        0).vias,
      nv = ⟨11, 3, ⟨10, 0⟩, .round, ⟨700000, by decide⟩, ⟨300000, by decide⟩⟩ ∧
      ∀ via, nv.uuid ≠ (scenario1 true true true).live.viaUuid via :=
  ⟨⟨11, 3, ⟨10, 0⟩, .round, ⟨700000, by decide⟩, ⟨300000, by decide⟩⟩, by decide, rfl,
    (recreated_identities (exampleRemoveEnv none) (scenario1 true true true) ⟨[1], [2], [2]⟩
      11 0).2.2.2.2 (fun k v => by
        show (4 * k + 3 : Nat) ≠ 4 * v
        omega) _ (by decide)⟩

theorem scenario1_wellFormed (fromA fromB : Bool) :
    WellFormed (scenario1 true fromA fromB).live.graph [2] := by
  refine ⟨?_, ?_, ?_⟩
  · intro w hw
    simp only [List.mem_singleton] at hw
    subst hw
    cases fromB <;> simp [scenario1]
  · intro w hw
    simp only [List.mem_singleton] at hw
    subst hw
    cases fromB <;> simp [scenario1]
  · intro a w hw hin
    simp only [List.mem_singleton] at hin
    subst hin
    simp only [scenario1] at hw
    split_ifs at hw with h1 h2 h3
    · simp at hw
    · subst h2
      cases fromB <;> simp [scenario1, touches]
    · subst h3
      cases fromB <;> simp [scenario1, touches]
    · simp at hw

/-- Witness of C25: removing the via A and the wire W of scenario 1 leaves one sub-network
with the wire W2 and the via B. -/
theorem subSegments_partition_witness :
    ∃ subs, getNonCohesiveNetSegmentSubSegments (exampleRemoveEnv none).enumerate
        (scenario1 true true true) 3 0 ⟨[0], [], [1]⟩ = .ok subs ∧
      (subs.flatMap NetSegmentItems.netlines).Nodup ∧
      (∀ w, w ∈ subs.flatMap NetSegmentItems.netlines ↔
        w ∈ (scenario1 true true true).netSegmentNetLines 0 ∧ w ∉ [1]) ∧
      (∀ w, w ∈ (scenario1 true true true).netSegmentNetLines 0 → w ∉ [1] →
        subs.countP (fun s => decide (w ∈ s.netlines)) = 1) ∧
      (∀ v, v ∈ (scenario1 true true true).netSegmentVias 0 → v ∉ [0] →
        subs.countP (fun s => decide (v ∈ s.vias)) = 1) :=
  subSegments_partition (exampleRemoveEnv none) (scenario1 true true true) 3 0 ⟨[0], [], [1]⟩
    (scenario1_wellFormed true true) (by decide)

/-- Witness of C24 with the edits executed without an exception. -/
theorem scenario1_keeps_junction_side_witness :
    ∃ st', removeNetSegmentItems (exampleRemoveEnv none) (scenario1 true true true) 3
        (0, ⟨[0], [], [1]⟩) ⟨[], [], 10, 0⟩ = .ok () st' ∧
      st'.childs = [] ++
        [.boardNetSegmentRemove 0, .boardNetSegmentAdd 10 100,
          .boardNetSegmentAddElements 10
            [⟨10 + 1, scenario2Random 0, ⟨10, 0⟩, .round, ⟨700000, by decide⟩,
              ⟨300000, by decide⟩⟩]
            [⟨10 + 2, scenario2Random (0 + 1), ⟨20, 0⟩⟩]
            [⟨10 + 3, scenario2Random (0 + 2), .via (10 + 1), .netPoint (10 + 2), 1,
              ⟨200000, by decide⟩⟩]] :=
  ⟨_, rfl, (scenario1_keeps_junction_side (exampleRemoveEnv none) true true).2.2.2
    ⟨[], [], 10, 0⟩ _ rfl⟩

/-- Witness of C23 (amended) with the edits executed without an exception. -/
theorem scenario1_keeps_other_via_witness :
    ∃ st', removeNetSegmentItems (exampleRemoveEnv none) (scenario1 false true true) 3
        (0, ⟨[0], [], [1]⟩) ⟨[], [], 10, 0⟩ = .ok () st' ∧
      st'.childs = [] ++
        [.boardNetSegmentRemove 0, .boardNetSegmentAdd 10 100,
          .boardNetSegmentAddElements 10
            [⟨10 + 1, scenario2Random 0, ⟨10, 0⟩, .round, ⟨700000, by decide⟩,
              ⟨300000, by decide⟩⟩] [] []] :=
  ⟨_, rfl, (scenario1_keeps_other_via (exampleRemoveEnv none) true true).2.2.2
    ⟨[], [], 10, 0⟩ _ rfl⟩

/-! ## Registration of pins and pads -/

theorem erase_append_singleton {l : List Nat} {x : Nat} (h : x ∉ l) : (l ++ [x]).erase x = l := by
  rw [List.erase_append_right _ h]
  simp

/-- C40: `registerFootprintPad` and `registerSymbolPin` throw a logic error exactly when
the instance is not added to the circuit, the element belongs to another circuit or is
registered already; a throw leaves the object as it was; on success the element is
appended once, the count of registered elements grows by one, a duplicate-free list
stays duplicate-free, and unregistering the element right away gives back the previous
object.  `unregisterFootprintPad` and `unregisterSymbolPin` throw a logic error exactly
when the instance is not added or the element is not registered, and otherwise remove
the element. -/
theorem register_unregister_spec (env : CircuitElements) (self : ComponentSignalInstance) :
    (∀ pad, Registers ComponentSignalInstance.mRegisteredFootprintPads
      (ComponentSignalInstance.registerFootprintPad env)
      ComponentSignalInstance.unregisterFootprintPad env.padCircuit self pad) ∧
    (∀ pin, Registers ComponentSignalInstance.mRegisteredSymbolPins
      (ComponentSignalInstance.registerSymbolPin env)
      ComponentSignalInstance.unregisterSymbolPin env.pinCircuit self pin) := by
  obtain ⟨circuit, added, pins, pads⟩ := self
  constructor
  · intro pad
    constructor
    · simp only [ComponentSignalInstance.registerFootprintPad]
      cases added <;> by_cases hc : env.padCircuit pad = circuit <;>
        by_cases hm : pad ∈ pads <;> simp [hc, hm]
    · intro e s h
      simp only [ComponentSignalInstance.registerFootprintPad] at h
      split at h
      · cases h; exact ⟨rfl, rfl⟩
      · cases h
    · intro s h
      simp only [ComponentSignalInstance.registerFootprintPad] at h
      split at h
      · cases h
      · rename_i hcond
        simp only [Bool.or_eq_true, Bool.not_eq_true', decide_eq_true_eq, not_or,
          Bool.not_eq_false, not_not] at hcond
        obtain ⟨⟨hadd, hc⟩, hm⟩ := hcond
        cases h
        subst hadd
        refine ⟨rfl, ?_, ?_, ?_, ?_⟩
        · simp [List.count_append, List.count_eq_zero_of_not_mem hm]
        · simp [ComponentSignalInstance.getRegisteredElementsCount]; omega
        · intro hnd
          simp only
          rw [List.nodup_append]
          exact ⟨hnd, List.nodup_singleton _, by
            intro a ha hb
            simp at hb
            exact hm (hb ▸ ha)⟩
        · simp [ComponentSignalInstance.unregisterFootprintPad, erase_append_singleton hm]
    · simp only [ComponentSignalInstance.unregisterFootprintPad]
      cases added <;> by_cases hm : pad ∈ pads <;> simp [hm]
    · intro e s h
      simp only [ComponentSignalInstance.unregisterFootprintPad] at h
      split at h
      · cases h; exact ⟨rfl, rfl⟩
      · cases h
    · intro s h
      simp only [ComponentSignalInstance.unregisterFootprintPad] at h
      split at h
      · cases h
      · cases h
        refine ⟨rfl, fun hnd => ⟨hnd.erase _, ?_⟩⟩
        exact fun hmem => (List.Nodup.mem_erase_iff hnd).1 hmem |>.1 rfl
  · intro pin
    constructor
    · simp only [ComponentSignalInstance.registerSymbolPin]
      cases added <;> by_cases hc : env.pinCircuit pin = circuit <;>
        by_cases hm : pin ∈ pins <;> simp [hc, hm]
    · intro e s h
      simp only [ComponentSignalInstance.registerSymbolPin] at h
      split at h
      · cases h; exact ⟨rfl, rfl⟩
      · cases h
    · intro s h
      simp only [ComponentSignalInstance.registerSymbolPin] at h
      split at h
      · cases h
      · rename_i hcond
        simp only [Bool.or_eq_true, Bool.not_eq_true', decide_eq_true_eq, not_or,
          Bool.not_eq_false, not_not] at hcond
        obtain ⟨⟨hadd, hc⟩, hm⟩ := hcond
        cases h
        subst hadd
        refine ⟨rfl, ?_, ?_, ?_, ?_⟩
        · simp [List.count_append, List.count_eq_zero_of_not_mem hm]
        · simp [ComponentSignalInstance.getRegisteredElementsCount]; omega
        · intro hnd
          simp only
          rw [List.nodup_append]
          exact ⟨hnd, List.nodup_singleton _, by
            intro a ha hb
            simp at hb
            exact hm (hb ▸ ha)⟩
        · simp [ComponentSignalInstance.unregisterSymbolPin, erase_append_singleton hm]
    · simp only [ComponentSignalInstance.unregisterSymbolPin]
      cases added <;> by_cases hm : pin ∈ pins <;> simp [hm]
    · intro e s h
      simp only [ComponentSignalInstance.unregisterSymbolPin] at h
      split at h
      · cases h; exact ⟨rfl, rfl⟩
      · cases h
    · intro s h
      simp only [ComponentSignalInstance.unregisterSymbolPin] at h
      split at h
      · cases h
      · cases h
        refine ⟨rfl, fun hnd => ⟨hnd.erase _, ?_⟩⟩
        exact fun hmem => (List.Nodup.mem_erase_iff hnd).1 hmem |>.1 rfl

/-- Witness of C40: a registered pad and a pad of another circuit are refused, the pad
`8` is appended and can be unregistered again. -/
theorem register_unregister_spec_witness :
    exampleInstance.registerFootprintPad exampleElements 7 = .threw .logicError exampleInstance ∧
    exampleInstance.registerFootprintPad exampleElements 9 = .threw .logicError exampleInstance ∧
    exampleInstance.registerFootprintPad exampleElements 8 = .returned ⟨1, true, [4], [7, 8]⟩ ∧
    (exampleInstance.mRegisteredFootprintPads.Nodup →
      (⟨1, true, [4], [7, 8]⟩ : ComponentSignalInstance).mRegisteredFootprintPads.Nodup) ∧
    (⟨1, true, [4], [7, 8]⟩ : ComponentSignalInstance).unregisterFootprintPad 8 =
      .returned exampleInstance :=
  ⟨by decide, by decide, by decide,
    (((register_unregister_spec exampleElements exampleInstance).1 8).register_appends _
      (by decide)).2.2.2.1,
    (((register_unregister_spec exampleElements exampleInstance).1 8).register_appends _
      (by decide)).2.2.2.2⟩

/-! ## The assertions of the splitter -/

theorem visitNetLines_no_assert (g : Board) (mVias : List BI_Via) (pool : List BI_NetLine)
    (fuel : Nat) (anchor : BI_NetLineAnchor) (r : Bool)
    (hinc : ∀ w ∈ g.getNetLines anchor, w ∈ pool → touches g w anchor)
    (hrec : ∀ (a : BI_NetLineAnchor) (s : State),
      s.availableNetLines ⊆ pool → s.anchors = s.processedAnchors →
      a ∉ s.processedAnchors → findConnectedLinesAndPoints g mVias fuel a s ≠ .assertFailed) :
    ∀ (lines : List BI_NetLine) (layer : Option GraphicsLayer) (st : State),
      lines ⊆ g.getNetLines anchor →
      st.availableNetLines ⊆ pool → st.anchors = st.processedAnchors →
      visitNetLines g (findConnectedLinesAndPoints g mVias fuel) anchor r lines
        layer st ≠ .assertFailed := by
  intro lines
  induction lines with
  | nil => intro layer st _ _ _; simp [visitNetLines]
  | cons line rest ih =>
    intro layer st hlines hsub heq
    have hrest : rest ⊆ g.getNetLines anchor := fun x hx => hlines (List.mem_cons_of_mem _ hx)
    rw [visitNetLines]
    by_cases hacc : lineAccepted g r layer st line = true
    · rw [if_pos hacc]
      have hav := lineAccepted_available hacc
      obtain ⟨p2, hp⟩ :=
        getOtherPoint_isSome (hinc line (hlines (List.mem_cons_self _ _)) (hsub hav))
      rw [hp]
      have hsub1 : (takeLine st line).availableNetLines ⊆ pool :=
        fun x hx => hsub ((List.erase_sublist _ _).subset hx)
      have heq1 : (takeLine st line).anchors = (takeLine st line).processedAnchors := by
        simpa [takeLine] using heq
      simp only
      by_cases hmem : p2 ∈ (takeLine st line).processedAnchors
      · rw [if_pos hmem]
        exact ih _ _ hrest hsub1 heq1
      · rw [if_neg hmem]
        have hne := hrec p2 _ hsub1 heq1 hmem
        cases h2 : findConnectedLinesAndPoints g mVias fuel p2 (takeLine st line) with
        | ok st2 =>
          have run := run_of_findConnectedLinesAndPoints g mVias _ _ _ _ h2
          exact ih _ _ hrest
            (fun x hx => hsub1 (run.available_sublist.subset hx)) (run.anchors_eq heq1)
        | assertFailed => exact absurd h2 hne
        | outOfFuel => simp
    · rw [if_neg hacc]
      exact ih _ _ hrest hsub heq

theorem findConnectedLinesAndPoints_no_assert (g : Board) (mVias : List BI_Via)
    (pool : List BI_NetLine)
    (hinc : ∀ a, ∀ w ∈ g.getNetLines a, w ∈ pool → touches g w a) :
    ∀ (fuel : Nat) (anchor : BI_NetLineAnchor) (st : State),
      st.availableNetLines ⊆ pool →
      st.anchors = st.processedAnchors → anchor ∉ st.processedAnchors →
      findConnectedLinesAndPoints g mVias fuel anchor st ≠ .assertFailed := by
  intro fuel
  induction fuel with
  | zero => intro anchor st _ _ _; simp [findConnectedLinesAndPoints]
  | succ fuel ih =>
    intro anchor st hsub heq hnew
    rw [findConnectedLinesAndPoints, if_neg hnew, if_neg (heq ▸ hnew)]
    exact visitNetLines_no_assert g mVias pool fuel anchor _ (hinc anchor) ih _ _ _
      (List.Subset.refl _)
      (by simpa [enterAnchor] using hsub) (by simp [enterAnchor, heq])

theorem splitLoop_no_assert (g : Board) (mVias : List BI_Via) (mNetLines : List BI_NetLine)
    (hinc : ∀ a, ∀ w ∈ g.getNetLines a, w ∈ mNetLines → touches g w a) (fuel : Nat) :
    ∀ (count : Nat) (segs : List Segment) (vias : List BI_Via) (pool : List BI_NetLine),
      pool ⊆ mNetLines → splitLoop g mVias fuel count segs vias pool ≠ .assertFailed := by
  intro count
  induction count with
  | zero =>
    intro segs vias pool _
    cases pool <;> simp [splitLoop]
  | succ count ih =>
    intro segs vias pool hsub
    cases pool with
    | nil => simp [splitLoop]
    | cons first pool =>
      rw [splitLoop]
      have hne := findConnectedLinesAndPoints_no_assert g mVias mNetLines hinc fuel
        (g.getStartPoint first) (startState vias (first :: pool))
        (by simpa [startState] using hsub) (by simp [startState]) (by simp [startState])
      cases h : findConnectedLinesAndPoints g mVias fuel (g.getStartPoint first)
          (startState vias (first :: pool)) with
      | ok st =>
        have run := run_of_findConnectedLinesAndPoints g mVias _ _ _ _ h
        exact ih _ _ _ fun x hx => hsub (by
          have := run.available_sublist.subset hx
          simpa [startState] using this)
      | assertFailed => exact absurd h hne
      | outOfFuel => simp

/-- C35: on a well-formed graph no assertion of the splitter fires.  With enough fuel
`split` returns; the loop ends with every net line assigned to a segment (the pool is
empty); the anchor list of every returned segment is duplicate-free; the other endpoint
of a net line registered at an anchor is defined; every traversal started at a net line
of a pool of input net lines returns with `anchors` and `processedAnchors` equal and duplicate-free, so that neither
assertion at the head of `findConnectedLinesAndPoints` can fail; and whatever the fuel,
the model never ends in a failed assertion. -/
theorem split_assertions_hold (g : Board) (mVias : List BI_Via) (mNetLines : List BI_NetLine)
    (fuel : Nat) (hwf : WellFormed g mNetLines) (hfuel : mNetLines.length < fuel) :
    (∃ segs vias, splitLoop g mVias fuel fuel [] mVias mNetLines = .ok (segs, vias) ∧
      split g mVias mNetLines fuel = .ok (segs ++ vias.map viaSegment) ∧
      (segs.flatMap Segment.netlines).Perm mNetLines ∧
      ∀ s ∈ segs ++ vias.map viaSegment, s.anchors.Nodup) ∧
    (∀ a, ∀ w ∈ g.getNetLines a, w ∈ mNetLines → (getOtherPoint g w a).isSome = true) ∧
    (∀ vias first pool, first :: pool ⊆ mNetLines →
      (first :: pool).length ≤ mNetLines.length →
      ∃ st, findConnectedLinesAndPoints g mVias fuel (g.getStartPoint first)
          (startState vias (first :: pool)) = .ok st ∧
        st.anchors = st.processedAnchors ∧ st.anchors.Nodup) ∧
    (∀ fuel', split g mVias mNetLines fuel' ≠ .assertFailed) ∧
    ∀ fuel' vias first pool, first :: pool ⊆ mNetLines →
      findConnectedLinesAndPoints g mVias fuel' (g.getStartPoint first)
        (startState vias (first :: pool)) ≠ .assertFailed := by
  refine ⟨?_, ?_, ?_, ?_, ?_⟩
  · obtain ⟨segs, vias, hloop, hinv⟩ :=
      splitLoop_spec mVias hwf fuel hfuel fuel [] mVias mNetLines (by omega)
        { perm := by simp
          vias_eq := by simp [inputVias]
          segOK := by simp
          closed := by simp
          apart := by simp
          fresh := fun _ _ _ w hw _ => hw
          gathered := by simp }
    refine ⟨segs, vias, hloop, by simp [split, hloop], by simpa using hinv.perm, ?_⟩
    · intro s hs
      rcases List.mem_append.1 hs with hs | hs
      · exact (hinv.segOK s hs).nodup
      · obtain ⟨v, _, rfl⟩ := List.mem_map.1 hs
        simp [viaSegment]
  · intro a w hw hm
    obtain ⟨p2, hp⟩ := getOtherPoint_isSome (hwf.incident a w hw hm)
    simp [hp]
  · intro vias first pool hsub hle
    have hlen : (first :: pool).length < fuel := by omega
    obtain ⟨st, hst, run, _, _⟩ := iteration_spec mVias hwf vias first pool hsub fuel hlen
    exact ⟨st, hst, run.anchors_eq (by simp [startState]),
      run.anchors_nodup (by simp [startState])⟩
  · intro fuel'
    have := splitLoop_no_assert g mVias mNetLines hwf.incident fuel' fuel' [] mVias mNetLines
      (List.Subset.refl _)
    simp only [split]
    cases hl : splitLoop g mVias fuel' fuel' [] mVias mNetLines with
    | ok res => simp
    | assertFailed => exact absurd hl this
    | outOfFuel => simp
  · intro fuel' vias first pool hsub
    exact findConnectedLinesAndPoints_no_assert g mVias mNetLines hwf.incident fuel' _ _
      (by simpa [startState] using hsub) (by simp [startState]) (by simp [startState])

/-- Witness of C35 on the board of scenario 2 with the via left out of the input. -/
theorem split_assertions_hold_witness :
    split (scenario2 true true) [] [1, 2] 3 =
        .ok [⟨[.via 0, .netPoint 1], [1]⟩, ⟨[.via 0, .netPoint 2], [2]⟩] ∧
      ∀ fuel, split (scenario2 true true) [] [1, 2] fuel ≠ .assertFailed :=
  ⟨by decide,
    (split_assertions_hold (scenario2 true true) [] [1, 2] 3 (scenario2_wellFormed true true)
      (by decide)).2.2.2.1⟩

/-! ## The layer of the net lines consumed at an anchor -/

theorem consumedLines_layer (g : Board) (recurse : BI_NetLineAnchor → State → Outcome State)
    (anchor : BI_NetLineAnchor) (l : GraphicsLayer) :
    ∀ (lines : List BI_NetLine) (st : State),
      ∀ w ∈ consumedLines g recurse anchor true lines (some l) st, g.getLayer w = l := by
  intro lines
  induction lines with
  | nil => intro st w hw; simp [consumedLines] at hw
  | cons line rest ih =>
    intro st w hw
    rw [consumedLines] at hw
    by_cases hacc : lineAccepted g true (some l) st line = true
    · rw [if_pos hacc] at hw
      have hl : g.getLayer line = l := by
        simp only [lineAccepted, Bool.not_true, Option.isNone_some, Bool.or_false,
          Bool.false_or, Bool.and_eq_true, decide_eq_true_eq, Option.some.injEq] at hacc
        exact hacc.2.symm
      rw [hl] at hw
      cases hp : getOtherPoint g line anchor with
      | none =>
        rw [hp] at hw
        simp only [List.mem_singleton] at hw
        rw [hw, hl]
      | some p2 =>
        rw [hp] at hw
        simp only at hw
        by_cases hmem : p2 ∈ (takeLine st line).processedAnchors
        · rw [if_pos hmem, List.mem_cons] at hw
          rcases hw with hw | hw
          · rw [hw, hl]
          · exact ih _ w hw
        · rw [if_neg hmem] at hw
          cases h2 : recurse p2 (takeLine st line) with
          | ok st2 =>
            rw [h2] at hw
            simp only [List.mem_cons] at hw
            rcases hw with hw | hw
            · rw [hw, hl]
            · exact ih _ w hw
          | assertFailed =>
            rw [h2] at hw
            simp only [List.mem_singleton] at hw
            rw [hw, hl]
          | outOfFuel =>
            rw [h2] at hw
            simp only [List.mem_singleton] at hw
            rw [hw, hl]
    · rw [if_neg hacc] at hw
      exact ih _ w hw

theorem lineAccepted_none (g : Board) (r : Bool) (st : State) (line : BI_NetLine) :
    lineAccepted g r none st line = unassigned st line := by
  simp [lineAccepted, unassigned]

theorem lineAccepted_false (g : Board) (layer : Option GraphicsLayer) (st : State)
    (line : BI_NetLine) : lineAccepted g false layer st line = unassigned st line := by
  simp [lineAccepted, unassigned]

theorem consumedLines_first (g : Board) (recurse : BI_NetLineAnchor → State → Outcome State)
    (anchor : BI_NetLineAnchor) :
    ∀ (lines : List BI_NetLine) (st : State),
      ∀ w ∈ consumedLines g recurse anchor true lines none st,
        ∃ first, lines.find? (unassigned st) = some first ∧
          (consumedLines g recurse anchor true lines none st).head? = some first ∧
          g.getLayer w = g.getLayer first := by
  intro lines
  induction lines with
  | nil => intro st w hw; simp [consumedLines] at hw
  | cons line rest ih =>
    intro st w hw
    rw [consumedLines] at hw ⊢
    rw [lineAccepted_none] at hw ⊢
    by_cases hacc : unassigned st line = true
    · rw [if_pos hacc] at hw ⊢
      refine ⟨line, by simp [List.find?, hacc], ?_⟩
      cases hp : getOtherPoint g line anchor with
      | none =>
        rw [hp] at hw
        simp only [List.mem_singleton] at hw
        exact ⟨rfl, by rw [hw]⟩
      | some p2 =>
        rw [hp] at hw
        simp only at hw ⊢
        by_cases hmem : p2 ∈ (takeLine st line).processedAnchors
        · rw [if_pos hmem] at hw ⊢
          refine ⟨rfl, ?_⟩
          rcases List.mem_cons.1 hw with hw | hw
          · rw [hw]
          · exact consumedLines_layer g recurse anchor _ _ _ w hw
        · rw [if_neg hmem] at hw ⊢
          cases h2 : recurse p2 (takeLine st line) with
          | ok st2 =>
            rw [h2] at hw
            simp only [List.mem_cons] at hw
            refine ⟨rfl, ?_⟩
            rcases hw with hw | hw
            · rw [hw]
            · exact consumedLines_layer g recurse anchor _ _ _ w hw
          | assertFailed =>
            rw [h2] at hw
            simp only [List.mem_singleton] at hw
            exact ⟨rfl, by rw [hw]⟩
          | outOfFuel =>
            rw [h2] at hw
            simp only [List.mem_singleton] at hw
            exact ⟨rfl, by rw [hw]⟩
    · rw [if_neg hacc] at hw ⊢
      obtain ⟨first, h1, h2, h3⟩ := ih st w hw
      refine ⟨first, ?_, h2, h3⟩
      simp only [Bool.not_eq_true] at hacc
      simp [List.find?, hacc, h1]

theorem consumedLines_any_layer (g : Board)
    (recurse : BI_NetLineAnchor → State → Outcome State) (anchor : BI_NetLineAnchor) :
    ∀ (lines : List BI_NetLine) (layer layer' : Option GraphicsLayer) (st : State),
      consumedLines g recurse anchor false lines layer st =
        consumedLines g recurse anchor false lines layer' st := by
  intro lines
  induction lines with
  | nil => intro layer layer' st; simp [consumedLines]
  | cons line rest ih =>
    intro layer layer' st
    rw [consumedLines, consumedLines, lineAccepted_false, lineAccepted_false]
    by_cases hacc : unassigned st line = true
    · rw [if_pos hacc, if_pos hacc]
    · rw [if_neg hacc, if_neg hacc]
      exact ih _ _ _

theorem consumedLines_sound (g : Board) (mVias : List BI_Via) (fuel : Nat)
    (anchor : BI_NetLineAnchor) (r : Bool) :
    ∀ (lines : List BI_NetLine) (layer : Option GraphicsLayer) (st st' : State),
      visitNetLines g (findConnectedLinesAndPoints g mVias fuel) anchor r lines layer st =
        .ok st' →
      ∀ w ∈ consumedLines g (findConnectedLinesAndPoints g mVias fuel) anchor r lines layer st,
        w ∈ lines ∧ w ∈ st.availableNetLines ∧ w ∈ st'.netlines := by
  intro lines
  induction lines with
  | nil => intro layer st st' _ w hw; simp [consumedLines] at hw
  | cons line rest ih =>
    intro layer st st' h w hw
    have run := run_of_visitNetLines g mVias _
      (run_of_findConnectedLinesAndPoints g mVias fuel) anchor r _ _ _ _ h
    rw [consumedLines] at hw
    rw [visitNetLines] at h
    by_cases hacc : lineAccepted g r layer st line = true
    · rw [if_pos hacc] at hw h
      have hav := lineAccepted_available hacc
      have hline : line ∈ st'.netlines := by
        cases run with
        | skip hno _ => rw [hno] at hacc; cases hacc
        | seen _ _ _ run1 => exact run1.netlines_subset (by simp [takeLine])
        | recurse _ _ _ run1 run2 =>
          exact run2.netlines_subset (run1.netlines_subset (by simp [takeLine]))
      cases hp : getOtherPoint g line anchor with
      | none => rw [hp] at h; cases h
      | some p2 =>
        rw [hp] at hw h
        simp only at hw h
        by_cases hmem : p2 ∈ (takeLine st line).processedAnchors
        · rw [if_pos hmem] at hw h
          rcases List.mem_cons.1 hw with hw | hw
          · subst hw; exact ⟨List.mem_cons_self _ _, hav, hline⟩
          · obtain ⟨h1, h2, h3⟩ := ih _ _ _ h w hw
            exact ⟨List.mem_cons_of_mem _ h1, (List.erase_sublist _ _).subset h2, h3⟩
        · rw [if_neg hmem] at hw h
          cases h2 : findConnectedLinesAndPoints g mVias fuel p2 (takeLine st line) with
          | ok st2 =>
            rw [h2] at hw h
            simp only at hw h
            rcases List.mem_cons.1 hw with hw | hw
            · subst hw; exact ⟨List.mem_cons_self _ _, hav, hline⟩
            · obtain ⟨h1, h3, h4⟩ := ih _ _ _ h w hw
              have run2 := run_of_findConnectedLinesAndPoints g mVias _ _ _ _ h2
              exact ⟨List.mem_cons_of_mem _ h1,
                (List.erase_sublist _ _).subset (run2.available_sublist.subset h3), h4⟩
          | assertFailed => rw [h2] at h; cases h
          | outOfFuel => rw [h2] at h; cases h
    · rw [if_neg hacc] at hw h
      obtain ⟨h1, h2, h3⟩ := ih _ _ _ h w hw
      exact ⟨List.mem_cons_of_mem _ h1, h2, h3⟩

/-- C34: in `findConnectedLinesAndPoints`, the net lines consumed while the current
anchor is a via outside the input all lie on the layer of the first net line, in the
order of the net lines registered at the via, that is an input net line not yet assigned
when the via is entered, and that net line is the first one consumed.  At any other
anchor the layer plays no part in whether a net line is consumed, and when the call
returns every net line registered at the anchor that was in the pool is among the net
lines of the segment.  Every net line recorded as consumed at the anchor is registered
at it, was in the pool and is among the net lines of the segment when the call
returns. -/
theorem removed_via_one_layer (g : Board) (mVias : List BI_Via) (fuel : Nat)
    (anchor : BI_NetLineAnchor) (st : State) :
    (isRemovedVia mVias anchor = true →
      ∀ w ∈ consumedAt g mVias fuel anchor st,
        ∃ first, (g.getNetLines anchor).find? (unassigned st) = some first ∧
          (consumedAt g mVias fuel anchor st).head? = some first ∧
          g.getLayer w = g.getLayer first) ∧
    (isRemovedVia mVias anchor = false →
      (∀ layer s line, lineAccepted g (isRemovedVia mVias anchor) layer s line =
        unassigned s line) ∧
      (∀ layer, consumedAt g mVias fuel anchor st =
        consumedLines g (findConnectedLinesAndPoints g mVias fuel) anchor false
          (g.getNetLines anchor) layer (enterAnchor mVias anchor st)) ∧
      ∀ st', findConnectedLinesAndPoints g mVias (fuel + 1) anchor st = .ok st' →
        ∀ w ∈ g.getNetLines anchor, w ∈ st.availableNetLines → w ∈ st'.netlines) ∧
    ∀ st', findConnectedLinesAndPoints g mVias (fuel + 1) anchor st = .ok st' →
      ∀ w ∈ consumedAt g mVias fuel anchor st,
        w ∈ g.getNetLines anchor ∧ w ∈ st.availableNetLines ∧ w ∈ st'.netlines := by
  have hun : unassigned (enterAnchor mVias anchor st) = unassigned st := by
    funext line; simp [unassigned, enterAnchor]
  refine ⟨?_, ?_, ?_⟩
  · intro hr w hw
    simp only [consumedAt, hr] at hw ⊢
    have := consumedLines_first g (findConnectedLinesAndPoints g mVias fuel) anchor _ _ w hw
    rwa [hun] at this
  · intro hr
    refine ⟨?_, ?_, ?_⟩
    · intro layer s line
      rw [hr, lineAccepted_false]
    · intro layer
      simp only [consumedAt, hr]
      exact consumedLines_any_layer g _ anchor _ _ _ _
    · intro st' h w hw hav
      have run := run_of_findConnectedLinesAndPoints g mVias _ _ _ _ h
      have hnew : anchor ∉ st.anchors := by
        cases run with
        | visit _ h2 _ => exact h2
      have hin : anchor ∈ st'.anchors := by
        cases run with
        | visit _ _ run1 => exact run1.anchors_subset (by simp [enterAnchor])
      exact (run.gather st.availableNetLines (fun x hx => Or.inl hx)).2.2 anchor hin hnew hr
        w hw hav
  · intro st' h w hw
    rw [findConnectedLinesAndPoints] at h
    split at h
    · cases h
    · split at h
      · cases h
      · have := consumedLines_sound g mVias fuel anchor _ _ _ _ _ h w hw
        simpa [enterAnchor] using this

/-- Witness of C34 on the board of scenario 2: entered first, the via outside the input
consumes the wire `1` only, which lies on the layer of the first wire registered at it. -/
theorem removed_via_one_layer_witness :
    isRemovedVia [] (.via 0) = true ∧
      consumedAt (scenario2 true true) [] 2 (.via 0) (startState [] [1, 2]) = [1] ∧
      ∃ w ∈ consumedAt (scenario2 true true) [] 2 (.via 0) (startState [] [1, 2]),
        ∃ first, ((scenario2 true true).getNetLines (.via 0)).find?
            (unassigned (startState [] [1, 2])) = some first ∧
          (consumedAt (scenario2 true true) [] 2 (.via 0) (startState [] [1, 2])).head? =
            some first ∧
          (scenario2 true true).getLayer w = (scenario2 true true).getLayer first :=
  ⟨by decide, by decide, 1, by decide,
    (removed_via_one_layer (scenario2 true true) [] 2 (.via 0) (startState [] [1, 2])).1
      (by decide) 1 (by decide)⟩

/-! ## The endpoint references of the wires of a snapshot -/

theorem anchorReference_exactlyOne {b : LiveBoard}
    {replaced : List (BI_NetLineAnchor × BoardClipboardData.NetPoint)} {a : BI_NetLineAnchor}
    {r : Option Uuid × Option Uuid} (h : anchorReference b replaced a = .ok r) :
    exactlyOne r.1 r.2 = true := by
  cases a with
  | netPoint np =>
    simp only [anchorReference, Outcome.ok.injEq] at h
    subst h; rfl
  | via via =>
    simp only [anchorReference] at h
    split at h <;> (simp only [Outcome.ok.injEq] at h; subst h; rfl)
  | footprintPad pad =>
    simp only [anchorReference] at h
    split at h
    · simp only [Outcome.ok.injEq] at h; subst h; rfl
    · cases h

theorem copyNetLine_exactlyOne {b : LiveBoard}
    {replaced : List (BI_NetLineAnchor × BoardClipboardData.NetPoint)} {w : BI_NetLine}
    {l : BoardClipboardData.NetLine} (h : copyNetLine b replaced w = .ok l) :
    exactlyOne l.startJunction l.startVia = true ∧ exactlyOne l.endJunction l.endVia = true := by
  simp only [copyNetLine, Outcome.bind_eq_ok, Outcome.ok.injEq] at h
  obtain ⟨start, hstart, stop, hstop, rfl⟩ := h
  exact ⟨anchorReference_exactlyOne hstart, anchorReference_exactlyOne hstop⟩

theorem serialize_isSome_of_exactlyOne (nl : BoardClipboardData.NetLine)
    (hs : exactlyOne nl.startJunction nl.startVia = true)
    (he : exactlyOne nl.endJunction nl.endVia = true) : nl.serialize.isSome = true := by
  obtain ⟨uuid, sj, sv, ej, ev, layer, width⟩ := nl
  cases sj <;> cases sv <;> cases ej <;> cases ev <;>
    simp_all [exactlyOne, BoardClipboardData.NetLine.serialize, serializeReference]

theorem copiedFrom_exactlyOne {b : LiveBoard} {query : BoardSelectionQuery}
    {createRandom : Nat → Uuid} {ns : BI_NetSegment} {seg : Segment}
    {sub : BoardClipboardData.NetSegment} (h : CopiedFrom b query createRandom ns seg sub) :
    ∀ nl ∈ sub.lines, exactlyOne nl.startJunction nl.startVia = true ∧
      exactlyOne nl.endJunction nl.endVia = true := by
  obtain ⟨random, next, h⟩ := h
  simp only [copySegment, Outcome.bind_eq_ok, Outcome.ok.injEq, Prod.mk.injEq] at h
  obtain ⟨lines, hlines, rfl, _⟩ := h
  intro nl hnl
  obtain ⟨w, _, hw⟩ := mem_of_forall₂_right ((copyNetLines_forall₂ b _ _ _).1 hlines) hnl
  exact copyNetLine_exactlyOne hw

theorem copyNetSegments_assertFailed (b : LiveBoard) (query : BoardSelectionQuery)
    (createRandom : Nat → Uuid) (fuel : Nat) :
    ∀ (nss : List BI_NetSegment) (random : Nat),
      copyNetSegments b query createRandom fuel nss random = .assertFailed →
      ∃ ns ∈ nss, split b.graph (viasOf b query ns) (netLinesOf b query ns) fuel =
        .assertFailed := by
  intro nss
  induction nss with
  | nil => intro random h; simp [copyNetSegments] at h
  | cons ns rest ih =>
    intro random h
    rw [copyNetSegments] at h
    cases hsplit : split b.graph (viasOf b query ns) (netLinesOf b query ns) fuel with
    | ok segs =>
      obtain ⟨subs, next, hsubs, _⟩ := copySegments_spec b query createRandom ns segs random
        (split_endsIn _ _ _ _ _ hsplit)
      simp only [hsplit, hsubs, Outcome.bind] at h
      cases hrest : copyNetSegments b query createRandom fuel rest next with
      | ok r => rw [hrest] at h; cases h
      | assertFailed =>
        obtain ⟨n, hn, hn'⟩ := ih next hrest
        exact ⟨n, List.mem_cons_of_mem _ hn, hn'⟩
      | outOfFuel => rw [hrest] at h; cases h
    | assertFailed => exact ⟨ns, List.mem_cons_self _ _, hsplit⟩
    | outOfFuel => simp [hsplit, Outcome.bind] at h

/-- C36: in every snapshot that `generate` returns, each wire has exactly one of its two
`from` references and exactly one of its two `to` references set, and `NetLine::serialize`
finds the reference it dereferences.  The assertions for the unreachable cases in
`generate` do not fire: for whatever segments the splitter returns, the loop over them
returns, so that the model of `generate` ends in a failed assertion only if an assertion
of the splitter fails; and on a board whose net segments are well-formed `generate`
returns. -/
theorem generate_references_exactly_one (b : LiveBoard) (query : BoardSelectionQuery)
    (createRandom : Nat → Uuid) (cursorPos : Point) (fuel : Nat) :
    (∀ data, generate b query createRandom cursorPos fuel = .ok data →
      ∀ sub ∈ data.netSegments, ∀ nl ∈ sub.lines,
        exactlyOne nl.startJunction nl.startVia = true ∧
          exactlyOne nl.endJunction nl.endVia = true ∧ nl.serialize.isSome = true) ∧
    (∀ ns segs random,
      split b.graph (viasOf b query ns) (netLinesOf b query ns) fuel = .ok segs →
      ∃ r, copySegments b query createRandom ns segs random = .ok r) ∧
    (generate b query createRandom cursorPos fuel = .assertFailed →
      ∃ ns ∈ b.getNetSegments,
        split b.graph (viasOf b query ns) (netLinesOf b query ns) fuel = .assertFailed) ∧
    ((∀ ns ∈ b.getNetSegments, WellFormed b.graph (netLinesOf b query ns)) →
      query.getNetLines.length < fuel →
      ∃ data, generate b query createRandom cursorPos fuel = .ok data) := by
  refine ⟨?_, ?_, ?_, ?_⟩
  · intro data h sub hsub nl hnl
    obtain ⟨ns, _, segs, _, seg, _, hcopy⟩ :=
      generate_subnetwork_origin b query createRandom cursorPos fuel data h sub hsub
    obtain ⟨h1, h2⟩ := copiedFrom_exactlyOne hcopy nl hnl
    exact ⟨h1, h2, serialize_isSome_of_exactlyOne nl h1 h2⟩
  · intro ns segs random hsplit
    obtain ⟨subs, next, hsubs, _⟩ := copySegments_spec b query createRandom ns segs random
      (split_endsIn _ _ _ _ _ hsplit)
    exact ⟨_, hsubs⟩
  · intro h
    simp only [generate] at h
    cases hr : copyNetSegments b query createRandom fuel b.getNetSegments 0 with
    | ok r => simp [hr, Outcome.bind] at h
    | assertFailed => exact copyNetSegments_assertFailed b query createRandom fuel _ _ hr
    | outOfFuel => simp [hr, Outcome.bind] at h
  · intro hwf hfuel
    obtain ⟨r, hr⟩ := copyNetSegments_ok b query createRandom fuel hfuel b.getNetSegments 0 hwf
    exact ⟨⟨b.getUuid, cursorPos, r.1, query.getPlanes, query.getPolygons,
      query.getStrokeTexts, query.getHoles⟩, by simp [generate, hr, Outcome.bind]⟩

/-- Witness of C36 on the snapshot of scenario 2. -/
theorem generate_references_exactly_one_witness :
    ∃ sub ∈ scenario2Snapshot.netSegments, ∃ nl ∈ sub.lines,
      nl.startJunction = some 6 ∧ nl.startVia = none ∧
      exactlyOne nl.startJunction nl.startVia = true ∧
        exactlyOne nl.endJunction nl.endVia = true ∧ nl.serialize.isSome = true :=
  ⟨_, List.mem_cons_self _ _, _, List.mem_cons_self _ _, rfl, rfl,
    (generate_references_exactly_one (scenario2Board false true) (scenario2Query false)
      scenario2Random ⟨0, 0⟩ 3).1 scenario2Snapshot generate_scenario2 _
      (List.mem_cons_self _ _) _ (List.mem_cons_self _ _)⟩

/-! ## One sub-network for every segment -/

theorem length_filterMap_add_filter {α β : Type} (f : α → Option β) :
    ∀ l : List α, (l.filterMap f).length + (l.filter fun a => (f a).isNone).length = l.length := by
  intro l
  induction l with
  | nil => rfl
  | cons a l ih =>
    cases h : f a with
    | none => simp [List.filterMap_cons, h]; omega
    | some x => simp [List.filterMap_cons, h]; omega

theorem copiedFrom_counts {b : LiveBoard} {query : BoardSelectionQuery}
    {createRandom : Nat → Uuid} {ns : BI_NetSegment} {seg : Segment}
    {sub : BoardClipboardData.NetSegment} (h : CopiedFrom b query createRandom ns seg sub) :
    sub.netName = b.netSignalName ns ∧
      sub.points.length = (seg.anchors.filter (storedAsJunction query)).length ∧
      sub.vias.length = (seg.anchors.filterMap (selectedVia query)).length ∧
      sub.lines.length = seg.netlines.length := by
  have hvias := h.vias
  have hlines := congrArg List.length h.lines
  obtain ⟨random, next, h⟩ := h
  simp only [copySegment, Outcome.bind_eq_ok, Outcome.ok.injEq, Prod.mk.injEq] at h
  obtain ⟨lines, hlines', rfl, _⟩ := h
  have hinv := copyAnchors_inv b query createRandom seg.anchors random
  have hlen := hinv.length_eq
  have hsum := length_filterMap_add_filter (selectedVia query) seg.anchors
  simp only at hvias
  refine ⟨rfl, ?_, by simp [hvias], by simpa using hlines⟩
  show (seg.anchors.foldl (copyAnchor b query createRandom) ⟨[], [], [], random⟩).points.length =
    (seg.anchors.filter (fun a => (selectedVia query a).isNone)).length
  rw [hvias, List.length_map] at hlen
  omega

theorem forall₂_flatMap_map {α β γ : Type} {R : α → List γ → Prop} {Q : α × β → γ → Prop}
    (f : α → List β) (hRQ : ∀ a part, R a part → List.Forall₂ (fun x y => Q (a, x) y) (f a) part) :
    ∀ {l : List α} {parts : List (List γ)}, List.Forall₂ R l parts →
      List.Forall₂ Q (l.flatMap fun a => (f a).map (Prod.mk a)) (parts.flatMap id) := by
  intro l parts h
  induction h with
  | nil => exact List.Forall₂.nil
  | @cons a part l parts hr _ ih =>
    simp only [List.flatMap_cons, id]
    refine List.rel_append ?_ ih
    rw [List.forall₂_map_left_iff]
    exact hRQ a part hr

/-- C31: in a snapshot that `generate` returns, the sub-networks are, in order, one for
every segment that the splitter returned for every net segment of the board, taken in
the order of the board and of the splitter; each carries the net name of its net
segment, has as many junctions as its segment has anchors that are not selected vias (and
as many vias and wires as the segment has selected vias and net lines).  A net segment
with no selected via and no selected net line has no segment and so no sub-network.
On a board whose net segments are well-formed `generate` returns. -/
theorem generate_one_subnetwork_per_segment (b : LiveBoard) (query : BoardSelectionQuery)
    (createRandom : Nat → Uuid) (cursorPos : Point) (fuel : Nat) :
    (∀ data, generate b query createRandom cursorPos fuel = .ok data →
      (∀ ns ∈ b.getNetSegments,
        split b.graph (viasOf b query ns) (netLinesOf b query ns) fuel =
          .ok (splitSegments b query fuel ns)) ∧
      List.Forall₂
        (fun (origin : BI_NetSegment × Segment) (sub : BoardClipboardData.NetSegment) =>
          sub.netName = b.netSignalName origin.1 ∧
          sub.points.length = (origin.2.anchors.filter (storedAsJunction query)).length ∧
          sub.vias.length = (origin.2.anchors.filterMap (selectedVia query)).length ∧
          sub.lines.length = origin.2.netlines.length)
        (b.getNetSegments.flatMap fun ns => (splitSegments b query fuel ns).map (Prod.mk ns))
        data.netSegments) ∧
    (∀ ns, viasOf b query ns = [] → netLinesOf b query ns = [] →
      splitSegments b query fuel ns = []) ∧
    ((∀ ns ∈ b.getNetSegments, WellFormed b.graph (netLinesOf b query ns)) →
      query.getNetLines.length < fuel →
      ∃ data, generate b query createRandom cursorPos fuel = .ok data) := by
  refine ⟨?_, ?_, ?_⟩
  · intro data h
    simp only [generate, Outcome.bind_eq_ok, Outcome.ok.injEq] at h
    obtain ⟨r, hr, rfl⟩ := h
    obtain ⟨parts, hparts, hall⟩ := copyNetSegments_spec b query createRandom fuel _ _ _ hr
    constructor
    · intro ns hns
      obtain ⟨part, _, hpart⟩ := forall₂_mem_zip hall hns
      exact hpart.1
    · simp only
      rw [hparts]
      refine forall₂_flatMap_map (splitSegments b query fuel) ?_ hall
      intro ns part hpart
      exact hpart.2.imp fun _ _ hc => copiedFrom_counts hc
  · intro ns hv hw
    simp [splitSegments, hv, hw, split, splitLoop]
  · intro hwf hfuel
    obtain ⟨r, hr⟩ := copyNetSegments_ok b query createRandom fuel hfuel b.getNetSegments 0 hwf
    exact ⟨⟨b.getUuid, cursorPos, r.1, query.getPlanes, query.getPolygons,
      query.getStrokeTexts, query.getHoles⟩, by simp [generate, hr, Outcome.bind]⟩

/-- Witness of C31 on scenario 2 with both wires selected and the via not: the one segment
with three anchors, none of them a selected via, gives one sub-network with three
junctions and the net name of the net segment. -/
theorem generate_one_subnetwork_per_segment_witness :
    ((scenario2Board false true).getNetSegments.flatMap fun ns =>
        (splitSegments (scenario2Board false true) (scenario2Query false) 3 ns).map
          (Prod.mk ns)) = [(0, ⟨[.netPoint 1, .via 0, .netPoint 2], [1, 2]⟩)] ∧
      List.Forall₂
        (fun (origin : BI_NetSegment × Segment) (sub : BoardClipboardData.NetSegment) =>
          sub.netName = (scenario2Board false true).netSignalName origin.1 ∧
          sub.points.length =
            (origin.2.anchors.filter (storedAsJunction (scenario2Query false))).length ∧
          sub.vias.length =
            (origin.2.anchors.filterMap (selectedVia (scenario2Query false))).length ∧
          sub.lines.length = origin.2.netlines.length)
        ((scenario2Board false true).getNetSegments.flatMap fun ns =>
          (splitSegments (scenario2Board false true) (scenario2Query false) 3 ns).map
            (Prod.mk ns))
        scenario2Snapshot.netSegments :=
  ⟨by decide,
    ((generate_one_subnetwork_per_segment (scenario2Board false true) (scenario2Query false)
      scenario2Random ⟨0, 0⟩ 3).1 scenario2Snapshot generate_scenario2).2⟩

/-! ## Pasting a wire whose layer the board does not have -/

theorem Edit.execute_layers (c : Edit) (w : World) : (c.execute w).layers = w.layers := by
  cases c <;> rfl

theorem foldl_execute_layers (cs : List Edit) :
    ∀ w : World, (cs.foldl (fun w c => c.execute w) w).layers = w.layers := by
  induction cs with
  | nil => intro w; rfl
  | cons c cs ih => intro w; rw [List.foldl_cons, ih, Edit.execute_layers]

theorem layers_of_tracks {w0 : World} {st : Paste} (h : Tracks w0 st) :
    st.world.layers = w0.layers := by
  rw [h, foldl_execute_layers]

theorem NoElementsSince.refl (st : Paste) : NoElementsSince st st :=
  ⟨[], by simp, by simp, rfl⟩

theorem NoElementsSince.trans {a b c : Paste} (h1 : NoElementsSince a b)
    (h2 : NoElementsSince b c) : NoElementsSince a c := by
  obtain ⟨m1, hc1, hn1, hw1⟩ := h1
  obtain ⟨m2, hc2, hn2, hw2⟩ := h2
  refine ⟨m1 ++ m2, by rw [hc2, hc1, List.append_assoc], ?_, by
    rw [hw2, hw1, List.foldl_append]⟩
  intro x hx
  rcases List.mem_append.1 hx with hx | hx
  · exact hn1 x hx
  · exact hn2 x hx

theorem execNewChildCmd_noElements (env : PasteEnv) (cmd : Edit)
    (hcmd : cmd.addsElements = false) (st0 st : Paste) (h : NoElementsSince st0 st) :
    (execNewChildCmd env cmd st).Ends (NoElementsSince st0) := by
  unfold execNewChildCmd
  split
  · exact h.trans ⟨[], by simp, by simp, rfl⟩
  · exact h.trans ⟨[cmd], rfl, by simpa using hcmd, rfl⟩

theorem getOrCreateNetSignal_noElements (env : PasteEnv) (name : String) (st0 st : Paste)
    (h : NoElementsSince st0 st) :
    (getOrCreateNetSignal env name st).Ends (NoElementsSince st0) := by
  unfold getOrCreateNetSignal
  split
  · exact h
  · refine Step.Ends.bind ?_ ?_
    · split
      · exact h
      · exact Step.Ends.bind
          (execNewChildCmd_noElements env _ (by rfl) st0 _ (h.trans ⟨[], by simp, by simp, rfl⟩))
          (fun _ _ h1 => h1)
    · intro nc st1 h1
      exact Step.Ends.bind
        (execNewChildCmd_noElements env _ (by rfl) st0 _ (h1.trans ⟨[], by simp, by simp, rfl⟩))
        (fun _ _ h2 => h2)

theorem pasteNetLines_same_world (anchors : Anchors) :
    ∀ (lines : List BoardClipboardData.NetLine) (st : Paste),
      (pasteNetLines anchors lines st).Ends
        (fun st' => st'.world = st.world ∧ st'.childs = st.childs) := by
  intro lines
  induction lines with
  | nil => intro st; exact ⟨rfl, rfl⟩
  | cons nl rest ih =>
    intro st
    rw [pasteNetLines]
    split
    · trivial
    · split
      · trivial
      · split
        · exact Step.Ends.bind (ih _) (fun _ _ h1 => h1)
        · exact ⟨rfl, rfl⟩

theorem pasteNetLines_unknown_layer (anchors : Anchors) :
    ∀ (lines : List BoardClipboardData.NetLine) (st : Paste),
      (∃ nl ∈ lines, nl.layer ∉ st.world.layers) →
      ∀ out st', pasteNetLines anchors lines st ≠ .ok out st' := by
  intro lines
  induction lines with
  | nil => intro st h; simp at h
  | cons nl rest ih =>
    intro st hbad out st' h
    rw [pasteNetLines] at h
    split at h
    · cases h
    · split at h
      · cases h
      · split at h
        · rename_i hlayer
          have hrest : ∃ l ∈ rest, l.layer ∉ st.world.layers := by
            obtain ⟨l, hl, hl'⟩ := hbad
            rcases List.mem_cons.1 hl with hl | hl
            · subst hl; exact absurd hlayer hl'
            · exact ⟨l, hl, hl'⟩
          cases hr : pasteNetLines anchors rest { st with alloc := st.alloc + 1 } with
          | ok lines st1 => exact ih { st with alloc := st.alloc + 1 } hrest _ _ hr
          | threw st1 => rw [hr] at h; cases h
          | assertFailed => rw [hr] at h; cases h
        · cases h

theorem pasteNetSegment_unknown_layer (env : PasteEnv) (posOffset : Point)
    (seg : BoardClipboardData.NetSegment) (st : Paste)
    (hbad : ∃ nl ∈ seg.lines, nl.layer ∉ st.world.layers) :
    (∀ st', pasteNetSegment env posOffset seg st ≠ .ok () st') ∧
      (pasteNetSegment env posOffset seg st).Ends (NoElementsSince st) := by
  unfold pasteNetSegment
  have h0 := getOrCreateNetSignal_noElements env seg.netName st st (NoElementsSince.refl st)
  cases hg : getOrCreateNetSignal env seg.netName st with
  | threw st1 => rw [hg] at h0; exact ⟨(fun st' h => by cases h), h0⟩
  | assertFailed => exact ⟨(fun st' h => by cases h), trivial⟩
  | ok netSignal st1 =>
    rw [hg] at h0
    have hl1 : st1.world.layers = st.world.layers := (getOrCreateNetSignal_eq_ok hg).2.1
    have h1 := execNewChildCmd_noElements env
      (.boardNetSegmentAdd ⟨st1.alloc, netSignal.ptr, true, [], [], []⟩) rfl st
      { st1 with alloc := st1.alloc + 1 } (h0.trans ⟨[], by simp, by simp, rfl⟩)
    simp only [Step.bind]
    cases he : execNewChildCmd env
        (.boardNetSegmentAdd ⟨st1.alloc, netSignal.ptr, true, [], [], []⟩)
        { st1 with alloc := st1.alloc + 1 } with
    | threw st2 => rw [he] at h1; exact ⟨(fun st' h => by cases h), h1⟩
    | assertFailed => exact ⟨(fun st' h => by cases h), trivial⟩
    | ok u st2 =>
      rw [he] at h1
      have hl2 : st2.world.layers = st.world.layers := by
        rw [execNewChildCmd_eq_ok he]
        simp only [Edit.execute_layers, hl1]
      have hsame := pasteNetLines_same_world (pasteAnchors posOffset seg st2.alloc) seg.lines
        { st2 with alloc := (pasteAnchors posOffset seg st2.alloc).alloc }
      have hno := pasteNetLines_unknown_layer (pasteAnchors posOffset seg st2.alloc) seg.lines
        { st2 with alloc := (pasteAnchors posOffset seg st2.alloc).alloc }
        (by simpa [hl2] using hbad)
      simp only
      cases hp : pasteNetLines (pasteAnchors posOffset seg st2.alloc) seg.lines
          { st2 with alloc := (pasteAnchors posOffset seg st2.alloc).alloc } with
      | ok lines st3 => exact absurd hp (hno _ _)
      | assertFailed => exact ⟨(fun st' h => by cases h), trivial⟩
      | threw st3 =>
        rw [hp] at hsame
        refine ⟨(fun st' h => by cases h), ?_⟩
        exact h1.trans ⟨[], by simpa using hsame.2, by simp, by simpa using hsame.1⟩

theorem forEach_unknown_layer (env : PasteEnv) (posOffset : Point) (w0 : World) :
    ∀ (segs : List BoardClipboardData.NetSegment) (st : Paste), Tracks w0 st →
      (∃ seg ∈ segs, ∃ nl ∈ seg.lines, nl.layer ∉ w0.layers) →
      ∀ st', forEach (pasteNetSegment env posOffset) segs st ≠ .ok () st' := by
  intro segs
  induction segs with
  | nil => intro st _ h; simp at h
  | cons seg rest ih =>
    intro st htr hbad st' h
    rw [forEach] at h
    have htr1 := pasteNetSegment_tracks env posOffset seg w0 st htr
    cases hs : pasteNetSegment env posOffset seg st with
    | threw st1 => rw [hs] at h; cases h
    | assertFailed => rw [hs] at h; cases h
    | ok u st1 =>
      rw [hs] at h htr1
      obtain ⟨s, hsmem, nl, hnl, hlayer⟩ := hbad
      rcases List.mem_cons.1 hsmem with hsmem | hsmem
      · subst hsmem
        exact (pasteNetSegment_unknown_layer env posOffset s st
          ⟨nl, hnl, by rw [layers_of_tracks htr]; exact hlayer⟩).1 st1 hs
      · exact ih st1 htr1 ⟨s, hsmem, nl, hnl, hlayer⟩ st' h

theorem forEach_pasteNetSegment_no_assert (env : PasteEnv) (posOffset : Point) :
    ∀ (segs : List BoardClipboardData.NetSegment) (st : Paste),
      (∀ seg ∈ segs, Resolvable seg) →
      forEach (pasteNetSegment env posOffset) segs st ≠ .assertFailed := by
  intro segs
  induction segs with
  | nil => intro st _ h; cases h
  | cons seg rest ih =>
    intro st hres h
    rw [forEach] at h
    obtain ⟨hv, hp, hs⟩ := hres seg (List.mem_cons_self _ _)
    have hna := pasteNetSegment_no_assert env posOffset seg st hv hp hs
    cases hs : pasteNetSegment env posOffset seg st with
    | threw st1 => rw [hs] at h; cases h
    | assertFailed => exact hna hs
    | ok u st1 =>
      rw [hs] at h
      exact ih st1 (fun s hs => hres s (List.mem_cons_of_mem _ hs)) h

/-- C32: when a wire of the snapshot names a layer that the layer stack of the board does
not have, `performExecute` does not return, and when it throws the project is as before
the paste.  If the references of every sub-network can be looked up, it does throw.  While
the sub-network with that wire is pasted no element is added: the paste of the
sub-network never completes, and if it throws, the edits executed for it add no elements
and the project is what they left.  If moreover no command throws, the throw comes from
the loop over the wires, right after the edit that added the new, still empty net
segment. -/
theorem paste_unknown_layer (env : PasteEnv) (posOffset : Point) (data : BoardClipboardData)
    (world : World) (alloc : Nat) (seg : BoardClipboardData.NetSegment)
    (hseg : seg ∈ data.netSegments) (nl : BoardClipboardData.NetLine) (hnl : nl ∈ seg.lines)
    (hlayer : nl.layer ∉ world.layers) :
    (∀ modified st, performExecute env posOffset data world alloc ≠ .returned modified st) ∧
    (∀ w, performExecute env posOffset data world alloc = .threw w → w = world) ∧
    ((∀ s ∈ data.netSegments, Resolvable s) →
      performExecute env posOffset data world alloc = .threw world) ∧
    (∀ st : Paste, st.world.layers = world.layers →
      (∀ st', pasteNetSegment env posOffset seg st ≠ .ok () st') ∧
      (∀ st', pasteNetSegment env posOffset seg st = .threw st' →
        ∃ more, st'.childs = st.childs ++ more ∧ (∀ c ∈ more, c.addsElements = false) ∧
          st'.world = more.foldl (fun w c => c.execute w) st.world) ∧
      ((∀ i, env.fails i = false) → Resolvable seg →
        ∃ st' netSegment netSignal before,
          pasteNetSegment env posOffset seg st = .threw st' ∧
          st'.childs = before ++ [.boardNetSegmentAdd ⟨netSegment, netSignal, true, [], [], []⟩] ∧
          st'.world.netSegments =
            st.world.netSegments ++ [⟨netSegment, netSignal, true, [], [], []⟩])) := by
  have htr0 : Tracks world ⟨world, [], 0, alloc, 0⟩ := rfl
  have hnoOk : ∀ st', forEach (pasteNetSegment env posOffset) data.netSegments
      ⟨world, [], 0, alloc, 0⟩ ≠ .ok () st' :=
    forEach_unknown_layer env posOffset world _ _ htr0 ⟨seg, hseg, nl, hnl, hlayer⟩
  have hundo : ∀ w, performExecute env posOffset data world alloc = .threw w → w = world := by
    intro w h
    have htr := pasteAll_tracks env posOffset data world _ htr0
    simp only [performExecute] at h
    cases hp : pasteAll env posOffset data ⟨world, [], 0, alloc, 0⟩ with
    | ok u st => rw [hp] at h; cases h
    | assertFailed => rw [hp] at h; cases h
    | threw st =>
      rw [hp] at h htr
      simp only [PasteResult.threw.injEq] at h
      rw [← h]
      exact performUndo_of_tracks htr
  refine ⟨?_, hundo, ?_, ?_⟩
  · intro modified st h
    simp only [performExecute, pasteAll] at h
    cases hf : forEach (pasteNetSegment env posOffset) data.netSegments
        ⟨world, [], 0, alloc, 0⟩ with
    | ok u st1 => exact hnoOk st1 hf
    | threw st1 => simp [hf, Step.bind] at h
    | assertFailed => simp [hf, Step.bind] at h
  · intro hres
    have hna := forEach_pasteNetSegment_no_assert env posOffset data.netSegments
      ⟨world, [], 0, alloc, 0⟩ hres
    cases hf : forEach (pasteNetSegment env posOffset) data.netSegments
        ⟨world, [], 0, alloc, 0⟩ with
    | ok u st1 => exact absurd hf (hnoOk st1)
    | assertFailed => exact absurd hf hna
    | threw st1 =>
      have hthrew : performExecute env posOffset data world alloc =
          .threw (performUndo st1) := by
        simp [performExecute, pasteAll, hf, Step.bind]
      rw [hthrew, hundo _ hthrew]
  · intro st hl
    have hbad : ∃ l ∈ seg.lines, l.layer ∉ st.world.layers := ⟨nl, hnl, by rw [hl]; exact hlayer⟩
    obtain ⟨hno, hends⟩ := pasteNetSegment_unknown_layer env posOffset seg st hbad
    refine ⟨hno, ?_, ?_⟩
    · intro st' h
      rw [h] at hends
      exact hends
    · intro hok hres
      obtain ⟨hv, hp, hs⟩ := hres
      obtain ⟨netSignal, st1, hg⟩ := getOrCreateNetSignal_returns env seg.netName st hok
      obtain ⟨hseg1, hl1, _⟩ := getOrCreateNetSignal_eq_ok hg
      have he := @execNewChildCmd_returns env
        (.boardNetSegmentAdd ⟨st1.alloc, netSignal.ptr, true, [], [], []⟩)
        { st1 with alloc := st1.alloc + 1 } (hok _)
      have hsame := pasteNetLines_same_world (pasteAnchors posOffset seg (st1.alloc + 1))
        seg.lines
        { world := (Edit.boardNetSegmentAdd ⟨st1.alloc, netSignal.ptr, true, [], [], []⟩).execute
            st1.world
          childs := st1.childs ++
            [.boardNetSegmentAdd ⟨st1.alloc, netSignal.ptr, true, [], [], []⟩]
          attempts := st1.attempts + 1
          alloc := (pasteAnchors posOffset seg (st1.alloc + 1)).alloc
          random := st1.random }
      have hno' := pasteNetLines_unknown_layer (pasteAnchors posOffset seg (st1.alloc + 1))
        seg.lines
        { world := (Edit.boardNetSegmentAdd ⟨st1.alloc, netSignal.ptr, true, [], [], []⟩).execute
            st1.world
          childs := st1.childs ++
            [.boardNetSegmentAdd ⟨st1.alloc, netSignal.ptr, true, [], [], []⟩]
          attempts := st1.attempts + 1
          alloc := (pasteAnchors posOffset seg (st1.alloc + 1)).alloc
          random := st1.random }
        ⟨nl, hnl, by simp only [Edit.execute_layers, hl1, hl]; exact hlayer⟩
      have hna := pasteNetLines_no_assert (pasteAnchors posOffset seg (st1.alloc + 1))
        seg.lines
        { world := (Edit.boardNetSegmentAdd ⟨st1.alloc, netSignal.ptr, true, [], [], []⟩).execute
            st1.world
          childs := st1.childs ++
            [.boardNetSegmentAdd ⟨st1.alloc, netSignal.ptr, true, [], [], []⟩]
          attempts := st1.attempts + 1
          alloc := (pasteAnchors posOffset seg (st1.alloc + 1)).alloc
          random := st1.random }
        (resolves_of_selfContained posOffset seg (st1.alloc + 1) hv hp hs)
      cases hp3 : pasteNetLines (pasteAnchors posOffset seg (st1.alloc + 1)) seg.lines
        { world := (Edit.boardNetSegmentAdd ⟨st1.alloc, netSignal.ptr, true, [], [], []⟩).execute
            st1.world
          childs := st1.childs ++
            [.boardNetSegmentAdd ⟨st1.alloc, netSignal.ptr, true, [], [], []⟩]
          attempts := st1.attempts + 1
          alloc := (pasteAnchors posOffset seg (st1.alloc + 1)).alloc
          random := st1.random } with
      | ok lines st3 => exact absurd hp3 (hno' _ _)
      | assertFailed => exact absurd hp3 hna
      | threw st3 =>
        rw [hp3] at hsame
        refine ⟨st3, st1.alloc, netSignal.ptr, st1.childs, ?_, hsame.2, ?_⟩
        · simp only [pasteNetSegment, hg, Step.bind, he, hp3]
        · rw [hsame.1]
          show st1.world.netSegments ++ _ = _
          rw [hseg1]

/-- Witness of C32: the snapshot of scenario 2 has a wire on "bot_cu"; pasted into a
board with the layer "top_cu" only, the paste throws and leaves the project unchanged. -/
theorem paste_unknown_layer_witness :
    performExecute (scenario2Env none) ⟨1, 1⟩ scenario2Snapshot topOnlyWorld 0 =
      .threw topOnlyWorld :=
  (paste_unknown_layer (scenario2Env none) ⟨1, 1⟩ scenario2Snapshot topOnlyWorld 0 _
    (List.mem_cons_self _ _) ⟨9, some 3, none, some 10, none, "bot_cu", ⟨200000, by decide⟩⟩
    (by decide) (by decide)).2.2.1 (by
      intro s hs
      simp only [scenario2Snapshot, List.mem_singleton] at hs
      subst hs
      exact ⟨by decide, by decide, by decide⟩)

/-! ## The edits that recreate a sub-network -/

theorem foldl_copyVia_map (createRandom : Nat → Uuid) (b : EditedBoard) :
    ∀ (vs : List BI_Via) (st : NewElements), vs.Nodup →
      ∃ new, (vs.foldl (NewElements.copyVia createRandom b) st).vias = st.vias ++ new ∧
        (vs.foldl (NewElements.copyVia createRandom b) st).netPoints = st.netPoints ∧
        (vs.foldl (NewElements.copyVia createRandom b) st).netLines = st.netLines ∧
        (vs.foldl (NewElements.copyVia createRandom b) st).alloc = st.alloc + vs.length ∧
        List.Forall₂ (fun v nv => RecreatedVia b v nv ∧
          (vs.foldl (NewElements.copyVia createRandom b) st).anchorMap.lookup (.via v) =
            some (.via nv.ptr) ∧ st.alloc ≤ nv.ptr) vs new ∧
        (new.map NewVia.ptr).Nodup ∧
        ∀ a, (∀ v ∈ vs, a ≠ .via v) →
          (vs.foldl (NewElements.copyVia createRandom b) st).anchorMap.lookup a =
            st.anchorMap.lookup a := by
  intro vs
  induction vs with
  | nil => intro st _; exact ⟨[], by simp, rfl, rfl, rfl, .nil, by simp, fun _ _ => rfl⟩
  | cons x rest ih =>
    intro st hnd
    obtain ⟨hx, hrest⟩ := List.nodup_cons.1 hnd
    obtain ⟨new, h1, h2, h3, h4, h5, h6, h7⟩ := ih (NewElements.copyVia createRandom b st x) hrest
    refine ⟨⟨st.alloc, createRandom st.random, b.live.viaPosition x, b.live.viaShape x,
        b.live.viaSize x, b.live.viaDrillDiameter x⟩ :: new, ?_, h2, h3, ?_, ?_, ?_, ?_⟩
    · simpa [NewElements.copyVia] using h1
    · rw [List.foldl_cons, h4]
      show st.alloc + 1 + rest.length = st.alloc + (rest.length + 1)
      omega
    · refine .cons ⟨⟨rfl, rfl, rfl, rfl⟩, ?_, le_refl _⟩ (h5.imp ?_)
      · rw [List.foldl_cons, h7 _ (fun v hv hva => hx (by cases hva; exact hv))]
        exact lookup_head _ _ _
      · intro v nv ⟨hr, hl, hle⟩
        exact ⟨hr, hl, Nat.le_of_succ_le hle⟩
    · rw [List.map_cons, List.nodup_cons]
      refine ⟨?_, h6⟩
      intro hmem
      obtain ⟨nv, hnv, hptr⟩ := List.mem_map.1 hmem
      obtain ⟨v, _, _, _, hle⟩ := mem_of_forall₂_right h5 hnv
      have h1 : st.alloc + 1 ≤ nv.ptr := hle
      have h2 : @Eq Nat nv.ptr st.alloc := hptr
      omega
    · intro a ha
      rw [List.foldl_cons, h7 a (fun v hv => ha v (List.mem_cons_of_mem _ hv))]
      exact lookup_tail _ _ (ha x (List.mem_cons_self _ _))

theorem foldl_copyNetPoint_map (createRandom : Nat → Uuid) (b : EditedBoard) :
    ∀ (ps : List Nat) (st : NewElements), ps.Nodup →
      ∃ new, (ps.foldl (NewElements.copyNetPoint createRandom b) st).netPoints =
          st.netPoints ++ new ∧
        (ps.foldl (NewElements.copyNetPoint createRandom b) st).vias = st.vias ∧
        (ps.foldl (NewElements.copyNetPoint createRandom b) st).netLines = st.netLines ∧
        (ps.foldl (NewElements.copyNetPoint createRandom b) st).alloc = st.alloc + ps.length ∧
        List.Forall₂ (fun p np => np.position = b.live.netPointPosition p ∧
          (ps.foldl (NewElements.copyNetPoint createRandom b) st).anchorMap.lookup
            (.netPoint p) = some (.netPoint np.ptr) ∧ st.alloc ≤ np.ptr) ps new ∧
        (new.map NewNetPoint.ptr).Nodup ∧
        ∀ a, (∀ p ∈ ps, a ≠ .netPoint p) →
          (ps.foldl (NewElements.copyNetPoint createRandom b) st).anchorMap.lookup a =
            st.anchorMap.lookup a := by
  intro ps
  induction ps with
  | nil => intro st _; exact ⟨[], by simp, rfl, rfl, rfl, .nil, by simp, fun _ _ => rfl⟩
  | cons x rest ih =>
    intro st hnd
    obtain ⟨hx, hrest⟩ := List.nodup_cons.1 hnd
    obtain ⟨new, h1, h2, h3, h4, h5, h6, h7⟩ :=
      ih (NewElements.copyNetPoint createRandom b st x) hrest
    refine ⟨⟨st.alloc, createRandom st.random, b.live.netPointPosition x⟩ :: new, ?_, h2, h3,
      ?_, ?_, ?_, ?_⟩
    · simpa [NewElements.copyNetPoint] using h1
    · rw [List.foldl_cons, h4]
      show st.alloc + 1 + rest.length = st.alloc + (rest.length + 1)
      omega
    · refine .cons ⟨rfl, ?_, le_refl _⟩ (h5.imp ?_)
      · rw [List.foldl_cons, h7 _ (fun p hp hpa => hx (by cases hpa; exact hp))]
        exact lookup_head _ _ _
      · intro p np ⟨hr, hl, hle⟩
        exact ⟨hr, hl, Nat.le_of_succ_le hle⟩
    · rw [List.map_cons, List.nodup_cons]
      refine ⟨?_, h6⟩
      intro hmem
      obtain ⟨np, hnp, hptr⟩ := List.mem_map.1 hmem
      obtain ⟨p, _, _, _, hle⟩ := mem_of_forall₂_right h5 hnp
      have h1 : st.alloc + 1 ≤ np.ptr := hle
      have h2 : @Eq Nat np.ptr st.alloc := hptr
      omega
    · intro a ha
      rw [List.foldl_cons, h7 a (fun p hp => ha p (List.mem_cons_of_mem _ hp))]
      exact lookup_tail _ _ (ha x (List.mem_cons_self _ _))

theorem foldl_copyNetLine_map (createRandom : Nat → Uuid) (b : EditedBoard) :
    ∀ (ws : List BI_NetLine) (st : NewElements),
      (ws.foldl (NewElements.copyNetLine createRandom b) st).anchorMap = st.anchorMap ∧
      ∃ new, (ws.foldl (NewElements.copyNetLine createRandom b) st).netLines =
          st.netLines ++ new ∧
        List.Forall₂ (fun w nl => nl.layer = b.live.graph.getLayer w ∧
          nl.width = b.live.netLineWidth w ∧
          nl.startPoint = (st.anchorMap.lookup (b.live.graph.getStartPoint w)).getD
            (b.live.graph.getStartPoint w) ∧
          nl.endPoint = (st.anchorMap.lookup (b.live.graph.getEndPoint w)).getD
            (b.live.graph.getEndPoint w)) ws new := by
  intro ws
  induction ws with
  | nil => intro st; exact ⟨rfl, [], by simp, .nil⟩
  | cons x rest ih =>
    intro st
    obtain ⟨h1, new, h2, h3⟩ := ih (NewElements.copyNetLine createRandom b st x)
    refine ⟨h1, ⟨st.alloc, createRandom st.random,
      (st.anchorMap.lookup (b.live.graph.getStartPoint x)).getD (b.live.graph.getStartPoint x),
      (st.anchorMap.lookup (b.live.graph.getEndPoint x)).getD (b.live.graph.getEndPoint x),
      b.live.graph.getLayer x, b.live.netLineWidth x⟩ :: new, ?_,
      .cons ⟨rfl, rfl, rfl, rfl⟩ h3⟩
    rw [List.foldl_cons, h2]
    simp [NewElements.copyNetLine]

theorem newElements_spec {W : Type} (env : RemoveEnv W) (b : EditedBoard)
    (items : NetSegmentItems) (alloc random : Nat) (hv : items.vias.Nodup)
    (hp : items.netpoints.Nodup) :
    List.Forall₂ (fun v nv => RecreatedVia b v nv ∧
        (newElements env b items alloc random).anchorMap.lookup (.via v) = some (.via nv.ptr) ∧
        alloc ≤ nv.ptr)
      (env.enumerate items.vias) (newElements env b items alloc random).vias ∧
    List.Forall₂ (fun p np => np.position = b.live.netPointPosition p ∧
        (newElements env b items alloc random).anchorMap.lookup (.netPoint p) =
          some (.netPoint np.ptr) ∧ alloc ≤ np.ptr)
      (env.enumerate items.netpoints) (newElements env b items alloc random).netPoints ∧
    List.Forall₂ (fun w nl => nl.layer = b.live.graph.getLayer w ∧
        nl.width = b.live.netLineWidth w ∧
        nl.startPoint = ((newElements env b items alloc random).anchorMap.lookup
          (b.live.graph.getStartPoint w)).getD (b.live.graph.getStartPoint w) ∧
        nl.endPoint = ((newElements env b items alloc random).anchorMap.lookup
          (b.live.graph.getEndPoint w)).getD (b.live.graph.getEndPoint w))
      (env.enumerate items.netlines) (newElements env b items alloc random).netLines ∧
    ((newElements env b items alloc random).vias.map NewVia.ptr).Nodup ∧
    ((newElements env b items alloc random).netPoints.map NewNetPoint.ptr).Nodup ∧
    ∀ a, (∀ v ∈ items.vias, a ≠ .via v) → (∀ p ∈ items.netpoints, a ≠ .netPoint p) →
      (newElements env b items alloc random).anchorMap.lookup a = none := by
  have hpv := env.enumerate_perm items.vias
  have hpp := env.enumerate_perm items.netpoints
  obtain ⟨nv, v1, v2, v3, v4, v5, v6, v7⟩ := foldl_copyVia_map env.createRandom b
    (env.enumerate items.vias) ⟨[], [], [], [], alloc, random⟩ (hpv.nodup_iff.2 hv)
  obtain ⟨np, p1, p2, p3, p4, p5, p6, p7⟩ := foldl_copyNetPoint_map env.createRandom b
    (env.enumerate items.netpoints)
    ((env.enumerate items.vias).foldl (NewElements.copyVia env.createRandom b)
      ⟨[], [], [], [], alloc, random⟩) (hpp.nodup_iff.2 hp)
  obtain ⟨l1, nl, l2, l3⟩ := foldl_copyNetLine_map env.createRandom b
    (env.enumerate items.netlines)
    ((env.enumerate items.netpoints).foldl (NewElements.copyNetPoint env.createRandom b)
      ((env.enumerate items.vias).foldl (NewElements.copyVia env.createRandom b)
        ⟨[], [], [], [], alloc, random⟩))
  have lv := (foldl_copyNetLine env.createRandom b (env.enumerate items.netlines)
    ((env.enumerate items.netpoints).foldl (NewElements.copyNetPoint env.createRandom b)
      ((env.enumerate items.vias).foldl (NewElements.copyVia env.createRandom b)
        ⟨[], [], [], [], alloc, random⟩)))
  have hvias : (newElements env b items alloc random).vias = nv := by
    simp only [newElements]
    rw [lv.1, p2, v1]
    rfl
  have hpoints : (newElements env b items alloc random).netPoints = np := by
    simp only [newElements]
    rw [lv.2, p1, v2]
    rfl
  have hlines : (newElements env b items alloc random).netLines = nl := by
    simp only [newElements]
    rw [l2, p3, v3]
    rfl
  have hmap : (newElements env b items alloc random).anchorMap =
      ((env.enumerate items.netpoints).foldl (NewElements.copyNetPoint env.createRandom b)
        ((env.enumerate items.vias).foldl (NewElements.copyVia env.createRandom b)
          ⟨[], [], [], [], alloc, random⟩)).anchorMap := by
    simp only [newElements]
    exact l1
  rw [hvias, hpoints, hlines, hmap]
  refine ⟨v5.imp ?_, p5.imp ?_, l3, v6, p6, ?_⟩
  · intro v x ⟨h1, h2, h3⟩
    refine ⟨h1, ?_, h3⟩
    rw [p7 _ (fun p _ h => by cases h)]
    exact h2
  · intro p x ⟨h1, h2, h3⟩
    refine ⟨h1, h2, ?_⟩
    rw [v4] at h3
    have : alloc + (env.enumerate items.vias).length ≤ x.ptr := h3
    omega
  · intro a hav hap
    rw [p7 a (fun p hp' => hap p (hpp.mem_iff.1 hp')),
      v7 a (fun v hv' => hav v (hpv.mem_iff.1 hv'))]
    rfl

theorem recreatedAnchor_of_lookup {W : Type} (env : RemoveEnv W) (b : EditedBoard)
    (items : NetSegmentItems) (alloc random : Nat) (hv : items.vias.Nodup)
    (hp : items.netpoints.Nodup) (a : BI_NetLineAnchor) (ha : planned items a) :
    RecreatedAnchor (env.enumerate items.vias) (newElements env b items alloc random).vias
      (env.enumerate items.netpoints) (newElements env b items alloc random).netPoints a
      (((newElements env b items alloc random).anchorMap.lookup a).getD a) := by
  obtain ⟨h1, h2, _, _, _, h6⟩ := newElements_spec env b items alloc random hv hp
  cases a with
  | via v =>
    obtain ⟨nv, hmem, _, hl, _⟩ :=
      forall₂_mem_zip h1 ((env.enumerate_perm items.vias).mem_iff.2 ha)
    exact ⟨nv, hmem, by rw [hl]; rfl⟩
  | netPoint p =>
    obtain ⟨np, hmem, _, hl, _⟩ :=
      forall₂_mem_zip h2 ((env.enumerate_perm items.netpoints).mem_iff.2 ha)
    exact ⟨np, hmem, by rw [hl]; rfl⟩
  | footprintPad pad =>
    show _ = _
    rw [h6 _ (fun _ _ h => by cases h) (fun _ _ h => by cases h)]
    rfl

theorem createNewSubNetSegment_recreates {W : Type} {env : RemoveEnv W} {b : EditedBoard}
    {netsegment : BI_NetSegment} {items : NetSegmentItems} {st st' : Removal W}
    (hplan : ClosedPlan b items)
    (h : createNewSubNetSegment env b netsegment items st = .ok () st') :
    ∃ edits, st'.childs = st.childs ++ edits ∧ RecreatedAs env b netsegment items edits := by
  refine ⟨_, createNewSubNetSegment_eq_ok h, st.alloc, _, _, _, rfl, ?_⟩
  obtain ⟨h1, h2, h3, h4, h5, _⟩ :=
    newElements_spec env b items (st.alloc + 1) st.random hplan.vias_nodup hplan.netpoints_nodup
  refine ⟨h1.imp fun _ _ h => h.1, h2.imp fun _ _ h => h.1, ?_, h4, h5⟩
  have hmem : ∀ w ∈ env.enumerate items.netlines, w ∈ items.netlines :=
    fun w hw => (env.enumerate_perm items.netlines).mem_iff.1 hw
  revert h3 hmem
  generalize (newElements env b items (st.alloc + 1) st.random).netLines = nls
  generalize env.enumerate items.netlines = ws
  intro h3 hmem
  induction h3 with
  | nil => exact .nil
  | @cons w nl ws nls hw _ ih =>
    refine .cons ?_ (ih fun x hx => hmem x (List.mem_cons_of_mem _ hx))
    obtain ⟨e1, e2, e3, e4⟩ := hw
    have hends := hplan.ends w (hmem w (List.mem_cons_self _ _))
    refine ⟨e1, e2, ?_, ?_⟩
    · rw [e3]
      exact recreatedAnchor_of_lookup env b items _ _ hplan.vias_nodup hplan.netpoints_nodup _
        hends.1
    · rw [e4]
      exact recreatedAnchor_of_lookup env b items _ _ hplan.vias_nodup hplan.netpoints_nodup _
        hends.2

theorem forEach_createNewSubNetSegment_recreates {W : Type} {env : RemoveEnv W}
    {b : EditedBoard} {netsegment : BI_NetSegment} :
    ∀ (subs : List NetSegmentItems) (st st' : Removal W),
      (∀ sub ∈ subs, ClosedPlan b sub) →
      RemoveStep.forEach (createNewSubNetSegment env b netsegment) subs st = .ok () st' →
      ∃ parts, List.Forall₂ (RecreatedAs env b netsegment) subs parts ∧
        st'.childs = st.childs ++ parts.flatMap id := by
  intro subs
  induction subs with
  | nil =>
    intro st st' _ h
    simp only [RemoveStep.forEach, RemoveStep.ok.injEq, true_and] at h
    subst h
    exact ⟨[], .nil, by simp⟩
  | cons sub more ih =>
    intro st st' hplan h
    rw [RemoveStep.forEach] at h
    obtain ⟨u, st1, h1, h2⟩ := removeStep_bind_eq_ok h
    obtain ⟨edits, he, hr⟩ :=
      createNewSubNetSegment_recreates (hplan sub (List.mem_cons_self _ _)) h1
    obtain ⟨parts, hparts, hc⟩ := ih st1 st' (fun s hs => hplan s (List.mem_cons_of_mem _ hs)) h2
    exact ⟨edits :: parts, .cons hr hparts, by
      rw [hc, he, List.flatMap_cons, List.append_assoc]; rfl⟩

theorem nodup_foldl_insertAnchor :
    ∀ (as : List BI_NetLineAnchor) (st : NetSegmentItems), st.vias.Nodup → st.netpoints.Nodup →
      (as.foldl insertAnchor st).vias.Nodup ∧ (as.foldl insertAnchor st).netpoints.Nodup := by
  intro as
  induction as with
  | nil => intro st h1 h2; exact ⟨h1, h2⟩
  | cons a rest ih =>
    intro st h1 h2
    rw [List.foldl_cons]
    cases a with
    | via v => exact ih _ (nodup_setInsert v h1) h2
    | netPoint p => exact ih _ h1 (nodup_setInsert p h2)
    | footprintPad p => exact ih _ h1 h2

theorem closedPlan_itemsOfSegment (b : EditedBoard) (seg : Segment)
    (hends : EndsIn b.live.graph seg.netlines seg.anchors) :
    ClosedPlan b (itemsOfSegment seg) := by
  obtain ⟨h1, h2⟩ := nodup_foldl_insertAnchor seg.anchors ⟨[], [], []⟩ List.nodup_nil
    List.nodup_nil
  have hpl : ∀ a ∈ seg.anchors, planned (itemsOfSegment seg) a := by
    intro a ha
    cases a with
    | via v => exact (mem_itemsOfSegment_vias seg v).2 ha
    | netPoint p => exact (mem_itemsOfSegment_netpoints seg p).2 ha
    | footprintPad p => trivial
  refine ⟨h1, h2, ?_⟩
  intro w hw
  have hw' : w ∈ seg.netlines := by simpa [itemsOfSegment] using hw
  exact ⟨hpl _ (hends w hw').1, hpl _ (hends w hw').2⟩

theorem closedPlan_of_subSegments {enumerate : List Nat → List Nat} {b : EditedBoard}
    {fuel : Nat} {segment : BI_NetSegment} {removedItems : NetSegmentItems}
    {subs : List NetSegmentItems}
    (h : getNonCohesiveNetSegmentSubSegments enumerate b fuel segment removedItems = .ok subs) :
    ∀ sub ∈ subs, ClosedPlan b sub := by
  simp only [getNonCohesiveNetSegmentSubSegments, Outcome.bind_eq_ok, Outcome.ok.injEq] at h
  obtain ⟨segs, hsplit, rfl⟩ := h
  intro sub hsub
  obtain ⟨seg, hseg, rfl⟩ := List.mem_map.1 hsub
  exact closedPlan_itemsOfSegment b seg (split_endsIn _ _ _ _ _ hsplit seg hseg)

theorem forEach_createNewSubNetSegment_returns {W : Type} (env : RemoveEnv W) (b : EditedBoard)
    (netsegment : BI_NetSegment) (hexec : ∀ cmd w, (env.execute cmd w).isSome = true) :
    ∀ (subs : List NetSegmentItems) (st : Removal W),
      ∃ st', RemoveStep.forEach (createNewSubNetSegment env b netsegment) subs st =
        .ok () st' := by
  have hx : ∀ cmd (s : Removal W), ∃ s', env.execNewChildCmd cmd s = .ok () s' := by
    intro cmd s
    obtain ⟨w, hw⟩ := Option.isSome_iff_exists.1 (hexec cmd s.world)
    refine ⟨{ s with world := w, childs := s.childs ++ [cmd] }, ?_⟩
    simp [RemoveEnv.execNewChildCmd, hw]
  intro subs
  induction subs with
  | nil => intro st; exact ⟨st, rfl⟩
  | cons sub more ih =>
    intro st
    obtain ⟨s1, h1⟩ := hx (.boardNetSegmentAdd st.alloc (b.netSegmentNetSignal netsegment))
      { st with alloc := st.alloc + 1 }
    obtain ⟨s2, h2⟩ := hx
      (.boardNetSegmentAddElements st.alloc (newElements env b sub s1.alloc s1.random).vias
        (newElements env b sub s1.alloc s1.random).netPoints
        (newElements env b sub s1.alloc s1.random).netLines)
      { s1 with
        alloc := (newElements env b sub s1.alloc s1.random).alloc
        random := (newElements env b sub s1.alloc s1.random).random }
    obtain ⟨s3, h3⟩ := ih s2
    exact ⟨s3, by
      simp only [RemoveStep.forEach, createNewSubNetSegment, h1, RemoveStep.bind, h2, h3]⟩

/-- C33: the edits of a partial removal.  When `splitUpNetSegment` returns, it has
executed, after the edits executed before, first the removal of the whole net segment and
then, for every planned sub-network in the order of the plan, one edit that adds a net
segment with the net signal of the original one, followed by one edit that adds to it one
via for each planned via (same position, shape, size and drill diameter), one junction
for each planned junction (same position) and one net line for each planned net line
(same layer and width), whose endpoints are the new vias and junctions made for the
endpoints of the planned net line; an endpoint that is a pad is kept.  If the surviving net
lines form a well-formed graph and no edit throws, `splitUpNetSegment` returns. -/
theorem splitUpNetSegment_edits {W : Type} (env : RemoveEnv W) (b : EditedBoard) (fuel : Nat)
    (netsegment : BI_NetSegment) (itemsToRemove : NetSegmentItems) (st : Removal W) :
    (∀ st', splitUpNetSegment env b fuel netsegment itemsToRemove st = .ok () st' →
      ∃ subs parts,
        getNonCohesiveNetSegmentSubSegments env.enumerate b fuel netsegment itemsToRemove =
          .ok subs ∧
        List.Forall₂ (RecreatedAs env b netsegment) subs parts ∧
        st'.childs = st.childs ++ .boardNetSegmentRemove netsegment :: parts.flatMap id) ∧
    (WellFormed b.live.graph (survivingNetLines b netsegment itemsToRemove) →
      (survivingNetLines b netsegment itemsToRemove).length < fuel →
      (∀ cmd w, (env.execute cmd w).isSome = true) →
      ∃ st', splitUpNetSegment env b fuel netsegment itemsToRemove st = .ok () st') := by
  constructor
  · intro st' h
    unfold splitUpNetSegment at h
    cases hsub : getNonCohesiveNetSegmentSubSegments env.enumerate b fuel netsegment
        itemsToRemove with
    | ok subs =>
      rw [hsub] at h
      simp only at h
      obtain ⟨u, st1, h1, h2⟩ := removeStep_bind_eq_ok h
      obtain ⟨c1, _, _, _⟩ := remove_exec_eq_ok h1
      obtain ⟨parts, hparts, hc⟩ := forEach_createNewSubNetSegment_recreates subs st1 st'
        (closedPlan_of_subSegments hsub) h2
      exact ⟨subs, parts, rfl, hparts, by rw [hc, c1]; simp⟩
    | assertFailed => rw [hsub] at h; cases h
    | outOfFuel => rw [hsub] at h; cases h
  · intro hwf hfuel hexec
    obtain ⟨segs, _, hsub, _⟩ :=
      getNonCohesiveNetSegmentSubSegments_spec env b fuel netsegment itemsToRemove hwf hfuel
    obtain ⟨w, hw⟩ := Option.isSome_iff_exists.1
      (hexec (.boardNetSegmentRemove netsegment) st.world)
    obtain ⟨st', h'⟩ := forEach_createNewSubNetSegment_returns env b netsegment hexec
      (segs.map itemsOfSegment)
      { st with world := w, childs := st.childs ++ [.boardNetSegmentRemove netsegment] }
    exact ⟨st', by
      simp only [splitUpNetSegment, hsub, RemoveEnv.execNewChildCmd, hw, RemoveStep.bind, h']⟩

/-- Witness of C33 on scenario 1 with the junction: removing the via A and its wire
leaves the sub-network of B, J and W2, which is recreated by two edits after the removal
of the net segment. -/
theorem splitUpNetSegment_edits_witness :
    ∃ st' subs parts,
      splitUpNetSegment (exampleRemoveEnv none) (scenario1 true true true) 3 0 ⟨[0], [], [1]⟩
        ⟨[], [], 10, 0⟩ = .ok () st' ∧
      getNonCohesiveNetSegmentSubSegments (exampleRemoveEnv none).enumerate
        (scenario1 true true true) 3 0 ⟨[0], [], [1]⟩ = .ok subs ∧
      subs = [⟨[1], [2], [2]⟩] ∧
      List.Forall₂ (RecreatedAs (exampleRemoveEnv none) (scenario1 true true true) 0) subs parts ∧
      st'.childs = [] ++ .boardNetSegmentRemove 0 :: parts.flatMap id := by
  obtain ⟨subs, parts, h1, h2, h3⟩ :=
    (splitUpNetSegment_edits (exampleRemoveEnv none) (scenario1 true true true) 3 0
      ⟨[0], [], [1]⟩ ⟨[], [], 10, 0⟩).1 _ rfl
  refine ⟨_, subs, parts, rfl, h1, ?_, h2, h3⟩
  have h0 := scenario1_subSegments (exampleRemoveEnv none) true true true
  rw [h0] at h1
  simp only [Outcome.ok.injEq] at h1
  rw [← h1]
  rfl

/-! ## Removed vias take their wires with them -/

theorem mem_unite {s t : List Nat} {x : Nat} : x ∈ unite s t ↔ x ∈ s ∨ x ∈ t := by
  unfold unite
  induction t generalizing s with
  | nil => simp
  | cons y rest ih =>
    rw [List.foldl_cons, ih, mem_setInsert, List.mem_cons]
    tauto

theorem mem_foldl_unite {α : Type} (f : α → List Nat) (x : Nat) :
    ∀ (l : List α) (init : List Nat),
      x ∈ l.foldl (fun acc a => unite acc (f a)) init ↔ x ∈ init ∨ ∃ a ∈ l, x ∈ f a := by
  intro l
  induction l with
  | nil => intro init; simp
  | cons a rest ih =>
    intro init
    rw [List.foldl_cons, ih, mem_unite]
    simp only [List.mem_cons, exists_eq_or_imp]
    tauto

theorem mem_allNetLines_of_via (cmd : CmdRemoveBoardItems) (b : EditedBoard) {v : BI_Via}
    (hv : v ∈ cmd.mVias) {w : BI_NetLine} (hw : w ∈ b.live.graph.getNetLines (.via v)) :
    w ∈ cmd.allNetLines b := by
  unfold CmdRemoveBoardItems.allNetLines
  rw [mem_foldl_unite (fun via => b.live.graph.getNetLines (.via via))]
  exact Or.inr ⟨v, hv, hw⟩

theorem newElements_netLine_ends {W : Type} (env : RemoveEnv W) (b : EditedBoard)
    (items : NetSegmentItems) (alloc random : Nat) (hplan : ClosedPlan b items) :
    ∀ nl ∈ (newElements env b items alloc random).netLines,
      NewAnchorOrPad alloc (newElements env b items alloc random).vias
        (newElements env b items alloc random).netPoints nl.startPoint ∧
      NewAnchorOrPad alloc (newElements env b items alloc random).vias
        (newElements env b items alloc random).netPoints nl.endPoint := by
  obtain ⟨h1, h2, h3, _, _, h6⟩ :=
    newElements_spec env b items alloc random hplan.vias_nodup hplan.netpoints_nodup
  have hanchor : ∀ a, planned items a →
      NewAnchorOrPad alloc (newElements env b items alloc random).vias
        (newElements env b items alloc random).netPoints
        (((newElements env b items alloc random).anchorMap.lookup a).getD a) := by
    intro a ha
    cases a with
    | via v =>
      obtain ⟨nv, hmem, _, hl, hle⟩ :=
        forall₂_mem_zip h1 ((env.enumerate_perm items.vias).mem_iff.2 ha)
      exact Or.inl ⟨nv, (List.of_mem_zip hmem).2, by rw [hl]; rfl, hle⟩
    | netPoint p =>
      obtain ⟨np, hmem, _, hl, hle⟩ :=
        forall₂_mem_zip h2 ((env.enumerate_perm items.netpoints).mem_iff.2 ha)
      exact Or.inr (Or.inl ⟨np, (List.of_mem_zip hmem).2, by rw [hl]; rfl, hle⟩)
    | footprintPad pad =>
      refine Or.inr (Or.inr ⟨pad, ?_⟩)
      rw [h6 _ (fun _ _ h => by cases h) (fun _ _ h => by cases h)]
      rfl
  intro nl hnl
  obtain ⟨w, hw, _, _, e3, e4⟩ := mem_of_forall₂_right h3 hnl
  have hends := hplan.ends w ((env.enumerate_perm items.netlines).mem_iff.1 hw)
  rw [e3, e4]
  exact ⟨hanchor _ hends.1, hanchor _ hends.2⟩

/-- C37: `performExecute` puts every net line registered at a via to remove among the net
lines to remove, in the entry of the net line's net segment.  On a board where the vias
and net lines listed by a net segment belong to it, and for an entry of the plan whose
surviving net lines form a well-formed graph, the sub-networks are planned, no via to
remove is in any of them, and both endpoints of every net line recreated for a
sub-network are a via or a junction created for that sub-network, at an address not
below the first free one, or a pad. -/
theorem removal_plan_drops_via_wires {W : Type} (env : RemoveEnv W) (cmd : CmdRemoveBoardItems)
    (b : EditedBoard) (fuel : Nat)
    (hvias : ∀ s, ∀ v ∈ b.netSegmentVias s, b.live.viaNetSegment v = s)
    (hlines : ∀ s, ∀ w ∈ b.netSegmentNetLines s, b.live.netLineNetSegment w = s) :
    (∀ v ∈ cmd.mVias, ∀ w ∈ b.live.graph.getNetLines (.via v),
      w ∈ cmd.allNetLines b ∧
        w ∈ (itemsAt (cmd.netSegmentItemsToRemove b) (b.live.netLineNetSegment w)).netlines) ∧
    ∀ entry ∈ cmd.netSegmentItemsToRemove b,
      WellFormed b.live.graph (survivingNetLines b entry.1 entry.2) →
      (survivingNetLines b entry.1 entry.2).length < fuel →
      ∃ subs, getNonCohesiveNetSegmentSubSegments env.enumerate b fuel entry.1 entry.2 =
          .ok subs ∧
        (∀ sub ∈ subs, ∀ v ∈ sub.vias, v ∉ cmd.mVias) ∧
        ∀ sub ∈ subs, ∀ alloc random,
          ∀ nl ∈ (newElements env b sub alloc random).netLines,
            NewAnchorOrPad alloc (newElements env b sub alloc random).vias
              (newElements env b sub alloc random).netPoints nl.startPoint ∧
            NewAnchorOrPad alloc (newElements env b sub alloc random).vias
              (newElements env b sub alloc random).netPoints nl.endPoint := by
  obtain ⟨hkeys, hspec⟩ := netSegmentItemsToRemove_spec cmd b
  constructor
  · intro v hv w hw
    have hall := mem_allNetLines_of_via cmd b hv hw
    exact ⟨hall, ((hspec _).2 w).2 ⟨hall, rfl⟩⟩
  · intro entry hentry hwf hfuel
    have hitems := itemsAt_of_mem hkeys hentry
    obtain ⟨segs, hsplit, hsub, _, _⟩ :=
      getNonCohesiveNetSegmentSubSegments_spec env b fuel entry.1 entry.2 hwf hfuel
    have hpw := env.enumerate_perm (survivingNetLines b entry.1 entry.2)
    have hpv := env.enumerate_perm (survivingVias b entry.1 entry.2)
    have hwf' : WellFormed b.live.graph (env.enumerate (survivingNetLines b entry.1 entry.2)) :=
      hwf.of_mem_iff (fun w => hpw.mem_iff)
    have hfuel' : (env.enumerate (survivingNetLines b entry.1 entry.2)).length < fuel := by
      rw [hpw.length_eq]
      exact hfuel
    refine ⟨_, hsub, ?_, ?_⟩
    · intro sub hsubmem v hv hrem
      obtain ⟨seg, hseg, rfl⟩ := List.mem_map.1 hsubmem
      have hanchor : BI_NetLineAnchor.via v ∈ segs.flatMap Segment.anchors :=
        List.mem_flatMap.2 ⟨seg, hseg, (mem_itemsOfSegment_vias seg v).1 hv⟩
      rcases split_anchor_origin _ _ _ _ hwf' hfuel' _ hsplit _ hanchor with
        ⟨w, hw, htouch⟩ | ⟨u, hu, hvu⟩
      · have hw' : w ∈ survivingNetLines b entry.1 entry.2 := hpw.mem_iff.1 hw
        simp only [survivingNetLines, List.mem_filter, List.mem_dedup,
          decide_eq_true_eq] at hw'
        have hreg : w ∈ b.live.graph.getNetLines (.via v) := by
          have hl := hwf'.listed w hw
          rcases htouch with ht | ht
          · rw [← ht]; exact hl.1
          · rw [← ht]; exact hl.2
        have hall := mem_allNetLines_of_via cmd b hrem hreg
        have : w ∈ (itemsAt (cmd.netSegmentItemsToRemove b) entry.1).netlines :=
          ((hspec entry.1).2 w).2 ⟨hall, hlines _ w hw'.1⟩
        rw [hitems] at this
        exact hw'.2 this
      · cases hvu
        have hu' : v ∈ survivingVias b entry.1 entry.2 := hpv.mem_iff.1 hu
        simp only [survivingVias, List.mem_filter, List.mem_dedup, decide_eq_true_eq] at hu'
        have : v ∈ (itemsAt (cmd.netSegmentItemsToRemove b) entry.1).vias :=
          ((hspec entry.1).1 v).2 ⟨hrem, hvias _ v hu'.1⟩
        rw [hitems] at this
        exact hu'.2 this
    · intro sub hsubmem alloc random
      exact newElements_netLine_ends env b sub alloc random
        (closedPlan_of_subSegments hsub sub hsubmem)

/-- Witness of C37 on scenario 1 with the junction: the wire W of the via A is put among
the net lines to remove, and the wire recreated for the sub-network of B and J joins the
new via and the new junction. -/
theorem removal_plan_drops_via_wires_witness :
    (1 ∈ removeViaA.allNetLines (scenario1 true true true)) ∧
    ∃ subs, getNonCohesiveNetSegmentSubSegments (exampleRemoveEnv none).enumerate
        (scenario1 true true true) 3 0 ⟨[0], [], [1]⟩ = .ok subs ∧
      (∀ sub ∈ subs, ∀ v ∈ sub.vias, v ∉ removeViaA.mVias) ∧
      ∀ sub ∈ subs, ∀ alloc random,
        ∀ nl ∈ (newElements (exampleRemoveEnv none) (scenario1 true true true) sub alloc
            random).netLines,
          NewAnchorOrPad alloc
            (newElements (exampleRemoveEnv none) (scenario1 true true true) sub alloc
              random).vias
            (newElements (exampleRemoveEnv none) (scenario1 true true true) sub alloc
              random).netPoints nl.startPoint ∧
          NewAnchorOrPad alloc
            (newElements (exampleRemoveEnv none) (scenario1 true true true) sub alloc
              random).vias
            (newElements (exampleRemoveEnv none) (scenario1 true true true) sub alloc
              random).netPoints nl.endPoint :=
  ⟨by decide,
    (removal_plan_drops_via_wires (exampleRemoveEnv none) removeViaA (scenario1 true true true)
      3
      (by
        intro s v hv
        simp only [scenario1] at hv ⊢
        split at hv
        · rename_i h; exact h.symm
        · simp at hv)
      (by
        intro s w hw
        simp only [scenario1] at hw ⊢
        split at hw
        · rename_i h; exact h.symm
        · simp at hw)).2 (0, ⟨[0], [], [1]⟩) (by decide)
      (scenario1_wellFormed true true) (by decide)⟩

/-! ## Junctions of planned sub-networks -/

theorem segOK_anchor_touched {g : Board} {mNetLines : List BI_NetLine} {s : Segment}
    (h : SegOK g mNetLines s) : ∀ a ∈ s.anchors, ∃ w ∈ s.netlines, touches g w a := by
  intro a ha
  obtain ⟨w0, hw0⟩ := List.exists_mem_of_ne_nil _ h.nonempty
  have hc := (h.ends w0 hw0).1
  rcases Relation.ReflTransGen.cases_head (h.joined a ha _ hc) with heq | ⟨x, hadj, _⟩
  · exact ⟨w0, hw0, Or.inl heq.symm⟩
  · obtain ⟨w, hw, hab⟩ := hadj
    rcases hab with ⟨h1, _⟩ | ⟨_, h2⟩
    · exact ⟨w, hw, Or.inl h1⟩
    · exact ⟨w, hw, Or.inr h2⟩

theorem scenario1_wellFormed_first (fromA fromB : Bool) :
    WellFormed (scenario1 true fromA fromB).live.graph [1] := by
  refine ⟨?_, ?_, ?_⟩
  · intro w hw
    simp only [List.mem_singleton] at hw
    subst hw
    cases fromA <;> simp [scenario1]
  · intro w hw
    simp only [List.mem_singleton] at hw
    subst hw
    cases fromA <;> simp [scenario1]
  · intro a w hw hin
    simp only [List.mem_singleton] at hin
    subst hin
    simp only [scenario1] at hw
    split_ifs at hw with h1 h2 h3
    · subst h1
      cases fromA <;> simp [scenario1, touches]
    · subst h2
      cases fromA <;> simp [scenario1, touches]
    · simp at hw
    · simp at hw

/-- C38: on a net segment whose surviving net lines form a well-formed graph,
`getNonCohesiveNetSegmentSubSegments` returns, and every junction of a planned
sub-network is an endpoint of a net line of that same sub-network, which is a net line
of the net segment that is not removed.  A junction at which every net line of the net
segment is removed is in no planned sub-network: no new junction is made for it, as
each sub-network gets as many new junctions as it plans and the table of new anchors has
no entry for the junction. -/
theorem planned_junction_has_wire {W : Type} (env : RemoveEnv W) (b : EditedBoard)
    (fuel : Nat) (segment : BI_NetSegment) (removedItems : NetSegmentItems)
    (hwf : WellFormed b.live.graph (survivingNetLines b segment removedItems))
    (hfuel : (survivingNetLines b segment removedItems).length < fuel) :
    ∃ subs, getNonCohesiveNetSegmentSubSegments env.enumerate b fuel segment removedItems =
        .ok subs ∧
      (∀ sub ∈ subs, ∀ p ∈ sub.netpoints, ∃ w ∈ sub.netlines,
        touches b.live.graph w (.netPoint p) ∧ w ∈ b.netSegmentNetLines segment ∧
          w ∉ removedItems.netlines) ∧
      ∀ p, (∀ w ∈ b.netSegmentNetLines segment, touches b.live.graph w (.netPoint p) →
          w ∈ removedItems.netlines) →
        ∀ sub ∈ subs, p ∉ sub.netpoints ∧ ∀ alloc random,
          (newElements env b sub alloc random).netPoints.length = sub.netpoints.length ∧
          (newElements env b sub alloc random).anchorMap.lookup (.netPoint p) = none := by
  have hpw := env.enumerate_perm (survivingNetLines b segment removedItems)
  have hwf' : WellFormed b.live.graph
      (env.enumerate (survivingNetLines b segment removedItems)) :=
    hwf.of_mem_iff (fun w => hpw.mem_iff)
  have hfuel' : (env.enumerate (survivingNetLines b segment removedItems)).length < fuel := by
    rw [hpw.length_eq]
    exact hfuel
  obtain ⟨segs, vias, hsplit, hinv⟩ := split_spec
    (env.enumerate (survivingVias b segment removedItems)) hwf' fuel hfuel'
  have hsub : getNonCohesiveNetSegmentSubSegments env.enumerate b fuel segment removedItems =
      .ok ((segs ++ vias.map viaSegment).map itemsOfSegment) := by
    simp [getNonCohesiveNetSegmentSubSegments, hsplit, Outcome.bind]
  have hfirst : ∀ sub ∈ (segs ++ vias.map viaSegment).map itemsOfSegment,
      ∀ p ∈ sub.netpoints, ∃ w ∈ sub.netlines,
        touches b.live.graph w (.netPoint p) ∧ w ∈ b.netSegmentNetLines segment ∧
          w ∉ removedItems.netlines := by
    intro sub hsubmem p hp
    obtain ⟨seg, hseg, rfl⟩ := List.mem_map.1 hsubmem
    have hanchor := (mem_itemsOfSegment_netpoints seg p).1 hp
    rcases List.mem_append.1 hseg with hseg | hseg
    · obtain ⟨w, hw, htouch⟩ := segOK_anchor_touched (hinv.segOK seg hseg) _ hanchor
      have hsurv : w ∈ survivingNetLines b segment removedItems := by
        apply hpw.mem_iff.1
        apply hinv.perm.mem_iff.1
        exact List.mem_append_left _ (List.mem_flatMap.2 ⟨seg, hseg, hw⟩)
      simp only [survivingNetLines, List.mem_filter, List.mem_dedup,
        decide_eq_true_eq] at hsurv
      exact ⟨w, by simpa [itemsOfSegment] using hw, htouch, hsurv.1, hsurv.2⟩
    · obtain ⟨v, _, rfl⟩ := List.mem_map.1 hseg
      simp [viaSegment] at hanchor
  refine ⟨_, hsub, hfirst, ?_⟩
  intro p hp sub hsubmem
  have hnot : p ∉ sub.netpoints := by
    intro hmem
    obtain ⟨w, _, htouch, hw1, hw2⟩ := hfirst sub hsubmem p hmem
    exact hw2 (hp w hw1 htouch)
  refine ⟨hnot, fun alloc random => ?_⟩
  have hplan := closedPlan_of_subSegments hsub sub hsubmem
  obtain ⟨_, h2, _, _, _, h6⟩ :=
    newElements_spec env b sub alloc random hplan.vias_nodup hplan.netpoints_nodup
  refine ⟨?_, h6 _ (fun _ _ h => by cases h) (fun q hq h => by cases h; exact hnot hq)⟩
  rw [← h2.length_eq, (env.enumerate_perm sub.netpoints).length_eq]

/-- Witness of C38 on scenario 1 with the junction: when the wire W2 is removed, the
junction J has no wire left and is in no planned sub-network. -/
theorem planned_junction_has_wire_witness :
    ∃ subs, getNonCohesiveNetSegmentSubSegments (exampleRemoveEnv none).enumerate
        (scenario1 true true true) 3 0 ⟨[], [], [2]⟩ = .ok subs ∧
      subs = [⟨[0, 1], [], [1]⟩] ∧
      (∀ sub ∈ subs, ∀ p ∈ sub.netpoints, ∃ w ∈ sub.netlines,
        touches (scenario1 true true true).live.graph w (.netPoint p) ∧
          w ∈ (scenario1 true true true).netSegmentNetLines 0 ∧ w ∉ [2]) ∧
      ∀ sub ∈ subs, 2 ∉ sub.netpoints := by
  obtain ⟨subs, h1, h2, h3⟩ := planned_junction_has_wire (exampleRemoveEnv none)
    (scenario1 true true true) 3 0 ⟨[], [], [2]⟩ (scenario1_wellFormed_first true true)
    (by decide)
  refine ⟨subs, h1, ?_, h2, fun sub hsub => (h3 2 ?_ sub hsub).1⟩
  · have h0 : getNonCohesiveNetSegmentSubSegments (exampleRemoveEnv none).enumerate
        (scenario1 true true true) 3 0 ⟨[], [], [2]⟩ = .ok [⟨[0, 1], [], [1]⟩] := by decide
    rw [h0] at h1
    simp only [Outcome.ok.injEq] at h1
    exact h1.symm
  · intro w hw htouch
    simp only [scenario1, if_true, List.mem_cons, List.mem_singleton, List.not_mem_nil,
      or_false] at hw
    rcases hw with hw | hw
    · subst hw
      simp [scenario1, touches] at htouch
    · subst hw
      simp

/-! ## A partial removal recreates something -/

theorem enumerate_ne_nil {W : Type} (env : RemoveEnv W) {l : List Nat} (h : l ≠ []) :
    env.enumerate l ≠ [] := by
  intro hnil
  have := env.enumerate_perm l
  rw [hnil] at this
  exact h (List.Perm.nil_eq this).symm

theorem surviving_ne_nil (b : EditedBoard) (netsegment : BI_NetSegment)
    (items : NetSegmentItems)
    (hsubv : ∀ v ∈ items.vias, v ∈ b.netSegmentVias netsegment)
    (hsubw : ∀ w ∈ items.netlines, w ∈ b.netSegmentNetLines netsegment)
    (hpart : removeWholeNetSegment b netsegment items = false) :
    survivingVias b netsegment items ≠ [] ∨ survivingNetLines b netsegment items ≠ [] := by
  by_contra hcon
  simp only [not_or, not_not] at hcon
  have hfalse : ¬ removeWholeNetSegment b netsegment items = true := by simp [hpart]
  apply hfalse
  simp only [removeWholeNetSegment, Bool.and_eq_true, setEq_iff, List.mem_dedup]
  constructor
  · intro v
    refine ⟨hsubv v, fun hmem => ?_⟩
    by_contra hnot
    have : v ∈ survivingVias b netsegment items := by simp [survivingVias, hmem, hnot]
    rw [hcon.1] at this
    cases this
  · intro w
    refine ⟨hsubw w, fun hmem => ?_⟩
    by_contra hnot
    have : w ∈ survivingNetLines b netsegment items := by
      simp [survivingNetLines, hmem, hnot]
    rw [hcon.2] at this
    cases this

/-- C39: a partial removal recreates at least one sub-network.  When the items to remove
are vias and net lines of the net segment but not all of them, the splitter is given at
least one via or net line; `split` returns no empty list for such an input; so the plan
is not empty, and a completed iteration of `performExecute` has, after the removal of the
net segment, executed the two edits that recreate the first planned sub-network, followed
by those for the others.  If the surviving net lines form a well-formed graph and no edit
throws, the iteration completes. -/
theorem partial_removal_recreates {W : Type} (env : RemoveEnv W) (b : EditedBoard)
    (fuel : Nat) (netsegment : BI_NetSegment) (items : NetSegmentItems)
    (hsubv : ∀ v ∈ items.vias, v ∈ b.netSegmentVias netsegment)
    (hsubw : ∀ w ∈ items.netlines, w ∈ b.netSegmentNetLines netsegment)
    (hpart : removeWholeNetSegment b netsegment items = false) :
    (env.enumerate (survivingVias b netsegment items) ≠ [] ∨
      env.enumerate (survivingNetLines b netsegment items) ≠ []) ∧
    (∀ g mVias mNetLines fuel' segs, split g mVias mNetLines fuel' = .ok segs →
      mVias ≠ [] ∨ mNetLines ≠ [] → segs ≠ []) ∧
    (∀ subs, getNonCohesiveNetSegmentSubSegments env.enumerate b fuel netsegment items =
      .ok subs → subs ≠ []) ∧
    (∀ st st', removeNetSegmentItems env b fuel (netsegment, items) st = .ok () st' →
      ∃ sub subs edits parts,
        getNonCohesiveNetSegmentSubSegments env.enumerate b fuel netsegment items =
          .ok (sub :: subs) ∧
        RecreatedAs env b netsegment sub edits ∧
        List.Forall₂ (RecreatedAs env b netsegment) subs parts ∧
        st'.childs = st.childs ++
          .boardNetSegmentRemove netsegment :: (edits ++ parts.flatMap id)) ∧
    (WellFormed b.live.graph (survivingNetLines b netsegment items) →
      (survivingNetLines b netsegment items).length < fuel →
      (∀ cmd w, (env.execute cmd w).isSome = true) →
      ∀ st, ∃ st', removeNetSegmentItems env b fuel (netsegment, items) st = .ok () st') := by
  have hinput : env.enumerate (survivingVias b netsegment items) ≠ [] ∨
      env.enumerate (survivingNetLines b netsegment items) ≠ [] := by
    rcases surviving_ne_nil b netsegment items hsubv hsubw hpart with h | h
    · exact Or.inl (enumerate_ne_nil env h)
    · exact Or.inr (enumerate_ne_nil env h)
  have hplan : ∀ subs, getNonCohesiveNetSegmentSubSegments env.enumerate b fuel netsegment
      items = .ok subs → subs ≠ [] := by
    intro subs hsub
    unfold getNonCohesiveNetSegmentSubSegments at hsub
    obtain ⟨segs, hsplit, hmap⟩ := Outcome.bind_eq_ok.1 hsub
    simp only [Outcome.ok.injEq] at hmap
    subst hmap
    have := split_ne_nil _ _ _ _ _ hsplit hinput
    simpa using this
  refine ⟨hinput, fun g mVias mNetLines fuel' segs h hin => split_ne_nil g mVias mNetLines
    fuel' segs h hin, hplan, ?_, ?_⟩
  · intro st st' h
    simp only [removeNetSegmentItems, hpart, Bool.false_eq_true, if_false,
      splitUpNetSegment] at h
    cases hsub : getNonCohesiveNetSegmentSubSegments env.enumerate b fuel netsegment items with
    | assertFailed => rw [hsub] at h; cases h
    | outOfFuel => rw [hsub] at h; cases h
    | ok subs =>
      rw [hsub] at h
      obtain ⟨u, st1, h1, h2⟩ := removeStep_bind_eq_ok h
      obtain ⟨parts, hparts, hc⟩ := forEach_createNewSubNetSegment_recreates subs st1 st'
        (closedPlan_of_subSegments hsub) h2
      cases hparts with
      | nil => exact absurd rfl (hplan _ hsub)
      | @cons sub edits subs' parts' hr hrest =>
        refine ⟨sub, subs', edits, parts', rfl, hr, hrest, ?_⟩
        rw [hc, (remove_exec_eq_ok h1).1]
        simp
  · intro hwf hfuel hexec st
    obtain ⟨segs, _, hsub, _⟩ :=
      getNonCohesiveNetSegmentSubSegments_spec env b fuel netsegment items hwf hfuel
    obtain ⟨w, hw⟩ := Option.isSome_iff_exists.1
      (hexec (.boardNetSegmentRemove netsegment) st.world)
    obtain ⟨st', h'⟩ := forEach_createNewSubNetSegment_returns env b netsegment hexec
      (segs.map itemsOfSegment)
      { st with world := w, childs := st.childs ++ [.boardNetSegmentRemove netsegment] }
    exact ⟨st', by
      simp only [removeNetSegmentItems, hpart, Bool.false_eq_true, if_false,
        splitUpNetSegment, hsub, RemoveEnv.execNewChildCmd, hw, RemoveStep.bind, h']⟩

/-- Witness of C39 on scenario 1 without the junction: removing the via A and its wire is
a partial removal, and the plan holds the sub-network of the via B. -/
theorem partial_removal_recreates_witness :
    removeWholeNetSegment (scenario1 false true true) 0 ⟨[0], [], [1]⟩ = false ∧
      getNonCohesiveNetSegmentSubSegments (exampleRemoveEnv none).enumerate
        (scenario1 false true true) 3 0 ⟨[0], [], [1]⟩ = .ok [⟨[1], [], []⟩] ∧
      ([⟨[1], [], []⟩] : List NetSegmentItems) ≠ [] :=
  ⟨by decide, by decide,
    (partial_removal_recreates (exampleRemoveEnv none) (scenario1 false true true) 3 0
      ⟨[0], [], [1]⟩ (by decide) (by decide) (by decide)).2.2.1 _ (by decide)⟩

end LibrePCB
